import Mathlib

/-!
# The mrdox bitcode reader

A shallow embedding of `source/lib/ast/BitcodeReader.cpp` (the field decoders, the attach
functions, the block dispatcher and the top-level stream reader), together with the parts of
the metadata model the reader writes to.

Conventions of the embedding.

* A C++ function that returns `llvm::Error` and writes through a pointer or reference is a Lean
  function that returns the pair of the error (`none` is `llvm::Error::success()`) and the new
  value of the object written to.  The object is returned on the error path as well, so that
  "the target is unchanged on failure" is a statement about the function and not about its type.
* A call that does not return to its caller ends in `Run.exit` (the process was ended by
  `exit`) or in `Run.trap` (a failed `assert`, `llvm_unreachable`, an access outside a container,
  a read of an uninitialised member).
* Record fields are `uint64_t`; conversions to narrower types are written out as `%`.
-/

namespace mrdox

set_option linter.unusedVariables false
set_option linter.unusedTactic false
set_option linter.unreachableTactic false
set_option linter.unnecessarySeqFocus false

/-! ## Errors and outcomes of a call -/

/-- A failed `llvm::Error`: the messages it carries, in the order `joinErrors` put them. -/
structure Error where
  msgs : List String
deriving DecidableEq, Repr

/-- The error built by `makeError(reason)`. -/
def makeError (reason : String) : Error := ⟨[reason]⟩

/-- The error list built by `llvm::joinErrors`. -/
def joinErrors (E1 E2 : Error) : Error := ⟨E1.msgs ++ E2.msgs⟩

/-- How a call ends: it returns a value to its caller, or the process is ended by `exit`, or
the call runs into a failed assertion or undefined behaviour.  `fuel` is the outcome of the
recursive reader functions below when the recursion bound they are given is used up. -/
inductive Run (α : Type) where
  | ret (a : α)
  | exit (code : Nat)
  | trap (what : String)
  | fuel
deriving DecidableEq, Repr

/-- Sequencing of calls: the continuation runs only when the first call returned. -/
def Run.bind {α β : Type} (x : Run α) (k : α → Run β) : Run β :=
  match x with
  | .ret a => k a
  | .exit c => .exit c
  | .trap w => .trap w
  | .fuel => .fuel

instance : Monad Run where
  pure := Run.ret
  bind := Run.bind

/-- The call returned (it neither ended the process nor trapped). -/
def Run.returned {α : Type} : Run α → Bool
  | .ret _ => true
  | _ => false

/-! ## Enumerations -/

/-- The `clang::AccessSpecifier` values; `Function.hpp` records the numbering
`AS_public = 0, AS_protected = 1, AS_private = 2, AS_none = 3`. -/
inductive AccessSpecifier where
  | AS_public | AS_protected | AS_private | AS_none
deriving DecidableEq, Repr

/-- The integer value of an access specifier. -/
def AccessSpecifier.val : AccessSpecifier → Nat
  | .AS_public => 0
  | .AS_protected => 1
  | .AS_private => 2
  | .AS_none => 3

/-- The `clang::TagTypeKind` values, numbered as in `clang/AST/Type.h`. -/
inductive TagTypeKind where
  | TTK_Struct | TTK_Interface | TTK_Union | TTK_Class | TTK_Enum
deriving DecidableEq, Repr

/-- The integer value of a tag kind. -/
def TagTypeKind.val : TagTypeKind → Nat
  | .TTK_Struct => 0
  | .TTK_Interface => 1
  | .TTK_Union => 2
  | .TTK_Class => 3
  | .TTK_Enum => 4

/-- The enumerators of `InfoType`, as the reader and the writers name them. -/
inductive InfoType where
  | IT_default | IT_namespace | IT_record | IT_function | IT_enum | IT_typedef
deriving DecidableEq, Repr

/-- The enumerators of `FieldId`, the relation kind of a reference. -/
inductive FieldId where
  | F_default | F_namespace | F_parent | F_vparent | F_type
  | F_child_namespace | F_child_record | F_child_function
deriving DecidableEq, Repr

/-- The constants the reader takes from headers that are not part of the sources at hand
(`BitcodeIDs.hpp`, `Types.hpp`): the container signature, the schema version, the width of a
symbol identifier and the integer values of the `InfoType` and `FieldId` enumerators.  Both
enumerations are scoped, so their underlying type is `int`, and enumerators of one
enumeration have different values. -/
structure BitCodeConstants where
  Signature : Fin 4 → Nat
  VersionNumber : Nat
  USRHashSize : Nat
  infoType : InfoType → Int
  fieldId : FieldId → Int
  infoType_range : ∀ e, 0 ≤ infoType e ∧ infoType e < 2 ^ 31
  fieldId_range : ∀ e, 0 ≤ fieldId e ∧ fieldId e < 2 ^ 31
  infoType_inj : Function.Injective infoType
  fieldId_inj : Function.Injective fieldId

/-- `INT_MAX` for the 32-bit `int`. -/
def INT_MAX : Nat := 2147483647

/-- The value of `static_cast<int>(v)` for a 64-bit unsigned `v`: the low 32 bits, read as a
two's complement number.  It is also the value a scoped enumeration holds after
`static_cast<E>(v)`. -/
def toInt32 (v : Nat) : Int :=
  if v % 2 ^ 32 < 2 ^ 31 then ((v % 2 ^ 32 : Nat) : Int) else ((v % 2 ^ 32 : Nat) : Int) - 2 ^ 32

/-! ## The documentation enumerations (`Javadoc.hpp`) -/

namespace Javadoc

/-- A value of `Javadoc::Kind : int`.  A variable of the type holds any `int`; the declared
enumerators are the constants below. -/
abbrev Kind := Int

def Kind.text : Kind := 1
def Kind.styled : Kind := 2
def Kind.block : Kind := 3
def Kind.paragraph : Kind := 4
def Kind.brief : Kind := 5
def Kind.admonition : Kind := 6
def Kind.code : Kind := 7
def Kind.param : Kind := 8
def Kind.tparam : Kind := 9
def Kind.returns : Kind := 10

/-- The value is one of the ten declared enumerators of `Javadoc::Kind`. -/
def Kind.declared (k : Kind) : Prop := 1 ≤ k ∧ k ≤ 10

/-- A value of `Javadoc::Style : int`. -/
abbrev Style := Int

def Style.none : Style := 1
def Style.mono : Style := 2
def Style.bold : Style := 3
def Style.italic : Style := 4

/-- The value is one of the four declared enumerators of `Javadoc::Style`. -/
def Style.declared (s : Style) : Prop := 1 ≤ s ∧ s ≤ 4

/-- A value of `Javadoc::Admonish : int`. -/
abbrev Admonish := Int

def Admonish.none : Admonish := 1
def Admonish.note : Admonish := 2
def Admonish.tip : Admonish := 3
def Admonish.important : Admonish := 4
def Admonish.caution : Admonish := 5
def Admonish.warning : Admonish := 6

/-- The value is one of the six declared enumerators of `Javadoc::Admonish`. -/
def Admonish.declared (a : Admonish) : Prop := 1 ≤ a ∧ a ≤ 6

end Javadoc

/-! ## Field decoders (`decodeRecord`) -/

/-- `Record = llvm::SmallVector<uint64_t, 1024>`: the integer fields of one record. -/
abbrev Record := List Nat

/-- The blob of a record (`llvm::StringRef`). -/
abbrev Blob := String

/-- `decodeRecord(Record const&, std::string&, StringRef)` and the `SmallVectorImpl<char>&`
overload: the field becomes the blob. -/
def decodeRecordString (_R : Record) (_Field : String) (Blob : Blob) :
    Run (Option Error × String) :=
  .ret (none, Blob)

/-- `decodeRecord(const Record&, bool&, StringRef)`. -/
def decodeRecordBool (R : Record) (_Field : Bool) (_Blob : Blob) :
    Run (Option Error × Bool) :=
  match R[0]? with
  | none => .trap "R[0]"
  | some r0 => .ret (none, decide (r0 ≠ 0))

/-- `decodeRecord(const Record&, int&, StringRef)`. -/
def decodeRecordInt (R : Record) (Field : Int) (_Blob : Blob) :
    Run (Option Error × Int) :=
  match R[0]? with
  | none => .trap "R[0]"
  | some r0 =>
    if r0 > INT_MAX then .ret (some (makeError "integer too large to parse"), Field)
    else .ret (none, toInt32 r0)

/-- `decodeRecord(Record const&, AccessSpecifier&, StringRef)`: the switch is on the 64-bit
field itself. -/
def decodeRecordAccessSpecifier (R : Record) (Field : AccessSpecifier) (_Blob : Blob) :
    Run (Option Error × AccessSpecifier) :=
  match R[0]? with
  | none => .trap "R[0]"
  | some r0 =>
    if r0 = AccessSpecifier.AS_public.val then .ret (none, .AS_public)
    else if r0 = AccessSpecifier.AS_private.val then .ret (none, .AS_private)
    else if r0 = AccessSpecifier.AS_protected.val then .ret (none, .AS_protected)
    else if r0 = AccessSpecifier.AS_none.val then .ret (none, .AS_none)
    else .ret (some (makeError "invalid value for AccessSpecifier"), Field)

/-- `decodeRecord(Record const&, TagTypeKind&, StringRef)`: the switch is on the 64-bit
field itself. -/
def decodeRecordTagTypeKind (R : Record) (Field : TagTypeKind) (_Blob : Blob) :
    Run (Option Error × TagTypeKind) :=
  match R[0]? with
  | none => .trap "R[0]"
  | some r0 =>
    if r0 = TagTypeKind.TTK_Struct.val then .ret (none, .TTK_Struct)
    else if r0 = TagTypeKind.TTK_Interface.val then .ret (none, .TTK_Interface)
    else if r0 = TagTypeKind.TTK_Union.val then .ret (none, .TTK_Union)
    else if r0 = TagTypeKind.TTK_Class.val then .ret (none, .TTK_Class)
    else if r0 = TagTypeKind.TTK_Enum.val then .ret (none, .TTK_Enum)
    else .ret (some (makeError "invalid value for TagTypeKind"), Field)

/-- `decodeRecord(Record const&, InfoType&, StringRef)`: the switch is on
`static_cast<InfoType>(R[0])`, the field after conversion to the enumeration. -/
def decodeRecordInfoType (K : BitCodeConstants) (R : Record) (Field : InfoType)
    (_Blob : Blob) : Run (Option Error × InfoType) :=
  match R[0]? with
  | none => .trap "R[0]"
  | some r0 =>
    let IT := toInt32 r0
    if IT = K.infoType .IT_namespace then .ret (none, .IT_namespace)
    else if IT = K.infoType .IT_record then .ret (none, .IT_record)
    else if IT = K.infoType .IT_function then .ret (none, .IT_function)
    else if IT = K.infoType .IT_enum then .ret (none, .IT_enum)
    else if IT = K.infoType .IT_typedef then .ret (none, .IT_typedef)
    else if IT = K.infoType .IT_default then .ret (none, .IT_default)
    else .ret (some (makeError "invalid value for InfoType"), Field)

/-- `decodeRecord(Record const&, FieldId&, StringRef)`: the switch is on
`static_cast<FieldId>(R[0])`, the field after conversion to the enumeration. -/
def decodeRecordFieldId (K : BitCodeConstants) (R : Record) (Field : FieldId)
    (_Blob : Blob) : Run (Option Error × FieldId) :=
  match R[0]? with
  | none => .trap "R[0]"
  | some r0 =>
    let F := toInt32 r0
    if F = K.fieldId .F_namespace then .ret (none, .F_namespace)
    else if F = K.fieldId .F_parent then .ret (none, .F_parent)
    else if F = K.fieldId .F_vparent then .ret (none, .F_vparent)
    else if F = K.fieldId .F_type then .ret (none, .F_type)
    else if F = K.fieldId .F_child_namespace then .ret (none, .F_child_namespace)
    else if F = K.fieldId .F_child_record then .ret (none, .F_child_record)
    else if F = K.fieldId .F_child_function then .ret (none, .F_child_function)
    else if F = K.fieldId .F_default then .ret (none, .F_default)
    else .ret (some (makeError "invalid value for FieldId"), Field)

/-- The template `decodeRecord<Enum>(Record const&, Enum&, StringRef)`, used for the three
documentation enumerations: the field is decoded as the underlying `int` and converted with
`static_cast<Enum>`. -/
def decodeRecordEnum (R : Record) (value : Int) (blob : Blob) : Run (Option Error × Int) :=
  match decodeRecordInt R 0 blob with
  | .ret (some err, _) => .ret (some err, value)
  | .ret (none, temp) => .ret (none, temp)
  | .exit c => .exit c
  | .trap w => .trap w
  | .fuel => .fuel

/-- `SymbolID`: the bytes of a fixed-length identifier. -/
abbrev SymbolID := List Nat

/-- The identifier `SymbolID()`: all bytes zero. -/
def EmptySID (K : BitCodeConstants) : SymbolID := List.replicate K.USRHashSize 0

/-- The copying loop of the identifier decoder,
`for (int I = 0, E = R[0]; I < E; ++I) Field[I] = R[I + 1];` with `n` iterations left:
each byte is the record field converted to `uint8_t`. -/
def decodeRecordSymbolID.loop (R : Record) : Nat → Nat → SymbolID → Run SymbolID
  | 0, _, Field => .ret Field
  | n + 1, I, Field =>
    match R[I + 1]? with
    | none => .trap "R[I + 1]"
    | some v => decodeRecordSymbolID.loop R n (I + 1) (Field.set I (v % 256))

/-- `decodeRecord(const Record&, SymbolID&, StringRef)`. -/
def decodeRecordSymbolID (K : BitCodeConstants) (R : Record) (Field : SymbolID)
    (_Blob : Blob) : Run (Option Error × SymbolID) :=
  match R[0]? with
  | none => .trap "R[0]"
  | some r0 =>
    if r0 ≠ K.USRHashSize then .ret (some (makeError "incorrect USR size"), Field)
    else
      match decodeRecordSymbolID.loop R (toInt32 r0).toNat 0 Field with
      | .ret Field1 => .ret (none, Field1)
      | .exit c => .exit c
      | .trap w => .trap w
      | .fuel => .fuel

/-- A source location, made by `Location(int line, StringRef filename, bool)`: the line, the
file name, and the `bool` the constructor is given. -/
structure Location where
  LineNumber : Int
  Filename : String
  IsFileInRootDir : Bool
deriving DecidableEq, Repr

/-- `decodeRecord(Record const&, llvm::Optional<Location>&, StringRef)`. -/
def decodeRecordOptionalLocation (R : Record) (Field : Option Location) (Blob : Blob) :
    Run (Option Error × Option Location) :=
  match R[0]? with
  | none => .trap "R[0]"
  | some r0 =>
    if r0 > INT_MAX then .ret (some (makeError "integer too large to parse"), Field)
    else
      match R[1]? with
      | none => .trap "R[1]"
      | some r1 => .ret (none, some ⟨toInt32 r0, Blob, decide (r1 ≠ 0)⟩)

/-- `decodeRecord(const Record&, llvm::SmallVectorImpl<Location>&, StringRef)`. -/
def decodeRecordLocations (R : Record) (Field : List Location) (Blob : Blob) :
    Run (Option Error × List Location) :=
  match R[0]? with
  | none => .trap "R[0]"
  | some r0 =>
    if r0 > INT_MAX then .ret (some (makeError "integer too large to parse"), Field)
    else
      match R[1]? with
      | none => .trap "R[1]"
      | some r1 => .ret (none, Field ++ [⟨toInt32 r0, Blob, decide (r1 ≠ 0)⟩])

/-! ## The documentation tree (`Javadoc.hpp`) -/

/-- A node of a documentation tree, `Javadoc::Node` with the members of the classes derived
from it: `string` (Text), `style` (StyledText), `admonish` (the `style` member of
Admonition), `name` (Param, TParam) and `children` (Paragraph and the classes derived from
it).  The class of a node is fixed by the constructor that made it, which sets `kind`. -/
inductive Javadoc.Node where
  | mk (kind : Javadoc.Kind) (string : String) (style : Javadoc.Style)
      (admonish : Javadoc.Admonish) (name : String) (children : List Javadoc.Node)

namespace Javadoc.Node

def kind : Javadoc.Node → Javadoc.Kind
  | .mk k _ _ _ _ _ => k

def string : Javadoc.Node → String
  | .mk _ s _ _ _ _ => s

def style : Javadoc.Node → Javadoc.Style
  | .mk _ _ s _ _ _ => s

def admonish : Javadoc.Node → Javadoc.Admonish
  | .mk _ _ _ a _ _ => a

def name : Javadoc.Node → String
  | .mk _ _ _ _ n _ => n

def children : Javadoc.Node → List Javadoc.Node
  | .mk _ _ _ _ _ c => c

/-- The node a default constructor of the class with kind `k` makes: empty strings, no
children, `Style::none` and `Admonish::none`. -/
def ofKind (k : Javadoc.Kind) : Javadoc.Node :=
  .mk k "" Javadoc.Style.none Javadoc.Admonish.none "" []

def setString (n : Javadoc.Node) (s : String) : Javadoc.Node :=
  .mk n.kind s n.style n.admonish n.name n.children

def setStyle (n : Javadoc.Node) (s : Javadoc.Style) : Javadoc.Node :=
  .mk n.kind n.string s n.admonish n.name n.children

def setAdmonish (n : Javadoc.Node) (a : Javadoc.Admonish) : Javadoc.Node :=
  .mk n.kind n.string n.style a n.name n.children

def setName (n : Javadoc.Node) (s : String) : Javadoc.Node :=
  .mk n.kind n.string n.style n.admonish s n.children

def setChildren (n : Javadoc.Node) (c : List Javadoc.Node) : Javadoc.Node :=
  .mk n.kind n.string n.style n.admonish n.name c

end Javadoc.Node

/-- The documentation of one symbol, `struct Javadoc`: the top-level blocks, the parameter
and template parameter lists, the Returns paragraph and the brief (set by `calculateBrief`
only). -/
structure Javadoc where
  brief_ : Option Javadoc.Node
  blocks_ : List Javadoc.Node
  params_ : List Javadoc.Node
  tparams_ : List Javadoc.Node
  returns_ : Javadoc.Node

/-- The tree `Javadoc()`. -/
def Javadoc.empty : Javadoc :=
  ⟨none, [], [], [], Javadoc.Node.ofKind Javadoc.Kind.returns⟩

/-! ## The metadata model

The declarations of most of these classes are in headers that are not among the sources;
the members are those the reader reads and writes. -/

/-- A reference to another entity: identifier, name, kind and path. -/
structure Reference where
  USR : SymbolID
  Name : String
  RefType : InfoType
  Path : String
deriving DecidableEq, Repr

/-- The reference `Reference()`. -/
def Reference.empty (K : BitCodeConstants) : Reference := ⟨EmptySID K, "", .IT_default, ""⟩

/-- A type, named by a reference; `Type_` is the member `Type`. -/
structure TypeInfo where
  Type_ : Reference
deriving DecidableEq, Repr

/-- A function parameter: `FieldTypeInfo : TypeInfo`. -/
structure FieldTypeInfo extends TypeInfo where
  Name : String
  DefaultValue : String
deriving DecidableEq, Repr

/-- A data member: `MemberTypeInfo : FieldTypeInfo`. -/
structure MemberTypeInfo extends FieldTypeInfo where
  Access : AccessSpecifier
  javadoc : Javadoc

/-- An enumerator. -/
structure EnumValueInfo where
  Name : String
  Value : String
  ValueExpr : String
deriving DecidableEq, Repr

/-- The members of `Info` common to every entity. -/
structure Info where
  IT : InfoType
  USR : SymbolID
  Name : String
  Path : String
  Namespace : List Reference
  javadoc : Javadoc

/-- An entity with source locations: `SymbolInfo : Info`. -/
structure SymbolInfo extends Info where
  DefLoc : Option Location
  Loc : List Location

/-- An enumeration: `EnumInfo : SymbolInfo`. -/
structure EnumInfo extends SymbolInfo where
  Scoped : Bool
  BaseType : Option TypeInfo
  Members : List EnumValueInfo

/-- A type alias: `TypedefInfo : SymbolInfo`. -/
structure TypedefInfo extends SymbolInfo where
  Underlying : TypeInfo
  IsUsing : Bool

/-- The children of a namespace or record: `struct Scope`. -/
structure Scope where
  Namespaces : List Reference
  Records : List Reference
  Functions : List Reference
  Enums : List EnumInfo
  Typedefs : List TypedefInfo

/-- One template parameter or argument. -/
structure TemplateParamInfo where
  Contents : String
deriving DecidableEq, Repr

/-- The specialization part of a template. -/
structure TemplateSpecializationInfo where
  SpecializationOf : SymbolID
  Params : List TemplateParamInfo
deriving DecidableEq, Repr

/-- The template part of a record or function. -/
structure TemplateInfo where
  Params : List TemplateParamInfo
  Specialization : Option TemplateSpecializationInfo
deriving DecidableEq, Repr

/-- A base class of a record.  In the sources `BaseRecordInfo` derives from `RecordInfo`;
the members kept here are those the reader can write for a base: the other members of the
`RecordInfo` part keep the values of the default constructor, because the attach functions
that would write them have no specialization for a `BaseRecordInfo*`. -/
structure BaseRecordInfo where
  USR : SymbolID
  Name : String
  Path : String
  javadoc : Javadoc
  TagType : TagTypeKind
  Members : List MemberTypeInfo
  IsVirtual : Bool
  Access : AccessSpecifier
  IsParent : Bool

/-- A class, struct or union: `RecordInfo : SymbolInfo`. -/
structure RecordInfo extends SymbolInfo where
  TagType : TagTypeKind
  IsTypeDef : Bool
  Members : List MemberTypeInfo
  Parents : List Reference
  VirtualParents : List Reference
  Bases : List BaseRecordInfo
  Children : Scope
  Template : Option TemplateInfo

/-- A function: `FunctionInfo : SymbolInfo` (`Function.hpp`). -/
structure FunctionInfo extends SymbolInfo where
  IsMethod : Bool
  Parent : Reference
  ReturnType : TypeInfo
  Params : List FieldTypeInfo
  Access : AccessSpecifier
  FullName : String
  Template : Option TemplateInfo

/-- A namespace: `NamespaceInfo : Info` (`Namespace.hpp`). -/
structure NamespaceInfo extends Info where
  Children : Scope

/-- The members of an `Info` made by `Info(IT, USR)` with the default arguments. -/
def Info.empty (K : BitCodeConstants) (IT : InfoType) : Info :=
  ⟨IT, EmptySID K, "", "", [], Javadoc.empty⟩

def SymbolInfo.empty (K : BitCodeConstants) (IT : InfoType) : SymbolInfo :=
  ⟨Info.empty K IT, none, []⟩

def Scope.empty : Scope := ⟨[], [], [], [], []⟩

def TypeInfo.empty (K : BitCodeConstants) : TypeInfo := ⟨Reference.empty K⟩

def FieldTypeInfo.empty (K : BitCodeConstants) : FieldTypeInfo := ⟨TypeInfo.empty K, "", ""⟩

def MemberTypeInfo.empty (K : BitCodeConstants) : MemberTypeInfo :=
  ⟨FieldTypeInfo.empty K, .AS_public, Javadoc.empty⟩

def EnumValueInfo.empty : EnumValueInfo := ⟨"", "", ""⟩

def EnumInfo.empty (K : BitCodeConstants) : EnumInfo :=
  ⟨SymbolInfo.empty K .IT_enum, false, none, []⟩

def TypedefInfo.empty (K : BitCodeConstants) : TypedefInfo :=
  ⟨SymbolInfo.empty K .IT_typedef, TypeInfo.empty K, false⟩

def TemplateParamInfo.empty : TemplateParamInfo := ⟨""⟩

def TemplateSpecializationInfo.empty (K : BitCodeConstants) : TemplateSpecializationInfo :=
  ⟨EmptySID K, []⟩

def TemplateInfo.empty : TemplateInfo := ⟨[], none⟩

def BaseRecordInfo.empty (K : BitCodeConstants) : BaseRecordInfo :=
  ⟨EmptySID K, "", "", Javadoc.empty, .TTK_Struct, [], false, .AS_public, false⟩

def RecordInfo.empty (K : BitCodeConstants) : RecordInfo :=
  ⟨SymbolInfo.empty K .IT_record, .TTK_Struct, false, [], [], [], [], Scope.empty, none⟩

def FunctionInfo.empty (K : BitCodeConstants) : FunctionInfo :=
  ⟨SymbolInfo.empty K .IT_function, false, Reference.empty K, TypeInfo.empty K, [],
    .AS_public, "", none⟩

def NamespaceInfo.empty (K : BitCodeConstants) : NamespaceInfo :=
  ⟨Info.empty K .IT_namespace, Scope.empty⟩

/-- The object a call of one of the reader's function templates works on: the `T I` of
`readBlock`, `readSubBlock` and `readRecord` and the first argument of the attach functions,
one constructor for each type the templates are instantiated with.  `versionNo` is the
`unsigned` of the version block.  `javadoc`, `currentNodeList` and `nodeList` are the
pointers `Javadoc*`, `CurrentNodeList*` and `List<Javadoc::Node>*`: each points into the
reader (to `javadoc_`, to the innermost frame of `nodes_` and to the children of that frame),
so the constructor carries no value. -/
inductive Object where
  | versionNo (VersionNo : Nat)
  | namespaceInfo (I : NamespaceInfo)
  | recordInfo (I : RecordInfo)
  | baseRecordInfo (I : BaseRecordInfo)
  | functionInfo (I : FunctionInfo)
  | enumInfo (I : EnumInfo)
  | enumValueInfo (I : EnumValueInfo)
  | typedefInfo (I : TypedefInfo)
  | typeInfo (I : TypeInfo)
  | fieldTypeInfo (I : FieldTypeInfo)
  | memberTypeInfo (I : MemberTypeInfo)
  | reference (I : Reference)
  | templateInfo (I : TemplateInfo)
  | templateSpecializationInfo (I : TemplateSpecializationInfo)
  | templateParamInfo (I : TemplateParamInfo)
  | javadoc
  | currentNodeList
  | nodeList

/-! ## Attaching a decoded child to its owner -/

/-- The overloads of `getJavadoc`: the documentation of an `Info` (every entity, and a base
record, converts to `Info*`) or of a `MemberTypeInfo`; any other argument selects the
variadic overload, which fails. -/
def getJavadoc (I : Object) : Except Error Javadoc :=
  match I with
  | .namespaceInfo I => .ok I.javadoc
  | .recordInfo I => .ok I.javadoc
  | .baseRecordInfo I => .ok I.javadoc
  | .functionInfo I => .ok I.javadoc
  | .enumInfo I => .ok I.javadoc
  | .typedefInfo I => .ok I.javadoc
  | .memberTypeInfo I => .ok I.javadoc
  | _ => .error (makeError "invalid type cannot contain Javadoc")

/-- The object after the documentation that `getJavadoc` points to has become `J`. -/
def setJavadoc (I : Object) (J : Javadoc) : Object :=
  match I with
  | .namespaceInfo I => .namespaceInfo { I with javadoc := J }
  | .recordInfo I => .recordInfo { I with javadoc := J }
  | .baseRecordInfo I => .baseRecordInfo { I with javadoc := J }
  | .functionInfo I => .functionInfo { I with javadoc := J }
  | .enumInfo I => .enumInfo { I with javadoc := J }
  | .typedefInfo I => .typedefInfo { I with javadoc := J }
  | .memberTypeInfo I => .memberTypeInfo { I with javadoc := J }
  | I => I

/-- The template `addTypeInfo(T I, TTypeInfo&& TI)` and its six specializations. -/
def addTypeInfo (I : Object) (TI : Object) : Option Error × Object :=
  match I, TI with
  | .recordInfo I, .memberTypeInfo T =>
      (none, .recordInfo { I with Members := I.Members ++ [T] })
  | .baseRecordInfo I, .memberTypeInfo T =>
      (none, .baseRecordInfo { I with Members := I.Members ++ [T] })
  | .functionInfo I, .typeInfo T => (none, .functionInfo { I with ReturnType := T })
  | .functionInfo I, .fieldTypeInfo T =>
      (none, .functionInfo { I with Params := I.Params ++ [T] })
  | .enumInfo I, .typeInfo T => (none, .enumInfo { I with BaseType := some T })
  | .typedefInfo I, .typeInfo T => (none, .typedefInfo { I with Underlying := T })
  | I, _ => (some (makeError "invalid type cannot contain TypeInfo"), I)

/-- The template `addReference(T I, Reference&& R, FieldId F)` and its eight
specializations. -/
def addReference (I : Object) (R : Reference) (F : FieldId) : Option Error × Object :=
  match I with
  | .typeInfo I =>
    match F with
    | .F_type => (none, .typeInfo { I with Type_ := R })
    | _ => (some (makeError "invalid type cannot contain Reference"), .typeInfo I)
  | .fieldTypeInfo I =>
    match F with
    | .F_type => (none, .fieldTypeInfo { I with Type_ := R })
    | _ => (some (makeError "invalid type cannot contain Reference"), .fieldTypeInfo I)
  | .memberTypeInfo I =>
    match F with
    | .F_type => (none, .memberTypeInfo { I with Type_ := R })
    | _ => (some (makeError "invalid type cannot contain Reference"), .memberTypeInfo I)
  | .enumInfo I =>
    match F with
    | .F_namespace => (none, .enumInfo { I with Namespace := I.Namespace ++ [R] })
    | _ => (some (makeError "invalid type cannot contain Reference"), .enumInfo I)
  | .typedefInfo I =>
    match F with
    | .F_namespace => (none, .typedefInfo { I with Namespace := I.Namespace ++ [R] })
    | _ => (some (makeError "invalid type cannot contain Reference"), .typedefInfo I)
  | .namespaceInfo I =>
    match F with
    | .F_namespace => (none, .namespaceInfo { I with Namespace := I.Namespace ++ [R] })
    | .F_child_namespace =>
        (none, .namespaceInfo
          { I with Children := { I.Children with Namespaces := I.Children.Namespaces ++ [R] } })
    | .F_child_record =>
        (none, .namespaceInfo
          { I with Children := { I.Children with Records := I.Children.Records ++ [R] } })
    | .F_child_function =>
        (none, .namespaceInfo
          { I with Children := { I.Children with Functions := I.Children.Functions ++ [R] } })
    | _ => (some (makeError "invalid type cannot contain Reference"), .namespaceInfo I)
  | .functionInfo I =>
    match F with
    | .F_namespace => (none, .functionInfo { I with Namespace := I.Namespace ++ [R] })
    | .F_parent => (none, .functionInfo { I with Parent := R })
    | _ => (some (makeError "invalid type cannot contain Reference"), .functionInfo I)
  | .recordInfo I =>
    match F with
    | .F_namespace => (none, .recordInfo { I with Namespace := I.Namespace ++ [R] })
    | .F_parent => (none, .recordInfo { I with Parents := I.Parents ++ [R] })
    | .F_vparent => (none, .recordInfo { I with VirtualParents := I.VirtualParents ++ [R] })
    | .F_child_record =>
        (none, .recordInfo
          { I with Children := { I.Children with Records := I.Children.Records ++ [R] } })
    | .F_child_function =>
        (none, .recordInfo
          { I with Children := { I.Children with Functions := I.Children.Functions ++ [R] } })
    | _ => (some (makeError "invalid type cannot contain Reference"), .recordInfo I)
  | I => (some (makeError "invalid type cannot contain Reference"), I)

/-- The template `addChild(T I, ChildInfoType&& R)` and its six specializations.  The primary
template writes a message to the error stream and calls `exit(1)`. -/
def addChild (I : Object) (R : Object) : Run Object :=
  match I, R with
  | .namespaceInfo I, .enumInfo R =>
      .ret (.namespaceInfo { I with Children := { I.Children with Enums := I.Children.Enums ++ [R] } })
  | .namespaceInfo I, .typedefInfo R =>
      .ret (.namespaceInfo
        { I with Children := { I.Children with Typedefs := I.Children.Typedefs ++ [R] } })
  | .recordInfo I, .enumInfo R =>
      .ret (.recordInfo { I with Children := { I.Children with Enums := I.Children.Enums ++ [R] } })
  | .recordInfo I, .typedefInfo R =>
      .ret (.recordInfo
        { I with Children := { I.Children with Typedefs := I.Children.Typedefs ++ [R] } })
  | .enumInfo I, .enumValueInfo R => .ret (.enumInfo { I with Members := I.Members ++ [R] })
  | .recordInfo I, .baseRecordInfo R => .ret (.recordInfo { I with Bases := I.Bases ++ [R] })
  | _, _ => .exit 1

/-- The template `addTemplateParam(T I, TemplateParamInfo&& P)` and its two specializations;
the primary template calls `exit(1)`. -/
def addTemplateParam (I : Object) (P : TemplateParamInfo) : Run Object :=
  match I with
  | .templateInfo I => .ret (.templateInfo { I with Params := I.Params ++ [P] })
  | .templateSpecializationInfo I =>
      .ret (.templateSpecializationInfo { I with Params := I.Params ++ [P] })
  | _ => .exit 1

/-- The template `addTemplate(T I, TemplateInfo&& P)` and its two specializations; the
primary template calls `exit(1)`. -/
def addTemplate (I : Object) (P : TemplateInfo) : Run Object :=
  match I with
  | .recordInfo I => .ret (.recordInfo { I with Template := some P })
  | .functionInfo I => .ret (.functionInfo { I with Template := some P })
  | _ => .exit 1

/-- The template `addTemplateSpecialization(T I, TemplateSpecializationInfo&& TSI)` and its
one specialization; the primary template calls `exit(1)`. -/
def addTemplateSpecialization (I : Object) (TSI : TemplateSpecializationInfo) : Run Object :=
  match I with
  | .templateInfo I => .ret (.templateInfo { I with Specialization := some TSI })
  | _ => .exit 1

/-! ## Block and record identifiers -/

/-- The block identifiers the reader names.  A block id read from a stream is an
`Option BlockId`: the enumerator it is equal to, or `none` when it is equal to none of them.
`BLOCKINFO_BLOCK_ID` is `llvm::bitc::BLOCKINFO_BLOCK_ID`, which is 0. -/
inductive BlockId where
  | BLOCKINFO_BLOCK_ID
  | BI_VERSION_BLOCK_ID
  | BI_NAMESPACE_BLOCK_ID
  | BI_ENUM_BLOCK_ID
  | BI_ENUM_VALUE_BLOCK_ID
  | BI_TYPEDEF_BLOCK_ID
  | BI_TYPE_BLOCK_ID
  | BI_FIELD_TYPE_BLOCK_ID
  | BI_MEMBER_TYPE_BLOCK_ID
  | BI_RECORD_BLOCK_ID
  | BI_BASE_RECORD_BLOCK_ID
  | BI_FUNCTION_BLOCK_ID
  | BI_JAVADOC_BLOCK_ID
  | BI_JAVADOC_LIST_BLOCK_ID
  | BI_JAVADOC_NODE_BLOCK_ID
  | BI_REFERENCE_BLOCK_ID
  | BI_TEMPLATE_BLOCK_ID
  | BI_TEMPLATE_SPECIALIZATION_BLOCK_ID
  | BI_TEMPLATE_PARAM_BLOCK_ID
deriving DecidableEq, Repr

/-- The record identifiers the reader names.  A record code read from a stream is an
`Option RecordId`: the enumerator it is equal to, or `none`. -/
inductive RecordId where
  | VERSION
  | NAMESPACE_USR | NAMESPACE_NAME | NAMESPACE_PATH
  | RECORD_USR | RECORD_NAME | RECORD_PATH | RECORD_DEFLOCATION | RECORD_LOCATION
  | RECORD_TAG_TYPE | RECORD_IS_TYPE_DEF
  | BASE_RECORD_USR | BASE_RECORD_NAME | BASE_RECORD_PATH | BASE_RECORD_TAG_TYPE
  | BASE_RECORD_IS_VIRTUAL | BASE_RECORD_ACCESS | BASE_RECORD_IS_PARENT
  | FUNCTION_USR | FUNCTION_NAME | FUNCTION_DEFLOCATION | FUNCTION_LOCATION
  | FUNCTION_ACCESS | FUNCTION_IS_METHOD
  | ENUM_USR | ENUM_NAME | ENUM_DEFLOCATION | ENUM_LOCATION | ENUM_SCOPED
  | ENUM_VALUE_NAME | ENUM_VALUE_VALUE | ENUM_VALUE_EXPR
  | TYPEDEF_USR | TYPEDEF_NAME | TYPEDEF_DEFLOCATION | TYPEDEF_IS_USING
  | FIELD_TYPE_NAME | FIELD_DEFAULT_VALUE
  | MEMBER_TYPE_NAME | MEMBER_TYPE_ACCESS
  | REFERENCE_USR | REFERENCE_NAME | REFERENCE_TYPE | REFERENCE_PATH | REFERENCE_FIELD
  | TEMPLATE_SPECIALIZATION_OF | TEMPLATE_PARAM_CONTENTS
  | JAVADOC_NODE_KIND | JAVADOC_LIST_KIND | JAVADOC_NODE_STRING | JAVADOC_NODE_STYLE
  | JAVADOC_NODE_ADMONISH
deriving DecidableEq, Repr

/-! ## The bitstream cursor

`llvm::BitstreamCursor` is a library class.  The stream it reads is given here as the bytes
at its head that are read with `Read(8)` (the signature) and, after them, the sequence of
values its decoding functions return, one `Item` for each call that reads from the stream. -/

/-- One unit of a stream, named after the cursor function that reads it. -/
inductive Item where
  /-- An abbreviation id, read by `ReadCode`: `END_BLOCK = 0`, `ENTER_SUBBLOCK = 1`,
  `DEFINE_ABBREV = 2`, `UNABBREV_RECORD = 3`, and from `FIRST_APPLICATION_ABBREV = 4` on the
  abbreviations of records. -/
  | code (AbbrevID : Nat)
  /-- The id of a block, read by `ReadSubBlockID` after `ENTER_SUBBLOCK`. -/
  | blockID (ID : Option BlockId)
  /-- The rest of a block header, read by `EnterSubBlock` and by `SkipBlock`: the length of
  the block, counted in items, up to and including its `END_BLOCK`. -/
  | blockLen (NumWords : Nat)
  /-- The definition of an abbreviation, read by `ReadAbbrevRecord` after `DEFINE_ABBREV`. -/
  | abbrevDef
  /-- An abbreviated record, read by `readRecord`: its code, integer fields and blob. -/
  | record (Code : Option RecordId) (Vals : Record) (Blob : Blob)
  /-- The whole of a block-info block after its id, read by `ReadBlockInfoBlock`; `valid` is
  false when the function returns no block info. -/
  | blockInfo (valid : Bool)
deriving DecidableEq, Repr

def END_BLOCK : Nat := 0
def ENTER_SUBBLOCK : Nat := 1
def DEFINE_ABBREV : Nat := 2
def UNABBREV_RECORD : Nat := 3
def FIRST_APPLICATION_ABBREV : Nat := 4

/-- The state of the cursor: what is left of the stream, and the number of blocks entered
and not yet left. -/
structure BitstreamCursor where
  Lead : List Nat
  Items : List Item
  BlockScope : Nat
deriving DecidableEq, Repr

namespace BitstreamCursor

def AtEndOfStream (S : BitstreamCursor) : Bool := S.Lead.isEmpty && S.Items.isEmpty

/-- `Read(8)`: the next byte of the head of the stream. -/
def Read8 (S : BitstreamCursor) : Except Error (Nat × BitstreamCursor) :=
  match S.Lead with
  | b :: rest => .ok (b, { S with Lead := rest })
  | [] => .error (makeError "Unexpected end of file")

def ReadCode (S : BitstreamCursor) : Except Error (Nat × BitstreamCursor) :=
  match S.Items with
  | .code c :: rest => .ok (c, { S with Items := rest })
  | _ => .error (makeError "Unexpected end of file")

def ReadSubBlockID (S : BitstreamCursor) : Except Error (Option BlockId × BitstreamCursor) :=
  match S.Items with
  | .blockID ID :: rest => .ok (ID, { S with Items := rest })
  | _ => .error (makeError "Unexpected end of file")

/-- `EnterSubBlock`: reads the rest of the block header and opens a scope; it fails when
the stream ends with the header. -/
def EnterSubBlock (S : BitstreamCursor) : Except Error BitstreamCursor :=
  match S.Items with
  | .blockLen _ :: rest =>
    if S.Lead.isEmpty && rest.isEmpty then
      .error (makeError "can't enter sub block: already at end of stream")
    else .ok { S with Items := rest, BlockScope := S.BlockScope + 1 }
  | _ => .error (makeError "Unexpected end of file")

/-- `SkipBlock`: reads the rest of the block header and jumps over as many items as it
announces; it fails when the stream ends with the header or is shorter than announced.  A
failure comes with the cursor as the call leaves it: behind the header, when there was one
to read. -/
def SkipBlock (S : BitstreamCursor) : Except (Error × BitstreamCursor) BitstreamCursor :=
  match S.Items with
  | .blockLen NumWords :: rest =>
    if S.Lead.isEmpty && rest.isEmpty then
      .error (makeError "can't skip block: already at end of stream", { S with Items := rest })
    else if NumWords > rest.length then
      .error (makeError "can't skip to bit", { S with Items := rest })
    else .ok { S with Items := rest.drop NumWords }
  | _ => .error (makeError "Unexpected end of file", S)

/-- `readRecord(AbbrevID, Vals, &Blob)`: the code, the fields and the blob of the record. -/
def readRecord (S : BitstreamCursor) (_AbbrevID : Nat) :
    Except Error ((Option RecordId × Record × Blob) × BitstreamCursor) :=
  match S.Items with
  | .record Code Vals Blob :: rest => .ok ((Code, Vals, Blob), { S with Items := rest })
  | _ => .error (makeError "Invalid abbrev number")

/-- `ReadBlockEnd`: true (a failure) when no block is open, else the innermost scope is
closed. -/
def ReadBlockEnd (S : BitstreamCursor) : Bool × BitstreamCursor :=
  if S.BlockScope = 0 then (true, S) else (false, { S with BlockScope := S.BlockScope - 1 })

def ReadAbbrevRecord (S : BitstreamCursor) : Except Error BitstreamCursor :=
  match S.Items with
  | .abbrevDef :: rest => .ok { S with Items := rest }
  | _ => .error (makeError "Abbreviation starts with an Array or a Blob")

/-- `ReadBlockInfoBlock`: the block info, or nothing when the block is malformed. -/
def ReadBlockInfoBlock (S : BitstreamCursor) : Except Error (Bool × BitstreamCursor) :=
  match S.Items with
  | .blockInfo valid :: rest => .ok (valid, { S with Items := rest })
  | _ => .error (makeError "Unexpected end of file")

end BitstreamCursor

/-! ## The reader -/

/-- A frame of the node-list stack, `BitcodeReader::CurrentNodeList`: the kind read for the
list (`none` until a kind record has been decoded, the member has no initialiser) and the
nodes decoded so far.  The link `prev_` of a frame is the rest of the stack. -/
structure CurrentNodeList where
  kind : Option Javadoc.Kind
  children : List Javadoc.Node

/-- The members of `BitcodeReader`.  `CurrentReferenceField` has no initialiser and is `none`
until a relation-kind record has been decoded.  `javadoc_` is the documentation the pointer
of that name points to (a copy, written back to its owner when the pointer is reset), `none`
for the null pointer.  `nodes_` is the chain of frames that starts at the pointer of that
name, innermost first, empty for the null pointer. -/
structure BitcodeReader where
  Stream : BitstreamCursor
  BlockInfo : Bool
  CurrentReferenceField : Option FieldId
  javadoc_ : Option Javadoc
  nodes_ : List CurrentNodeList

/-- The reader made by the constructor `BitcodeReader(Stream, R)`. -/
def BitcodeReader.init (Stream : BitstreamCursor) : BitcodeReader :=
  ⟨Stream, false, none, none, []⟩

/-- The values of `enum class Cursor`, each with the value `skipUntilRecordOrBlock` leaves
in its reference parameter `BlockOrRecordID`: the abbreviation id of a record, the id of a
block. -/
inductive Cursor where
  | BadBlock
  | Record (AbbrevID : Nat)
  | BlockEnd
  | BlockBegin (ID : Option BlockId)
deriving DecidableEq, Repr

/-! ## Records (`parseRecord`) -/

/-- A decoder applied to a member of an object: the call `decodeRecord(R, I->member, Blob)`,
with `set` putting the decoded value in the member. -/
def withField {α β : Type} (r : Run (Option Error × α)) (set : α → β) :
    Run (Option Error × β) :=
  r.bind fun p => .ret (p.1, set p.2)

/-- `parseRecord(Record const&, unsigned ID, StringRef, const unsigned VersionNo)`. -/
def parseRecordVersionNo (R : Record) (ID : Option RecordId) (_Blob : Blob)
    (VersionNo : Nat) : Run (Option Error) :=
  if ID = some .VERSION then
    match R[0]? with
    | none => .trap "R[0]"
    | some r0 =>
      if r0 = VersionNo then .ret none
      else .ret (some (makeError "mismatched bitcode version number"))
  else .ret (some (makeError "mismatched bitcode version number"))

/-- `parseRecord(..., NamespaceInfo* I)`. -/
def parseRecordNamespaceInfo (K : BitCodeConstants) (R : Record) (ID : Option RecordId)
    (Blob : Blob) (I : NamespaceInfo) : Run (Option Error × NamespaceInfo) :=
  match ID with
  | some .NAMESPACE_USR =>
      withField (decodeRecordSymbolID K R I.USR Blob) fun v => { I with USR := v }
  | some .NAMESPACE_NAME =>
      withField (decodeRecordString R I.Name Blob) fun v => { I with Name := v }
  | some .NAMESPACE_PATH =>
      withField (decodeRecordString R I.Path Blob) fun v => { I with Path := v }
  | _ => .ret (some (makeError "invalid field for NamespaceInfo"), I)

/-- `parseRecord(..., RecordInfo* I)`. -/
def parseRecordRecordInfo (K : BitCodeConstants) (R : Record) (ID : Option RecordId)
    (Blob : Blob) (I : RecordInfo) : Run (Option Error × RecordInfo) :=
  match ID with
  | some .RECORD_USR =>
      withField (decodeRecordSymbolID K R I.USR Blob) fun v => { I with USR := v }
  | some .RECORD_NAME =>
      withField (decodeRecordString R I.Name Blob) fun v => { I with Name := v }
  | some .RECORD_PATH =>
      withField (decodeRecordString R I.Path Blob) fun v => { I with Path := v }
  | some .RECORD_DEFLOCATION =>
      withField (decodeRecordOptionalLocation R I.DefLoc Blob) fun v => { I with DefLoc := v }
  | some .RECORD_LOCATION =>
      withField (decodeRecordLocations R I.Loc Blob) fun v => { I with Loc := v }
  | some .RECORD_TAG_TYPE =>
      withField (decodeRecordTagTypeKind R I.TagType Blob) fun v => { I with TagType := v }
  | some .RECORD_IS_TYPE_DEF =>
      withField (decodeRecordBool R I.IsTypeDef Blob) fun v => { I with IsTypeDef := v }
  | _ => .ret (some (makeError "invalid field for RecordInfo"), I)

/-- `parseRecord(..., BaseRecordInfo* I)`. -/
def parseRecordBaseRecordInfo (K : BitCodeConstants) (R : Record) (ID : Option RecordId)
    (Blob : Blob) (I : BaseRecordInfo) : Run (Option Error × BaseRecordInfo) :=
  match ID with
  | some .BASE_RECORD_USR =>
      withField (decodeRecordSymbolID K R I.USR Blob) fun v => { I with USR := v }
  | some .BASE_RECORD_NAME =>
      withField (decodeRecordString R I.Name Blob) fun v => { I with Name := v }
  | some .BASE_RECORD_PATH =>
      withField (decodeRecordString R I.Path Blob) fun v => { I with Path := v }
  | some .BASE_RECORD_TAG_TYPE =>
      withField (decodeRecordTagTypeKind R I.TagType Blob) fun v => { I with TagType := v }
  | some .BASE_RECORD_IS_VIRTUAL =>
      withField (decodeRecordBool R I.IsVirtual Blob) fun v => { I with IsVirtual := v }
  | some .BASE_RECORD_ACCESS =>
      withField (decodeRecordAccessSpecifier R I.Access Blob) fun v => { I with Access := v }
  | some .BASE_RECORD_IS_PARENT =>
      withField (decodeRecordBool R I.IsParent Blob) fun v => { I with IsParent := v }
  | _ => .ret (some (makeError "invalid field for BaseRecordInfo"), I)

/-- `parseRecord(..., FunctionInfo* I)`. -/
def parseRecordFunctionInfo (K : BitCodeConstants) (R : Record) (ID : Option RecordId)
    (Blob : Blob) (I : FunctionInfo) : Run (Option Error × FunctionInfo) :=
  match ID with
  | some .FUNCTION_USR =>
      withField (decodeRecordSymbolID K R I.USR Blob) fun v => { I with USR := v }
  | some .FUNCTION_NAME =>
      withField (decodeRecordString R I.Name Blob) fun v => { I with Name := v }
  | some .FUNCTION_DEFLOCATION =>
      withField (decodeRecordOptionalLocation R I.DefLoc Blob) fun v => { I with DefLoc := v }
  | some .FUNCTION_LOCATION =>
      withField (decodeRecordLocations R I.Loc Blob) fun v => { I with Loc := v }
  | some .FUNCTION_ACCESS =>
      withField (decodeRecordAccessSpecifier R I.Access Blob) fun v => { I with Access := v }
  | some .FUNCTION_IS_METHOD =>
      withField (decodeRecordBool R I.IsMethod Blob) fun v => { I with IsMethod := v }
  | _ => .ret (some (makeError "invalid field for FunctionInfo"), I)

/-- `parseRecord(..., EnumInfo* I)`. -/
def parseRecordEnumInfo (K : BitCodeConstants) (R : Record) (ID : Option RecordId)
    (Blob : Blob) (I : EnumInfo) : Run (Option Error × EnumInfo) :=
  match ID with
  | some .ENUM_USR =>
      withField (decodeRecordSymbolID K R I.USR Blob) fun v => { I with USR := v }
  | some .ENUM_NAME =>
      withField (decodeRecordString R I.Name Blob) fun v => { I with Name := v }
  | some .ENUM_DEFLOCATION =>
      withField (decodeRecordOptionalLocation R I.DefLoc Blob) fun v => { I with DefLoc := v }
  | some .ENUM_LOCATION =>
      withField (decodeRecordLocations R I.Loc Blob) fun v => { I with Loc := v }
  | some .ENUM_SCOPED =>
      withField (decodeRecordBool R I.Scoped Blob) fun v => { I with Scoped := v }
  | _ => .ret (some (makeError "invalid field for EnumInfo"), I)

/-- `parseRecord(..., EnumValueInfo* I)`. -/
def parseRecordEnumValueInfo (K : BitCodeConstants) (R : Record) (ID : Option RecordId)
    (Blob : Blob) (I : EnumValueInfo) : Run (Option Error × EnumValueInfo) :=
  match ID with
  | some .ENUM_VALUE_NAME =>
      withField (decodeRecordString R I.Name Blob) fun v => { I with Name := v }
  | some .ENUM_VALUE_VALUE =>
      withField (decodeRecordString R I.Value Blob) fun v => { I with Value := v }
  | some .ENUM_VALUE_EXPR =>
      withField (decodeRecordString R I.ValueExpr Blob) fun v => { I with ValueExpr := v }
  | _ => .ret (some (makeError "invalid field for EnumValueInfo"), I)

/-- `parseRecord(..., TypedefInfo* I)`. -/
def parseRecordTypedefInfo (K : BitCodeConstants) (R : Record) (ID : Option RecordId)
    (Blob : Blob) (I : TypedefInfo) : Run (Option Error × TypedefInfo) :=
  match ID with
  | some .TYPEDEF_USR =>
      withField (decodeRecordSymbolID K R I.USR Blob) fun v => { I with USR := v }
  | some .TYPEDEF_NAME =>
      withField (decodeRecordString R I.Name Blob) fun v => { I with Name := v }
  | some .TYPEDEF_DEFLOCATION =>
      withField (decodeRecordOptionalLocation R I.DefLoc Blob) fun v => { I with DefLoc := v }
  | some .TYPEDEF_IS_USING =>
      withField (decodeRecordBool R I.IsUsing Blob) fun v => { I with IsUsing := v }
  | _ => .ret (some (makeError "invalid field for TypedefInfo"), I)

/-- `parseRecord(..., TypeInfo* I)`: every record is accepted and ignored. -/
def parseRecordTypeInfo (_K : BitCodeConstants) (_R : Record) (_ID : Option RecordId)
    (_Blob : Blob) (I : TypeInfo) : Run (Option Error × TypeInfo) :=
  .ret (none, I)

/-- `parseRecord(..., FieldTypeInfo* I)`. -/
def parseRecordFieldTypeInfo (K : BitCodeConstants) (R : Record) (ID : Option RecordId)
    (Blob : Blob) (I : FieldTypeInfo) : Run (Option Error × FieldTypeInfo) :=
  match ID with
  | some .FIELD_TYPE_NAME =>
      withField (decodeRecordString R I.Name Blob) fun v => { I with Name := v }
  | some .FIELD_DEFAULT_VALUE =>
      withField (decodeRecordString R I.DefaultValue Blob) fun v => { I with DefaultValue := v }
  | _ => .ret (some (makeError "invalid field for TypeInfo"), I)

/-- `parseRecord(..., MemberTypeInfo* I)`. -/
def parseRecordMemberTypeInfo (K : BitCodeConstants) (R : Record) (ID : Option RecordId)
    (Blob : Blob) (I : MemberTypeInfo) : Run (Option Error × MemberTypeInfo) :=
  match ID with
  | some .MEMBER_TYPE_NAME =>
      withField (decodeRecordString R I.Name Blob) fun v => { I with Name := v }
  | some .MEMBER_TYPE_ACCESS =>
      withField (decodeRecordAccessSpecifier R I.Access Blob) fun v => { I with Access := v }
  | _ => .ret (some (makeError "invalid field for MemberTypeInfo"), I)

/-- `parseRecord(..., Reference* I, FieldId& F)`: `F` is the reader's
`CurrentReferenceField`, written by the relation-kind record. -/
def parseRecordReference (K : BitCodeConstants) (R : Record) (ID : Option RecordId)
    (Blob : Blob) (I : Reference) (F : Option FieldId) :
    Run (Option Error × Reference × Option FieldId) :=
  match ID with
  | some .REFERENCE_USR =>
      (decodeRecordSymbolID K R I.USR Blob).bind fun p => .ret (p.1, { I with USR := p.2 }, F)
  | some .REFERENCE_NAME =>
      (decodeRecordString R I.Name Blob).bind fun p => .ret (p.1, { I with Name := p.2 }, F)
  | some .REFERENCE_TYPE =>
      (decodeRecordInfoType K R I.RefType Blob).bind fun p =>
        .ret (p.1, { I with RefType := p.2 }, F)
  | some .REFERENCE_PATH =>
      (decodeRecordString R I.Path Blob).bind fun p => .ret (p.1, { I with Path := p.2 }, F)
  | some .REFERENCE_FIELD =>
      (decodeRecordFieldId K R (F.getD .F_default) Blob).bind fun p =>
        match p.1 with
        | none => .ret (none, I, some p.2)
        | some err => .ret (some err, I, F)
  | _ => .ret (some (makeError "invalid field for Reference"), I, F)

/-- `parseRecord(..., TemplateInfo* I)`: a template block has no records. -/
def parseRecordTemplateInfo (_K : BitCodeConstants) (_R : Record) (_ID : Option RecordId)
    (_Blob : Blob) (I : TemplateInfo) : Run (Option Error × TemplateInfo) :=
  .ret (some (makeError "invalid field for TemplateParamInfo"), I)

/-- `parseRecord(..., TemplateSpecializationInfo* I)`. -/
def parseRecordTemplateSpecializationInfo (K : BitCodeConstants) (R : Record)
    (ID : Option RecordId) (Blob : Blob) (I : TemplateSpecializationInfo) :
    Run (Option Error × TemplateSpecializationInfo) :=
  if ID = some .TEMPLATE_SPECIALIZATION_OF then
    withField (decodeRecordSymbolID K R I.SpecializationOf Blob) fun v =>
      { I with SpecializationOf := v }
  else .ret (some (makeError "invalid field for TemplateParamInfo"), I)

/-- `parseRecord(..., TemplateParamInfo* I)`. -/
def parseRecordTemplateParamInfo (_K : BitCodeConstants) (R : Record)
    (ID : Option RecordId) (Blob : Blob) (I : TemplateParamInfo) :
    Run (Option Error × TemplateParamInfo) :=
  if ID = some .TEMPLATE_PARAM_CONTENTS then
    withField (decodeRecordString R I.Contents Blob) fun v => { I with Contents := v }
  else .ret (some (makeError "invalid field for TemplateParamInfo"), I)

/-- `parseRecord(..., Javadoc* I)`: a documentation block has no records. -/
def parseRecordJavadoc : Option Error :=
  some (makeError "invalid ID for Javadoc")

/-- `parseRecord(..., CurrentNodeList* I)`: the kind of the list. -/
def parseRecordCurrentNodeList (R : Record) (ID : Option RecordId) (blob : Blob)
    (I : CurrentNodeList) : Run (Option Error × CurrentNodeList) :=
  match ID with
  | some .JAVADOC_NODE_KIND | some .JAVADOC_LIST_KIND =>
      (decodeRecordEnum R (I.kind.getD 0) blob).bind fun p =>
        match p.1 with
        | some err => .ret (some err, I)
        | none => .ret (none, { I with kind := some p.2 })
  | _ => .ret (some (makeError "invalid field for List"), I)

/-- The list after its last element, `I->back()`, has been replaced. -/
def setBack (I : List Javadoc.Node) (n : Javadoc.Node) : List Javadoc.Node :=
  I.dropLast ++ [n]

/-- `parseRecord(..., List<Javadoc::Node>* I)`: a kind record appends a node of that kind,
the other records write to the last node of the list. -/
def parseRecordNodeList (R : Record) (ID : Option RecordId) (blob : Blob)
    (I : List Javadoc.Node) : Run (Option Error × List Javadoc.Node) :=
  match ID with
  | some .JAVADOC_NODE_KIND =>
      (decodeRecordEnum R 0 blob).bind fun p =>
        match p.1 with
        | some err => .ret (some err, I)
        | none =>
          let kind := p.2
          if kind = Javadoc.Kind.text then .ret (none, I ++ [.ofKind Javadoc.Kind.text])
          else if kind = Javadoc.Kind.styled then .ret (none, I ++ [.ofKind Javadoc.Kind.styled])
          else if kind = Javadoc.Kind.paragraph then
            .ret (none, I ++ [.ofKind Javadoc.Kind.paragraph])
          else if kind = Javadoc.Kind.brief then .ret (none, I ++ [.ofKind Javadoc.Kind.brief])
          else if kind = Javadoc.Kind.admonition then
            .ret (none, I ++ [.ofKind Javadoc.Kind.admonition])
          else if kind = Javadoc.Kind.code then .ret (none, I ++ [.ofKind Javadoc.Kind.code])
          else if kind = Javadoc.Kind.returns then
            .ret (none, I ++ [.ofKind Javadoc.Kind.returns])
          else if kind = Javadoc.Kind.param then .ret (none, I ++ [.ofKind Javadoc.Kind.param])
          else if kind = Javadoc.Kind.tparam then .ret (none, I ++ [.ofKind Javadoc.Kind.tparam])
          else .trap "llvm_unreachable: unknown kind"
  | some .JAVADOC_NODE_STRING =>
      match I.getLast? with
      | none => .trap "I->back()"
      | some back =>
        if back.kind = Javadoc.Kind.text ∨ back.kind = Javadoc.Kind.styled then
          withField (decodeRecordString R back.string blob) fun v => setBack I (back.setString v)
        else if back.kind = Javadoc.Kind.param then
          withField (decodeRecordString R back.name blob) fun v => setBack I (back.setName v)
        else if back.kind = Javadoc.Kind.tparam then
          withField (decodeRecordString R back.name blob) fun v => setBack I (back.setName v)
        else .ret (some (makeError "invalid record for node"), I)
  | some .JAVADOC_NODE_STYLE =>
      match I.getLast? with
      | none => .trap "I->back()"
      | some back =>
        if back.kind = Javadoc.Kind.styled then
          withField (decodeRecordEnum R back.style blob) fun v => setBack I (back.setStyle v)
        else .ret (some (makeError "invalid record for node"), I)
  | some .JAVADOC_NODE_ADMONISH =>
      match I.getLast? with
      | none => .trap "I->back()"
      | some back =>
        if back.kind = Javadoc.Kind.admonition then
          withField (decodeRecordEnum R back.admonish blob) fun v =>
            setBack I (back.setAdmonish v)
        else .ret (some (makeError "invalid record for node"), I)
  | _ => .ret (some (makeError "invalid field for Javadoc"), I)

/-- The result of a reader function that returns `llvm::Error`: the error, the object the
function worked on and the reader, both as the call left them. -/
abbrev Step := Run (Option Error × Object × BitcodeReader)

/-- A record parsed into a member of the object `I`, put back under its constructor. -/
def parsed {α : Type} (r : Run (Option Error × α)) (mk : α → Object) (rd : BitcodeReader) :
    Step :=
  r.bind fun p => .ret (p.1, mk p.2, rd)

/-- The two templates `readRecord(unsigned ID, T I)`: the record is read from the stream and
handed to the `parseRecord` overload of the type of `I`. -/
def readRecord (K : BitCodeConstants) (ID : Nat) (I : Object) (rd : BitcodeReader) : Step :=
  match rd.Stream.readRecord ID with
  | .error err => .ret (some err, I, rd)
  | .ok ((Code, R, Blob), S) =>
    let rd1 := { rd with Stream := S }
    match I with
    | .versionNo VersionNo =>
        (parseRecordVersionNo R Code Blob VersionNo).bind fun err => .ret (err, I, rd1)
    | .namespaceInfo I => parsed (parseRecordNamespaceInfo K R Code Blob I) .namespaceInfo rd1
    | .recordInfo I => parsed (parseRecordRecordInfo K R Code Blob I) .recordInfo rd1
    | .baseRecordInfo I =>
        parsed (parseRecordBaseRecordInfo K R Code Blob I) .baseRecordInfo rd1
    | .functionInfo I => parsed (parseRecordFunctionInfo K R Code Blob I) .functionInfo rd1
    | .enumInfo I => parsed (parseRecordEnumInfo K R Code Blob I) .enumInfo rd1
    | .enumValueInfo I => parsed (parseRecordEnumValueInfo K R Code Blob I) .enumValueInfo rd1
    | .typedefInfo I => parsed (parseRecordTypedefInfo K R Code Blob I) .typedefInfo rd1
    | .typeInfo I => parsed (parseRecordTypeInfo K R Code Blob I) .typeInfo rd1
    | .fieldTypeInfo I => parsed (parseRecordFieldTypeInfo K R Code Blob I) .fieldTypeInfo rd1
    | .memberTypeInfo I =>
        parsed (parseRecordMemberTypeInfo K R Code Blob I) .memberTypeInfo rd1
    | .reference I =>
        (parseRecordReference K R Code Blob I rd1.CurrentReferenceField).bind fun p =>
          .ret (p.1, .reference p.2.1, { rd1 with CurrentReferenceField := p.2.2 })
    | .templateInfo I => parsed (parseRecordTemplateInfo K R Code Blob I) .templateInfo rd1
    | .templateSpecializationInfo I =>
        parsed (parseRecordTemplateSpecializationInfo K R Code Blob I)
          .templateSpecializationInfo rd1
    | .templateParamInfo I =>
        parsed (parseRecordTemplateParamInfo K R Code Blob I) .templateParamInfo rd1
    | .javadoc => .ret (parseRecordJavadoc, I, rd1)
    | .currentNodeList =>
        match rd1.nodes_ with
        | [] => .trap "assert(I != nullptr)"
        | J :: prev =>
          (parseRecordCurrentNodeList R Code Blob J).bind fun p =>
            .ret (p.1, I, { rd1 with nodes_ := p.2 :: prev })
    | .nodeList =>
        match rd1.nodes_ with
        | [] => .trap "I"
        | J :: prev =>
          (parseRecordNodeList R Code Blob J.children).bind fun p =>
            .ret (p.1, I, { rd1 with nodes_ := { J with children := p.2 } :: prev })

/-- `skipUntilRecordOrBlock`: steps over abbreviation definitions to the next record, block
or end of block.  The first argument bounds the number of turns of its loop. -/
def skipUntilRecordOrBlock : Nat → BitstreamCursor → Run (Cursor × BitstreamCursor)
  | 0, _ => .fuel
  | fuel + 1, S =>
    if S.AtEndOfStream then .trap "llvm_unreachable: Premature stream end."
    else
      match S.ReadCode with
      | .error _ => .ret (.BadBlock, S)
      | .ok (Code, S1) =>
        if Code ≥ FIRST_APPLICATION_ABBREV then .ret (.Record Code, S1)
        else if Code = ENTER_SUBBLOCK then
          match S1.ReadSubBlockID with
          | .ok (ID, S2) => .ret (.BlockBegin ID, S2)
          | .error _ => .ret (.BlockBegin (some .BLOCKINFO_BLOCK_ID), S1)
        else if Code = END_BLOCK then
          if S1.ReadBlockEnd.1 then .ret (.BadBlock, S1.ReadBlockEnd.2)
          else .ret (.BlockEnd, S1.ReadBlockEnd.2)
        else if Code = DEFINE_ABBREV then
          match S1.ReadAbbrevRecord with
          | .error _ => skipUntilRecordOrBlock fuel S1
          | .ok S2 => skipUntilRecordOrBlock fuel S2
        else .ret (.BadBlock, S1)

mutual

/-- The template `readBlock(unsigned ID, T I)`: enters the block and reads its records and
sub-blocks into `I` up to the end of the block.  The first argument bounds the depth of the
calls and the turns of the loops that follow. -/
def readBlock (K : BitCodeConstants) :
    Nat → Option BlockId → Object → BitcodeReader → Step
  | 0, _, _, _ => .fuel
  | fuel + 1, _, I, rd =>
    match rd.Stream.EnterSubBlock with
    | .error err => .ret (some err, I, rd)
    | .ok S => readBlockLoop K fuel I { rd with Stream := S }

/-- The loop `for(;;)` of `readBlock`. -/
def readBlockLoop (K : BitCodeConstants) : Nat → Object → BitcodeReader → Step
  | 0, _, _ => .fuel
  | fuel + 1, I, rd =>
    (skipUntilRecordOrBlock fuel rd.Stream).bind fun Res =>
      match Res with
      | (.BadBlock, S) => .ret (some (makeError "bad block found"), I, { rd with Stream := S })
      | (.BlockEnd, S) => .ret (none, I, { rd with Stream := S })
      | (.BlockBegin BlockOrCode, S) =>
        (readSubBlock K fuel BlockOrCode I { rd with Stream := S }).bind fun r =>
          match r with
          | (some Err, I1, rd1) =>
            match rd1.Stream.SkipBlock with
            | .error (Skipped, S1) =>
              .ret (some (joinErrors Err Skipped), I1, { rd1 with Stream := S1 })
            | .ok S1 => .ret (some Err, I1, { rd1 with Stream := S1 })
          | (none, I1, rd1) => readBlockLoop K fuel I1 rd1
      | (.Record BlockOrCode, S) =>
        (readRecord K BlockOrCode I { rd with Stream := S }).bind fun r =>
          match r with
          | (some Err, I1, rd1) => .ret (some Err, I1, rd1)
          | (none, I1, rd1) => readBlockLoop K fuel I1 rd1

/-- The template `readSubBlock(unsigned ID, T I)`: reads the sub-block with id `ID` into an
object of its own and attaches that object to `I`. -/
def readSubBlock (K : BitCodeConstants) :
    Nat → Option BlockId → Object → BitcodeReader → Step
  | 0, _, _, _ => .fuel
  | fuel + 1, ID, I, rd =>
    match ID with
    | some .BI_JAVADOC_BLOCK_ID =>
      match getJavadoc I with
      | .error err => .ret (some err, I, rd)
      | .ok J =>
        match rd.javadoc_ with
        | some _ => .trap "assert(saved == nullptr)"
        | none =>
          (readBlock K fuel ID .javadoc { rd with javadoc_ := some J }).bind fun r =>
            match r.2.2.javadoc_ with
            | some J1 => .ret (r.1, setJavadoc I J1, { r.2.2 with javadoc_ := none })
            | none => .ret (r.1, I, r.2.2)
    | some .BI_JAVADOC_LIST_BLOCK_ID =>
      match rd.javadoc_ with
      | none => .trap "assert(javadoc_)"
      | some _ =>
        (readBlock K fuel ID .currentNodeList
            { rd with nodes_ := ⟨none, []⟩ :: rd.nodes_ }).bind fun r =>
          match r.2.2.nodes_ with
          | [] => .trap "nodes_"
          | J :: prev =>
            let rd1 := { r.2.2 with nodes_ := prev }
            match r.1 with
            | some err => .ret (some err, I, rd1)
            | none =>
              match prev with
              | [] =>
                match J.kind, rd1.javadoc_ with
                | none, _ => .trap "J.kind"
                | some _, none => .trap "javadoc_"
                | some kind, some D =>
                  if kind = Javadoc.Kind.block then
                    .ret (none, I,
                      { rd1 with javadoc_ := some { D with blocks_ := D.blocks_ ++ J.children } })
                  else if kind = Javadoc.Kind.param then
                    .ret (none, I,
                      { rd1 with javadoc_ := some { D with params_ := D.params_ ++ J.children } })
                  else if kind = Javadoc.Kind.tparam then
                    .ret (none, I,
                      { rd1 with
                        javadoc_ := some { D with tparams_ := D.tparams_ ++ J.children } })
                  else .ret (some (makeError "wrong node kind"), I, rd1)
              | P :: prev1 =>
                match P.children.getLast? with
                | none => .trap "prev_->children.back()"
                | some parent =>
                  if parent.kind = Javadoc.Kind.paragraph ∨ parent.kind = Javadoc.Kind.brief
                      ∨ parent.kind = Javadoc.Kind.admonition ∨ parent.kind = Javadoc.Kind.code
                      ∨ parent.kind = Javadoc.Kind.returns ∨ parent.kind = Javadoc.Kind.param
                      ∨ parent.kind = Javadoc.Kind.tparam then
                    .ret (none, I,
                      { rd1 with
                        nodes_ :=
                          { P with
                            children :=
                              setBack P.children
                                (parent.setChildren (parent.children ++ J.children)) }
                            :: prev1 })
                  else .ret (some (makeError "wrong node kind"), I, rd1)
    | some .BI_JAVADOC_NODE_BLOCK_ID =>
      match rd.nodes_ with
      | _ :: _ => (readBlock K fuel ID .nodeList rd).bind fun r => .ret (r.1, I, r.2.2)
      | [] =>
        (readBlock K fuel ID .nodeList { rd with nodes_ := [⟨none, []⟩] }).bind fun r =>
          match r.2.2.nodes_ with
          | [] => .trap "nodes_"
          | J :: prev =>
            let rd1 := { r.2.2 with nodes_ := prev }
            match r.1 with
            | some err => .ret (some err, I, rd1)
            | none =>
              if J.children.length > 1 then
                .ret (some (makeError "too many items in list"), I, rd1)
              else
                match J.children.getLast? with
                | none => .ret (none, I, rd1)
                | some back =>
                  if back.kind = Javadoc.Kind.returns then
                    match rd1.javadoc_ with
                    | none => .trap "javadoc_->returns_"
                    | some D => .ret (none, I, { rd1 with javadoc_ := some { D with returns_ := back } })
                  else .ret (some (makeError "wrong kind in list"), I, rd1)
    | some .BI_TYPE_BLOCK_ID =>
        (readBlock K fuel ID (.typeInfo (TypeInfo.empty K)) rd).bind fun r =>
          match r with
          | (some Err, _, rd1) => .ret (some Err, I, rd1)
          | (none, child, rd1) =>
            match addTypeInfo I child with
            | (some Err, I1) => .ret (some Err, I1, rd1)
            | (none, I1) => .ret (none, I1, rd1)
    | some .BI_FIELD_TYPE_BLOCK_ID =>
        (readBlock K fuel ID (.fieldTypeInfo (FieldTypeInfo.empty K)) rd).bind fun r =>
          match r with
          | (some Err, _, rd1) => .ret (some Err, I, rd1)
          | (none, child, rd1) =>
            match addTypeInfo I child with
            | (some Err, I1) => .ret (some Err, I1, rd1)
            | (none, I1) => .ret (none, I1, rd1)
    | some .BI_MEMBER_TYPE_BLOCK_ID =>
        (readBlock K fuel ID (.memberTypeInfo (MemberTypeInfo.empty K)) rd).bind fun r =>
          match r with
          | (some Err, _, rd1) => .ret (some Err, I, rd1)
          | (none, child, rd1) =>
            match addTypeInfo I child with
            | (some Err, I1) => .ret (some Err, I1, rd1)
            | (none, I1) => .ret (none, I1, rd1)
    | some .BI_REFERENCE_BLOCK_ID =>
        (readBlock K fuel ID (.reference (Reference.empty K)) rd).bind fun r =>
          match r with
          | (some Err, _, rd1) => .ret (some Err, I, rd1)
          | (none, child, rd1) =>
            match child, rd1.CurrentReferenceField with
            | .reference R, some F =>
              match addReference I R F with
              | (some Err, I1) => .ret (some Err, I1, rd1)
              | (none, I1) => .ret (none, I1, rd1)
            | .reference _, none => .trap "CurrentReferenceField"
            | _, _ => .trap "Reference"
    | some .BI_BASE_RECORD_BLOCK_ID =>
        (readBlock K fuel ID (.baseRecordInfo (BaseRecordInfo.empty K)) rd).bind fun r =>
          match r with
          | (some Err, _, rd1) => .ret (some Err, I, rd1)
          | (none, child, rd1) =>
            (addChild I child).bind fun I1 => .ret (none, I1, rd1)
    | some .BI_ENUM_BLOCK_ID =>
        (readBlock K fuel ID (.enumInfo (EnumInfo.empty K)) rd).bind fun r =>
          match r with
          | (some Err, _, rd1) => .ret (some Err, I, rd1)
          | (none, child, rd1) =>
            (addChild I child).bind fun I1 => .ret (none, I1, rd1)
    | some .BI_ENUM_VALUE_BLOCK_ID =>
        (readBlock K fuel ID (.enumValueInfo EnumValueInfo.empty) rd).bind fun r =>
          match r with
          | (some Err, _, rd1) => .ret (some Err, I, rd1)
          | (none, child, rd1) =>
            (addChild I child).bind fun I1 => .ret (none, I1, rd1)
    | some .BI_TEMPLATE_BLOCK_ID =>
        (readBlock K fuel ID (.templateInfo TemplateInfo.empty) rd).bind fun r =>
          match r with
          | (some Err, _, rd1) => .ret (some Err, I, rd1)
          | (none, child, rd1) =>
            match child with
            | .templateInfo TI => (addTemplate I TI).bind fun I1 => .ret (none, I1, rd1)
            | _ => .trap "TemplateInfo"
    | some .BI_TEMPLATE_SPECIALIZATION_BLOCK_ID =>
        (readBlock K fuel ID (.templateSpecializationInfo (TemplateSpecializationInfo.empty K)) rd).bind fun r =>
          match r with
          | (some Err, _, rd1) => .ret (some Err, I, rd1)
          | (none, child, rd1) =>
            match child with
            | .templateSpecializationInfo TSI =>
                (addTemplateSpecialization I TSI).bind fun I1 => .ret (none, I1, rd1)
            | _ => .trap "TemplateSpecializationInfo"
    | some .BI_TEMPLATE_PARAM_BLOCK_ID =>
        (readBlock K fuel ID (.templateParamInfo TemplateParamInfo.empty) rd).bind fun r =>
          match r with
          | (some Err, _, rd1) => .ret (some Err, I, rd1)
          | (none, child, rd1) =>
            match child with
            | .templateParamInfo TPI =>
                (addTemplateParam I TPI).bind fun I1 => .ret (none, I1, rd1)
            | _ => .trap "TemplateParamInfo"
    | some .BI_TYPEDEF_BLOCK_ID =>
        (readBlock K fuel ID (.typedefInfo (TypedefInfo.empty K)) rd).bind fun r =>
          match r with
          | (some Err, _, rd1) => .ret (some Err, I, rd1)
          | (none, child, rd1) =>
            (addChild I child).bind fun I1 => .ret (none, I1, rd1)
    | _ => .ret (some (makeError "invalid subblock type"), I, rd)

end

/-- The bound the top-level functions give `readBlock`: twice the number of items left in
the stream, and four. -/
def readBlockFuel (rd : BitcodeReader) : Nat := 2 * rd.Stream.Items.length + 4

/-- The result of a reader function that returns `llvm::Expected<T>`. -/
abbrev Expected (α : Type) := Run (Except Error α × BitcodeReader)

/-- The template `createInfo<T>(unsigned ID)`; `I` is the object `std::make_unique<T>()`. -/
def createInfo (K : BitCodeConstants) (ID : Option BlockId) (I : Object)
    (rd : BitcodeReader) : Expected Object :=
  (readBlock K (readBlockFuel rd) ID I rd).bind fun r =>
    match r with
    | (some Err, _, rd1) => .ret (.error Err, rd1)
    | (none, I1, rd1) => .ret (.ok I1, rd1)

/-- `readBlockToInfo(unsigned ID)`. -/
def readBlockToInfo (K : BitCodeConstants) (ID : Option BlockId) (rd : BitcodeReader) :
    Expected Object :=
  match ID with
  | some .BI_NAMESPACE_BLOCK_ID => createInfo K ID (.namespaceInfo (NamespaceInfo.empty K)) rd
  | some .BI_RECORD_BLOCK_ID => createInfo K ID (.recordInfo (RecordInfo.empty K)) rd
  | some .BI_FUNCTION_BLOCK_ID => createInfo K ID (.functionInfo (FunctionInfo.empty K)) rd
  | some .BI_ENUM_BLOCK_ID => createInfo K ID (.enumInfo (EnumInfo.empty K)) rd
  | some .BI_TYPEDEF_BLOCK_ID => createInfo K ID (.typedefInfo (TypedefInfo.empty K)) rd
  | _ => .ret (.error (makeError "cannot create info"), rd)

/-- The loop of `validateStream` over the bytes of the signature that are still to be
compared. -/
def validateStream.loop (K : BitCodeConstants) :
    List (Fin 4) → BitstreamCursor → Option Error × BitstreamCursor
  | [], S => (none, S)
  | i :: rest, S =>
    match S.Read8 with
    | .error err => (some err, S)
    | .ok (MaybeRead, S1) =>
      if MaybeRead ≠ K.Signature i then (some (makeError "invalid bitcode signature"), S1)
      else validateStream.loop K rest S1

/-- `validateStream()`. -/
def validateStream (K : BitCodeConstants) (rd : BitcodeReader) :
    Option Error × BitcodeReader :=
  if rd.Stream.AtEndOfStream then (some (makeError "premature end of stream"), rd)
  else
    ((validateStream.loop K [0, 1, 2, 3] rd.Stream).1,
      { rd with Stream := (validateStream.loop K [0, 1, 2, 3] rd.Stream).2 })

/-- `readBlockInfoBlock()`. -/
def readBlockInfoBlock (rd : BitcodeReader) : Option Error × BitcodeReader :=
  match rd.Stream.ReadBlockInfoBlock with
  | .error err => (some err, rd)
  | .ok (valid, S) =>
    if valid then (none, { rd with Stream := S, BlockInfo := true })
    else (some (makeError "unable to parse BlockInfoBlock"), { rd with Stream := S, BlockInfo := false })

/-- How one turn of the loop of `getInfos` ends: with a `return` of the function, or with
`continue`. -/
inductive Turn where
  | done (result : Except Error (List Object)) (rd : BitcodeReader)
  | next (rd : BitcodeReader) (Infos : List Object)

/-- The body of the loop `while (!Stream.AtEndOfStream())` of `getInfos`: one top-level
block is read.  `Infos` is the list read so far.  A block with an id that the switch has no
case for is skipped; the error of a `SkipBlock` that fails is dropped, and the loop goes on
where that call has left the cursor. -/
def getInfos.body (K : BitCodeConstants) (rd : BitcodeReader) (Infos : List Object) :
    Run Turn :=
  match rd.Stream.ReadCode with
  | .error err => .ret (.done (.error err) rd)
  | .ok (MaybeCode, S1) =>
    if MaybeCode ≠ ENTER_SUBBLOCK then
      .ret (.done (.error (makeError "no blocks in input")) { rd with Stream := S1 })
    else
      match S1.ReadSubBlockID with
      | .error err => .ret (.done (.error err) { rd with Stream := S1 })
      | .ok (ID, S2) =>
        let rd2 : BitcodeReader := { rd with Stream := S2 }
        match ID with
        | some .BI_TYPE_BLOCK_ID | some .BI_FIELD_TYPE_BLOCK_ID
        | some .BI_MEMBER_TYPE_BLOCK_ID | some .BI_JAVADOC_BLOCK_ID
        | some .BI_JAVADOC_LIST_BLOCK_ID | some .BI_JAVADOC_NODE_BLOCK_ID
        | some .BI_REFERENCE_BLOCK_ID =>
            .ret (.done (.error (makeError "invalid top level block")) rd2)
        | some .BI_NAMESPACE_BLOCK_ID | some .BI_RECORD_BLOCK_ID
        | some .BI_FUNCTION_BLOCK_ID | some .BI_ENUM_BLOCK_ID
        | some .BI_TYPEDEF_BLOCK_ID =>
            (readBlockToInfo K ID rd2).bind fun InfoOrErr =>
              match InfoOrErr with
              | (.error err, rd3) => .ret (.done (.error err) rd3)
              | (.ok I, rd3) => .ret (.next rd3 (Infos ++ [I]))
        | some .BI_VERSION_BLOCK_ID =>
            (readBlock K (readBlockFuel rd2) ID (.versionNo K.VersionNumber) rd2).bind
              fun r =>
                match r with
                | (some Err, _, rd3) => .ret (.done (.error Err) rd3)
                | (none, _, rd3) => .ret (.next rd3 Infos)
        | some .BLOCKINFO_BLOCK_ID =>
            match readBlockInfoBlock rd2 with
            | (some Err, rd3) => .ret (.done (.error Err) rd3)
            | (none, rd3) => .ret (.next rd3 Infos)
        | _ =>
            match S2.SkipBlock with
            | .error (_, S3) => .ret (.next { rd2 with Stream := S3 } Infos)
            | .ok S3 => .ret (.next { rd2 with Stream := S3 } Infos)

/-- The loop `while (!Stream.AtEndOfStream())` of `getInfos`.  The first argument bounds the
number of turns. -/
def getInfos.loop (K : BitCodeConstants) :
    Nat → BitcodeReader → List Object → Expected (List Object)
  | 0, _, _ => .fuel
  | fuel + 1, rd, Infos =>
    if rd.Stream.AtEndOfStream then .ret (.ok Infos, rd)
    else
      (getInfos.body K rd Infos).bind fun t =>
        match t with
        | .done result rd1 => .ret (result, rd1)
        | .next rd1 Infos1 => getInfos.loop K fuel rd1 Infos1

/-- The state at the head of the loop of `getInfos` after `k` turns that all ended with
`continue`, starting at the head of the loop with `rd` and `Infos`. -/
def getInfos.reach (K : BitCodeConstants) :
    Nat → BitcodeReader → List Object → Option (BitcodeReader × List Object)
  | 0, rd, Infos => some (rd, Infos)
  | k + 1, rd, Infos =>
    if rd.Stream.AtEndOfStream then none
    else
      match getInfos.body K rd Infos with
      | .ret (.next rd1 Infos1) => getInfos.reach K k rd1 Infos1
      | _ => none

/-- `getInfos()`: validates the stream and reads its top-level blocks.  The loop gets one
turn for every item of the stream, and one more. -/
def getInfos (K : BitCodeConstants) (rd : BitcodeReader) : Expected (List Object) :=
  match validateStream K rd with
  | (some Err, rd1) => .ret (.error Err, rd1)
  | (none, rd1) => getInfos.loop K (rd1.Stream.Items.length + 1) rd1 []

/-- `readBitcode(Stream, R)`: a reader is made for the stream and `getInfos` is called. -/
def readBitcode (K : BitCodeConstants) (Stream : BitstreamCursor) : Expected (List Object) :=
  getInfos K (BitcodeReader.init Stream)

/-! ## Streams for the examples -/

/-- The values the constants have in the declarations the reader was written against: the
signature `DOCS`, schema version 3, identifiers of 20 bytes, and enumerators numbered from 0
in the order of their declaration. -/
def BitCodeConstants.upstream : BitCodeConstants where
  Signature := fun i => [68, 79, 67, 83].getD i.val 0
  VersionNumber := 3
  USRHashSize := 20
  infoType := fun e =>
    match e with
    | .IT_default => 0
    | .IT_namespace => 1
    | .IT_record => 2
    | .IT_function => 3
    | .IT_enum => 4
    | .IT_typedef => 5
  fieldId := fun e =>
    match e with
    | .F_default => 0
    | .F_namespace => 1
    | .F_parent => 2
    | .F_vparent => 3
    | .F_type => 4
    | .F_child_namespace => 5
    | .F_child_record => 6
    | .F_child_function => 7
  infoType_range := by intro e; cases e <;> decide
  fieldId_range := by intro e; cases e <;> decide
  infoType_inj := by intro a b h; cases a <;> cases b <;> first | rfl | (exact absurd h (by decide))
  fieldId_inj := by intro a b h; cases a <;> cases b <;> first | rfl | (exact absurd h (by decide))

/-- The items of a well-formed block: the `ENTER_SUBBLOCK` code, the block id, the length of
the body with its `END_BLOCK`, the body, and `END_BLOCK`. -/
def block (ID : Option BlockId) (body : List Item) : List Item :=
  [.code ENTER_SUBBLOCK, .blockID ID, .blockLen (body.length + 1)] ++ body ++ [.code END_BLOCK]

/-- The items of an abbreviated record: the code of an abbreviation and the record. -/
def record (Code : RecordId) (Vals : Record) (Blob : Blob) : List Item :=
  [.code FIRST_APPLICATION_ABBREV, .record (some Code) Vals Blob]

/-- The cursor at the start of a stream with the given head bytes and items. -/
def streamOf (Lead : List Nat) (Items : List Item) : BitstreamCursor := ⟨Lead, Items, 0⟩

/-- The four bytes of the signature. -/
def signature (K : BitCodeConstants) : List Nat := [K.Signature 0, K.Signature 1, K.Signature 2, K.Signature 3]

/-- The reader `rd1` a call returned is not behind the reader `rd` it was given, and is
ahead of it when the call did not fail. -/
abbrev Advanced (rd rd1 : BitcodeReader) (e : Option Error) : Prop :=
  rd1.Stream.Items.length ≤ rd.Stream.Items.length ∧
    (e = none → rd1.Stream.Items.length < rd.Stream.Items.length)

/-- The block ids that `getInfos` has no case for. -/
def unhandledAtTopLevel (ID : Option BlockId) : Prop :=
  ID = none ∨ ID = some .BI_BASE_RECORD_BLOCK_ID ∨ ID = some .BI_ENUM_VALUE_BLOCK_ID ∨
    ID = some .BI_TEMPLATE_BLOCK_ID ∨ ID = some .BI_TEMPLATE_SPECIALIZATION_BLOCK_ID ∨
    ID = some .BI_TEMPLATE_PARAM_BLOCK_ID

/-- The reader with the cursor moved to the items `Items`. -/
def BitcodeReader.seek (rd : BitcodeReader) (Items : List Item) : BitcodeReader :=
  { rd with Stream := { rd.Stream with Items := Items } }

/-- The pairs of an owner and a relation kind that the reference slots are declared for. -/
def referenceSlotDeclared (I : Object) (F : FieldId) : Bool :=
  match I, F with
  | .typeInfo _, .F_type => true
  | .fieldTypeInfo _, .F_type => true
  | .memberTypeInfo _, .F_type => true
  | .enumInfo _, .F_namespace => true
  | .typedefInfo _, .F_namespace => true
  | .namespaceInfo _, .F_namespace => true
  | .namespaceInfo _, .F_child_namespace => true
  | .namespaceInfo _, .F_child_record => true
  | .namespaceInfo _, .F_child_function => true
  | .functionInfo _, .F_namespace => true
  | .functionInfo _, .F_parent => true
  | .recordInfo _, .F_namespace => true
  | .recordInfo _, .F_parent => true
  | .recordInfo _, .F_vparent => true
  | .recordInfo _, .F_child_record => true
  | .recordInfo _, .F_child_function => true
  | _, _ => false

/-- The pairs of an owner and a child block that `addChild`, `addTemplate`,
`addTemplateSpecialization` and `addTemplateParam` have a specialization for. -/
def attachDeclared (I : Object) (ID : BlockId) : Bool :=
  match I, ID with
  | .namespaceInfo _, .BI_ENUM_BLOCK_ID => true
  | .namespaceInfo _, .BI_TYPEDEF_BLOCK_ID => true
  | .recordInfo _, .BI_ENUM_BLOCK_ID => true
  | .recordInfo _, .BI_TYPEDEF_BLOCK_ID => true
  | .enumInfo _, .BI_ENUM_VALUE_BLOCK_ID => true
  | .recordInfo _, .BI_BASE_RECORD_BLOCK_ID => true
  | .templateInfo _, .BI_TEMPLATE_PARAM_BLOCK_ID => true
  | .templateSpecializationInfo _, .BI_TEMPLATE_PARAM_BLOCK_ID => true
  | .recordInfo _, .BI_TEMPLATE_BLOCK_ID => true
  | .functionInfo _, .BI_TEMPLATE_BLOCK_ID => true
  | .templateInfo _, .BI_TEMPLATE_SPECIALIZATION_BLOCK_ID => true
  | _, _ => false

/-- The reader `rd1` a call returned has the frames of the node-list stack that the reader
`rd` it was given has: as many of them, and below the innermost one the same. -/
abbrev SameStack (rd rd1 : BitcodeReader) : Prop :=
  rd1.nodes_.length = rd.nodes_.length ∧ rd1.nodes_.tail = rd.nodes_.tail

/-- The node is of a class derived from `Javadoc::Block`: its kind is paragraph, brief,
admonition or code. -/
def Javadoc.Node.isBlock (n : Javadoc.Node) : Bool :=
  decide (n.kind = Javadoc.Kind.paragraph ∨ n.kind = Javadoc.Kind.brief ∨
    n.kind = Javadoc.Kind.admonition ∨ n.kind = Javadoc.Kind.code)

/-- The node is of class `Javadoc::Text` or of the class derived from it: its kind is text
or styled. -/
def Javadoc.Node.isText (n : Javadoc.Node) : Bool :=
  decide (n.kind = Javadoc.Kind.text ∨ n.kind = Javadoc.Kind.styled)

/-- The tree holds what the types of its members say (`List<Block> blocks_`,
`List<Param> params_`, `List<TParam> tparams_`, `Returns returns_`, and
`List<Text> children` in `Paragraph`): blocks in `blocks_`, nodes of kind param in
`params_`, of kind tparam in `tparams_`, a node of kind returns in `returns_`, and text
nodes as the children of each of these. -/
def Javadoc.wellTyped (D : Javadoc) : Bool :=
  D.blocks_.all (fun n => n.isBlock && n.children.all Javadoc.Node.isText) &&
  D.params_.all (fun n => decide (n.kind = Javadoc.Kind.param) &&
    n.children.all Javadoc.Node.isText) &&
  D.tparams_.all (fun n => decide (n.kind = Javadoc.Kind.tparam) &&
    n.children.all Javadoc.Node.isText) &&
  decide (D.returns_.kind = Javadoc.Kind.returns) &&
  D.returns_.children.all Javadoc.Node.isText

/-- The outcome `y` of a call with a larger bound, against the outcome `x` with a smaller
one: the smaller bound was used up, or the outcomes are the same. -/
def Run.le {α : Type} (x y : Run α) : Prop := x = .fuel ∨ x = y

/-- The state of the loop of `readBlock` after `k` turns that all ended with `continue`
(a record that was read, or a sub-block that was read and attached, without error),
starting with the object `I` and the reader `rd`.  The first argument is the bound given to
the calls of each turn. -/
def readBlockLoop.reach (K : BitCodeConstants) (n : Nat) :
    Nat → Object → BitcodeReader → Option (Object × BitcodeReader)
  | 0, I, rd => some (I, rd)
  | k + 1, I, rd =>
    match skipUntilRecordOrBlock n rd.Stream with
    | .ret (.BlockBegin BlockOrCode, S) =>
      match readSubBlock K n BlockOrCode I { rd with Stream := S } with
      | .ret (none, I1, rd1) => readBlockLoop.reach K n k I1 rd1
      | _ => none
    | .ret (.Record BlockOrCode, S) =>
      match readRecord K BlockOrCode I { rd with Stream := S } with
      | .ret (none, I1, rd1) => readBlockLoop.reach K n k I1 rd1
      | _ => none
    | _ => none

/-- What `readBlock` returns when `readSubBlock` has failed with `Err`, leaving the object
`I1` and the reader `rd1`: `SkipBlock` is called, and its error, if it fails too, is joined
to `Err`. -/
def afterFailedSubBlock (Err : Error) (I1 : Object) (rd1 : BitcodeReader) :
    Option Error × Object × BitcodeReader :=
  match rd1.Stream.SkipBlock with
  | .error (Skipped, S1) => (some (joinErrors Err Skipped), I1, { rd1 with Stream := S1 })
  | .ok S1 => (some Err, I1, { rd1 with Stream := S1 })

/-- The object `createInfo<T>` makes for a block id that `readBlockToInfo` has a case for. -/
def newInfo (K : BitCodeConstants) : Option BlockId → Option Object
  | some .BI_NAMESPACE_BLOCK_ID => some (.namespaceInfo (NamespaceInfo.empty K))
  | some .BI_RECORD_BLOCK_ID => some (.recordInfo (RecordInfo.empty K))
  | some .BI_FUNCTION_BLOCK_ID => some (.functionInfo (FunctionInfo.empty K))
  | some .BI_ENUM_BLOCK_ID => some (.enumInfo (EnumInfo.empty K))
  | some .BI_TYPEDEF_BLOCK_ID => some (.typedefInfo (TypedefInfo.empty K))
  | _ => none

/-- The pairs of an owner and a type object that `addTypeInfo` has a specialization for. -/
def typeSlotDeclared (I TI : Object) : Bool :=
  match I, TI with
  | .recordInfo _, .memberTypeInfo _ => true
  | .baseRecordInfo _, .memberTypeInfo _ => true
  | .functionInfo _, .typeInfo _ => true
  | .functionInfo _, .fieldTypeInfo _ => true
  | .enumInfo _, .typeInfo _ => true
  | .typedefInfo _, .typeInfo _ => true
  | _, _ => false

/-! ## The brief of a documentation tree -/

/-- Modelled from the spec: `Javadoc::calculateBrief()`, which `Javadoc.hpp` declares and
whose definition is not among the sources.  "The brief is the first top-level Block tagged
Brief, else the first top-level Block of any kind, else absent." -/
def Javadoc.calculateBrief (D : Javadoc) : Javadoc :=
  { D with
    brief_ :=
      match D.blocks_.find? (fun n => decide (n.kind = Javadoc.Kind.brief)) with
      | some b => some b
      | none => D.blocks_.head? }

/-- `Javadoc::getBrief()`: the brief, or null. -/
def Javadoc.getBrief (D : Javadoc) : Option Javadoc.Node := D.brief_

/-! ## Merging the partial entities of an identifier -/

/-- The `Info` part of an entity; the other objects have none. -/
def Object.info? : Object → Option Info
  | .namespaceInfo I => some I.toInfo
  | .recordInfo I => some I.toInfo
  | .functionInfo I => some I.toInfo
  | .enumInfo I => some I.toInfo
  | .typedefInfo I => some I.toInfo
  | _ => none

/-- Modelled from the spec: the error kind `ConflictingEntityKind`, which the sources do not
declare. -/
def ConflictingEntityKind : Error := makeError "ConflictingEntityKind"

/-- Modelled from the spec: `mergeInfos(Values)`, which `Representation.h` declares ("This
assumes that all infos in the vector are of the same type, and will fail if they are
different") and whose definition is not among the sources.  "All members must share the same
entity-kind tag; a mismatch is `ConflictingEntityKind`."  The members are folded with the
`merge` of their type, from the first member on; the `merge` functions are declared in the
headers and defined outside the sources, so `merge` is a parameter.  A group is never empty
in the spec; here an empty vector is an error. -/
def mergeInfos (merge : Object → Object → Object) (Values : List Object) :
    Except Error Object :=
  match Values with
  | [] => .error (makeError "no info values to merge")
  | V :: rest =>
    if rest.all (fun W => decide ((W.info?.map fun I => I.IT) = (V.info?.map fun I => I.IT)))
    then .ok (rest.foldl merge V)
    else .error ConflictingEntityKind

/-- Modelled from the spec: one run of the merge; the code that groups the entities and
calls `mergeInfos` is not among the sources.  "Group all partial entities across all
units by identifier.  For each group: all members must share the same entity-kind tag; a
mismatch is `ConflictingEntityKind`, fatal for that identifier only (not for the whole
corpus)."  The result has, for each identifier among the entities, the outcome of
`mergeInfos` on its group. -/
def mergeRun (merge : Object → Object → Object) (Values : List Object) :
    List (SymbolID × Except Error Object) :=
  ((Values.filterMap fun V => V.info?.map fun I => I.USR).dedup).map fun id =>
    (id, mergeInfos merge
      (Values.filter fun V => decide ((V.info?.map fun I => I.USR) = some id)))

/-! ## The generators -/

/-- `AsciidocGenerator::Writer::writeTypeName(TypeName const& t, raw_ostream& os)`, with
`t.I` for `t`.  Everything is written to the member `os_`, which is the argument and the
result here; the parameter `os` is not used.  `find` is `corpus_.find<RecordInfo>`, a
function of the class `Corpus` whose declaration is not among the sources. -/
def AsciidocGenerator.writeTypeName (K : BitCodeConstants)
    (find : SymbolID → Option RecordInfo) (t : TypeInfo) (os_ : String) : String :=
  if t.Type_.USR = EmptySID K then os_ ++ t.Type_.Name
  else
    match find t.Type_.USR with
    | some p => os_ ++ p.Path ++ "::" ++ p.Name
    | none => os_ ++ t.Type_.Path ++ "::" ++ t.Type_.Name

/-- An attribute of an XML tag, `Attr`: it is written when `pred` holds. -/
structure XMLGenerator.Attr where
  name : String
  value : String
  pred : Bool
deriving DecidableEq, Repr

/-- What the XML writer uses and the sources do not define: `corpus_.exists`, `escape`,
the conversions of an access specifier and of an identifier to an attribute, and the text
`indent()` writes. -/
structure XMLGenerator.Env where
  corpusExists : SymbolID → Bool
  escape : String → String
  accessAttr : AccessSpecifier → XMLGenerator.Attr
  idAttr : SymbolID → XMLGenerator.Attr
  indentString_ : String

/-- `XMLGenerator::Writer::writeAttrs(Attrs attrs)`. -/
def XMLGenerator.writeAttrs (env : XMLGenerator.Env) (attrs : List XMLGenerator.Attr)
    (os : String) : String :=
  attrs.foldl
    (fun os attr =>
      if attr.pred then os ++ " " ++ attr.name ++ "=" ++ "\"" ++ env.escape attr.value ++ "\""
      else os)
    os

/-- `XMLGenerator::Writer::writeTag(StringRef tag, Attrs attrs)`. -/
def XMLGenerator.writeTag (env : XMLGenerator.Env) (tag : String)
    (attrs : List XMLGenerator.Attr) (os : String) : String :=
  XMLGenerator.writeAttrs env attrs (os ++ env.indentString_ ++ "<" ++ tag) ++ "/>\n"

/-- `XMLGenerator::Writer::writeBaseRecord(BaseRecordInfo const& I)`. -/
def XMLGenerator.writeBaseRecord (env : XMLGenerator.Env) (I : BaseRecordInfo)
    (os : String) : String :=
  let os1 := XMLGenerator.writeTag env "base"
    [⟨"name", I.Name, true⟩, env.accessAttr I.Access, ⟨"modifier", "virtual", I.IsVirtual⟩,
      env.idAttr I.USR] os
  if !env.corpusExists I.USR then os1
  else os1

/-! ## The index -/

/-- An entry of the index, `struct Index : Reference`, with its children.  `Name` is given
by its bytes, each the value of the `char` read as unsigned. -/
inductive Index where
  | mk (USR : SymbolID) (Name : List Nat) (RefType : InfoType) (Path : String)
      (JumpToSection : Option String) (Children : List Index)

namespace Index

def USR : Index → SymbolID
  | .mk u _ _ _ _ _ => u

def Name : Index → List Nat
  | .mk _ n _ _ _ _ => n

def Children : Index → List Index
  | .mk _ _ _ _ _ c => c

end Index

/-- The value of a `char` that holds the byte `b`, converted to `int`: the byte where `char`
is unsigned, its two's complement value where `char` is signed. -/
def charToInt (signedChar : Bool) (b : Nat) : Int :=
  if signedChar && decide (128 ≤ b) then (b : Int) - 256 else (b : Int)

/-- One `tolower` for the examples, that of the GNU C library in the "C" locale: an upper-case
letter becomes the lower-case letter, a negative value from -128 to -2 becomes the value of
the same byte read as unsigned, and any other value is returned as it is.  The function
belongs to the C library and not to the program; `Index::operator<` takes it as a
parameter below. -/
def gnuTolower (c : Int) : Int :=
  if 65 ≤ c ∧ c ≤ 90 then c + 32
  else if -128 ≤ c ∧ c ≤ -2 then c + 256
  else c

/-- `StringRef::compare`, which `Name > Other.Name` is decided by: the sign of the first
difference of the bytes, read as unsigned, and of the lengths when one is a prefix of the
other. -/
def StringRef.compare : List Nat → List Nat → Int
  | [], [] => 0
  | [], _ :: _ => -1
  | _ :: _, [] => 1
  | x :: xs, y :: ys => if x < y then -1 else if y < x then 1 else StringRef.compare xs ys

/-- The loop of `Index::operator<` over the characters at the positions both names have:
the value returned at the first position with `D != 0`, or `none` when the loop ends.
`tolower` is the function of the C library that the loop calls; the values it returns are
those of an `unsigned char` or its argument, so `D` is their difference as a number. -/
def Index.lt.loop (signedChar : Bool) (tolower : Int → Int) :
    List Nat → List Nat → Option Bool
  | x :: xs, y :: ys =>
    let D := tolower (charToInt signedChar x) - tolower (charToInt signedChar y)
    if D = 0 then Index.lt.loop signedChar tolower xs ys
    else some (decide (D < 0))
  | _, _ => none

/-- `Index::operator<(Index const& Other)`. -/
def Index.lt (signedChar : Bool) (tolower : Int → Int) (a Other : Index) : Bool :=
  match Index.lt.loop signedChar tolower a.Name Other.Name with
  | some r => r
  | none =>
    if a.Name.length = Other.Name.length then decide (StringRef.compare a.Name Other.Name > 0)
    else decide (a.Name.length < Other.Name.length)

/-- The class of the object a reader function works on, as a number: the index of the
constructor. -/
def Object.tag : Object → Nat
  | .versionNo _ => 0
  | .namespaceInfo _ => 1
  | .recordInfo _ => 2
  | .baseRecordInfo _ => 3
  | .functionInfo _ => 4
  | .enumInfo _ => 5
  | .enumValueInfo _ => 6
  | .typedefInfo _ => 7
  | .typeInfo _ => 8
  | .fieldTypeInfo _ => 9
  | .memberTypeInfo _ => 10
  | .reference _ => 11
  | .templateInfo _ => 12
  | .templateSpecializationInfo _ => 13
  | .templateParamInfo _ => 14
  | .javadoc => 15
  | .currentNodeList => 16
  | .nodeList => 17

/-- The block id is one of the five that `readBlockToInfo` makes an entity for. -/
def entityBlock (ID : Option BlockId) : Bool :=
  match ID with
  | some .BI_NAMESPACE_BLOCK_ID | some .BI_RECORD_BLOCK_ID | some .BI_FUNCTION_BLOCK_ID
  | some .BI_ENUM_BLOCK_ID | some .BI_TYPEDEF_BLOCK_ID => true
  | _ => false

/-- The entity `I` is of the class that `readBlockToInfo` makes for the block id `ID`:
`NamespaceInfo` for a namespace block, `RecordInfo` for a record block, `FunctionInfo` for a
function block, `EnumInfo` for an enum block, `TypedefInfo` for a typedef block. -/
def classOfBlock (I : Object) (ID : Option BlockId) : Prop :=
  match I, ID with
  | .namespaceInfo _, some .BI_NAMESPACE_BLOCK_ID => True
  | .recordInfo _, some .BI_RECORD_BLOCK_ID => True
  | .functionInfo _, some .BI_FUNCTION_BLOCK_ID => True
  | .enumInfo _, some .BI_ENUM_BLOCK_ID => True
  | .typedefInfo _, some .BI_TYPEDEF_BLOCK_ID => True
  | _, _ => False

/-! ## The Asciidoc writer -/

/-- `AsciidocGenerator::Writer::writeLocation(SymbolInfo const& I)`: `loc` is the definition
location when there is one, else the first declaration location when there is one, else
the null pointer it was initialised with; `loc->Filename` is then written twice to `os_`. -/
def AsciidocGenerator.writeLocation (I : SymbolInfo) (os_ : String) : Run String :=
  let loc : Option Location :=
    if I.DefLoc.isSome then I.DefLoc
    else if !I.Loc.isEmpty then I.Loc[0]?
    else none
  match loc with
  | none => .trap "loc->Filename"
  | some loc =>
    .ret (os_ ++ "\n#include <file:///" ++ loc.Filename ++ "[" ++ loc.Filename ++ "]" ++ ">\n")

/-- `AsciidocGenerator::Writer::getLocation(SymbolInfo const& I)`; `missing` is the object
`static Location const missing{}`, made by the default constructor of `Location`, whose
declaration is not among the sources. -/
def AsciidocGenerator.getLocation (missing : Location) (I : SymbolInfo) : Location :=
  match I.DefLoc with
  | some loc => loc
  | none =>
    match I.Loc with
    | loc :: _ => loc
    | [] => missing

/-- The section state of the Asciidoc writer, `sect_`: the nesting level and the heading
markup.  The declaration of the type is not among the sources; `level` is taken as an
integer without a bound and `markup` as the string its uses show it to be. -/
structure AsciidocGenerator.Section where
  level : Int
  markup : String
deriving DecidableEq, Repr

/-- The members of `AsciidocGenerator::Writer` that the section functions use. -/
structure AsciidocGenerator.Writer where
  sect_ : AsciidocGenerator.Section
  os_ : String
deriving DecidableEq, Repr

/-- The section state of a new writer: level 0 and no markup. -/
def AsciidocGenerator.Section.initial : AsciidocGenerator.Section := ⟨0, ""⟩

/-- `std::string::pop_back()`: the string without its last character. -/
def popBack (s : String) : String := ⟨s.data.dropLast⟩

/-- `AsciidocGenerator::Writer::openTitle(StringRef name)`. -/
def AsciidocGenerator.Writer.openTitle (w : AsciidocGenerator.Writer) (name : String) :
    Run AsciidocGenerator.Writer :=
  if w.sect_.level ≠ 0 then .trap "assert(sect_.level == 0)"
  else
    let level := w.sect_.level + 1
    let markup := if level ≤ 6 then w.sect_.markup.push '=' else w.sect_.markup
    .ret ⟨⟨level, markup⟩, w.os_ ++ markup ++ " " ++ name ++ "\n"⟩

/-- `AsciidocGenerator::Writer::openSection(StringRef name)`. -/
def AsciidocGenerator.Writer.openSection (w : AsciidocGenerator.Writer) (name : String) :
    AsciidocGenerator.Writer :=
  let level := w.sect_.level + 1
  let markup := if level ≤ 6 then w.sect_.markup.push '=' else w.sect_.markup
  ⟨⟨level, markup⟩, w.os_ ++ "\n" ++ markup ++ " " ++ name ++ "\n"⟩

/-- `AsciidocGenerator::Writer::closeSection()`; `pop_back` on an empty string is outside
what the library defines. -/
def AsciidocGenerator.Writer.closeSection (w : AsciidocGenerator.Writer) :
    Run AsciidocGenerator.Writer :=
  if ¬ (w.sect_.level > 0) then .trap "assert(sect_.level > 0)"
  else if w.sect_.level ≤ 6 then
    if w.sect_.markup.length = 0 then .trap "sect_.markup.pop_back()"
    else .ret { w with sect_ := ⟨w.sect_.level - 1, popBack w.sect_.markup⟩ }
  else .ret { w with sect_ := ⟨w.sect_.level - 1, w.sect_.markup⟩ }

/-- The invariant of the section state: the markup is a run of `=`, as many as the level,
and six from level 6 on. -/
def AsciidocGenerator.Section.inv (s : AsciidocGenerator.Section) : Prop :=
  (s.markup.length : Int) = min s.level 6 ∧ ∀ c ∈ s.markup.data, c = '='

/-! ## The order and the sorting of the index -/

/-- The order of two sequences of integers by their first difference, a sequence coming
before the sequences it is a proper prefix of. -/
def lexLt : List Int → List Int → Bool
  | [], [] => false
  | [], _ :: _ => true
  | _ :: _, [] => false
  | x :: xs, y :: ys => decide (x < y) || (decide (x = y) && lexLt xs ys)

/-- The name of an index entry as `Index::operator<` reads it in its loop: each character
converted with `tolower`. -/
def Index.lowered (signedChar : Bool) (tolower : Int → Int) (a : Index) : List Int :=
  a.Name.map fun c => tolower (charToInt signedChar c)

/-- `llvm::sort(Children)`, a function of the library: it rearranges the elements of the
vector.  That the result is a rearrangement is what lets `Index::sort` go on with the
children it finds after the call. -/
structure LlvmSort where
  run : List Index → List Index
  perm : ∀ l, (run l).Perm l

/-- `Index::sort()`: the children are sorted with `llvm::sort`, and `sort` is called on each
of them. -/
def Index.sort (F : LlvmSort) : Index → Index
  | .mk usr name refType path jump children =>
    .mk usr name refType path jump ((F.run children).attach.map fun C => Index.sort F C.1)
termination_by a => sizeOf a
decreasing_by
  have hlt := List.sizeOf_lt_of_mem ((F.perm _).mem_iff.mp C.2)
  simp only [Index.mk.sizeOf_spec]
  omega

mutual

/-- The entry and all the entries below it, the entry first. -/
def Index.nodes : Index → List Index
  | .mk usr name refType path jump children =>
    .mk usr name refType path jump children :: Index.nodesOf children

/-- The entries of a list of trees. -/
def Index.nodesOf : List Index → List Index
  | [] => []
  | a :: l => a.nodes ++ Index.nodesOf l

end

/-- What an entry holds itself, apart from its children: the members of `Reference` and
`JumpToSection`. -/
def Index.entry : Index → SymbolID × List Nat × InfoType × String × Option String
  | .mk usr name refType path jump _ => (usr, name, refType, path, jump)

/-- The list is in order for `Index::operator<`: no element is less than an element before
it. -/
def Index.sorted (signedChar : Bool) (tolower : Int → Int) (l : List Index) : Prop :=
  l.Pairwise fun x y => Index.lt signedChar tolower y x = false

/-- Sorting by insertion with `Index::operator<`, one function with the contract of
`llvm::sort`; it is used for the examples. -/
def Index.insertionSort (signedChar : Bool) (tolower : Int → Int) : List Index → List Index :=
  List.insertionSort fun x y => Index.lt signedChar tolower y x = false

/-- Sorting by insertion as the sort of `Index::sort`: the result is a rearrangement. -/
def Index.insertionSortFn (signedChar : Bool) (tolower : Int → Int) : LlvmSort :=
  ⟨Index.insertionSort signedChar tolower, fun l => List.perm_insertionSort _ l⟩

/-- An index for the examples: an entry with the children `b` and `a`, the first of them
with the children `d` and `c`. -/
def Index.sample : Index :=
  .mk [] [] .IT_default "" none
    [.mk [] [98] .IT_default "" none
        [.mk [] [100] .IT_default "" none [], .mk [] [99] .IT_default "" none []],
      .mk [] [97] .IT_default "" none []]

/-! ## What the reader leaves as it was -/

/-- The path of a function, enum or typedef; the other objects have `none` here. -/
def Object.fixedPath : Object → Option String
  | .functionInfo I => some I.Path
  | .enumInfo I => some I.Path
  | .typedefInfo I => some I.Path
  | _ => none

/-- The reader `rd1` a call returned has the documentation pointer of the reader `rd` it
was given: null if that was null and set if that was set; and when a node-list frame was
open at the call, the tree it points to is unchanged. -/
abbrev SameDoc (rd rd1 : BitcodeReader) : Prop :=
  rd1.javadoc_.isSome = rd.javadoc_.isSome ∧ (rd.nodes_ ≠ [] → rd1.javadoc_ = rd.javadoc_)

/-! ## Reference blocks -/

/-- The relation kind the relation-kind records among the items leave behind, the last of
them that decodes having the last word; `F` when there is none. -/
def lastReferenceField (K : BitCodeConstants) : List Item → Option FieldId → Option FieldId
  | [], F => F
  | .record (some .REFERENCE_FIELD) R Blob :: rest, F =>
    match decodeRecordFieldId K R (F.getD .F_default) Blob with
    | .ret (none, v) => lastReferenceField K rest (some v)
    | _ => lastReferenceField K rest F
  | _ :: rest, F => lastReferenceField K rest F

/-! ## The top-level blocks of a stream -/

/-- The items behind the end of the block that the items are in, read off the codes alone:
`depth` blocks are open where the items start, an `ENTER_SUBBLOCK` code opens one more, an
`END_BLOCK` code closes one, and every other item is stepped over; `none` when the stream
ends with a block open. -/
def afterBlockEnd : List Item → Nat → Option (List Item)
  | l, 0 => some l
  | [], _ + 1 => none
  | .code c :: l, depth + 1 =>
    if c = END_BLOCK then afterBlockEnd l depth
    else if c = ENTER_SUBBLOCK then afterBlockEnd l (depth + 2)
    else afterBlockEnd l (depth + 1)
  | _ :: l, depth + 1 => afterBlockEnd l (depth + 1)

/-- The items behind a top-level block, given its id and the items `rest` behind the id.  A
block-info block is one item.  A block with an id that `getInfos` has a `case` for reaches to
the `END_BLOCK` that closes it.  A block with any other id is as long as its header says;
when the header says more than the stream holds, or is missing, the block ends where the
cursor is left by the `SkipBlock` that fails on it: behind the header. -/
def behindBlock (ID : Option BlockId) (rest : List Item) : List Item :=
  match ID with
  | some .BLOCKINFO_BLOCK_ID =>
    match rest with
    | .blockInfo _ :: r => r
    | _ => []
  | none | some .BI_BASE_RECORD_BLOCK_ID | some .BI_ENUM_VALUE_BLOCK_ID
  | some .BI_TEMPLATE_BLOCK_ID | some .BI_TEMPLATE_SPECIALIZATION_BLOCK_ID
  | some .BI_TEMPLATE_PARAM_BLOCK_ID =>
    match rest with
    | .blockLen NumWords :: r => if NumWords ≤ r.length then r.drop NumWords else r
    | _ => rest
  | _ =>
    match rest with
    | .blockLen _ :: r => (afterBlockEnd r 1).getD []
    | _ => []

/-- The ids of the top-level blocks of a stream of items, in the order of the stream: each
block starts with the `ENTER_SUBBLOCK` code and its id, and the next one starts behind it.
The first argument bounds the number of blocks. -/
def topLevelBlocks.go : Nat → List Item → List (Option BlockId)
  | fuel + 1, .code c :: .blockID ID :: rest =>
    if c = ENTER_SUBBLOCK then ID :: topLevelBlocks.go fuel (behindBlock ID rest) else []
  | _, _ => []

/-- The ids of the top-level blocks of a stream of items, in the order of the stream. -/
def topLevelBlocks (Items : List Item) : List (Option BlockId) :=
  topLevelBlocks.go Items.length Items

/-- What the call `f` has read from the reader `rd`, returning the object `I1` and the reader
`rd1` without error, decides that result: it has read at least one item, and it returns
the same, with the cursor behind what it has read, from every stream that starts with the
items it has read. -/
def Framed (f : BitcodeReader → Step) (rd : BitcodeReader) (I1 : Object)
    (rd1 : BitcodeReader) : Prop :=
  ∃ used, used ≠ [] ∧ rd.Stream.Items = used ++ rd1.Stream.Items ∧
    ∀ z, f (rd.seek (used ++ z)) = .ret (none, I1, rd1.seek z)

/-- The cursor as `SkipBlock` leaves it, whether it fails or not. -/
def BitstreamCursor.afterSkipBlock (S : BitstreamCursor) : BitstreamCursor :=
  match S.SkipBlock with
  | .error (_, S3) => S3
  | .ok S3 => S3

/-- The object is a reference or a list of documentation nodes: the objects that a reference
block, and a block inside one, is read into when it is read without error. -/
def Object.inReference : Object → Bool
  | .reference _ | .currentNodeList | .nodeList => true
  | _ => false

/-! ## Theorems -/

/-- The conversion to `int` keeps a value below `2 ^ 31`. -/
theorem toInt32_of_lt {v : Nat} (h : v < 2 ^ 31) : toInt32 v = (v : Int) := by
  unfold toInt32
  have h1 : v % 2 ^ 32 = v := Nat.mod_eq_of_lt (by omega)
  rw [h1, if_pos h]

/-- The conversion to `int` forgets a multiple of `2 ^ 32`. -/
theorem toInt32_add_pow (v : Nat) : toInt32 (2 ^ 32 + v) = toInt32 v := by
  unfold toInt32
  have h1 : (2 ^ 32 + v) % 2 ^ 32 = v % 2 ^ 32 := by omega
  rw [h1]

/-- The access-specifier decoder accepts exactly the four declared values. -/
theorem decodeRecordAccessSpecifier_spec (r0 : Nat) (rest : List Nat)
    (Field : AccessSpecifier) (Blob : Blob) :
    (∀ e : AccessSpecifier, r0 = e.val →
        decodeRecordAccessSpecifier (r0 :: rest) Field Blob = .ret (none, e)) ∧
    ((∀ e : AccessSpecifier, r0 ≠ e.val) →
        decodeRecordAccessSpecifier (r0 :: rest) Field Blob
          = .ret (some (makeError "invalid value for AccessSpecifier"), Field)) := by
  constructor
  · intro e he
    subst he
    cases e <;> simp [decodeRecordAccessSpecifier, AccessSpecifier.val]
  · intro h
    have h0 := h .AS_public
    have h1 := h .AS_protected
    have h2 := h .AS_private
    have h3 := h .AS_none
    simp only [AccessSpecifier.val] at h0 h1 h2 h3
    simp [decodeRecordAccessSpecifier, AccessSpecifier.val, h0, h1, h2, h3]

/-- The tag-kind decoder accepts exactly the five declared values. -/
theorem decodeRecordTagTypeKind_spec (r0 : Nat) (rest : List Nat)
    (Field : TagTypeKind) (Blob : Blob) :
    (∀ e : TagTypeKind, r0 = e.val →
        decodeRecordTagTypeKind (r0 :: rest) Field Blob = .ret (none, e)) ∧
    ((∀ e : TagTypeKind, r0 ≠ e.val) →
        decodeRecordTagTypeKind (r0 :: rest) Field Blob
          = .ret (some (makeError "invalid value for TagTypeKind"), Field)) := by
  constructor
  · intro e he
    subst he
    cases e <;> simp [decodeRecordTagTypeKind, TagTypeKind.val]
  · intro h
    have h0 := h .TTK_Struct
    have h1 := h .TTK_Interface
    have h2 := h .TTK_Union
    have h3 := h .TTK_Class
    have h4 := h .TTK_Enum
    simp only [TagTypeKind.val] at h0 h1 h2 h3 h4
    simp [decodeRecordTagTypeKind, TagTypeKind.val, h0, h1, h2, h3, h4]

/-- The `InfoType` decoder accepts a field exactly when its conversion to `int` is the
value of an enumerator, and then yields that enumerator. -/
theorem decodeRecordInfoType_spec (K : BitCodeConstants) (r0 : Nat) (rest : List Nat)
    (Field : InfoType) (Blob : Blob) :
    (∀ e : InfoType, toInt32 r0 = K.infoType e →
        decodeRecordInfoType K (r0 :: rest) Field Blob = .ret (none, e)) ∧
    ((∀ e : InfoType, toInt32 r0 ≠ K.infoType e) →
        decodeRecordInfoType K (r0 :: rest) Field Blob
          = .ret (some (makeError "invalid value for InfoType"), Field)) := by
  constructor
  · intro e he
    cases e <;> simp [decodeRecordInfoType, he, K.infoType_inj.eq_iff]
  · intro h
    simp [decodeRecordInfoType, h]

/-- The `FieldId` decoder accepts a field exactly when its conversion to `int` is the
value of an enumerator, and then yields that enumerator. -/
theorem decodeRecordFieldId_spec (K : BitCodeConstants) (r0 : Nat) (rest : List Nat)
    (Field : FieldId) (Blob : Blob) :
    (∀ e : FieldId, toInt32 r0 = K.fieldId e →
        decodeRecordFieldId K (r0 :: rest) Field Blob = .ret (none, e)) ∧
    ((∀ e : FieldId, toInt32 r0 ≠ K.fieldId e) →
        decodeRecordFieldId K (r0 :: rest) Field Blob
          = .ret (some (makeError "invalid value for FieldId"), Field)) := by
  constructor
  · intro e he
    cases e <;> simp [decodeRecordFieldId, he, K.fieldId_inj.eq_iff]
  · intro h
    simp [decodeRecordFieldId, h]

/-! ### The cursor only moves forward -/

/-- `skipUntilRecordOrBlock` never moves the cursor back, leaves the head bytes alone, and
consumes at least one item unless it reports a bad block. -/
theorem skipUntilRecordOrBlock_length (fuel : Nat) :
    ∀ (S S1 : BitstreamCursor) (Res : Cursor),
      skipUntilRecordOrBlock fuel S = .ret (Res, S1) →
        S1.Items.length ≤ S.Items.length ∧ S1.Lead = S.Lead ∧
        (Res ≠ .BadBlock → S1.Items.length < S.Items.length) := by
  induction fuel with
  | zero => intro S S1 Res h; simp [skipUntilRecordOrBlock] at h
  | succ n ih =>
    intro S S1 Res h
    rw [skipUntilRecordOrBlock] at h
    split at h
    · cases h
    · rcases S with ⟨Lead, Items, Scope⟩
      cases Items with
      | nil => simp [BitstreamCursor.ReadCode] at h; obtain ⟨h1, h2⟩ := h; subst h1 h2; simp
      | cons it rest =>
        cases it <;> simp only [BitstreamCursor.ReadCode] at h
        case code c =>
          split at h
          · simp at h; obtain ⟨h1, h2⟩ := h; subst h1 h2; simp
          · split at h
            · cases rest with
              | nil => simp [BitstreamCursor.ReadSubBlockID] at h; obtain ⟨h1, h2⟩ := h; subst h1 h2; simp
              | cons it2 rest2 =>
                cases it2 <;> simp [BitstreamCursor.ReadSubBlockID] at h <;>
                  obtain ⟨h1, h2⟩ := h <;> subst h1 h2 <;> simp <;> omega
            · split at h
              · simp only [BitstreamCursor.ReadBlockEnd] at h
                split at h <;> simp at h <;> obtain ⟨h1, h2⟩ := h <;> subst h1 h2 <;> simp
              · split at h
                · cases rest with
                  | nil =>
                    simp only [BitstreamCursor.ReadAbbrevRecord] at h
                    obtain ⟨a, b, c⟩ := ih _ _ _ h
                    refine ⟨?_, b, fun hne => ?_⟩
                    · simp only [List.length_cons] at a ⊢; omega
                    · have c1 := c hne; simp only [List.length_cons] at c1 ⊢; omega
                  | cons it2 rest2 =>
                    cases it2 <;> simp only [BitstreamCursor.ReadAbbrevRecord] at h <;>
                      obtain ⟨a, b, c⟩ := ih _ _ _ h <;>
                      refine ⟨?_, b, fun hne => ?_⟩ <;>
                      first
                        | (simp only [List.length_cons] at a ⊢; omega)
                        | (have c1 := c hne; simp only [List.length_cons] at c1 ⊢; omega)
                · simp at h; obtain ⟨h1, h2⟩ := h; subst h1 h2; simp
        all_goals (simp at h; obtain ⟨h1, h2⟩ := h; subst h1 h2; simp)
/-- A sequence of two calls returned: so did each of them. -/
theorem Run.bind_eq_ret {α β : Type} {x : Run α} {k : α → Run β} {b : β}
    (h : x.bind k = .ret b) : ∃ a, x = .ret a ∧ k a = .ret b := by
  cases x with
  | ret a => exact ⟨a, rfl, h⟩
  | exit c => simp [Run.bind] at h
  | trap w => simp [Run.bind] at h
  | fuel => simp [Run.bind] at h

/-- Parsing a record into a member does not touch the reader. -/
theorem parsed_eq_ret {α : Type} {r : Run (Option Error × α)} {mk : α → Object}
    {rd : BitcodeReader} {v : Option Error × Object × BitcodeReader}
    (h : parsed r mk rd = .ret v) : v.2.2 = rd := by
  obtain ⟨a, _, h2⟩ := Run.bind_eq_ret h
  cases h2
  rfl

/-- `readRecord` consumes one item when it succeeds, and never moves the cursor back. -/
theorem readRecord_length (K : BitCodeConstants) (ID : Nat) (I I1 : Object)
    (rd rd1 : BitcodeReader) (e : Option Error)
    (h : readRecord K ID I rd = .ret (e, I1, rd1)) :
    rd1.Stream.Items.length ≤ rd.Stream.Items.length ∧
      (e = none → rd1.Stream.Items.length < rd.Stream.Items.length) := by
  unfold readRecord at h
  split at h
  · cases h; simp
  · rename_i Code R Blob S heq
    have hS : S.Items.length < rd.Stream.Items.length := by
      unfold BitstreamCursor.readRecord at heq
      split at heq
      · rename_i h1
        cases heq
        simp [h1]
      · cases heq
    have key : rd1.Stream = S := by
      cases I <;> simp only at h
      case versionNo v =>
        obtain ⟨a, _, h2⟩ := Run.bind_eq_ret h
        cases h2; rfl
      case reference I =>
        obtain ⟨a, _, h2⟩ := Run.bind_eq_ret h
        cases h2; rfl
      case javadoc => cases h; rfl
      case currentNodeList =>
        split at h
        · cases h
        · obtain ⟨a, _, h2⟩ := Run.bind_eq_ret h
          cases h2; rfl
      case nodeList =>
        split at h
        · cases h
        · obtain ⟨a, _, h2⟩ := Run.bind_eq_ret h
          cases h2; rfl
      all_goals
        have hp := parsed_eq_ret h
        simp at hp
        rw [hp]
    rw [key]
    exact ⟨Nat.le_of_lt hS, fun _ => hS⟩

/-- `EnterSubBlock` consumes the block header. -/
theorem EnterSubBlock_length {S S1 : BitstreamCursor} (h : S.EnterSubBlock = .ok S1) :
    S1.Items.length < S.Items.length := by
  unfold BitstreamCursor.EnterSubBlock at h
  split at h
  · rename_i h1
    split at h
    · cases h
    · cases h; simp [h1]
  · cases h

/-- A failing `SkipBlock` does not move the cursor back. -/
theorem SkipBlock_error_length {S S1 : BitstreamCursor} {e : Error}
    (h : S.SkipBlock = .error (e, S1)) : S1.Items.length ≤ S.Items.length := by
  unfold BitstreamCursor.SkipBlock at h
  split at h
  · rename_i h1
    split at h
    · cases h; simp [h1]
    · split at h
      · cases h; simp [h1]
      · cases h
  · cases h; exact Nat.le_refl _

/-- `SkipBlock` consumes the block header. -/
theorem SkipBlock_length {S S1 : BitstreamCursor} (h : S.SkipBlock = .ok S1) :
    S1.Items.length < S.Items.length := by
  unfold BitstreamCursor.SkipBlock at h
  split at h
  · rename_i h1
    split at h
    · cases h
    · split at h
      · cases h
      · cases h; simp [h1]; omega
  · cases h

/-- `readSubBlock` advances the cursor if `readBlock` does, with one call less to go. -/
theorem readSubBlock_advanced_of (K : BitCodeConstants) (n : Nat)
    (ihB : ∀ ID I rd e I1 rd1, readBlock K n ID I rd = .ret (e, I1, rd1) → Advanced rd rd1 e) :
    ∀ ID I rd e I1 rd1, readSubBlock K (n + 1) ID I rd = .ret (e, I1, rd1) →
      Advanced rd rd1 e := by
  intro ID I rd e I1 rd1 h
  unfold readSubBlock at h
  split at h
  · -- JAVADOC
    split at h
    · cases h; exact ⟨Nat.le_refl _, fun h => by cases h⟩
    · split at h
      · cases h
      · obtain ⟨r, hr, hk⟩ := Run.bind_eq_ret h
        obtain ⟨e0, c, rdm⟩ := r
        have := ihB _ _ _ _ _ _ hr
        split at hk <;> cases hk <;> exact this
  · -- JAVADOC_LIST
    split at h
    · cases h
    · obtain ⟨r, hr, hk⟩ := Run.bind_eq_ret h
      obtain ⟨e0, c, rdm⟩ := r
      have ih := ihB _ _ _ _ _ _ hr
      cases e0 <;>
        repeat' (first | (cases hk) | (dsimp only at hk) | (split at hk) | (replace hk := Run.bind_eq_ret hk; obtain ⟨_, _, hk⟩ := hk))
      all_goals
        first
          | exact ih
          | exact ⟨ih.1, fun _ => ih.2 rfl⟩
          | exact ⟨ih.1, fun h => by cases h⟩
  · -- JAVADOC_NODE
    split at h <;>
    · obtain ⟨r, hr, hk⟩ := Run.bind_eq_ret h
      obtain ⟨e0, c, rdm⟩ := r
      have ih := ihB _ _ _ _ _ _ hr
      cases e0 <;>
        repeat' (first | (cases hk) | (dsimp only at hk) | (split at hk) | (replace hk := Run.bind_eq_ret hk; obtain ⟨_, _, hk⟩ := hk))
      all_goals
        first
          | exact ih
          | exact ⟨ih.1, fun _ => ih.2 rfl⟩
          | exact ⟨ih.1, fun h => by cases h⟩
  case h_15 => cases h; exact ⟨Nat.le_refl _, fun h => by cases h⟩
  all_goals
    obtain ⟨r, hr, hk⟩ := Run.bind_eq_ret h
    obtain ⟨e0, c, rdm⟩ := r
    have ih := ihB _ _ _ _ _ _ hr
    cases e0 <;>
      repeat' (first | (cases hk) | (dsimp only at hk) | (split at hk) | (replace hk := Run.bind_eq_ret hk; obtain ⟨_, _, hk⟩ := hk))
    all_goals
      first
        | exact ih
        | exact ⟨ih.1, fun _ => ih.2 rfl⟩
        | exact ⟨ih.1, fun h => by cases h⟩

/-- `readBlock` advances the cursor if its loop does. -/
theorem readBlock_advanced_of (K : BitCodeConstants) (n : Nat)
    (ihL : ∀ I rd e I1 rd1, readBlockLoop K n I rd = .ret (e, I1, rd1) → Advanced rd rd1 e) :
    ∀ ID I rd e I1 rd1, readBlock K (n + 1) ID I rd = .ret (e, I1, rd1) →
      Advanced rd rd1 e := by
  intro ID I rd e I1 rd1 h
  unfold readBlock at h
  split at h
  · cases h; exact ⟨Nat.le_refl _, fun h => by cases h⟩
  · rename_i S hS
    have h1 := EnterSubBlock_length hS
    have h2 := ihL _ _ _ _ _ h
    dsimp only [Advanced] at h2 ⊢
    exact ⟨by omega, fun he => by have := h2.2 he; omega⟩

/-- The loop of `readBlock` advances the cursor if it does so with one turn less to go. -/
theorem readBlockLoop_advanced_of (K : BitCodeConstants) (n : Nat)
    (ihL : ∀ I rd e I1 rd1, readBlockLoop K n I rd = .ret (e, I1, rd1) → Advanced rd rd1 e)
    (ihS : ∀ ID I rd e I1 rd1, readSubBlock K n ID I rd = .ret (e, I1, rd1) →
      Advanced rd rd1 e) :
    ∀ I rd e I1 rd1, readBlockLoop K (n + 1) I rd = .ret (e, I1, rd1) →
      Advanced rd rd1 e := by
  intro I rd e I1 rd1 h
  unfold readBlockLoop at h
  obtain ⟨Res, hRes, hk⟩ := Run.bind_eq_ret h
  clear h
  obtain ⟨Res, S⟩ := Res
  obtain ⟨hle, _, hlt⟩ := skipUntilRecordOrBlock_length _ _ _ _ hRes
  cases Res with
  | BadBlock =>
    cases hk
    exact ⟨hle, fun h => by cases h⟩
  | BlockEnd =>
    cases hk
    exact ⟨hle, fun _ => hlt (by simp)⟩
  | BlockBegin ID =>
    try dsimp only at hk
    obtain ⟨r, hr, hk2⟩ := Run.bind_eq_ret hk
    obtain ⟨e0, I2, rd2⟩ := r
    have h2 := ihS _ _ _ _ _ _ hr
    try dsimp only [Advanced] at h2
    cases e0 with
    | some Err =>
      try dsimp only at hk2
      split at hk2
      · rename_i Skipped S1 hS1
        have := SkipBlock_error_length hS1
        cases hk2
        dsimp only [Advanced]
        exact ⟨by omega, fun h => by cases h⟩
      · rename_i S1 hS1
        have := SkipBlock_length hS1
        cases hk2
        dsimp only [Advanced]
        exact ⟨by omega, fun h => by cases h⟩
    | none =>
      try dsimp only at hk2
      have h3 := ihL _ _ _ _ _ hk2
      try dsimp only [Advanced] at h3 ⊢
      have := h2.2 rfl
      exact ⟨by omega, fun he => by omega⟩
  | Record Code =>
    try dsimp only at hk
    obtain ⟨r, hr, hk2⟩ := Run.bind_eq_ret hk
    obtain ⟨e0, I2, rd2⟩ := r
    have h2 := readRecord_length _ _ _ _ _ _ _ hr
    try dsimp only at h2
    cases e0 with
    | some Err =>
      cases hk2
      exact ⟨by omega, fun h => by cases h⟩
    | none =>
      try dsimp only at hk2
      have h3 := ihL _ _ _ _ _ hk2
      try dsimp only [Advanced] at h3 ⊢
      have := h2.2 rfl
      exact ⟨by omega, fun he => by omega⟩

/-- The three reader functions never move the cursor back, and consume at least one item
when they succeed. -/
theorem reader_advanced (K : BitCodeConstants) (n : Nat) :
    (∀ ID I rd e I1 rd1, readBlock K n ID I rd = .ret (e, I1, rd1) → Advanced rd rd1 e) ∧
    (∀ I rd e I1 rd1, readBlockLoop K n I rd = .ret (e, I1, rd1) → Advanced rd rd1 e) ∧
    (∀ ID I rd e I1 rd1, readSubBlock K n ID I rd = .ret (e, I1, rd1) →
      Advanced rd rd1 e) := by
  induction n with
  | zero =>
    refine ⟨?_, ?_, ?_⟩
    · intro ID I rd e I1 rd1 h; simp [readBlock] at h
    · intro I rd e I1 rd1 h; simp [readBlockLoop] at h
    · intro ID I rd e I1 rd1 h; simp [readSubBlock] at h
  | succ n ih =>
    obtain ⟨ihB, ihL, ihS⟩ := ih
    exact ⟨readBlock_advanced_of K n ihL, readBlockLoop_advanced_of K n ihL ihS,
      readSubBlock_advanced_of K n ihB⟩

/-! ### The loop of `getInfos` -/

/-- `ReadCode` consumes one item. -/
theorem ReadCode_length {S S1 : BitstreamCursor} {c : Nat} (h : S.ReadCode = .ok (c, S1)) :
    S1.Items.length < S.Items.length := by
  unfold BitstreamCursor.ReadCode at h
  split at h
  · rename_i h1; cases h; simp [h1]
  · cases h

/-- `ReadSubBlockID` consumes one item. -/
theorem ReadSubBlockID_length {S S1 : BitstreamCursor} {ID : Option BlockId}
    (h : S.ReadSubBlockID = .ok (ID, S1)) : S1.Items.length < S.Items.length := by
  unfold BitstreamCursor.ReadSubBlockID at h
  split at h
  · rename_i h1; cases h; simp [h1]
  · cases h

/-- `readBlockInfoBlock` never moves the cursor back. -/
theorem readBlockInfoBlock_length {rd rd1 : BitcodeReader} {e : Option Error}
    (h : readBlockInfoBlock rd = (e, rd1)) :
    rd1.Stream.Items.length ≤ rd.Stream.Items.length := by
  unfold readBlockInfoBlock at h
  split at h
  · cases h; exact Nat.le_refl _
  · rename_i valid S hS
    have : S.Items.length < rd.Stream.Items.length := by
      unfold BitstreamCursor.ReadBlockInfoBlock at hS
      split at hS
      · rename_i h1; cases hS; simp [h1]
      · cases hS
    split at h <;> cases h <;> exact Nat.le_of_lt this

/-- `createInfo` never moves the cursor back. -/
theorem createInfo_length {K : BitCodeConstants} {ID : Option BlockId} {I : Object}
    {rd rd1 : BitcodeReader} {r : Except Error Object}
    (h : createInfo K ID I rd = .ret (r, rd1)) :
    rd1.Stream.Items.length ≤ rd.Stream.Items.length := by
  unfold createInfo at h
  obtain ⟨a, ha, hk⟩ := Run.bind_eq_ret h
  obtain ⟨e0, I2, rd2⟩ := a
  have := ((reader_advanced K _).1 _ _ _ _ _ _ ha).1
  cases e0 <;> cases hk <;> exact this

/-- `readBlockToInfo` never moves the cursor back. -/
theorem readBlockToInfo_length {K : BitCodeConstants} {ID : Option BlockId}
    {rd rd1 : BitcodeReader} {r : Except Error Object}
    (h : readBlockToInfo K ID rd = .ret (r, rd1)) :
    rd1.Stream.Items.length ≤ rd.Stream.Items.length := by
  unfold readBlockToInfo at h
  split at h
  case h_6 => cases h; exact Nat.le_refl _
  all_goals exact createInfo_length h

/-- A turn of the loop of `getInfos` that ends with `continue` has consumed at least one
item. -/
theorem getInfos_body_advanced {K : BitCodeConstants} {rd rd1 : BitcodeReader}
    {Infos Infos1 : List Object} (h : getInfos.body K rd Infos = .ret (.next rd1 Infos1)) :
    rd1.Stream.Items.length < rd.Stream.Items.length := by
  unfold getInfos.body at h
  split at h
  · cases h
  · rename_i c S1 hS1
    have h1 := ReadCode_length hS1
    split at h
    · cases h
    · split at h
      · cases h
      · rename_i ID S2 hS2
        have h2 := ReadSubBlockID_length hS2
        dsimp only at h
        split at h
        all_goals first
          | (cases h; done)
          | (obtain ⟨a, ha, hk⟩ := Run.bind_eq_ret h
             obtain ⟨r, rd3⟩ := a
             have h3 := readBlockToInfo_length ha
             cases r <;> cases hk
             dsimp only at h3; omega)
          | (obtain ⟨a, ha, hk⟩ := Run.bind_eq_ret h
             obtain ⟨e0, I2, rd3⟩ := a
             have h3 := ((reader_advanced K _).1 _ _ _ _ _ _ ha).1
             cases e0 <;> cases hk
             dsimp only at h3; omega)
          | (split at h
             · cases h
             · rename_i hb
               have h3 := readBlockInfoBlock_length hb
               cases h
               dsimp only at h3; omega)
          | (split at h
             · rename_i Skipped S3 hS3
               have h3 := SkipBlock_error_length hS3
               cases h; dsimp only; omega
             · rename_i S3 hS3
               have h3 := SkipBlock_length hS3
               cases h; dsimp only; omega)

/-- The loop of `getInfos` gives the same result for every bound on its turns that exceeds
the number of items left: the bound `getInfos` gives it is never used up. -/
theorem getInfos_loop_fuel (K : BitCodeConstants) :
    ∀ (n m : Nat) (rd : BitcodeReader) (Infos : List Object),
      rd.Stream.Items.length < n → rd.Stream.Items.length < m →
        getInfos.loop K n rd Infos = getInfos.loop K m rd Infos := by
  intro n
  induction n with
  | zero => intro m rd Infos h; omega
  | succ n ih =>
    intro m rd Infos hn hm
    cases m with
    | zero => omega
    | succ m =>
      unfold getInfos.loop
      split
      · rfl
      · cases hb : getInfos.body K rd Infos with
        | ret t =>
          cases t with
          | done result rd1 => rfl
          | next rd1 Infos1 =>
            have := getInfos_body_advanced hb
            simp only [Run.bind]
            exact ih m rd1 Infos1 (by omega) (by omega)
        | exit c => rfl
        | trap w => rfl
        | fuel => rfl

/-- After `k` turns that ended with `continue` the loop goes on from the state they led
to, with `k` turns less to go. -/
theorem getInfos_loop_reach (K : BitCodeConstants) :
    ∀ (k : Nat) (rd rd1 : BitcodeReader) (Infos Infos1 : List Object),
      getInfos.reach K k rd Infos = some (rd1, Infos1) →
        rd1.Stream.Items.length + k ≤ rd.Stream.Items.length ∧
        ∀ n, getInfos.loop K (n + k) rd Infos = getInfos.loop K n rd1 Infos1 := by
  intro k
  induction k with
  | zero =>
    intro rd rd1 Infos Infos1 h
    simp only [getInfos.reach, Option.some.injEq, Prod.mk.injEq] at h
    obtain ⟨h1, h2⟩ := h
    subst h1 h2
    exact ⟨Nat.le_refl _, fun n => rfl⟩
  | succ k ih =>
    intro rd rd1 Infos Infos1 h
    unfold getInfos.reach at h
    split at h
    · cases h
    · rename_i hend
      split at h
      · rename_i rd2 Infos2 hb
        have hlt := getInfos_body_advanced hb
        obtain ⟨h1, h2⟩ := ih _ _ _ _ h
        refine ⟨by omega, fun n => ?_⟩
        rw [← Nat.add_assoc, getInfos.loop, if_neg hend, hb]
        exact h2 n
      · cases h

/-- The result of `getInfos` is the result of its loop from any state the loop reaches after
the signature has been validated. -/
theorem getInfos_of_reach {K : BitCodeConstants} {rd0 rd1 rd : BitcodeReader}
    {Infos : List Object} {k : Nat} (hv : validateStream K rd0 = (none, rd1))
    (hr : getInfos.reach K k rd1 [] = some (rd, Infos)) :
    getInfos K rd0 = getInfos.loop K (rd.Stream.Items.length + 1) rd Infos := by
  unfold getInfos
  rw [hv]
  dsimp only
  obtain ⟨h1, h2⟩ := getInfos_loop_reach K k _ _ _ _ hr
  have e : rd1.Stream.Items.length + 1 = (rd1.Stream.Items.length + 1 - k) + k := by omega
  rw [e, h2]
  exact getInfos_loop_fuel K _ _ _ _ (by omega) (by omega)

/-! ### The bounds on the loops are never used up -/

/-- A sequence of two calls does not run out of turns if neither call does. -/
theorem Run.bind_ne_fuel {α β : Type} {x : Run α} {k : α → Run β}
    (hx : x ≠ .fuel) (hk : ∀ a, x = .ret a → k a ≠ .fuel) : x.bind k ≠ .fuel := by
  cases x with
  | ret a => exact hk a rfl
  | exit c => simp [Run.bind]
  | trap w => simp [Run.bind]
  | fuel => exact absurd rfl hx

/-- Storing a decoded field does not run out of turns if the decoder does not. -/
theorem withField_ne_fuel {α β : Type} {r : Run (Option Error × α)} {set : α → β}
    (h : r ≠ .fuel) : withField r set ≠ .fuel :=
  Run.bind_ne_fuel h (fun _ _ => by simp)

/-- The integer decoder has no bounded loop. -/
theorem decodeRecordInt_ne_fuel (R : Record) (Field : Int) (Blob : Blob) :
    decodeRecordInt R Field Blob ≠ .fuel := by
  unfold decodeRecordInt; repeat' split
  all_goals simp

/-- The boolean decoder has no bounded loop. -/
theorem decodeRecordBool_ne_fuel (R : Record) (Field : Bool) (Blob : Blob) :
    decodeRecordBool R Field Blob ≠ .fuel := by
  unfold decodeRecordBool; repeat' split
  all_goals simp

/-- The string decoder has no bounded loop. -/
theorem decodeRecordString_ne_fuel (R : Record) (Field : String) (Blob : Blob) :
    decodeRecordString R Field Blob ≠ .fuel := by
  simp [decodeRecordString]

/-- The access specifier decoder has no bounded loop. -/
theorem decodeRecordAccessSpecifier_ne_fuel (R : Record) (Field : AccessSpecifier)
    (Blob : Blob) : decodeRecordAccessSpecifier R Field Blob ≠ .fuel := by
  unfold decodeRecordAccessSpecifier; repeat' split
  all_goals simp

/-- The tag kind decoder has no bounded loop. -/
theorem decodeRecordTagTypeKind_ne_fuel (R : Record) (Field : TagTypeKind)
    (Blob : Blob) : decodeRecordTagTypeKind R Field Blob ≠ .fuel := by
  unfold decodeRecordTagTypeKind; repeat' split
  all_goals simp

/-- The info type decoder has no bounded loop. -/
theorem decodeRecordInfoType_ne_fuel (K : BitCodeConstants) (R : Record) (Field : InfoType)
    (Blob : Blob) : decodeRecordInfoType K R Field Blob ≠ .fuel := by
  unfold decodeRecordInfoType
  split
  · simp
  · dsimp only
    split_ifs <;> simp

/-- The field id decoder has no bounded loop. -/
theorem decodeRecordFieldId_ne_fuel (K : BitCodeConstants) (R : Record) (Field : FieldId)
    (Blob : Blob) : decodeRecordFieldId K R Field Blob ≠ .fuel := by
  unfold decodeRecordFieldId
  split
  · simp
  · dsimp only
    split_ifs <;> simp

/-- The decoder of the javadoc enumerations has no bounded loop. -/
theorem decodeRecordEnum_ne_fuel (R : Record) (value : Int) (blob : Blob) :
    decodeRecordEnum R value blob ≠ .fuel := by
  unfold decodeRecordEnum
  have := decodeRecordInt_ne_fuel R 0 blob
  split <;> simp_all

/-- The loop of the symbol id decoder is over the bytes of the id and ends. -/
theorem decodeRecordSymbolID_loop_ne_fuel (R : Record) :
    ∀ (n I : Nat) (Field : SymbolID), decodeRecordSymbolID.loop R n I Field ≠ .fuel := by
  intro n
  induction n with
  | zero => intro I Field; simp [decodeRecordSymbolID.loop]
  | succ n ih =>
    intro I Field
    unfold decodeRecordSymbolID.loop
    split
    · simp
    · exact ih _ _

/-- The symbol id decoder ends. -/
theorem decodeRecordSymbolID_ne_fuel (K : BitCodeConstants) (R : Record) (Field : SymbolID)
    (Blob : Blob) : decodeRecordSymbolID K R Field Blob ≠ .fuel := by
  unfold decodeRecordSymbolID
  split
  · simp
  · split
    · simp
    · rename_i r0 _ _
      have := decodeRecordSymbolID_loop_ne_fuel R (toInt32 r0).toNat 0 Field
      split <;> simp_all

/-- The decoder of an optional location has no bounded loop. -/
theorem decodeRecordOptionalLocation_ne_fuel (R : Record) (Field : Option Location)
    (Blob : Blob) : decodeRecordOptionalLocation R Field Blob ≠ .fuel := by
  unfold decodeRecordOptionalLocation; repeat' split
  all_goals simp

/-- The decoder of a list of locations has no bounded loop. -/
theorem decodeRecordLocations_ne_fuel (R : Record) (Field : List Location)
    (Blob : Blob) : decodeRecordLocations R Field Blob ≠ .fuel := by
  unfold decodeRecordLocations; repeat' split
  all_goals simp

/-- The record parser of a javadoc node list has no bounded loop. -/
theorem parseRecordNodeList_ne_fuel (R : Record) (ID : Option RecordId) (blob : Blob)
    (I : List Javadoc.Node) : parseRecordNodeList R ID blob I ≠ .fuel := by
  unfold parseRecordNodeList
  split
  · refine Run.bind_ne_fuel (decodeRecordEnum_ne_fuel _ _ _) (fun a _ => ?_)
    split
    · simp
    · dsimp only
      split_ifs <;> simp
  · split
    · simp
    · split_ifs <;>
        first
          | exact withField_ne_fuel (decodeRecordString_ne_fuel _ _ _)
          | simp
  · split
    · simp
    · split_ifs <;>
        first
          | exact withField_ne_fuel (decodeRecordEnum_ne_fuel _ _ _)
          | simp
  · split
    · simp
    · split_ifs <;>
        first
          | exact withField_ne_fuel (decodeRecordEnum_ne_fuel _ _ _)
          | simp
  · simp

/-- None of the record parsers has a bounded loop. -/
theorem parseRecord_ne_fuel (K : BitCodeConstants) (R : Record) (ID : Option RecordId)
    (Blob : Blob) :
    (∀ v, parseRecordVersionNo R ID Blob v ≠ .fuel) ∧
    (∀ I, parseRecordNamespaceInfo K R ID Blob I ≠ .fuel) ∧
    (∀ I, parseRecordRecordInfo K R ID Blob I ≠ .fuel) ∧
    (∀ I, parseRecordBaseRecordInfo K R ID Blob I ≠ .fuel) ∧
    (∀ I, parseRecordFunctionInfo K R ID Blob I ≠ .fuel) ∧
    (∀ I, parseRecordEnumInfo K R ID Blob I ≠ .fuel) ∧
    (∀ I, parseRecordEnumValueInfo K R ID Blob I ≠ .fuel) ∧
    (∀ I, parseRecordTypedefInfo K R ID Blob I ≠ .fuel) ∧
    (∀ I, parseRecordTypeInfo K R ID Blob I ≠ .fuel) ∧
    (∀ I, parseRecordFieldTypeInfo K R ID Blob I ≠ .fuel) ∧
    (∀ I, parseRecordMemberTypeInfo K R ID Blob I ≠ .fuel) ∧
    (∀ I F, parseRecordReference K R ID Blob I F ≠ .fuel) ∧
    (∀ I, parseRecordTemplateInfo K R ID Blob I ≠ .fuel) ∧
    (∀ I, parseRecordTemplateSpecializationInfo K R ID Blob I ≠ .fuel) ∧
    (∀ I, parseRecordTemplateParamInfo K R ID Blob I ≠ .fuel) ∧
    (∀ I, parseRecordCurrentNodeList R ID Blob I ≠ .fuel) := by
  refine ⟨?_, ?_, ?_, ?_, ?_, ?_, ?_, ?_, ?_, ?_, ?_, ?_, ?_, ?_, ?_, ?_⟩
  · intro v
    unfold parseRecordVersionNo
    repeat' split
    all_goals simp
  case refine_12 =>
    intro I F
    unfold parseRecordReference
    split
    · exact Run.bind_ne_fuel (decodeRecordSymbolID_ne_fuel _ _ _ _) (fun _ _ => by simp)
    · exact Run.bind_ne_fuel (decodeRecordString_ne_fuel _ _ _) (fun _ _ => by simp)
    · exact Run.bind_ne_fuel (decodeRecordInfoType_ne_fuel _ _ _ _) (fun _ _ => by simp)
    · exact Run.bind_ne_fuel (decodeRecordString_ne_fuel _ _ _) (fun _ _ => by simp)
    · exact Run.bind_ne_fuel (decodeRecordFieldId_ne_fuel _ _ _ _)
        (fun a _ => by split <;> simp)
    · simp
  case refine_16 =>
    intro I
    unfold parseRecordCurrentNodeList
    split
    · exact Run.bind_ne_fuel (decodeRecordEnum_ne_fuel _ _ _) (fun a _ => by split <;> simp)
    · exact Run.bind_ne_fuel (decodeRecordEnum_ne_fuel _ _ _) (fun a _ => by split <;> simp)
    · simp
  all_goals
    intro I
    first
      | unfold parseRecordNamespaceInfo
      | unfold parseRecordRecordInfo
      | unfold parseRecordBaseRecordInfo
      | unfold parseRecordFunctionInfo
      | unfold parseRecordEnumInfo
      | unfold parseRecordEnumValueInfo
      | unfold parseRecordTypedefInfo
      | unfold parseRecordTypeInfo
      | unfold parseRecordFieldTypeInfo
      | unfold parseRecordMemberTypeInfo
      | unfold parseRecordTemplateInfo
      | unfold parseRecordTemplateSpecializationInfo
      | unfold parseRecordTemplateParamInfo
    try split
    all_goals
      first
        | exact withField_ne_fuel (decodeRecordSymbolID_ne_fuel _ _ _ _)
        | exact withField_ne_fuel (decodeRecordString_ne_fuel _ _ _)
        | exact withField_ne_fuel (decodeRecordOptionalLocation_ne_fuel _ _ _)
        | exact withField_ne_fuel (decodeRecordLocations_ne_fuel _ _ _)
        | exact withField_ne_fuel (decodeRecordTagTypeKind_ne_fuel _ _ _)
        | exact withField_ne_fuel (decodeRecordBool_ne_fuel _ _ _)
        | exact withField_ne_fuel (decodeRecordAccessSpecifier_ne_fuel _ _ _)
        | simp

/-- Reading one record never runs out of turns. -/
theorem readRecord_ne_fuel (K : BitCodeConstants) (ID : Nat) (I : Object)
    (rd : BitcodeReader) : readRecord K ID I rd ≠ .fuel := by
  unfold readRecord
  split
  · simp
  · rename_i Code R Blob S _
    obtain ⟨h1, h2, h3, h4, h5, h6, h7, h8, h9, h10, h11, h12, h13, h14, h15, h16⟩ :=
      parseRecord_ne_fuel K R Code Blob
    have hn := parseRecordNodeList_ne_fuel R Code Blob
    cases I <;> dsimp only
    case javadoc => simp
    case currentNodeList =>
      split
      · simp
      · exact Run.bind_ne_fuel (h16 _) (fun _ _ => by simp)
    case nodeList =>
      split
      · simp
      · exact Run.bind_ne_fuel (hn _) (fun _ _ => by simp)
    all_goals
      first
        | exact Run.bind_ne_fuel (h1 _) (fun _ _ => by simp)
        | exact Run.bind_ne_fuel (h2 _) (fun _ _ => by simp)
        | exact Run.bind_ne_fuel (h3 _) (fun _ _ => by simp)
        | exact Run.bind_ne_fuel (h4 _) (fun _ _ => by simp)
        | exact Run.bind_ne_fuel (h5 _) (fun _ _ => by simp)
        | exact Run.bind_ne_fuel (h6 _) (fun _ _ => by simp)
        | exact Run.bind_ne_fuel (h7 _) (fun _ _ => by simp)
        | exact Run.bind_ne_fuel (h8 _) (fun _ _ => by simp)
        | exact Run.bind_ne_fuel (h9 _) (fun _ _ => by simp)
        | exact Run.bind_ne_fuel (h10 _) (fun _ _ => by simp)
        | exact Run.bind_ne_fuel (h11 _) (fun _ _ => by simp)
        | exact Run.bind_ne_fuel (h12 _ _) (fun _ _ => by simp)
        | exact Run.bind_ne_fuel (h13 _) (fun _ _ => by simp)
        | exact Run.bind_ne_fuel (h14 _) (fun _ _ => by simp)
        | exact Run.bind_ne_fuel (h15 _) (fun _ _ => by simp)

/-- The loop of `skipUntilRecordOrBlock` consumes an item in every turn: a bound above the
number of items left is never used up. -/
theorem skipUntilRecordOrBlock_ne_fuel (n : Nat) :
    ∀ S : BitstreamCursor, S.Items.length < n → skipUntilRecordOrBlock n S ≠ .fuel := by
  induction n with
  | zero => intro S h; omega
  | succ n ih =>
    intro S h
    unfold skipUntilRecordOrBlock
    split
    · simp
    · split
      · simp
      · rename_i Code S1 hS1
        have h1 := ReadCode_length hS1
        split_ifs
        · simp
        · split <;> simp
        · simp
        · simp
        · split
          · exact ih _ (by omega)
          · rename_i S2 hS2
            have h2 : S2.Items.length ≤ S1.Items.length := by
              unfold BitstreamCursor.ReadAbbrevRecord at hS2
              split at hS2
              · rename_i h3; cases hS2; simp [h3]
              · cases hS2
            exact ih _ (by omega)
        · simp

/-- The function `addChild` returns or exits. -/
theorem addChild_ne_fuel (I R : Object) : addChild I R ≠ .fuel := by
  unfold addChild
  split <;> simp

/-- The function `addTemplateParam` returns or exits. -/
theorem addTemplateParam_ne_fuel (I : Object) (P : TemplateParamInfo) :
    addTemplateParam I P ≠ .fuel := by
  unfold addTemplateParam
  split <;> simp

/-- The function `addTemplate` returns or exits. -/
theorem addTemplate_ne_fuel (I : Object) (P : TemplateInfo) : addTemplate I P ≠ .fuel := by
  unfold addTemplate
  split <;> simp

/-- The function `addTemplateSpecialization` returns or exits. -/
theorem addTemplateSpecialization_ne_fuel (I : Object) (P : TemplateSpecializationInfo) :
    addTemplateSpecialization I P ≠ .fuel := by
  unfold addTemplateSpecialization
  split <;> simp

/-- The bound suffices for `readBlock` if one less suffices for its loop. -/
theorem readBlock_ne_fuel_of (K : BitCodeConstants) (n : Nat)
    (ihL : ∀ I rd, 2 * rd.Stream.Items.length + 2 ≤ n → readBlockLoop K n I rd ≠ .fuel) :
    ∀ ID I rd, 2 * rd.Stream.Items.length + 1 ≤ n + 1 → readBlock K (n + 1) ID I rd ≠ .fuel := by
  intro ID I rd h
  unfold readBlock
  split
  · simp
  · rename_i S hS
    have h1 := EnterSubBlock_length hS
    exact ihL _ _ (by dsimp only; omega)

/-- The bound suffices for the loop of `readBlock` if one less suffices for the rest of the
loop and for `readSubBlock`. -/
theorem readBlockLoop_ne_fuel_of (K : BitCodeConstants) (n : Nat)
    (ihL : ∀ I rd, 2 * rd.Stream.Items.length + 2 ≤ n → readBlockLoop K n I rd ≠ .fuel)
    (ihS : ∀ ID I rd, 2 * rd.Stream.Items.length + 2 ≤ n → readSubBlock K n ID I rd ≠ .fuel) :
    ∀ I rd, 2 * rd.Stream.Items.length + 2 ≤ n + 1 → readBlockLoop K (n + 1) I rd ≠ .fuel := by
  intro I rd h
  unfold readBlockLoop
  refine Run.bind_ne_fuel (skipUntilRecordOrBlock_ne_fuel _ _ (by omega)) (fun Res hRes => ?_)
  obtain ⟨Res, S⟩ := Res
  obtain ⟨hle, _, hlt⟩ := skipUntilRecordOrBlock_length _ _ _ _ hRes
  cases Res with
  | BadBlock => simp
  | BlockEnd => simp
  | BlockBegin ID =>
    have hS := hlt (by simp)
    dsimp only
    refine Run.bind_ne_fuel (ihS _ _ _ (by dsimp only; omega)) (fun r hr => ?_)
    obtain ⟨e0, I2, rd2⟩ := r
    have h2 := (reader_advanced K n).2.2 _ _ _ _ _ _ hr
    dsimp only [Advanced] at h2
    cases e0 with
    | some Err =>
      dsimp only
      split <;> simp
    | none =>
      dsimp only
      have := h2.2 rfl
      exact ihL _ _ (by omega)
  | Record Code =>
    have hS := hlt (by simp)
    dsimp only
    refine Run.bind_ne_fuel (readRecord_ne_fuel _ _ _ _) (fun r hr => ?_)
    obtain ⟨e0, I2, rd2⟩ := r
    have h2 := readRecord_length _ _ _ _ _ _ _ hr
    dsimp only at h2
    cases e0 with
    | some Err => simp
    | none =>
      dsimp only
      have := h2.2 rfl
      exact ihL _ _ (by omega)

/-- The bound suffices for `readSubBlock` if one less suffices for `readBlock`. -/
theorem readSubBlock_ne_fuel_of (K : BitCodeConstants) (n : Nat)
    (ihB : ∀ ID I rd, 2 * rd.Stream.Items.length + 1 ≤ n → readBlock K n ID I rd ≠ .fuel) :
    ∀ ID I rd, 2 * rd.Stream.Items.length + 2 ≤ n + 1 → readSubBlock K (n + 1) ID I rd ≠ .fuel := by
  intro ID I rd h
  have hn : 2 * rd.Stream.Items.length + 1 ≤ n := by omega
  unfold readSubBlock
  split
  case h_15 => simp
  all_goals
    repeat' (first
      | (refine Run.bind_ne_fuel (ihB _ _ _ hn) (fun r hr => ?_); obtain ⟨e0, c, rdm⟩ := r)
      | exact Run.bind_ne_fuel (addChild_ne_fuel _ _) (fun _ _ => by simp)
      | exact Run.bind_ne_fuel (addTemplate_ne_fuel _ _) (fun _ _ => by simp)
      | exact Run.bind_ne_fuel (addTemplateSpecialization_ne_fuel _ _) (fun _ _ => by simp)
      | exact Run.bind_ne_fuel (addTemplateParam_ne_fuel _ _) (fun _ _ => by simp)
      | (simp; done)
      | split
      | (dsimp only))

/-- A bound of twice the number of items left, and two, is never used up by the three reader
functions. -/
theorem reader_ne_fuel (K : BitCodeConstants) (n : Nat) :
    (∀ ID I rd, 2 * rd.Stream.Items.length + 1 ≤ n → readBlock K n ID I rd ≠ .fuel) ∧
    (∀ I rd, 2 * rd.Stream.Items.length + 2 ≤ n → readBlockLoop K n I rd ≠ .fuel) ∧
    (∀ ID I rd, 2 * rd.Stream.Items.length + 2 ≤ n → readSubBlock K n ID I rd ≠ .fuel) := by
  induction n with
  | zero =>
    refine ⟨?_, ?_, ?_⟩
    · intro ID I rd h; omega
    · intro I rd h; omega
    · intro ID I rd h; omega
  | succ n ih =>
    obtain ⟨ihB, ihL, ihS⟩ := ih
    exact ⟨readBlock_ne_fuel_of K n ihL, readBlockLoop_ne_fuel_of K n ihL ihS,
      readSubBlock_ne_fuel_of K n ihB⟩

/-- The bound `readBlockFuel` is never used up in `createInfo`. -/
theorem createInfo_ne_fuel (K : BitCodeConstants) (ID : Option BlockId) (I : Object)
    (rd : BitcodeReader) : createInfo K ID I rd ≠ .fuel := by
  unfold createInfo
  refine Run.bind_ne_fuel ((reader_ne_fuel K _).1 _ _ _ (by unfold readBlockFuel; omega))
    (fun r _ => ?_)
  obtain ⟨e0, I1, rd1⟩ := r
  cases e0 <;> simp

/-- The bound `readBlockFuel` is never used up in `readBlockToInfo`. -/
theorem readBlockToInfo_ne_fuel (K : BitCodeConstants) (ID : Option BlockId)
    (rd : BitcodeReader) : readBlockToInfo K ID rd ≠ .fuel := by
  unfold readBlockToInfo
  split
  case h_6 => simp
  all_goals exact createInfo_ne_fuel _ _ _ _

/-- One turn of the loop of `getInfos` never uses up a bound. -/
theorem getInfos_body_ne_fuel (K : BitCodeConstants) (rd : BitcodeReader)
    (Infos : List Object) : getInfos.body K rd Infos ≠ .fuel := by
  unfold getInfos.body
  split
  · simp
  · split
    · simp
    · split
      · simp
      · dsimp only
        split
        all_goals first
          | (simp; done)
          | (refine Run.bind_ne_fuel (readBlockToInfo_ne_fuel _ _ _) (fun r _ => ?_)
             obtain ⟨r, rd3⟩ := r
             cases r <;> simp)
          | (refine Run.bind_ne_fuel
               ((reader_ne_fuel K _).1 _ _ _ (by unfold readBlockFuel; omega)) (fun r _ => ?_)
             obtain ⟨e0, I1, rd3⟩ := r
             cases e0 <;> simp)
          | (split <;> simp)

/-- The loop of `getInfos` never uses up a bound above the number of items left. -/
theorem getInfos_loop_ne_fuel (K : BitCodeConstants) :
    ∀ (n : Nat) (rd : BitcodeReader) (Infos : List Object),
      rd.Stream.Items.length < n → getInfos.loop K n rd Infos ≠ .fuel := by
  intro n
  induction n with
  | zero => intro rd Infos h; omega
  | succ n ih =>
    intro rd Infos h
    unfold getInfos.loop
    split
    · simp
    · refine Run.bind_ne_fuel (getInfos_body_ne_fuel _ _ _) (fun t ht => ?_)
      cases t with
      | done result rd1 => simp
      | next rd1 Infos1 =>
        have := getInfos_body_advanced ht
        exact ih _ _ (by omega)

/-- `getInfos` and `readBitcode` never use up the bounds the model gives their loops: on
every stream they return, call `exit`, or stop at an assertion. -/
theorem getInfos_ne_fuel (K : BitCodeConstants) (rd : BitcodeReader) :
    getInfos K rd ≠ .fuel ∧ readBitcode K rd.Stream ≠ .fuel := by
  have key : ∀ rd : BitcodeReader, getInfos K rd ≠ .fuel := by
    intro rd
    unfold getInfos
    split
    · simp
    · exact getInfos_loop_ne_fuel K _ _ _ (Nat.lt_succ_self _)
  exact ⟨key rd, key _⟩

/-! ### The signature -/

/-- C2: `validateStream` fails on a stream at its end (`premature end of stream`) and on a
stream whose first four bytes differ from the signature (`invalid bitcode signature`), and
`getInfos` then returns that error and no entities; on a stream whose first four bytes
are the signature it succeeds and has consumed exactly these four bytes. -/
theorem validateStream_signature (K : BitCodeConstants) (rd : BitcodeReader) :
    (rd.Stream.AtEndOfStream = true →
      validateStream K rd = (some (makeError "premature end of stream"), rd) ∧
      getInfos K rd = .ret (.error (makeError "premature end of stream"), rd)) ∧
    (∀ b0 b1 b2 b3 tail, rd.Stream.Lead = b0 :: b1 :: b2 :: b3 :: tail →
      [b0, b1, b2, b3] ≠ signature K →
        ∃ rd1, validateStream K rd = (some (makeError "invalid bitcode signature"), rd1) ∧
          getInfos K rd = .ret (.error (makeError "invalid bitcode signature"), rd1)) ∧
    (∀ tail, rd.Stream.Lead = signature K ++ tail →
      validateStream K rd
        = (none, { rd with Stream := { rd.Stream with Lead := tail } })) := by
  refine ⟨?_, ?_, ?_⟩
  · intro h
    have hv : validateStream K rd = (some (makeError "premature end of stream"), rd) := by
      simp [validateStream, h]
    exact ⟨hv, by simp [getInfos, hv]⟩
  · intro b0 b1 b2 b3 tail hL hne
    have hend : rd.Stream.AtEndOfStream = false := by
      simp [BitstreamCursor.AtEndOfStream, hL]
    have key : ∃ S1, validateStream.loop K [0, 1, 2, 3] rd.Stream
        = (some (makeError "invalid bitcode signature"), S1) := by
      simp only [signature] at hne
      by_cases h0 : b0 = K.Signature 0
      · by_cases h1 : b1 = K.Signature 1
        · by_cases h2 : b2 = K.Signature 2
          · by_cases h3 : b3 = K.Signature 3
            · exact absurd (by rw [h0, h1, h2, h3]) hne
            · exact ⟨_, by simp [validateStream.loop, BitstreamCursor.Read8, hL, h0, h1, h2, h3]; rfl⟩
          · exact ⟨_, by simp [validateStream.loop, BitstreamCursor.Read8, hL, h0, h1, h2]; rfl⟩
        · exact ⟨_, by simp [validateStream.loop, BitstreamCursor.Read8, hL, h0, h1]; rfl⟩
      · exact ⟨_, by simp [validateStream.loop, BitstreamCursor.Read8, hL, h0]; rfl⟩
    obtain ⟨S1, hS1⟩ := key
    have hv : validateStream K rd
        = (some (makeError "invalid bitcode signature"), { rd with Stream := S1 }) := by
      simp [validateStream, hend, hS1]
    exact ⟨_, hv, by simp [getInfos, hv]⟩
  · intro tail hL
    have hend : rd.Stream.AtEndOfStream = false := by
      simp [BitstreamCursor.AtEndOfStream, hL, signature]
    simp [validateStream, hend, validateStream.loop, BitstreamCursor.Read8, hL, signature]

theorem validateStream_signature_witness :
    validateStream .upstream (BitcodeReader.init (streamOf [68, 79, 67, 83] [.code 0]))
      = (none, BitcodeReader.init (streamOf [] [.code 0])) :=
  (validateStream_signature .upstream _).2.2 [] rfl

/-! ### Top-level blocks -/

/-- `validateStream` succeeds on a stream whose head is the signature, and consumes it. -/
theorem validateStream_ok {K : BitCodeConstants} {rd : BitcodeReader}
    (h : rd.Stream.Lead = signature K) :
    validateStream K rd = (none, { rd with Stream := { rd.Stream with Lead := [] } }) := by
  have hend : rd.Stream.AtEndOfStream = false := by
    simp [BitstreamCursor.AtEndOfStream, h, signature]
  simp [validateStream, hend, validateStream.loop, BitstreamCursor.Read8, h, signature]

/-- C3: when the loop of `getInfos`, after a valid signature and `k` top-level blocks read
without error, meets a type, field-type, member-type, javadoc, javadoc-list, javadoc-node or
reference block, `getInfos` returns the error `invalid top level block` and no entity list,
whatever was decoded before. -/
theorem getInfos_invalid_top_level_block (K : BitCodeConstants) (rd0 rd : BitcodeReader)
    (Infos : List Object) (k : Nat) (ID : BlockId) (rest : List Item)
    (hsig : rd0.Stream.Lead = signature K)
    (hreach : getInfos.reach K k { rd0 with Stream := { rd0.Stream with Lead := [] } } []
      = some (rd, Infos))
    (hID : ID = .BI_TYPE_BLOCK_ID ∨ ID = .BI_FIELD_TYPE_BLOCK_ID ∨
      ID = .BI_MEMBER_TYPE_BLOCK_ID ∨ ID = .BI_JAVADOC_BLOCK_ID ∨
      ID = .BI_JAVADOC_LIST_BLOCK_ID ∨ ID = .BI_JAVADOC_NODE_BLOCK_ID ∨
      ID = .BI_REFERENCE_BLOCK_ID)
    (hitems : rd.Stream.Items = .code ENTER_SUBBLOCK :: .blockID (some ID) :: rest) :
    ∃ rd1, getInfos K rd0
      = .ret (.error (makeError "invalid top level block"), rd1) := by
  rw [getInfos_of_reach (validateStream_ok hsig) hreach]
  have hend : rd.Stream.AtEndOfStream = false := by
    simp [BitstreamCursor.AtEndOfStream, hitems]
  rcases hID with h | h | h | h | h | h | h <;> subst h <;>
    exact ⟨_, by
      simp [getInfos.loop, hend, getInfos.body, BitstreamCursor.ReadCode,
        BitstreamCursor.ReadSubBlockID, hitems, ENTER_SUBBLOCK, Run.bind]; rfl⟩

theorem getInfos_invalid_top_level_block_witness :
    ∃ rd1, getInfos .upstream
        (BitcodeReader.init (streamOf (signature .upstream)
          (block (some .BI_NAMESPACE_BLOCK_ID) (record .NAMESPACE_NAME [] "ns") ++
            block (some .BI_REFERENCE_BLOCK_ID) [])))
      = .ret (.error (makeError "invalid top level block"), rd1) :=
  getInfos_invalid_top_level_block .upstream _ _ _ 1 .BI_REFERENCE_BLOCK_ID _ rfl rfl
    (by decide) rfl

/-- A turn of the loop of `getInfos` at a well-formed block whose id the switch has no case
for: the block is skipped, the list is unchanged. -/
theorem getInfos_body_skip (K : BitCodeConstants) (rd : BitcodeReader) (Infos : List Object)
    (ID : Option BlockId) (body post : List Item) (hID : unhandledAtTopLevel ID)
    (hitems : rd.Stream.Items = block ID body ++ post) :
    getInfos.body K rd Infos = .ret (.next (rd.seek post) Infos) := by
  have hdrop : List.drop (body.length + 1) (body ++ Item.code END_BLOCK :: post) = post := by
    have : body ++ Item.code END_BLOCK :: post = (body ++ [Item.code END_BLOCK]) ++ post := by
      simp
    rw [this, List.drop_append_of_le_length (by simp)]
    simp
  rcases hID with h | h | h | h | h | h <;> subst h <;>
    simp [getInfos.body, BitstreamCursor.ReadCode, BitstreamCursor.ReadSubBlockID, hitems,
      block, ENTER_SUBBLOCK, BitstreamCursor.SkipBlock, BitcodeReader.seek, hdrop]

/-- `getInfos` goes on after a skipped block with the list it had before it. -/
theorem getInfos_skip (K : BitCodeConstants) (rd0 rd : BitcodeReader)
    (Infos : List Object) (k : Nat) (ID : Option BlockId) (body post : List Item)
    (hsig : rd0.Stream.Lead = signature K)
    (hreach : getInfos.reach K k { rd0 with Stream := { rd0.Stream with Lead := [] } } []
      = some (rd, Infos))
    (hID : unhandledAtTopLevel ID)
    (hitems : rd.Stream.Items = block ID body ++ post) :
    getInfos K rd0 = getInfos.loop K (post.length + 1) (rd.seek post) Infos := by
  rw [getInfos_of_reach (validateStream_ok hsig) hreach]
  have hend : rd.Stream.AtEndOfStream = false := by
    simp [BitstreamCursor.AtEndOfStream, hitems, block]
  rw [getInfos.loop, if_neg (by simp [hend]), getInfos_body_skip K rd Infos ID body post hID hitems]
  simp only [Run.bind]
  exact getInfos_loop_fuel K _ _ _ _ (by simp [BitcodeReader.seek, hitems, block]; omega)
    (by simp [BitcodeReader.seek])

/-- A turn of the loop of `getInfos` at a version block whose first record has a value other
than the expected version: the turn ends `getInfos` with the version error. -/
theorem getInfos_body_version_mismatch (K : BitCodeConstants) (rd : BitcodeReader)
    (Infos : List Object) (L c v : Nat) (vals : List Nat) (Blob : Blob) (rest : List Item)
    (hc : c ≥ FIRST_APPLICATION_ABBREV) (hv : v ≠ K.VersionNumber)
    (hitems : rd.Stream.Items = .code ENTER_SUBBLOCK :: .blockID (some .BI_VERSION_BLOCK_ID)
      :: .blockLen L :: .code c :: .record (some .VERSION) (v :: vals) Blob :: rest) :
    ∃ rd1, getInfos.body K rd Infos
      = .ret (.done (.error (makeError "mismatched bitcode version number")) rd1) := by
  exact ⟨_, by
    simp [getInfos.body, BitstreamCursor.ReadCode, BitstreamCursor.ReadSubBlockID, hitems,
      ENTER_SUBBLOCK, readBlockFuel, readBlock, BitstreamCursor.EnterSubBlock, readBlockLoop,
      skipUntilRecordOrBlock, BitstreamCursor.AtEndOfStream, hc, readRecord,
      BitstreamCursor.readRecord, parseRecordVersionNo, hv, Run.bind]
    rfl⟩

/-- A turn of the loop of `getInfos` at a version block with one record of the expected
value: the loop continues after the block with the list unchanged. -/
theorem getInfos_body_version_match (K : BitCodeConstants) (rd : BitcodeReader)
    (Infos : List Object) (L c : Nat) (vals : List Nat) (Blob : Blob) (post : List Item)
    (hc : c ≥ FIRST_APPLICATION_ABBREV)
    (hitems : rd.Stream.Items = .code ENTER_SUBBLOCK :: .blockID (some .BI_VERSION_BLOCK_ID)
      :: .blockLen L :: .code c :: .record (some .VERSION) (K.VersionNumber :: vals) Blob
      :: .code END_BLOCK :: post) :
    getInfos.body K rd Infos = .ret (.next (rd.seek post) Infos) := by
  have h4 : ¬ (END_BLOCK ≥ FIRST_APPLICATION_ABBREV) := by decide
  simp [getInfos.body, BitstreamCursor.ReadCode, BitstreamCursor.ReadSubBlockID, hitems,
    readBlockFuel, readBlock, BitstreamCursor.EnterSubBlock, readBlockLoop,
    skipUntilRecordOrBlock, BitstreamCursor.AtEndOfStream, hc, h4, readRecord,
    BitstreamCursor.readRecord, parseRecordVersionNo, Run.bind, BitstreamCursor.ReadBlockEnd,
    BitcodeReader.seek]
  simp [ENTER_SUBBLOCK, END_BLOCK]

/-- C1: when the loop of `getInfos`, after a valid signature and `k` top-level blocks read
without error, meets a version block whose version record has the value `v`, then for
`v` other than the expected version number `getInfos` returns the error
`mismatched bitcode version number` and no entity list, whatever follows the record; for
`v` equal to it the block causes no error: the loop continues after the block with the list
unchanged. -/
theorem getInfos_version_block (K : BitCodeConstants) (rd0 rd : BitcodeReader)
    (Infos : List Object) (k L c v : Nat) (vals : List Nat) (Blob : Blob) (rest : List Item)
    (hsig : rd0.Stream.Lead = signature K)
    (hreach : getInfos.reach K k { rd0 with Stream := { rd0.Stream with Lead := [] } } []
      = some (rd, Infos))
    (hc : c ≥ FIRST_APPLICATION_ABBREV)
    (hitems : rd.Stream.Items = .code ENTER_SUBBLOCK :: .blockID (some .BI_VERSION_BLOCK_ID)
      :: .blockLen L :: .code c :: .record (some .VERSION) (v :: vals) Blob :: rest) :
    (v ≠ K.VersionNumber →
      ∃ rd1, getInfos K rd0
        = .ret (.error (makeError "mismatched bitcode version number"), rd1)) ∧
    (v = K.VersionNumber → ∀ post, rest = .code END_BLOCK :: post →
      getInfos.body K rd Infos = .ret (.next (rd.seek post) Infos)) := by
  constructor
  · intro hv
    obtain ⟨rd1, h1⟩ := getInfos_body_version_mismatch K rd Infos L c v vals Blob rest hc hv hitems
    refine ⟨rd1, ?_⟩
    rw [getInfos_of_reach (validateStream_ok hsig) hreach]
    have hend : rd.Stream.AtEndOfStream = false := by
      simp [BitstreamCursor.AtEndOfStream, hitems]
    rw [getInfos.loop, if_neg (by simp [hend]), h1]
    rfl
  · intro hv post hrest
    subst hv hrest
    exact getInfos_body_version_match K rd Infos L c vals Blob post hc hitems

theorem getInfos_version_block_witness :
    ∃ rd1, getInfos .upstream
        (BitcodeReader.init (streamOf (signature .upstream)
          (block (some .BI_NAMESPACE_BLOCK_ID) (record .NAMESPACE_NAME [] "ns") ++
            block (some .BI_VERSION_BLOCK_ID) (record .VERSION [4] "") ++
            block (some .BI_ENUM_BLOCK_ID) [])))
      = .ret (.error (makeError "mismatched bitcode version number"), rd1) :=
  (getInfos_version_block .upstream
    (BitcodeReader.init (streamOf (signature .upstream)
      (block (some .BI_NAMESPACE_BLOCK_ID) (record .NAMESPACE_NAME [] "ns") ++
        block (some .BI_VERSION_BLOCK_ID) (record .VERSION [4] "") ++
        block (some .BI_ENUM_BLOCK_ID) [])))
    _ _ 1 3 4 4 [] "" _ rfl rfl (by decide) rfl).1 (by decide)

/-- C4, refuted as stated: a stream that is the signature and one base-record block makes
`getInfos` return the empty entity list, not the error `invalid top level block`. -/
theorem top_level_base_record_block_not_rejected :
    getInfos .upstream
        (BitcodeReader.init (streamOf (signature .upstream)
          (block (some .BI_BASE_RECORD_BLOCK_ID) [])))
      = .ret (.ok [], BitcodeReader.init (streamOf [] [])) ∧
    ¬ ∃ rd1, getInfos .upstream
        (BitcodeReader.init (streamOf (signature .upstream)
          (block (some .BI_BASE_RECORD_BLOCK_ID) [])))
      = .ret (.error (makeError "invalid top level block"), rd1) := by
  have h : getInfos .upstream
        (BitcodeReader.init (streamOf (signature .upstream)
          (block (some .BI_BASE_RECORD_BLOCK_ID) [])))
      = .ret (.ok [], BitcodeReader.init (streamOf [] [])) := rfl
  refine ⟨h, ?_⟩
  rintro ⟨rd1, h1⟩
  rw [h] at h1
  cases h1

/-- C4, amended: a well-formed base-record, enum-value, template, template-specialization
or template-param block at top level is skipped: the turn of the loop that meets it
continues after the block with the entity list unchanged, and `getInfos` returns what its
loop returns from there. -/
theorem getInfos_skips_child_only_block (K : BitCodeConstants) (rd0 rd : BitcodeReader)
    (Infos : List Object) (k : Nat) (ID : BlockId) (body post : List Item)
    (hsig : rd0.Stream.Lead = signature K)
    (hreach : getInfos.reach K k { rd0 with Stream := { rd0.Stream with Lead := [] } } []
      = some (rd, Infos))
    (hID : ID = .BI_BASE_RECORD_BLOCK_ID ∨ ID = .BI_ENUM_VALUE_BLOCK_ID ∨
      ID = .BI_TEMPLATE_BLOCK_ID ∨ ID = .BI_TEMPLATE_SPECIALIZATION_BLOCK_ID ∨
      ID = .BI_TEMPLATE_PARAM_BLOCK_ID)
    (hitems : rd.Stream.Items = block (some ID) body ++ post) :
    getInfos.body K rd Infos = .ret (.next (rd.seek post) Infos) ∧
    getInfos K rd0 = getInfos.loop K (post.length + 1) (rd.seek post) Infos := by
  have h : unhandledAtTopLevel (some ID) := by
    rcases hID with h | h | h | h | h <;> subst h <;> simp [unhandledAtTopLevel]
  exact ⟨getInfos_body_skip K rd Infos _ body post h hitems,
    getInfos_skip K rd0 rd Infos k _ body post hsig hreach h hitems⟩

theorem getInfos_skips_child_only_block_witness :
    getInfos.body .upstream
        (BitcodeReader.init (streamOf []
          (block (some .BI_TEMPLATE_BLOCK_ID) [.code 7] ++ block (some .BI_ENUM_BLOCK_ID) [])))
        []
      = .ret (.next (BitcodeReader.init (streamOf [] (block (some .BI_ENUM_BLOCK_ID) []))) []) ∧
    getInfos .upstream
        (BitcodeReader.init (streamOf (signature .upstream)
          (block (some .BI_TEMPLATE_BLOCK_ID) [.code 7] ++ block (some .BI_ENUM_BLOCK_ID) [])))
      = getInfos.loop .upstream 5
          (BitcodeReader.init (streamOf [] (block (some .BI_ENUM_BLOCK_ID) []))) [] :=
  getInfos_skips_child_only_block .upstream _ _ _ 0 .BI_TEMPLATE_BLOCK_ID [.code 7]
    (block (some .BI_ENUM_BLOCK_ID) []) rfl rfl (by decide) rfl

/-! ### Attaching -/

/-- C6: `addReference(I, R, F)` returns success exactly for the declared pairs of owner type
and relation kind; for any other pair, `F_default` included, it returns the error
`invalid type cannot contain Reference` and the owner is unchanged; on success the owner
differs from the one given in the slot named by `F` only: `R` is the new last element of the
list, or the new value of the single slot. -/
theorem addReference_slots (R : Reference) :
    (∀ I F, (addReference I R F).1 = none ↔ referenceSlotDeclared I F = true) ∧
    (∀ I F, referenceSlotDeclared I F = false →
      addReference I R F = (some (makeError "invalid type cannot contain Reference"), I)) ∧
    (∀ I : TypeInfo, addReference (.typeInfo I) R .F_type
      = (none, .typeInfo { I with Type_ := R })) ∧
    (∀ I : FieldTypeInfo, addReference (.fieldTypeInfo I) R .F_type
      = (none, .fieldTypeInfo { I with Type_ := R })) ∧
    (∀ I : MemberTypeInfo, addReference (.memberTypeInfo I) R .F_type
      = (none, .memberTypeInfo { I with Type_ := R })) ∧
    (∀ I : EnumInfo, addReference (.enumInfo I) R .F_namespace
      = (none, .enumInfo { I with Namespace := I.Namespace ++ [R] })) ∧
    (∀ I : TypedefInfo, addReference (.typedefInfo I) R .F_namespace
      = (none, .typedefInfo { I with Namespace := I.Namespace ++ [R] })) ∧
    (∀ I : NamespaceInfo, addReference (.namespaceInfo I) R .F_namespace
      = (none, .namespaceInfo { I with Namespace := I.Namespace ++ [R] })) ∧
    (∀ I : NamespaceInfo, addReference (.namespaceInfo I) R .F_child_namespace
      = (none, .namespaceInfo
          { I with Children := { I.Children with Namespaces := I.Children.Namespaces ++ [R] } })) ∧
    (∀ I : NamespaceInfo, addReference (.namespaceInfo I) R .F_child_record
      = (none, .namespaceInfo
          { I with Children := { I.Children with Records := I.Children.Records ++ [R] } })) ∧
    (∀ I : NamespaceInfo, addReference (.namespaceInfo I) R .F_child_function
      = (none, .namespaceInfo
          { I with Children := { I.Children with Functions := I.Children.Functions ++ [R] } })) ∧
    (∀ I : FunctionInfo, addReference (.functionInfo I) R .F_namespace
      = (none, .functionInfo { I with Namespace := I.Namespace ++ [R] })) ∧
    (∀ I : FunctionInfo, addReference (.functionInfo I) R .F_parent
      = (none, .functionInfo { I with Parent := R })) ∧
    (∀ I : RecordInfo, addReference (.recordInfo I) R .F_namespace
      = (none, .recordInfo { I with Namespace := I.Namespace ++ [R] })) ∧
    (∀ I : RecordInfo, addReference (.recordInfo I) R .F_parent
      = (none, .recordInfo { I with Parents := I.Parents ++ [R] })) ∧
    (∀ I : RecordInfo, addReference (.recordInfo I) R .F_vparent
      = (none, .recordInfo { I with VirtualParents := I.VirtualParents ++ [R] })) ∧
    (∀ I : RecordInfo, addReference (.recordInfo I) R .F_child_record
      = (none, .recordInfo
          { I with Children := { I.Children with Records := I.Children.Records ++ [R] } })) ∧
    (∀ I : RecordInfo, addReference (.recordInfo I) R .F_child_function
      = (none, .recordInfo
          { I with Children := { I.Children with Functions := I.Children.Functions ++ [R] } })) := by
  refine ⟨?_, ?_, fun _ => rfl, fun _ => rfl, fun _ => rfl, fun _ => rfl, fun _ => rfl,
    fun _ => rfl, fun _ => rfl, fun _ => rfl, fun _ => rfl, fun _ => rfl, fun _ => rfl,
    fun _ => rfl, fun _ => rfl, fun _ => rfl, fun _ => rfl, fun _ => rfl⟩
  · intro I F
    cases I <;> cases F <;> simp [addReference, referenceSlotDeclared]
  · intro I F h
    cases I <;> cases F <;> first | rfl | (simp [referenceSlotDeclared] at h)

/-- C7, as the code has it: for an owner and a base-record, enum, enum-value, template,
template-specialization, template-param or typedef block that no attach function is
specialized for, `readSubBlock` reads the (empty) child block and then ends the process
with `exit(1)`; it does not return an error to its caller. -/
theorem readSubBlock_undeclared_attachment_exits (K : BitCodeConstants) (n L : Nat)
    (I : Object) (ID : BlockId) (rd : BitcodeReader) (rest : List Item)
    (hID : ID = .BI_BASE_RECORD_BLOCK_ID ∨ ID = .BI_ENUM_BLOCK_ID ∨
      ID = .BI_ENUM_VALUE_BLOCK_ID ∨ ID = .BI_TEMPLATE_BLOCK_ID ∨
      ID = .BI_TEMPLATE_SPECIALIZATION_BLOCK_ID ∨ ID = .BI_TEMPLATE_PARAM_BLOCK_ID ∨
      ID = .BI_TYPEDEF_BLOCK_ID)
    (hdecl : attachDeclared I ID = false)
    (hitems : rd.Stream.Items = .blockLen L :: .code END_BLOCK :: rest) :
    readSubBlock K (n + 4) (some ID) I rd = .exit 1 := by
  have h4 : ¬ (END_BLOCK ≥ FIRST_APPLICATION_ABBREV) := by decide
  have h1 : ¬ (END_BLOCK = ENTER_SUBBLOCK) := by decide
  rcases hID with h | h | h | h | h | h | h <;> subst h <;> cases I <;>
    first
      | (simp [attachDeclared] at hdecl; done)
      | simp [readSubBlock, readBlock, BitstreamCursor.EnterSubBlock, readBlockLoop,
          skipUntilRecordOrBlock, BitstreamCursor.AtEndOfStream, BitstreamCursor.ReadCode,
          BitstreamCursor.ReadBlockEnd, hitems, h4, h1, Run.bind, addChild, addTemplate,
          addTemplateSpecialization, addTemplateParam]

theorem readSubBlock_undeclared_attachment_exits_witness :
    readSubBlock .upstream 4 (some .BI_ENUM_BLOCK_ID)
        (.functionInfo (FunctionInfo.empty .upstream))
        (BitcodeReader.init ⟨[], [.blockLen 1, .code END_BLOCK, .code END_BLOCK], 1⟩)
      = .exit 1 :=
  readSubBlock_undeclared_attachment_exits .upstream 0 1 _ .BI_ENUM_BLOCK_ID _
    [.code END_BLOCK] (by decide) rfl rfl

/-- A stream with an enum block inside a function block ends the process in `getInfos`. -/
theorem getInfos_function_with_enum_block_exits :
    getInfos .upstream
        (BitcodeReader.init (streamOf (signature .upstream)
          (block (some .BI_FUNCTION_BLOCK_ID) (block (some .BI_ENUM_BLOCK_ID) []))))
      = .exit 1 := by
  simp [getInfos, validateStream, validateStream.loop, BitstreamCursor.Read8, signature,
    getInfos.loop, getInfos.body, readBlockToInfo, createInfo, readBlockFuel, streamOf,
    BitcodeReader.init, readBlockLoop, skipUntilRecordOrBlock, BitstreamCursor.AtEndOfStream,
    BitstreamCursor.ReadCode, BitstreamCursor.ReadSubBlockID, block, readSubBlock, readBlock,
    BitstreamCursor.EnterSubBlock, Run.bind, BitstreamCursor.ReadBlockEnd, addChild,
    END_BLOCK, ENTER_SUBBLOCK, FIRST_APPLICATION_ABBREV]

/-- C8, refuted as stated: in a record block, a reference `A` with the relation-kind record
`F_parent` followed by a reference `B` without one yields the parents `A` and `B`. -/
theorem second_reference_attached_under_stale_tag :
    (match getInfos .upstream
        (BitcodeReader.init (streamOf (signature .upstream)
          (block (some .BI_RECORD_BLOCK_ID)
            (block (some .BI_REFERENCE_BLOCK_ID)
                (record .REFERENCE_FIELD [2] "" ++ record .REFERENCE_NAME [] "A") ++
              block (some .BI_REFERENCE_BLOCK_ID) (record .REFERENCE_NAME [] "B"))))) with
      | .ret (.ok [.recordInfo I], _) => I.Parents.map fun R => R.Name
      | _ => [])
      = ["A", "B"] := by
  have hdec : ∀ Field Blob, decodeRecordFieldId .upstream [2] Field Blob = .ret (none, .F_parent) :=
    fun Field Blob => (decodeRecordFieldId_spec .upstream 2 [] Field Blob).1 .F_parent (by decide)
  simp [getInfos, validateStream, validateStream.loop, BitstreamCursor.Read8, signature,
    getInfos.loop, getInfos.body, readBlockToInfo, createInfo, readBlockFuel, streamOf,
    BitcodeReader.init, record,
    readBlockLoop, skipUntilRecordOrBlock, BitstreamCursor.AtEndOfStream,
    BitstreamCursor.ReadCode, BitstreamCursor.ReadSubBlockID, block,
    readSubBlock, readBlock, BitstreamCursor.EnterSubBlock, readRecord,
    BitstreamCursor.readRecord, parseRecordReference, hdec, decodeRecordString, Run.bind,
    BitstreamCursor.ReadBlockEnd, addReference, END_BLOCK, ENTER_SUBBLOCK,
    FIRST_APPLICATION_ABBREV, RecordInfo.empty, Reference.empty]

/-! ### Enumeration fields -/

/-- A value of `int` range plus `2 ^ 32` converts back to the value, and is itself outside
the range. -/
theorem toInt32_wrapped (d : Int) (h : 0 ≤ d ∧ d < 2 ^ 31) :
    toInt32 (2 ^ 32 + d.toNat) = d ∧ ∀ d1 : Int, d1 < 2 ^ 31 → ((2 ^ 32 + d.toNat : Nat) : Int) ≠ d1 := by
  have h1 : d.toNat < 2 ^ 31 := by omega
  refine ⟨?_, ?_⟩
  · rw [toInt32_add_pow, toInt32_of_lt h1]
    omega
  · intro d1 hd1
    push_cast
    omega

/-- C9, as the code has it: the decoders of `AccessSpecifier` and `TagTypeKind` accept a
record exactly when its first field is a declared value, yield that value, and otherwise
return the invalid-value error and leave the target unchanged.  The decoders of `InfoType`
and `FieldId` convert the field to the enumeration before they compare it, so they accept
exactly the fields whose low 32 bits are a declared value: the field `2 ^ 32 + d` is accepted
as the enumerator with value `d`, although it is no declared value. -/
theorem decodeRecord_enum_fields (K : BitCodeConstants) (r0 : Nat) (rest : List Nat)
    (Blob : Blob) :
    (∀ Field : AccessSpecifier,
      (∀ e : AccessSpecifier, r0 = e.val →
        decodeRecordAccessSpecifier (r0 :: rest) Field Blob = .ret (none, e)) ∧
      ((∀ e : AccessSpecifier, r0 ≠ e.val) →
        decodeRecordAccessSpecifier (r0 :: rest) Field Blob
          = .ret (some (makeError "invalid value for AccessSpecifier"), Field))) ∧
    (∀ Field : TagTypeKind,
      (∀ e : TagTypeKind, r0 = e.val →
        decodeRecordTagTypeKind (r0 :: rest) Field Blob = .ret (none, e)) ∧
      ((∀ e : TagTypeKind, r0 ≠ e.val) →
        decodeRecordTagTypeKind (r0 :: rest) Field Blob
          = .ret (some (makeError "invalid value for TagTypeKind"), Field))) ∧
    (∀ Field : InfoType,
      (∀ e : InfoType, toInt32 r0 = K.infoType e →
        decodeRecordInfoType K (r0 :: rest) Field Blob = .ret (none, e)) ∧
      ((∀ e : InfoType, toInt32 r0 ≠ K.infoType e) →
        decodeRecordInfoType K (r0 :: rest) Field Blob
          = .ret (some (makeError "invalid value for InfoType"), Field))) ∧
    (∀ Field : FieldId,
      (∀ e : FieldId, toInt32 r0 = K.fieldId e →
        decodeRecordFieldId K (r0 :: rest) Field Blob = .ret (none, e)) ∧
      ((∀ e : FieldId, toInt32 r0 ≠ K.fieldId e) →
        decodeRecordFieldId K (r0 :: rest) Field Blob
          = .ret (some (makeError "invalid value for FieldId"), Field))) ∧
    (∀ (e : InfoType) (Field : InfoType),
      decodeRecordInfoType K ((2 ^ 32 + (K.infoType e).toNat) :: rest) Field Blob
          = .ret (none, e) ∧
        ∀ e1 : InfoType, ((2 ^ 32 + (K.infoType e).toNat : Nat) : Int) ≠ K.infoType e1) ∧
    (∀ (e : FieldId) (Field : FieldId),
      decodeRecordFieldId K ((2 ^ 32 + (K.fieldId e).toNat) :: rest) Field Blob
          = .ret (none, e) ∧
        ∀ e1 : FieldId, ((2 ^ 32 + (K.fieldId e).toNat : Nat) : Int) ≠ K.fieldId e1) ∧
    decodeRecordInfoType .upstream [4294967297] .IT_default "" = .ret (none, .IT_namespace) ∧
    decodeRecordFieldId .upstream [4294967298] .F_default "" = .ret (none, .F_parent) := by
  refine ⟨fun Field => decodeRecordAccessSpecifier_spec r0 rest Field Blob,
    fun Field => decodeRecordTagTypeKind_spec r0 rest Field Blob,
    fun Field => decodeRecordInfoType_spec K r0 rest Field Blob,
    fun Field => decodeRecordFieldId_spec K r0 rest Field Blob, ?_, ?_, ?_, ?_⟩
  · intro e Field
    obtain ⟨h1, h2⟩ := toInt32_wrapped (K.infoType e) (K.infoType_range e)
    exact ⟨(decodeRecordInfoType_spec K _ rest Field Blob).1 e h1,
      fun e1 => h2 _ (K.infoType_range e1).2⟩
  · intro e Field
    obtain ⟨h1, h2⟩ := toInt32_wrapped (K.fieldId e) (K.fieldId_range e)
    exact ⟨(decodeRecordFieldId_spec K _ rest Field Blob).1 e h1,
      fun e1 => h2 _ (K.fieldId_range e1).2⟩
  · exact (decodeRecordInfoType_spec .upstream 4294967297 [] .IT_default "").1 .IT_namespace
      (by decide)
  · exact (decodeRecordFieldId_spec .upstream 4294967298 [] .F_default "").1 .F_parent
      (by decide)

/-- C10, as the code has it: the decoder of the documentation enumerations accepts every
field up to `INT_MAX` and yields it unchecked; a list frame receives the kind 99, a styled
node the style 99, an admonition the style 0, and a kind record with 0 or 99 runs into
`llvm_unreachable`. -/
theorem decodeRecordEnum_unchecked (r0 : Nat) (rest : List Nat) (value : Int) (blob : Blob) :
    (r0 ≤ INT_MAX → decodeRecordEnum (r0 :: rest) value blob = .ret (none, (r0 : Int))) ∧
    (r0 > INT_MAX → decodeRecordEnum (r0 :: rest) value blob
      = .ret (some (makeError "integer too large to parse"), value)) ∧
    ¬ Javadoc.Kind.declared 99 ∧ ¬ Javadoc.Kind.declared 0 ∧
    ¬ Javadoc.Style.declared 99 ∧ ¬ Javadoc.Admonish.declared 0 ∧
    parseRecordCurrentNodeList [99] (some .JAVADOC_LIST_KIND) "" ⟨none, []⟩
      = .ret (none, ⟨some 99, []⟩) ∧
    parseRecordNodeList [99] (some .JAVADOC_NODE_STYLE) "" [.ofKind Javadoc.Kind.styled]
      = .ret (none, [(Javadoc.Node.ofKind Javadoc.Kind.styled).setStyle 99]) ∧
    parseRecordNodeList [0] (some .JAVADOC_NODE_ADMONISH) "" [.ofKind Javadoc.Kind.admonition]
      = .ret (none, [(Javadoc.Node.ofKind Javadoc.Kind.admonition).setAdmonish 0]) ∧
    parseRecordNodeList [99] (some .JAVADOC_NODE_KIND) "" []
      = .trap "llvm_unreachable: unknown kind" ∧
    parseRecordNodeList [0] (some .JAVADOC_NODE_KIND) "" []
      = .trap "llvm_unreachable: unknown kind" := by
  refine ⟨?_, ?_, by simp [Javadoc.Kind.declared], by simp [Javadoc.Kind.declared],
    by simp [Javadoc.Style.declared], by simp [Javadoc.Admonish.declared],
    rfl, rfl, rfl, rfl, rfl⟩
  · intro h
    have h1 : r0 < 2 ^ 31 := by unfold INT_MAX at h; omega
    simp [decodeRecordEnum, decodeRecordInt, Nat.not_lt.mpr h, toInt32_of_lt h1]
  · intro h
    simp [decodeRecordEnum, decodeRecordInt, h]

/-! ### Integer, boolean, identifier and location fields -/

/-- C11: for a record with first field `r0`, the integer decoder succeeds if and only if
`r0 ≤ INT_MAX`, and then the decoded `int` is `r0` itself; when `r0` exceeds `INT_MAX` it
returns the error `integer too large to parse` and the target keeps its value. -/
theorem decodeRecordInt_spec (r0 : Nat) (rest : List Nat) (Field : Int) (Blob : Blob) :
    (r0 ≤ INT_MAX → decodeRecordInt (r0 :: rest) Field Blob = .ret (none, (r0 : Int))) ∧
    (INT_MAX < r0 → decodeRecordInt (r0 :: rest) Field Blob
        = .ret (some (makeError "integer too large to parse"), Field)) ∧
    ((∃ v, decodeRecordInt (r0 :: rest) Field Blob = .ret (none, v)) ↔ r0 ≤ INT_MAX) := by
  have hle : r0 ≤ INT_MAX →
      decodeRecordInt (r0 :: rest) Field Blob = .ret (none, (r0 : Int)) := by
    intro h
    have h1 : ¬ r0 > INT_MAX := by omega
    have h2 : r0 < 2 ^ 31 := by unfold INT_MAX at h; omega
    simp [decodeRecordInt, h1, toInt32_of_lt h2]
  have hgt : INT_MAX < r0 → decodeRecordInt (r0 :: rest) Field Blob
      = .ret (some (makeError "integer too large to parse"), Field) := by
    intro h
    simp [decodeRecordInt, h]
  refine ⟨hle, hgt, ⟨fun ⟨v, hv⟩ => ?_, fun h => ⟨_, hle h⟩⟩⟩
  by_contra hn
  rw [hgt (by omega)] at hv
  cases hv

/-- The copying loop of the identifier decoder, started at index `I` with `n` bytes to go
in an identifier of `I + n` bytes: it returns, the bytes before `I` are kept, and the byte at
each index from `I` on is the low 8 bits of the record field after it. -/
theorem decodeRecordSymbolID_loop_spec (R : Record) :
    ∀ (n I : Nat) (Field : SymbolID), I + n = Field.length → I + n < R.length →
      ∃ Field1, decodeRecordSymbolID.loop R n I Field = .ret Field1 ∧
        Field1.length = Field.length ∧
        (∀ j, j < I → Field1[j]? = Field[j]?) ∧
        (∀ j, I ≤ j → j < I + n → Field1[j]? = (R[j + 1]?).map fun v => v % 256) := by
  intro n
  induction n with
  | zero =>
    intro I Field h1 h2
    exact ⟨Field, rfl, rfl, fun _ _ => rfl, fun j h3 h4 => by omega⟩
  | succ n ih =>
    intro I Field h1 h2
    have hI : I + 1 < R.length := by omega
    obtain ⟨F1, e1, e2, e3, e4⟩ := ih (I + 1) (Field.set I (R[I + 1] % 256))
      (by simp; omega) (by omega)
    refine ⟨F1, ?_, ?_, ?_, ?_⟩
    · unfold decodeRecordSymbolID.loop
      rw [List.getElem?_eq_getElem hI]
      exact e1
    · simpa using e2
    · intro j hj
      rw [e3 j (by omega), List.getElem?_set_ne (by omega)]
    · intro j hj1 hj2
      by_cases hj : j = I
      · subst hj
        rw [e3 j (by omega), List.getElem?_set_self (by omega), List.getElem?_eq_getElem hI]
        rfl
      · exact e4 j (by omega) (by omega)

/-- C12: for a record with at least `1 + W` fields (`W = USRHashSize`), the identifier
decoder succeeds if and only if the first field is `W`; byte `i` of the decoded identifier
is then the low 8 bits of field `i + 1` for every `i < W`.  When the first field differs
from `W` it returns the error `incorrect USR size` and the identifier keeps its value.  The
identifier is an array of `W` bytes, and `W` is a value of `int` range. -/
theorem decodeRecordSymbolID_spec (K : BitCodeConstants) (r0 : Nat) (rest : List Nat)
    (Field : SymbolID) (Blob : Blob)
    (hW : K.USRHashSize < 2 ^ 31) (hField : Field.length = K.USRHashSize)
    (hrest : K.USRHashSize ≤ rest.length) :
    (r0 = K.USRHashSize →
      ∃ Field1, decodeRecordSymbolID K (r0 :: rest) Field Blob = .ret (none, Field1) ∧
        Field1.length = K.USRHashSize ∧
        ∀ i, i < K.USRHashSize → Field1[i]? = ((r0 :: rest)[i + 1]?).map fun v => v % 256) ∧
    (r0 ≠ K.USRHashSize →
      decodeRecordSymbolID K (r0 :: rest) Field Blob
        = .ret (some (makeError "incorrect USR size"), Field)) ∧
    ((∃ Field1, decodeRecordSymbolID K (r0 :: rest) Field Blob = .ret (none, Field1)) ↔
      r0 = K.USRHashSize) := by
  have hne : r0 ≠ K.USRHashSize →
      decodeRecordSymbolID K (r0 :: rest) Field Blob
        = .ret (some (makeError "incorrect USR size"), Field) := by
    intro h
    simp [decodeRecordSymbolID, h]
  have heq : r0 = K.USRHashSize →
      ∃ Field1, decodeRecordSymbolID K (r0 :: rest) Field Blob = .ret (none, Field1) ∧
        Field1.length = K.USRHashSize ∧
        ∀ i, i < K.USRHashSize → Field1[i]? = ((r0 :: rest)[i + 1]?).map fun v => v % 256 := by
    intro h
    subst h
    obtain ⟨F1, e1, e2, e3, e4⟩ := decodeRecordSymbolID_loop_spec (K.USRHashSize :: rest)
      K.USRHashSize 0 Field (by omega) (by simp; omega)
    refine ⟨F1, ?_, by omega, fun i hi => e4 i (Nat.zero_le _) (by omega)⟩
    have h3 : (toInt32 K.USRHashSize).toNat = K.USRHashSize := by
      rw [toInt32_of_lt hW]; simp
    simp [decodeRecordSymbolID, h3, e1]
  refine ⟨heq, hne, ⟨fun ⟨v, hv⟩ => ?_, fun h => ?_⟩⟩
  · by_contra hn
    rw [hne hn] at hv
    cases hv
  · obtain ⟨F1, e1, _⟩ := heq h
    exact ⟨F1, e1⟩

theorem decodeRecordSymbolID_spec_witness :
    ∃ Field1,
      decodeRecordSymbolID .upstream
          [20, 1, 2, 3, 4, 5, 6, 7, 8, 9, 10, 11, 12, 13, 14, 15, 16, 17, 18, 19, 276]
          (EmptySID .upstream) "" = .ret (none, Field1) ∧
        Field1.length = 20 ∧
        ∀ i, i < 20 → Field1[i]? =
          (([20, 1, 2, 3, 4, 5, 6, 7, 8, 9, 10, 11, 12, 13, 14, 15, 16, 17, 18, 19, 276] :
            List Nat)[i + 1]?).map fun v => v % 256 :=
  (decodeRecordSymbolID_spec .upstream 20
    [1, 2, 3, 4, 5, 6, 7, 8, 9, 10, 11, 12, 13, 14, 15, 16, 17, 18, 19, 276]
    (EmptySID .upstream) "" (by decide) (by simp [EmptySID]) (by decide)).1 rfl

/-- C13: for a record with first field `r0`, the boolean decoder always succeeds, and the
decoded value is true if and only if `r0` is not zero. -/
theorem decodeRecordBool_spec (r0 : Nat) (rest : List Nat) (Field : Bool) (Blob : Blob) :
    ∃ b, decodeRecordBool (r0 :: rest) Field Blob = .ret (none, b) ∧ (b = true ↔ r0 ≠ 0) := by
  refine ⟨decide (r0 ≠ 0), ?_, ?_⟩
  · simp [decodeRecordBool]
  · simp

/-- C14: for a record with the fields `r0`, `r1` and more, and a blob, both location
decoders make the location with line `r0`, file name the blob and flag `r1 ≠ 0` when
`r0 ≤ INT_MAX`: the optional variant replaces whatever value the target has, the list
variant appends the location after the elements of the target.  When `r0` exceeds
`INT_MAX` both return the error `integer too large to parse` and the target keeps its
value. -/
theorem decodeRecordLocation_spec (r0 r1 : Nat) (rest : List Nat) (Blob : Blob)
    (Opt : Option Location) (Locs : List Location) :
    (r0 ≤ INT_MAX →
      decodeRecordOptionalLocation (r0 :: r1 :: rest) Opt Blob
          = .ret (none, some ⟨(r0 : Int), Blob, decide (r1 ≠ 0)⟩) ∧
      decodeRecordLocations (r0 :: r1 :: rest) Locs Blob
          = .ret (none, Locs ++ [⟨(r0 : Int), Blob, decide (r1 ≠ 0)⟩])) ∧
    (INT_MAX < r0 →
      decodeRecordOptionalLocation (r0 :: r1 :: rest) Opt Blob
          = .ret (some (makeError "integer too large to parse"), Opt) ∧
      decodeRecordLocations (r0 :: r1 :: rest) Locs Blob
          = .ret (some (makeError "integer too large to parse"), Locs)) := by
  refine ⟨fun h => ?_, fun h => ?_⟩
  · have h1 : ¬ r0 > INT_MAX := by omega
    have h2 : r0 < 2 ^ 31 := by unfold INT_MAX at h; omega
    simp [decodeRecordOptionalLocation, decodeRecordLocations, h1, toInt32_of_lt h2]
  · simp [decodeRecordOptionalLocation, decodeRecordLocations, h]

/-! ### The stack of node-list frames -/

/-- Reading a record leaves the frames below the innermost one alone. -/
theorem readRecord_stack (K : BitCodeConstants) (ID : Nat) (I I1 : Object)
    (rd rd1 : BitcodeReader) (e : Option Error)
    (h : readRecord K ID I rd = .ret (e, I1, rd1)) : SameStack rd rd1 := by
  unfold readRecord at h
  split at h
  · cases h; exact ⟨rfl, rfl⟩
  · dsimp only at h
    cases I <;> dsimp only at h
    case javadoc => cases h; exact ⟨rfl, rfl⟩
    case currentNodeList =>
      split at h
      · cases h
      · rename_i J prev hn
        obtain ⟨p, _, hk⟩ := Run.bind_eq_ret h
        cases hk
        simp [SameStack, hn]
    case nodeList =>
      split at h
      · cases h
      · rename_i J prev hn
        obtain ⟨p, _, hk⟩ := Run.bind_eq_ret h
        cases hk
        simp [SameStack, hn]
    all_goals
      first
        | (have hp := parsed_eq_ret h
           dsimp only at hp
           subst hp
           exact ⟨rfl, rfl⟩)
        | (obtain ⟨p, _, hk⟩ := Run.bind_eq_ret h
           cases hk
           exact ⟨rfl, rfl⟩)

/-- `readSubBlock` leaves the frames below the innermost one alone if `readBlock` does, with
one call less to go: the frame a list block or a node block pushes is popped again. -/
theorem readSubBlock_stack_of (K : BitCodeConstants) (n : Nat)
    (ihB : ∀ ID I rd e I1 rd1, readBlock K n ID I rd = .ret (e, I1, rd1) → SameStack rd rd1) :
    ∀ ID I rd e I1 rd1, readSubBlock K (n + 1) ID I rd = .ret (e, I1, rd1) →
      SameStack rd rd1 := by
  intro ID I rd e I1 rd1 h
  unfold readSubBlock at h
  split at h
  · -- JAVADOC
    split at h
    · cases h; exact ⟨rfl, rfl⟩
    · split at h
      · cases h
      · obtain ⟨r, hr, hk⟩ := Run.bind_eq_ret h
        obtain ⟨e0, c, rdm⟩ := r
        have ih := ihB _ _ _ _ _ _ hr
        split at hk <;> cases hk <;> exact ih
  · -- JAVADOC_LIST
    split at h
    · cases h
    · obtain ⟨r, hr, hk⟩ := Run.bind_eq_ret h
      obtain ⟨e0, c, rdm⟩ := r
      have ih := ihB _ _ _ _ _ _ hr
      dsimp only [SameStack] at ih
      dsimp only at hk
      split at hk
      · cases hk
      · rename_i J prev hJ
        rw [hJ] at ih
        simp only [List.length_cons, List.tail_cons, Nat.add_right_cancel_iff] at ih
        obtain ⟨ih1, ih2⟩ := ih
        subst ih2
        cases e0 <;>
          repeat' (first | (cases hk) | (dsimp only at hk) | (split at hk))
        all_goals first
          | exact ⟨rfl, rfl⟩
          | (dsimp only [SameStack]; simp_all)
  · -- JAVADOC_NODE
    split at h
    · obtain ⟨r, hr, hk⟩ := Run.bind_eq_ret h
      obtain ⟨e0, c, rdm⟩ := r
      cases hk
      exact ihB _ _ _ _ _ _ hr
    · rename_i hn
      obtain ⟨r, hr, hk⟩ := Run.bind_eq_ret h
      obtain ⟨e0, c, rdm⟩ := r
      have ih := ihB _ _ _ _ _ _ hr
      dsimp only [SameStack] at ih
      dsimp only at hk
      split at hk
      · cases hk
      · rename_i J prev hJ
        rw [hJ] at ih
        simp only [List.length_cons, List.tail_cons, List.length_nil] at ih
        obtain ⟨ih1, ih2⟩ := ih
        subst ih2
        cases e0 <;>
          repeat' (first | (cases hk) | (dsimp only at hk) | (split at hk))
        all_goals (dsimp only [SameStack]; simp_all)
  case h_15 => cases h; exact ⟨rfl, rfl⟩
  all_goals
    obtain ⟨r, hr, hk⟩ := Run.bind_eq_ret h
    obtain ⟨e0, c, rdm⟩ := r
    have ih := ihB _ _ _ _ _ _ hr
    cases e0 <;>
      repeat' (first | (cases hk) | (dsimp only at hk) | (split at hk) | (replace hk := Run.bind_eq_ret hk; obtain ⟨_, _, hk⟩ := hk))
    all_goals exact ih

/-- `readBlock` leaves the frames below the innermost one alone if its loop does. -/
theorem readBlock_stack_of (K : BitCodeConstants) (n : Nat)
    (ihL : ∀ I rd e I1 rd1, readBlockLoop K n I rd = .ret (e, I1, rd1) → SameStack rd rd1) :
    ∀ ID I rd e I1 rd1, readBlock K (n + 1) ID I rd = .ret (e, I1, rd1) →
      SameStack rd rd1 := by
  intro ID I rd e I1 rd1 h
  unfold readBlock at h
  split at h
  · cases h; exact ⟨rfl, rfl⟩
  · have h1 := ihL _ _ _ _ _ h
    exact h1

/-- The loop of `readBlock` leaves the frames below the innermost one alone if it does so
with one turn less to go. -/
theorem readBlockLoop_stack_of (K : BitCodeConstants) (n : Nat)
    (ihL : ∀ I rd e I1 rd1, readBlockLoop K n I rd = .ret (e, I1, rd1) → SameStack rd rd1)
    (ihS : ∀ ID I rd e I1 rd1, readSubBlock K n ID I rd = .ret (e, I1, rd1) →
      SameStack rd rd1) :
    ∀ I rd e I1 rd1, readBlockLoop K (n + 1) I rd = .ret (e, I1, rd1) →
      SameStack rd rd1 := by
  intro I rd e I1 rd1 h
  unfold readBlockLoop at h
  obtain ⟨Res, hRes, hk⟩ := Run.bind_eq_ret h
  clear h
  obtain ⟨Res, S⟩ := Res
  cases Res with
  | BadBlock => cases hk; exact ⟨rfl, rfl⟩
  | BlockEnd => cases hk; exact ⟨rfl, rfl⟩
  | BlockBegin ID =>
    dsimp only at hk
    obtain ⟨r, hr, hk2⟩ := Run.bind_eq_ret hk
    obtain ⟨e0, I2, rd2⟩ := r
    have h2 := ihS _ _ _ _ _ _ hr
    cases e0 with
    | some Err =>
      dsimp only at hk2
      split at hk2 <;> cases hk2 <;> exact h2
    | none =>
      dsimp only at hk2
      have h3 := ihL _ _ _ _ _ hk2
      dsimp only [SameStack] at h2 h3 ⊢
      exact ⟨h3.1.trans h2.1, h3.2.trans h2.2⟩
  | Record Code =>
    dsimp only at hk
    obtain ⟨r, hr, hk2⟩ := Run.bind_eq_ret hk
    obtain ⟨e0, I2, rd2⟩ := r
    have h2 := readRecord_stack _ _ _ _ _ _ _ hr
    cases e0 with
    | some Err => cases hk2; exact h2
    | none =>
      dsimp only at hk2
      have h3 := ihL _ _ _ _ _ hk2
      dsimp only [SameStack] at h2 h3 ⊢
      exact ⟨h3.1.trans h2.1, h3.2.trans h2.2⟩

/-- The three reader functions return with the node-list stack as deep as they found it and
with the frames below the innermost one unchanged. -/
theorem reader_stack (K : BitCodeConstants) (n : Nat) :
    (∀ ID I rd e I1 rd1, readBlock K n ID I rd = .ret (e, I1, rd1) → SameStack rd rd1) ∧
    (∀ I rd e I1 rd1, readBlockLoop K n I rd = .ret (e, I1, rd1) → SameStack rd rd1) ∧
    (∀ ID I rd e I1 rd1, readSubBlock K n ID I rd = .ret (e, I1, rd1) → SameStack rd rd1) := by
  induction n with
  | zero =>
    refine ⟨?_, ?_, ?_⟩
    · intro ID I rd e I1 rd1 h; simp [readBlock] at h
    · intro I rd e I1 rd1 h; simp [readBlockLoop] at h
    · intro ID I rd e I1 rd1 h; simp [readSubBlock] at h
  | succ n ih =>
    obtain ⟨ihB, ihL, ihS⟩ := ih
    exact ⟨readBlock_stack_of K n ihL, readBlockLoop_stack_of K n ihL ihS,
      readSubBlock_stack_of K n ihB⟩

/-! ### A node block outside a list -/

/-- C15, amended: a node block read at top level (no frame is open) whose read
succeeded, leaving the frame `J` and the tree `D`.  When `J` holds one node and its kind is
returns, that node becomes `returns_` of the tree, whatever `returns_` was, and no error is
returned.  When `J` holds more than one node, `readSubBlock` returns the error `too many
items in list`. -/
theorem readSubBlock_node_top_level (K : BitCodeConstants) (n : Nat) (I c : Object)
    (rd rd1 : BitcodeReader) (J : CurrentNodeList) (D : Javadoc)
    (htop : rd.nodes_ = [])
    (hread : readBlock K n (some .BI_JAVADOC_NODE_BLOCK_ID) .nodeList
      { rd with nodes_ := [⟨none, []⟩] } = .ret (none, c, rd1))
    (hframe : rd1.nodes_.head? = some J)
    (hD : rd1.javadoc_ = some D) :
    (∀ back, J.children = [back] → back.kind = Javadoc.Kind.returns →
      readSubBlock K (n + 1) (some .BI_JAVADOC_NODE_BLOCK_ID) I rd
        = .ret (none, I, { rd1 with nodes_ := [], javadoc_ := some { D with returns_ := back } })) ∧
    (J.children.length > 1 →
      readSubBlock K (n + 1) (some .BI_JAVADOC_NODE_BLOCK_ID) I rd
        = .ret (some (makeError "too many items in list"), I, { rd1 with nodes_ := [] })) := by
  obtain ⟨hs1, hs2⟩ := (reader_stack K n).1 _ _ _ _ _ _ hread
  have hn : rd1.nodes_ = [J] := by
    rcases hrd : rd1.nodes_ with _ | ⟨J1, t⟩
    · rw [hrd] at hframe; cases hframe
    · rw [hrd] at hframe hs2
      simp only [List.head?_cons, Option.some.injEq] at hframe
      simp only [List.tail_cons, List.tail_nil] at hs2
      rw [hframe, hs2]
  refine ⟨fun back hb hk => ?_, fun hlen => ?_⟩
  · unfold readSubBlock
    simp [htop, hread, Run.bind, hn, hD, hb, hk]
  · unfold readSubBlock
    simp [htop, hread, Run.bind, hn, hD, hlen]

theorem readSubBlock_node_top_level_witness :
    readSubBlock .upstream 6 (some .BI_JAVADOC_NODE_BLOCK_ID)
        (.functionInfo (FunctionInfo.empty .upstream))
        { BitcodeReader.init
            ⟨[], [.blockLen 3, .code 4, .record (some .JAVADOC_NODE_KIND) [10] "",
              .code END_BLOCK, .code END_BLOCK], 1⟩ with
          javadoc_ := some
            { Javadoc.empty with
              returns_ := .mk Javadoc.Kind.returns "" Javadoc.Style.none Javadoc.Admonish.none ""
                [.mk Javadoc.Kind.text "first" Javadoc.Style.none Javadoc.Admonish.none "" []] } }
      = .ret (none, .functionInfo (FunctionInfo.empty .upstream),
          { BitcodeReader.init ⟨[], [.code END_BLOCK], 1⟩ with
            javadoc_ := some Javadoc.empty }) :=
  (readSubBlock_node_top_level .upstream 5 _ .nodeList
    { BitcodeReader.init
        ⟨[], [.blockLen 3, .code 4, .record (some .JAVADOC_NODE_KIND) [10] "",
          .code END_BLOCK, .code END_BLOCK], 1⟩ with
      javadoc_ := some
        { Javadoc.empty with
          returns_ := .mk Javadoc.Kind.returns "" Javadoc.Style.none Javadoc.Admonish.none ""
            [.mk Javadoc.Kind.text "first" Javadoc.Style.none Javadoc.Admonish.none "" []] } }
    { BitcodeReader.init ⟨[], [.code END_BLOCK], 1⟩ with
      javadoc_ := some
        { Javadoc.empty with
          returns_ := .mk Javadoc.Kind.returns "" Javadoc.Style.none Javadoc.Admonish.none ""
            [.mk Javadoc.Kind.text "first" Javadoc.Style.none Javadoc.Admonish.none "" []] }
      nodes_ := [⟨none, [Javadoc.Node.ofKind Javadoc.Kind.returns]⟩] }
    ⟨none, [Javadoc.Node.ofKind Javadoc.Kind.returns]⟩ _ rfl
    (by
      simp [readBlock, BitstreamCursor.EnterSubBlock, readBlockLoop, skipUntilRecordOrBlock,
        BitstreamCursor.AtEndOfStream, BitstreamCursor.ReadCode, BitstreamCursor.ReadSubBlockID,
        BitstreamCursor.ReadBlockEnd, readRecord, BitstreamCursor.readRecord,
        parseRecordNodeList, decodeRecordEnum, decodeRecordInt,
        Run.bind, BitcodeReader.init, END_BLOCK, ENTER_SUBBLOCK,
        FIRST_APPLICATION_ABBREV, INT_MAX, toInt32, Javadoc.Kind.block, Javadoc.Kind.paragraph,
        Javadoc.Kind.text, Javadoc.Kind.styled, Javadoc.Kind.returns, Javadoc.Kind.brief,
        Javadoc.Kind.admonition, Javadoc.Kind.code])
    rfl rfl).1 _ rfl rfl

/-- C15, refuted as stated: a function block whose documentation block holds two node
blocks, each with a Returns node (the first with the text `a`, the second with the text
`b`), is decoded without error, and the Returns node of the function is the second one. -/
theorem second_returns_replaces_first :
    (match getInfos .upstream
        (BitcodeReader.init (streamOf (signature .upstream)
          (block (some .BI_FUNCTION_BLOCK_ID)
            (block (some .BI_JAVADOC_BLOCK_ID)
              (block (some .BI_JAVADOC_NODE_BLOCK_ID)
                  (record .JAVADOC_NODE_KIND [10] "" ++
                    block (some .BI_JAVADOC_LIST_BLOCK_ID)
                      (block (some .BI_JAVADOC_NODE_BLOCK_ID)
                        (record .JAVADOC_NODE_KIND [1] "" ++
                          record .JAVADOC_NODE_STRING [] "a"))) ++
                block (some .BI_JAVADOC_NODE_BLOCK_ID)
                  (record .JAVADOC_NODE_KIND [10] "" ++
                    block (some .BI_JAVADOC_LIST_BLOCK_ID)
                      (block (some .BI_JAVADOC_NODE_BLOCK_ID)
                        (record .JAVADOC_NODE_KIND [1] "" ++
                          record .JAVADOC_NODE_STRING [] "b")))))))) with
      | .ret (.ok [.functionInfo I], _) =>
          some (I.javadoc.returns_.children.map Javadoc.Node.string)
      | _ => none)
      = some ["b"] := by
  simp [getInfos, validateStream, validateStream.loop, BitstreamCursor.Read8, signature,
    getInfos.loop, getInfos.body, readBlockToInfo, createInfo, readBlockFuel, streamOf,
    BitcodeReader.init, record,
    readBlockLoop, skipUntilRecordOrBlock, BitstreamCursor.AtEndOfStream,
    BitstreamCursor.ReadCode, BitstreamCursor.ReadSubBlockID, block,
    readSubBlock, readBlock, BitstreamCursor.EnterSubBlock, readRecord,
    BitstreamCursor.readRecord, parseRecordCurrentNodeList, parseRecordNodeList,
    decodeRecordEnum, decodeRecordInt, decodeRecordString, withField, setBack,
    Run.bind, getJavadoc, setJavadoc,
    BitstreamCursor.ReadBlockEnd, END_BLOCK, ENTER_SUBBLOCK,
    FIRST_APPLICATION_ABBREV, FunctionInfo.empty, SymbolInfo.empty, Info.empty, Javadoc.empty,
    INT_MAX, toInt32,
    Javadoc.Kind.block, Javadoc.Kind.paragraph, Javadoc.Kind.text, Javadoc.Kind.styled,
    Javadoc.Node.ofKind, Javadoc.Node.kind, Javadoc.Node.string, Javadoc.Node.style,
    Javadoc.Node.admonish, Javadoc.Node.name, Javadoc.Node.children, Javadoc.Node.setString,
    Javadoc.Node.setChildren,
    Javadoc.Kind.brief, Javadoc.Kind.admonition, Javadoc.Kind.code, Javadoc.Kind.returns,
    Javadoc.Kind.param, Javadoc.Kind.tparam]

/-! ### Records of a documentation node -/

/-- Replacing the last element of a list that ends with `back`. -/
theorem setBack_concat (init : List Javadoc.Node) (back n : Javadoc.Node) :
    setBack (init ++ [back]) n = init ++ [n] := by
  simp [setBack]

/-- C17, as the code has it: a node block whose first record is a string, style or
admonish record, with no kind record before it.  Read inside a frame that ends with a
node `sib` of kind text or styled, a string record sets the string of `sib`, the node
decoded before this block, and `readSubBlock` returns no error.  Read at top level or
inside a frame without nodes, each of the three records makes the parser take the last
element of an empty list. -/
theorem readSubBlock_node_content_before_kind (K : BitCodeConstants) (n L c : Nat)
    (I : Object) (rd : BitcodeReader) (ID : RecordId) (R : Record) (blob : Blob)
    (rest : List Item)
    (hc : c ≥ FIRST_APPLICATION_ABBREV)
    (hitems : rd.Stream.Items =
      .blockLen L :: .code c :: .record (some ID) R blob :: .code END_BLOCK :: rest) :
    (∀ k init sib prev, rd.nodes_ = ⟨k, init ++ [sib]⟩ :: prev →
      ID = .JAVADOC_NODE_STRING →
      (sib.kind = Javadoc.Kind.text ∨ sib.kind = Javadoc.Kind.styled) →
      readSubBlock K (n + 5) (some .BI_JAVADOC_NODE_BLOCK_ID) I rd
        = .ret (none, I,
            { rd with
              Stream := { rd.Stream with Items := rest }
              nodes_ := ⟨k, init ++ [sib.setString blob]⟩ :: prev })) ∧
    ((rd.nodes_ = [] ∨ ∃ k prev, rd.nodes_ = ⟨k, []⟩ :: prev) →
      (ID = .JAVADOC_NODE_STRING ∨ ID = .JAVADOC_NODE_STYLE ∨ ID = .JAVADOC_NODE_ADMONISH) →
      readSubBlock K (n + 5) (some .BI_JAVADOC_NODE_BLOCK_ID) I rd = .trap "I->back()") := by
  have h4 : ¬ (END_BLOCK ≥ FIRST_APPLICATION_ABBREV) := by decide
  have h1 : ¬ (END_BLOCK = ENTER_SUBBLOCK) := by decide
  refine ⟨fun k init sib prev hn hID hk => ?_, fun hn hID => ?_⟩
  · subst hID
    have hlast : (init ++ [sib]).getLast? = some sib := by simp
    simp [readSubBlock, hn, readBlock, BitstreamCursor.EnterSubBlock, hitems, readBlockLoop,
      skipUntilRecordOrBlock, BitstreamCursor.AtEndOfStream, BitstreamCursor.ReadCode, hc, h4,
      h1, readRecord, BitstreamCursor.readRecord, parseRecordNodeList, hlast, hk, withField,
      decodeRecordString, setBack_concat, Run.bind, BitstreamCursor.ReadBlockEnd]
  · rcases hn with hn | ⟨k, prev, hn⟩ <;> rcases hID with h | h | h <;> subst h <;>
      simp [readSubBlock, hn, readBlock, BitstreamCursor.EnterSubBlock, hitems, readBlockLoop,
        skipUntilRecordOrBlock, BitstreamCursor.AtEndOfStream, BitstreamCursor.ReadCode, hc, h4,
        h1, readRecord, BitstreamCursor.readRecord, parseRecordNodeList, Run.bind]

theorem readSubBlock_node_content_before_kind_witness :
    readSubBlock .upstream 5 (some .BI_JAVADOC_NODE_BLOCK_ID) .currentNodeList
        { BitcodeReader.init
            ⟨[], [.blockLen 3, .code 4, .record (some .JAVADOC_NODE_STRING) [] "b",
              .code END_BLOCK, .code END_BLOCK], 1⟩ with
          javadoc_ := some Javadoc.empty
          nodes_ := [⟨some Javadoc.Kind.block,
            [.mk Javadoc.Kind.text "a" Javadoc.Style.none Javadoc.Admonish.none "" []]⟩] }
      = .ret (none, .currentNodeList,
          { BitcodeReader.init ⟨[], [.code END_BLOCK], 1⟩ with
            javadoc_ := some Javadoc.empty
            nodes_ := [⟨some Javadoc.Kind.block,
              [.mk Javadoc.Kind.text "b" Javadoc.Style.none Javadoc.Admonish.none "" []]⟩] }) :=
  (readSubBlock_node_content_before_kind .upstream 0 3 4 .currentNodeList
    { BitcodeReader.init
        ⟨[], [.blockLen 3, .code 4, .record (some .JAVADOC_NODE_STRING) [] "b",
          .code END_BLOCK, .code END_BLOCK], 1⟩ with
      javadoc_ := some Javadoc.empty
      nodes_ := [⟨some Javadoc.Kind.block,
        [.mk Javadoc.Kind.text "a" Javadoc.Style.none Javadoc.Admonish.none "" []]⟩] }
    .JAVADOC_NODE_STRING [] "b" [.code END_BLOCK] (by decide) rfl).1
    (some Javadoc.Kind.block) []
    (.mk Javadoc.Kind.text "a" Javadoc.Style.none Javadoc.Admonish.none "" []) [] rfl rfl
    (Or.inl rfl)

/-- A function block whose documentation block holds a list with a text node `a` and then
a node block that has a string record `b` and no kind record is decoded without error, and
the text of the first node has become `b`. -/
theorem string_record_overwrites_sibling :
    (match getInfos .upstream
        (BitcodeReader.init (streamOf (signature .upstream)
          (block (some .BI_FUNCTION_BLOCK_ID)
            (block (some .BI_JAVADOC_BLOCK_ID)
              (block (some .BI_JAVADOC_LIST_BLOCK_ID)
                (record .JAVADOC_LIST_KIND [3] "" ++
                  block (some .BI_JAVADOC_NODE_BLOCK_ID)
                    (record .JAVADOC_NODE_KIND [1] "" ++ record .JAVADOC_NODE_STRING [] "a") ++
                  block (some .BI_JAVADOC_NODE_BLOCK_ID)
                    (record .JAVADOC_NODE_STRING [] "b"))))))) with
      | .ret (.ok [.functionInfo I], _) => some (I.javadoc.blocks_.map Javadoc.Node.string)
      | _ => none)
      = some ["b"] := by
  simp [getInfos, validateStream, validateStream.loop, BitstreamCursor.Read8, signature,
    getInfos.loop, getInfos.body, readBlockToInfo, createInfo, readBlockFuel, streamOf,
    BitcodeReader.init, record,
    readBlockLoop, skipUntilRecordOrBlock, BitstreamCursor.AtEndOfStream,
    BitstreamCursor.ReadCode, BitstreamCursor.ReadSubBlockID, block,
    readSubBlock, readBlock, BitstreamCursor.EnterSubBlock, readRecord,
    BitstreamCursor.readRecord, parseRecordCurrentNodeList, parseRecordNodeList,
    decodeRecordEnum, decodeRecordInt, decodeRecordString, withField, setBack,
    Run.bind, getJavadoc, setJavadoc,
    BitstreamCursor.ReadBlockEnd, END_BLOCK, ENTER_SUBBLOCK,
    FIRST_APPLICATION_ABBREV, FunctionInfo.empty, SymbolInfo.empty, Info.empty, Javadoc.empty,
    INT_MAX, toInt32,
    Javadoc.Kind.block, Javadoc.Kind.paragraph, Javadoc.Kind.text, Javadoc.Kind.styled,
    Javadoc.Node.ofKind, Javadoc.Node.kind, Javadoc.Node.string, Javadoc.Node.style,
    Javadoc.Node.admonish, Javadoc.Node.name, Javadoc.Node.children, Javadoc.Node.setString,
    Javadoc.Kind.brief, Javadoc.Kind.admonition, Javadoc.Kind.code, Javadoc.Kind.returns,
    Javadoc.Kind.param, Javadoc.Kind.tparam]

/-- A function block whose documentation block holds a node block that has a string record
and no kind record: the parser takes the last element of an empty list. -/
theorem string_record_in_empty_frame_traps :
    getInfos .upstream
        (BitcodeReader.init (streamOf (signature .upstream)
          (block (some .BI_FUNCTION_BLOCK_ID)
            (block (some .BI_JAVADOC_BLOCK_ID)
              (block (some .BI_JAVADOC_NODE_BLOCK_ID)
                (record .JAVADOC_NODE_STRING [] "b"))))))
      = .trap "I->back()" := by
  simp [getInfos, validateStream, validateStream.loop, BitstreamCursor.Read8, signature,
    getInfos.loop, getInfos.body, readBlockToInfo, createInfo, readBlockFuel, streamOf,
    BitcodeReader.init, record,
    readBlockLoop, skipUntilRecordOrBlock, BitstreamCursor.AtEndOfStream,
    BitstreamCursor.ReadCode, BitstreamCursor.ReadSubBlockID, block,
    readSubBlock, readBlock, BitstreamCursor.EnterSubBlock, readRecord,
    BitstreamCursor.readRecord, parseRecordNodeList, Run.bind, getJavadoc,
    END_BLOCK, ENTER_SUBBLOCK, FIRST_APPLICATION_ABBREV, FunctionInfo.empty, SymbolInfo.empty,
    Info.empty, Javadoc.empty]

/-! ### Leaving a list frame -/

/-- C18: a list block read at top level (no frame is open when `readSubBlock` is
entered) whose read succeeded, leaving the frame with kind `kind` and nodes `children` and
the tree `D`.  For kind block, param or tparam the nodes are appended to `blocks_`,
`params_` or `tparams_` of `D`, after the elements the list has, and nothing else of the
tree changes; for every other kind `readSubBlock` returns the error `wrong node kind` and
the tree is `D`. -/
theorem readSubBlock_list_top_level (K : BitCodeConstants) (n : Nat) (I c : Object)
    (rd rd1 : BitcodeReader) (kind : Javadoc.Kind) (children : List Javadoc.Node)
    (D : Javadoc)
    (htop : rd.nodes_ = [])
    (hdoc : rd.javadoc_.isSome)
    (hread : readBlock K n (some .BI_JAVADOC_LIST_BLOCK_ID) .currentNodeList
      { rd with nodes_ := ⟨none, []⟩ :: rd.nodes_ } = .ret (none, c, rd1))
    (hframe : rd1.nodes_.head? = some ⟨some kind, children⟩)
    (hD : rd1.javadoc_ = some D) :
    (kind = Javadoc.Kind.block →
      readSubBlock K (n + 1) (some .BI_JAVADOC_LIST_BLOCK_ID) I rd
        = .ret (none, I,
            { rd1 with
              nodes_ := []
              javadoc_ := some { D with blocks_ := D.blocks_ ++ children } })) ∧
    (kind = Javadoc.Kind.param →
      readSubBlock K (n + 1) (some .BI_JAVADOC_LIST_BLOCK_ID) I rd
        = .ret (none, I,
            { rd1 with
              nodes_ := []
              javadoc_ := some { D with params_ := D.params_ ++ children } })) ∧
    (kind = Javadoc.Kind.tparam →
      readSubBlock K (n + 1) (some .BI_JAVADOC_LIST_BLOCK_ID) I rd
        = .ret (none, I,
            { rd1 with
              nodes_ := []
              javadoc_ := some { D with tparams_ := D.tparams_ ++ children } })) ∧
    (kind ≠ Javadoc.Kind.block → kind ≠ Javadoc.Kind.param → kind ≠ Javadoc.Kind.tparam →
      readSubBlock K (n + 1) (some .BI_JAVADOC_LIST_BLOCK_ID) I rd
        = .ret (some (makeError "wrong node kind"), I,
            { rd1 with nodes_ := [], javadoc_ := some D })) := by
  obtain ⟨hs1, hs2⟩ := (reader_stack K n).1 _ _ _ _ _ _ hread
  obtain ⟨D0, hD0⟩ := Option.isSome_iff_exists.mp hdoc
  have hn : rd1.nodes_ = [⟨some kind, children⟩] := by
    rcases hrd : rd1.nodes_ with _ | ⟨J, t⟩
    · rw [hrd] at hframe; cases hframe
    · rw [hrd] at hframe hs2
      simp only [List.head?_cons, Option.some.injEq] at hframe
      simp only [List.tail_cons, htop] at hs2
      rw [hframe, hs2]
  simp only [hD0, htop] at hread
  refine ⟨fun hk => ?_, fun hk => ?_, fun hk => ?_, fun h1 h2 h3 => ?_⟩
  · subst hk
    unfold readSubBlock
    simp [hD0, htop, hread, Run.bind, hn, hD]
  · subst hk
    unfold readSubBlock
    simp [hD0, htop, hread, Run.bind, hn, hD, Javadoc.Kind.param, Javadoc.Kind.block]
  · subst hk
    unfold readSubBlock
    simp [hD0, htop, hread, Run.bind, hn, hD, Javadoc.Kind.param, Javadoc.Kind.block,
      Javadoc.Kind.tparam]
  · unfold readSubBlock
    simp [hD0, htop, hread, Run.bind, hn, hD, h1, h2, h3]

/-- C19: a list block read inside an open frame `P` whose read succeeded, leaving its
own frame `J`, where the node `P` ends with is `parent`.  When the kind of `parent` is
paragraph, brief, admonition, code, returns, param or tparam the nodes of `J` are appended
to the children of `parent`, and neither another member of `parent` nor another node of a
frame changes; when the kind is text, styled or block `readSubBlock` returns the error
`wrong node kind` and the frames are as they were. -/
theorem readSubBlock_list_nested (K : BitCodeConstants) (n : Nat) (I c : Object)
    (rd rd1 : BitcodeReader) (P J : CurrentNodeList) (prev1 : List CurrentNodeList)
    (init : List Javadoc.Node) (parent : Javadoc.Node)
    (hnest : rd.nodes_ = P :: prev1)
    (hdoc : rd.javadoc_.isSome)
    (hread : readBlock K n (some .BI_JAVADOC_LIST_BLOCK_ID) .currentNodeList
      { rd with nodes_ := ⟨none, []⟩ :: rd.nodes_ } = .ret (none, c, rd1))
    (hframe : rd1.nodes_.head? = some J)
    (hparent : P.children = init ++ [parent]) :
    ((parent.kind = Javadoc.Kind.paragraph ∨ parent.kind = Javadoc.Kind.brief ∨
        parent.kind = Javadoc.Kind.admonition ∨ parent.kind = Javadoc.Kind.code ∨
        parent.kind = Javadoc.Kind.returns ∨ parent.kind = Javadoc.Kind.param ∨
        parent.kind = Javadoc.Kind.tparam) →
      readSubBlock K (n + 1) (some .BI_JAVADOC_LIST_BLOCK_ID) I rd
        = .ret (none, I,
            { rd1 with
              nodes_ :=
                { P with
                  children :=
                    init ++ [.mk parent.kind parent.string parent.style parent.admonish
                      parent.name (parent.children ++ J.children)] } :: prev1 })) ∧
    ((parent.kind = Javadoc.Kind.text ∨ parent.kind = Javadoc.Kind.styled ∨
        parent.kind = Javadoc.Kind.block) →
      readSubBlock K (n + 1) (some .BI_JAVADOC_LIST_BLOCK_ID) I rd
        = .ret (some (makeError "wrong node kind"), I, { rd1 with nodes_ := P :: prev1 })) := by
  obtain ⟨hs1, hs2⟩ := (reader_stack K n).1 _ _ _ _ _ _ hread
  obtain ⟨D0, hD0⟩ := Option.isSome_iff_exists.mp hdoc
  have hn : rd1.nodes_ = J :: P :: prev1 := by
    rcases hrd : rd1.nodes_ with _ | ⟨J1, t⟩
    · rw [hrd] at hframe; cases hframe
    · rw [hrd] at hframe hs2
      simp only [List.head?_cons, Option.some.injEq] at hframe
      simp only [List.tail_cons, hnest] at hs2
      rw [hframe, hs2]
  have hlast : (init ++ [parent]).getLast? = some parent := by simp
  simp only [hD0, hnest] at hread
  refine ⟨fun hk => ?_, fun hk => ?_⟩
  · unfold readSubBlock
    simp [hD0, hnest, hread, Run.bind, hn, hparent, hlast, hk, setBack_concat,
      Javadoc.Node.setChildren]
  · have hk1 : ¬ (parent.kind = Javadoc.Kind.paragraph ∨ parent.kind = Javadoc.Kind.brief ∨
        parent.kind = Javadoc.Kind.admonition ∨ parent.kind = Javadoc.Kind.code ∨
        parent.kind = Javadoc.Kind.returns ∨ parent.kind = Javadoc.Kind.param ∨
        parent.kind = Javadoc.Kind.tparam) := by
      rcases hk with h | h | h <;> rw [h] <;> decide
    unfold readSubBlock
    simp [hD0, hnest, hread, Run.bind, hn, hparent, hlast, hk1]

theorem readSubBlock_list_top_level_witness :
    readSubBlock .upstream 11 (some .BI_JAVADOC_LIST_BLOCK_ID)
        (.functionInfo (FunctionInfo.empty .upstream))
        { BitcodeReader.init
            ⟨[], [.blockLen 9, .code 4, .record (some .JAVADOC_LIST_KIND) [3] "",
              .code ENTER_SUBBLOCK, .blockID (some .BI_JAVADOC_NODE_BLOCK_ID), .blockLen 3,
              .code 4, .record (some .JAVADOC_NODE_KIND) [4] "", .code END_BLOCK,
              .code END_BLOCK], 1⟩ with
          javadoc_ := some Javadoc.empty }
      = .ret (none, .functionInfo (FunctionInfo.empty .upstream),
          { BitcodeReader.init ⟨[], [], 1⟩ with
            javadoc_ := some
              { Javadoc.empty with blocks_ := [Javadoc.Node.ofKind Javadoc.Kind.paragraph] } }) :=
  (readSubBlock_list_top_level .upstream 10 _ .currentNodeList
    { BitcodeReader.init
        ⟨[], [.blockLen 9, .code 4, .record (some .JAVADOC_LIST_KIND) [3] "",
          .code ENTER_SUBBLOCK, .blockID (some .BI_JAVADOC_NODE_BLOCK_ID), .blockLen 3,
          .code 4, .record (some .JAVADOC_NODE_KIND) [4] "", .code END_BLOCK,
          .code END_BLOCK], 1⟩ with
      javadoc_ := some Javadoc.empty }
    { BitcodeReader.init ⟨[], [], 1⟩ with
      javadoc_ := some Javadoc.empty
      nodes_ := [⟨some Javadoc.Kind.block, [Javadoc.Node.ofKind Javadoc.Kind.paragraph]⟩] }
    Javadoc.Kind.block [Javadoc.Node.ofKind Javadoc.Kind.paragraph] Javadoc.empty rfl rfl
    (by
      simp [readBlock, BitstreamCursor.EnterSubBlock, readBlockLoop, skipUntilRecordOrBlock,
        BitstreamCursor.AtEndOfStream, BitstreamCursor.ReadCode, BitstreamCursor.ReadSubBlockID,
        BitstreamCursor.ReadBlockEnd, readRecord, BitstreamCursor.readRecord,
        parseRecordCurrentNodeList, parseRecordNodeList, decodeRecordEnum, decodeRecordInt,
        readSubBlock, Run.bind, BitcodeReader.init, END_BLOCK, ENTER_SUBBLOCK,
        FIRST_APPLICATION_ABBREV, INT_MAX, toInt32, Javadoc.Kind.block, Javadoc.Kind.paragraph,
        Javadoc.Kind.text, Javadoc.Kind.styled])
    rfl rfl).1 rfl

theorem readSubBlock_list_nested_witness :
    readSubBlock .upstream 11 (some .BI_JAVADOC_LIST_BLOCK_ID) .nodeList
        { BitcodeReader.init
            ⟨[], [.blockLen 9, .code ENTER_SUBBLOCK,
              .blockID (some .BI_JAVADOC_NODE_BLOCK_ID), .blockLen 5,
              .code 4, .record (some .JAVADOC_NODE_KIND) [1] "",
              .code 4, .record (some .JAVADOC_NODE_STRING) [] "hi", .code END_BLOCK,
              .code END_BLOCK], 1⟩ with
          javadoc_ := some Javadoc.empty
          nodes_ := [⟨none, [Javadoc.Node.ofKind Javadoc.Kind.paragraph]⟩] }
      = .ret (none, .nodeList,
          { BitcodeReader.init ⟨[], [], 1⟩ with
            javadoc_ := some Javadoc.empty
            nodes_ :=
              [⟨none, [.mk Javadoc.Kind.paragraph "" Javadoc.Style.none Javadoc.Admonish.none ""
                [.mk Javadoc.Kind.text "hi" Javadoc.Style.none Javadoc.Admonish.none "" []]]⟩] }) :=
  (readSubBlock_list_nested .upstream 10 _ .currentNodeList
    { BitcodeReader.init
        ⟨[], [.blockLen 9, .code ENTER_SUBBLOCK,
          .blockID (some .BI_JAVADOC_NODE_BLOCK_ID), .blockLen 5,
          .code 4, .record (some .JAVADOC_NODE_KIND) [1] "",
          .code 4, .record (some .JAVADOC_NODE_STRING) [] "hi", .code END_BLOCK,
          .code END_BLOCK], 1⟩ with
      javadoc_ := some Javadoc.empty
      nodes_ := [⟨none, [Javadoc.Node.ofKind Javadoc.Kind.paragraph]⟩] }
    { BitcodeReader.init ⟨[], [], 1⟩ with
      javadoc_ := some Javadoc.empty
      nodes_ :=
        [⟨none, [.mk Javadoc.Kind.text "hi" Javadoc.Style.none Javadoc.Admonish.none "" []]⟩,
         ⟨none, [Javadoc.Node.ofKind Javadoc.Kind.paragraph]⟩] }
    ⟨none, [Javadoc.Node.ofKind Javadoc.Kind.paragraph]⟩
    ⟨none, [.mk Javadoc.Kind.text "hi" Javadoc.Style.none Javadoc.Admonish.none "" []]⟩
    [] [] (Javadoc.Node.ofKind Javadoc.Kind.paragraph) rfl rfl
    (by
      simp [readBlock, BitstreamCursor.EnterSubBlock, readBlockLoop, skipUntilRecordOrBlock,
        BitstreamCursor.AtEndOfStream, BitstreamCursor.ReadCode, BitstreamCursor.ReadSubBlockID,
        BitstreamCursor.ReadBlockEnd, readRecord, BitstreamCursor.readRecord,
        parseRecordCurrentNodeList, parseRecordNodeList, decodeRecordEnum, decodeRecordInt,
        decodeRecordString, withField, setBack, Javadoc.Node.setString, Javadoc.Node.ofKind,
        Javadoc.Node.kind, Javadoc.Node.string, Javadoc.Node.style, Javadoc.Node.admonish,
        Javadoc.Node.name, Javadoc.Node.children,
        readSubBlock, Run.bind, BitcodeReader.init, END_BLOCK, ENTER_SUBBLOCK,
        FIRST_APPLICATION_ABBREV, INT_MAX, toInt32, Javadoc.Kind.block, Javadoc.Kind.paragraph,
        Javadoc.Kind.text, Javadoc.Kind.styled])
    rfl rfl).1 (Or.inl rfl)

/-! ### The kinds of the nodes of a tree -/

/-- C20, refuted: a function block whose documentation block holds a list block of kind
block with one node of kind text is decoded without error, and the text node is an element
of `blocks_` of the function: the tree is not well-typed. -/
theorem getInfos_text_node_in_blocks :
    (match getInfos .upstream
        (BitcodeReader.init (streamOf (signature .upstream)
          (block (some .BI_FUNCTION_BLOCK_ID)
            (block (some .BI_JAVADOC_BLOCK_ID)
              (block (some .BI_JAVADOC_LIST_BLOCK_ID)
                (record .JAVADOC_LIST_KIND [3] "" ++
                  block (some .BI_JAVADOC_NODE_BLOCK_ID)
                    (record .JAVADOC_NODE_KIND [1] ""))))))) with
      | .ret (.ok [.functionInfo I], _) =>
          some (I.javadoc.blocks_.map Javadoc.Node.kind, I.javadoc.wellTyped)
      | _ => none)
      = some ([Javadoc.Kind.text], false) := by
  simp [getInfos, validateStream, validateStream.loop, BitstreamCursor.Read8, signature,
    getInfos.loop, getInfos.body, readBlockToInfo, createInfo, readBlockFuel, streamOf,
    BitcodeReader.init, record,
    readBlockLoop, skipUntilRecordOrBlock, BitstreamCursor.AtEndOfStream,
    BitstreamCursor.ReadCode, BitstreamCursor.ReadSubBlockID, block,
    readSubBlock, readBlock, BitstreamCursor.EnterSubBlock, readRecord,
    BitstreamCursor.readRecord, parseRecordCurrentNodeList, parseRecordNodeList,
    decodeRecordEnum, decodeRecordInt, Run.bind, getJavadoc, setJavadoc,
    BitstreamCursor.ReadBlockEnd, END_BLOCK, ENTER_SUBBLOCK,
    FIRST_APPLICATION_ABBREV, FunctionInfo.empty, SymbolInfo.empty, Info.empty, Javadoc.empty,
    INT_MAX, toInt32,
    Javadoc.Kind.block, Javadoc.Kind.paragraph, Javadoc.Kind.text, Javadoc.Kind.styled,
    Javadoc.wellTyped, Javadoc.Node.isBlock, Javadoc.Node.ofKind, Javadoc.Node.kind,
    Javadoc.Kind.brief, Javadoc.Kind.admonition, Javadoc.Kind.code]

/-! ### The bounds do not change a result -/

theorem Run.le_refl {α : Type} (x : Run α) : Run.le x x := Or.inr rfl

/-- A sequence of two calls with larger bounds, against the sequence with smaller ones. -/
theorem Run.bind_le {α β : Type} {x y : Run α} {k k1 : α → Run β}
    (h : Run.le x y) (hk : ∀ a, Run.le (k a) (k1 a)) : Run.le (x.bind k) (y.bind k1) := by
  rcases h with h | h
  · subst h; exact Or.inl rfl
  · subst h
    cases x with
    | ret a => exact hk a
    | exit c => exact Or.inr rfl
    | trap w => exact Or.inr rfl
    | fuel => exact Or.inl rfl

/-- An outcome other than a used-up bound is the outcome with every larger bound. -/
theorem Run.le_eq {α : Type} {x y : Run α} (h : Run.le x y) (hx : x ≠ .fuel) : y = x := by
  rcases h with h | h
  · exact absurd h hx
  · exact h.symm

/-- One more turn for `skipUntilRecordOrBlock` does not change a result. -/
theorem skipUntilRecordOrBlock_mono (n : Nat) :
    ∀ S, Run.le (skipUntilRecordOrBlock n S) (skipUntilRecordOrBlock (n + 1) S) := by
  induction n with
  | zero => intro S; exact Or.inl rfl
  | succ n ih =>
    intro S
    rw [skipUntilRecordOrBlock, skipUntilRecordOrBlock]
    repeat' (first | exact Run.le_refl _ | exact ih _ | split)

/-- One more call for `readBlock` does not change a result, if one more turn does not
change a result of its loop. -/
theorem readBlock_mono_of (K : BitCodeConstants) (n : Nat)
    (ihL : ∀ I rd, Run.le (readBlockLoop K n I rd) (readBlockLoop K (n + 1) I rd)) :
    ∀ ID I rd, Run.le (readBlock K (n + 1) ID I rd) (readBlock K (n + 2) ID I rd) := by
  intro ID I rd
  rw [readBlock, readBlock]
  split
  · exact Run.le_refl _
  · exact ihL _ _

theorem readBlockLoop_mono_of (K : BitCodeConstants) (n : Nat)
    (ihL : ∀ I rd, Run.le (readBlockLoop K n I rd) (readBlockLoop K (n + 1) I rd))
    (ihS : ∀ ID I rd, Run.le (readSubBlock K n ID I rd) (readSubBlock K (n + 1) ID I rd)) :
    ∀ I rd, Run.le (readBlockLoop K (n + 1) I rd) (readBlockLoop K (n + 2) I rd) := by
  intro I rd
  rw [readBlockLoop, readBlockLoop]
  refine Run.bind_le (skipUntilRecordOrBlock_mono n _) (fun Res => ?_)
  obtain ⟨c, S⟩ := Res
  cases c with
  | BadBlock => exact Run.le_refl _
  | BlockEnd => exact Run.le_refl _
  | BlockBegin ID =>
    dsimp only
    refine Run.bind_le (ihS _ _ _) (fun r => ?_)
    obtain ⟨e0, I1, rd1⟩ := r
    cases e0 with
    | some Err => exact Run.le_refl _
    | none => exact ihL _ _
  | Record Code =>
    dsimp only
    refine Run.bind_le (Run.le_refl _) (fun r => ?_)
    obtain ⟨e0, I1, rd1⟩ := r
    cases e0 with
    | some Err => exact Run.le_refl _
    | none => exact ihL _ _

theorem readSubBlock_mono_of (K : BitCodeConstants) (n : Nat)
    (ihB : ∀ ID I rd, Run.le (readBlock K n ID I rd) (readBlock K (n + 1) ID I rd)) :
    ∀ ID I rd, Run.le (readSubBlock K (n + 1) ID I rd) (readSubBlock K (n + 2) ID I rd) := by
  intro ID I rd
  unfold readSubBlock
  repeat' (first
    | exact Run.le_refl _
    | exact Run.bind_le (ihB _ _ _) (fun _ => Run.le_refl _)
    | split)

/-- One more unit of the bound does not change a result of the three reader functions. -/
theorem reader_mono (K : BitCodeConstants) (n : Nat) :
    (∀ ID I rd, Run.le (readBlock K n ID I rd) (readBlock K (n + 1) ID I rd)) ∧
    (∀ I rd, Run.le (readBlockLoop K n I rd) (readBlockLoop K (n + 1) I rd)) ∧
    (∀ ID I rd, Run.le (readSubBlock K n ID I rd) (readSubBlock K (n + 1) ID I rd)) := by
  induction n with
  | zero =>
    exact ⟨fun _ _ _ => Or.inl (by simp [readBlock]),
      fun _ _ => Or.inl (by simp [readBlockLoop]),
      fun _ _ _ => Or.inl (by simp [readSubBlock])⟩
  | succ n ih =>
    obtain ⟨ihB, ihL, ihS⟩ := ih
    exact ⟨readBlock_mono_of K n ihL, readBlockLoop_mono_of K n ihL ihS,
      readSubBlock_mono_of K n ihB⟩

/-- A result of `skipUntilRecordOrBlock` is its result with every larger bound. -/
theorem skipUntilRecordOrBlock_fuel {n : Nat} {S : BitstreamCursor}
    {r : Run (Cursor × BitstreamCursor)} (h : skipUntilRecordOrBlock n S = r)
    (hr : r ≠ .fuel) : ∀ m, n ≤ m → skipUntilRecordOrBlock m S = r := by
  intro m hm
  induction m, hm using Nat.le_induction with
  | base => exact h
  | succ m _ ih =>
    have := Run.le_eq (skipUntilRecordOrBlock_mono m S) (by rw [ih]; exact hr)
    rw [this, ih]

/-- A result of `readBlock` is its result with every larger bound. -/
theorem readBlock_fuel {K : BitCodeConstants} {n : Nat} {ID : Option BlockId} {I : Object}
    {rd : BitcodeReader} {r : Step} (h : readBlock K n ID I rd = r) (hr : r ≠ .fuel) :
    ∀ m, n ≤ m → readBlock K m ID I rd = r := by
  intro m hm
  induction m, hm using Nat.le_induction with
  | base => exact h
  | succ m _ ih =>
    have := Run.le_eq ((reader_mono K m).1 ID I rd) (by rw [ih]; exact hr)
    rw [this, ih]

/-- A result of the loop of `readBlock` is its result with every larger bound. -/
theorem readBlockLoop_fuel {K : BitCodeConstants} {n : Nat} {I : Object}
    {rd : BitcodeReader} {r : Step} (h : readBlockLoop K n I rd = r) (hr : r ≠ .fuel) :
    ∀ m, n ≤ m → readBlockLoop K m I rd = r := by
  intro m hm
  induction m, hm using Nat.le_induction with
  | base => exact h
  | succ m _ ih =>
    have := Run.le_eq ((reader_mono K m).2.1 I rd) (by rw [ih]; exact hr)
    rw [this, ih]

/-- A result of `readSubBlock` is its result with every larger bound. -/
theorem readSubBlock_fuel {K : BitCodeConstants} {n : Nat} {ID : Option BlockId}
    {I : Object} {rd : BitcodeReader} {r : Step} (h : readSubBlock K n ID I rd = r)
    (hr : r ≠ .fuel) : ∀ m, n ≤ m → readSubBlock K m ID I rd = r := by
  intro m hm
  induction m, hm using Nat.le_induction with
  | base => exact h
  | succ m _ ih =>
    have := Run.le_eq ((reader_mono K m).2.2 ID I rd) (by rw [ih]; exact hr)
    rw [this, ih]

/-- The bound `readBlockFuel` gives `readBlock` the result of every bound that is not used
up. -/
theorem readBlock_readBlockFuel {K : BitCodeConstants} {n : Nat} {ID : Option BlockId}
    {I : Object} {rd : BitcodeReader} {r : Step} (h : readBlock K n ID I rd = r)
    (hr : r ≠ .fuel) : readBlock K (readBlockFuel rd) ID I rd = r := by
  have h1 : readBlock K (readBlockFuel rd) ID I rd ≠ .fuel :=
    (reader_ne_fuel K _).1 _ _ _ (by unfold readBlockFuel; omega)
  have h2 := readBlock_fuel (rfl : readBlock K (readBlockFuel rd) ID I rd = _) h1
    (max n (readBlockFuel rd)) (Nat.le_max_right _ _)
  have h3 := readBlock_fuel h hr (max n (readBlockFuel rd)) (Nat.le_max_left _ _)
  rw [← h2, h3]

/-- After `k` turns that ended with `continue` the loop of `readBlock` goes on from the
state they led to, with `k` turns less to go. -/
theorem readBlockLoop_reach (K : BitCodeConstants) (n : Nat) :
    ∀ (k : Nat) (I I1 : Object) (rd rd1 : BitcodeReader),
      readBlockLoop.reach K n k I rd = some (I1, rd1) →
        ∀ m, n ≤ m → readBlockLoop K (m + k) I rd = readBlockLoop K m I1 rd1 := by
  intro k
  induction k with
  | zero =>
    intro I I1 rd rd1 h m hm
    simp only [readBlockLoop.reach, Option.some.injEq, Prod.mk.injEq] at h
    obtain ⟨h1, h2⟩ := h
    subst h1 h2
    rfl
  | succ k ih =>
    intro I I1 rd rd1 h m hm
    unfold readBlockLoop.reach at h
    split at h
    · rename_i ID S hskip
      split at h
      · rename_i I2 rd2 hsub
        have e1 := skipUntilRecordOrBlock_fuel hskip (by simp) (m + k) (by omega)
        have e2 := readSubBlock_fuel hsub (by simp) (m + k) (by omega)
        rw [← Nat.add_assoc, readBlockLoop, e1]
        simp only [Run.bind, e2]
        exact ih _ _ _ _ h m hm
      · cases h
    · rename_i c S hskip
      split at h
      · rename_i I2 rd2 hrec
        have e1 := skipUntilRecordOrBlock_fuel hskip (by simp) (m + k) (by omega)
        rw [← Nat.add_assoc, readBlockLoop, e1]
        simp only [Run.bind, hrec]
        exact ih _ _ _ _ h m hm
      · cases h
    · cases h

/-! ### Errors of sub-blocks -/

/-- A top-level block whose id `readBlockToInfo` has a case for, with a body that
`readBlock` fails on: the turn of the loop of `getInfos` ends the function with that error. -/
theorem getInfos_body_entity_error (K : BitCodeConstants) (rdT rd3 : BitcodeReader)
    (Infos : List Object) (ID : Option BlockId) (I0 I1 : Object) (rest : List Item) (n : Nat)
    (E : Error)
    (hitems : rdT.Stream.Items = .code ENTER_SUBBLOCK :: .blockID ID :: rest)
    (hnew : newInfo K ID = some I0)
    (hread : readBlock K n ID I0 { rdT with Stream := { rdT.Stream with Items := rest } }
      = .ret (some E, I1, rd3)) :
    getInfos.body K rdT Infos = .ret (.done (.error E) rd3) := by
  have hread1 := readBlock_readBlockFuel hread (by simp)
  unfold getInfos.body
  simp only [BitstreamCursor.ReadCode, hitems, BitstreamCursor.ReadSubBlockID]
  rcases ID with _ | ID
  · simp [newInfo] at hnew
  · cases ID <;> simp [newInfo] at hnew <;> subst hnew <;>
      simp [readBlockToInfo, createInfo, hread1, Run.bind]

/-- C21: a block (entered from the reader `rdB`, read into `I0`) in which, after `k`
records and sub-blocks read without error, a sub-block follows whose `readSubBlock` fails
with `Err`.  `readBlock` on the block then calls `SkipBlock` and returns `Err`, joined with
the error of `SkipBlock` if that fails too; the messages of `Err` come first in the error
returned.  When the block is a top-level block of an entity, after a valid signature and
`j` top-level blocks read without error, `getInfos` returns this error and no entity list. -/
theorem readBlock_sub_block_error (K : BitCodeConstants) (n k : Nat) (I0 I I1 : Object)
    (rdB rd rd1 : BitcodeReader) (S0 S : BitstreamCursor) (ID : Option BlockId) (Err : Error)
    (henter : rdB.Stream.EnterSubBlock = .ok S0)
    (hreach : readBlockLoop.reach K n k I0 { rdB with Stream := S0 } = some (I, rd))
    (hskip : skipUntilRecordOrBlock n rd.Stream = .ret (.BlockBegin ID, S))
    (hsub : readSubBlock K n ID I { rd with Stream := S } = .ret (some Err, I1, rd1)) :
    (∀ ID0 m, n + k + 2 ≤ m →
      readBlock K m ID0 I0 rdB = .ret (afterFailedSubBlock Err I1 rd1)) ∧
    (∃ E, (afterFailedSubBlock Err I1 rd1).1 = some E ∧ Err.msgs <+: E.msgs) ∧
    (∀ (rd0 rdT : BitcodeReader) (Infos : List Object) (j : Nat) (IDe : Option BlockId)
        (rest : List Item),
      rd0.Stream.Lead = signature K →
      getInfos.reach K j { rd0 with Stream := { rd0.Stream with Lead := [] } } []
        = some (rdT, Infos) →
      rdT.Stream.Items = .code ENTER_SUBBLOCK :: .blockID IDe :: rest →
      rdB = { rdT with Stream := { rdT.Stream with Items := rest } } →
      newInfo K IDe = some I0 →
      ∃ E, (afterFailedSubBlock Err I1 rd1).1 = some E ∧
        getInfos K rd0 = .ret (.error E, (afterFailedSubBlock Err I1 rd1).2.2)) := by
  have hloop : readBlockLoop K (n + 1) I rd = .ret (afterFailedSubBlock Err I1 rd1) := by
    rw [readBlockLoop, hskip]
    simp only [Run.bind, hsub]
    unfold afterFailedSubBlock
    split <;> rfl
  have hblock : ∀ ID0, readBlock K (n + k + 2) ID0 I0 rdB
      = .ret (afterFailedSubBlock Err I1 rd1) := by
    intro ID0
    rw [readBlock, henter]
    have h1 := readBlockLoop_reach K n k _ _ _ _ hreach (n + 1) (by omega)
    have e : n + k + 1 = n + 1 + k := by omega
    rw [e]
    dsimp only
    rw [h1, hloop]
  have hE : ∃ E, (afterFailedSubBlock Err I1 rd1).1 = some E ∧ Err.msgs <+: E.msgs := by
    unfold afterFailedSubBlock
    split
    · exact ⟨_, rfl, by simp [joinErrors]⟩
    · exact ⟨_, rfl, List.prefix_refl _⟩
  refine ⟨fun ID0 m hm => readBlock_fuel (hblock ID0) (by simp) m hm, hE, ?_⟩
  intro rd0 rdT Infos j IDe rest hsig htop hitems hB hnew
  obtain ⟨E, hE1, _⟩ := hE
  refine ⟨E, hE1, ?_⟩
  have hb := hblock IDe
  rw [hB] at hb
  have hres : afterFailedSubBlock Err I1 rd1
      = (some E, (afterFailedSubBlock Err I1 rd1).2.1, (afterFailedSubBlock Err I1 rd1).2.2) := by
    rw [← hE1]
  rw [hres] at hb
  have hbody := getInfos_body_entity_error K rdT _ Infos IDe I0 _ rest _ E hitems hnew hb
  rw [getInfos_of_reach (validateStream_ok hsig) htop]
  have hend : rdT.Stream.AtEndOfStream = false := by
    simp [BitstreamCursor.AtEndOfStream, hitems]
  rw [getInfos.loop, if_neg (by simp [hend]), hbody]
  rfl

theorem readBlock_sub_block_error_witness :
    ∃ E rdF, getInfos .upstream
        (BitcodeReader.init (streamOf (signature .upstream)
          (block (some .BI_NAMESPACE_BLOCK_ID) [] ++
            block (some .BI_RECORD_BLOCK_ID)
              (record .RECORD_NAME [] "r" ++ block (some .BI_TYPE_BLOCK_ID) []))))
      = .ret (.error E, rdF) ∧
      (makeError "invalid type cannot contain TypeInfo").msgs <+: E.msgs :=
  have h := readBlock_sub_block_error .upstream 5 1
    (.recordInfo (RecordInfo.empty .upstream))
    (.recordInfo { RecordInfo.empty .upstream with Name := "r" })
    (.recordInfo { RecordInfo.empty .upstream with Name := "r" })
    { BitcodeReader.init ⟨[], [], 0⟩ with
      Stream := ⟨[], [.blockLen 7, .code 4, .record (some .RECORD_NAME) [] "r",
        .code 1, .blockID (some .BI_TYPE_BLOCK_ID), .blockLen 1, .code 0, .code 0], 0⟩ }
    { BitcodeReader.init ⟨[], [], 0⟩ with
      Stream := ⟨[], [.code 1, .blockID (some .BI_TYPE_BLOCK_ID), .blockLen 1, .code 0,
        .code 0], 1⟩ }
    { BitcodeReader.init ⟨[], [], 0⟩ with Stream := ⟨[], [.code 0], 1⟩ }
    ⟨[], [.code 4, .record (some .RECORD_NAME) [] "r",
        .code 1, .blockID (some .BI_TYPE_BLOCK_ID), .blockLen 1, .code 0, .code 0], 1⟩
    ⟨[], [.blockLen 1, .code 0, .code 0], 1⟩
    (some .BI_TYPE_BLOCK_ID) (makeError "invalid type cannot contain TypeInfo")
    rfl
    (by
      simp [readBlockLoop.reach, skipUntilRecordOrBlock, BitstreamCursor.AtEndOfStream,
        BitstreamCursor.ReadCode, FIRST_APPLICATION_ABBREV, readRecord,
        BitstreamCursor.readRecord, parsed, parseRecordRecordInfo, withField,
        decodeRecordString, Run.bind, BitcodeReader.init])
    (by
      simp [skipUntilRecordOrBlock, BitstreamCursor.AtEndOfStream, BitstreamCursor.ReadCode,
        FIRST_APPLICATION_ABBREV, ENTER_SUBBLOCK, BitstreamCursor.ReadSubBlockID])
    (by
      simp [readSubBlock, readBlock, BitstreamCursor.EnterSubBlock, readBlockLoop,
        skipUntilRecordOrBlock, BitstreamCursor.AtEndOfStream, BitstreamCursor.ReadCode,
        FIRST_APPLICATION_ABBREV, ENTER_SUBBLOCK, END_BLOCK, BitstreamCursor.ReadBlockEnd,
        Run.bind, addTypeInfo, BitcodeReader.init])
  have h2 := h.2.2
    (BitcodeReader.init (streamOf (signature .upstream)
      (block (some .BI_NAMESPACE_BLOCK_ID) [] ++
        block (some .BI_RECORD_BLOCK_ID)
          (record .RECORD_NAME [] "r" ++ block (some .BI_TYPE_BLOCK_ID) []))))
    { BitcodeReader.init ⟨[], [], 0⟩ with
      Stream := ⟨[], block (some .BI_RECORD_BLOCK_ID)
          (record .RECORD_NAME [] "r" ++ block (some .BI_TYPE_BLOCK_ID) []), 0⟩ }
    [.namespaceInfo (NamespaceInfo.empty .upstream)] 1 (some .BI_RECORD_BLOCK_ID)
    [.blockLen 7, .code 4, .record (some .RECORD_NAME) [] "r",
      .code 1, .blockID (some .BI_TYPE_BLOCK_ID), .blockLen 1, .code 0, .code 0]
    rfl
    (by
      simp [getInfos.reach, getInfos.body, streamOf, BitcodeReader.init, block,
        BitstreamCursor.AtEndOfStream, BitstreamCursor.ReadCode, ENTER_SUBBLOCK,
        BitstreamCursor.ReadSubBlockID, readBlockToInfo, createInfo, readBlockFuel, readBlock,
        BitstreamCursor.EnterSubBlock, readBlockLoop, skipUntilRecordOrBlock, END_BLOCK,
        FIRST_APPLICATION_ABBREV, BitstreamCursor.ReadBlockEnd, Run.bind, record])
    (by rfl) (by rfl) (by rfl)
  ⟨(joinErrors (makeError "invalid type cannot contain TypeInfo")
      (makeError "Unexpected end of file")),
    { BitcodeReader.init ⟨[], [], 0⟩ with Stream := ⟨[], [.code 0], 1⟩ },
    by
      obtain ⟨E, hE1, hE2⟩ := h2
      have e : E = joinErrors (makeError "invalid type cannot contain TypeInfo")
          (makeError "Unexpected end of file") := by
        simp [afterFailedSubBlock, BitstreamCursor.SkipBlock] at hE1
        exact hE1.symm
      subst e
      exact hE2,
    by decide⟩

/-! ### The end of the stream inside a block -/

/-- A top-level block whose id `readBlockToInfo` has a case for, with a body on which
`readBlock` does not return: neither does the turn of the loop of `getInfos`. -/
theorem getInfos_body_entity_trap (K : BitCodeConstants) (rdT : BitcodeReader)
    (Infos : List Object) (ID : Option BlockId) (I0 : Object) (rest : List Item) (n : Nat)
    (w : String)
    (hitems : rdT.Stream.Items = .code ENTER_SUBBLOCK :: .blockID ID :: rest)
    (hnew : newInfo K ID = some I0)
    (hread : readBlock K n ID I0 { rdT with Stream := { rdT.Stream with Items := rest } }
      = .trap w) :
    getInfos.body K rdT Infos = .trap w := by
  have hread1 := readBlock_readBlockFuel hread (by simp)
  unfold getInfos.body
  simp only [BitstreamCursor.ReadCode, hitems, BitstreamCursor.ReadSubBlockID]
  rcases ID with _ | ID
  · simp [newInfo] at hnew
  · cases ID <;> simp [newInfo] at hnew <;> subst hnew <;>
      simp [readBlockToInfo, createInfo, hread1, Run.bind]

/-- C22, as the code has it: a block (entered from the reader `rdB`, read into `I0`) in
which, after `k` records and sub-blocks read without error, the stream is at its end before
the end of the block.  `readBlock` does not return an error: it reaches
`llvm_unreachable("Premature stream end.")` in `skipUntilRecordOrBlock`, and so does
`getInfos` when the block is a top-level block of an entity after a valid signature.  The
other half of the claim holds: when the loop of `readBlock` is at an end-of-block code and
`ReadBlockEnd` fails (no block is open at the cursor), it returns the error
`bad block found`. -/
theorem readBlock_truncated (K : BitCodeConstants) (n k : Nat) (I0 I : Object)
    (rdB rd : BitcodeReader) (S0 : BitstreamCursor)
    (henter : rdB.Stream.EnterSubBlock = .ok S0)
    (hreach : readBlockLoop.reach K n k I0 { rdB with Stream := S0 } = some (I, rd))
    (hend : rd.Stream.AtEndOfStream = true) :
    (∀ ID0 m, n + k + 3 ≤ m →
      readBlock K m ID0 I0 rdB = .trap "llvm_unreachable: Premature stream end.") ∧
    (∀ (rd0 rdT : BitcodeReader) (Infos : List Object) (j : Nat) (IDe : Option BlockId)
        (rest : List Item),
      rd0.Stream.Lead = signature K →
      getInfos.reach K j { rd0 with Stream := { rd0.Stream with Lead := [] } } []
        = some (rdT, Infos) →
      rdT.Stream.Items = .code ENTER_SUBBLOCK :: .blockID IDe :: rest →
      rdB = { rdT with Stream := { rdT.Stream with Items := rest } } →
      newInfo K IDe = some I0 →
      getInfos K rd0 = .trap "llvm_unreachable: Premature stream end.") ∧
    (∀ (J : Object) (rdE : BitcodeReader) (rest : List Item) (m : Nat),
      rdE.Stream.Items = .code END_BLOCK :: rest → rdE.Stream.BlockScope = 0 →
      readBlockLoop K (m + 2) J rdE
        = .ret (some (makeError "bad block found"), J,
            { rdE with Stream := { rdE.Stream with Items := rest } })) := by
  have hloop : readBlockLoop K (n + 2) I rd
      = .trap "llvm_unreachable: Premature stream end." := by
    rw [readBlockLoop, skipUntilRecordOrBlock]
    simp [hend, Run.bind]
  have hblock : ∀ ID0, readBlock K (n + k + 3) ID0 I0 rdB
      = .trap "llvm_unreachable: Premature stream end." := by
    intro ID0
    rw [readBlock, henter]
    have h1 := readBlockLoop_reach K n k _ _ _ _ hreach (n + 2) (by omega)
    have e : n + k + 2 = n + 2 + k := by omega
    rw [e]
    dsimp only
    rw [h1, hloop]
  refine ⟨fun ID0 m hm => readBlock_fuel (hblock ID0) (by simp) m hm, ?_, ?_⟩
  · intro rd0 rdT Infos j IDe rest hsig htop hitems hB hnew
    have hb := hblock IDe
    rw [hB] at hb
    have hbody := getInfos_body_entity_trap K rdT Infos IDe I0 rest _ _ hitems hnew hb
    rw [getInfos_of_reach (validateStream_ok hsig) htop]
    have hend1 : rdT.Stream.AtEndOfStream = false := by
      simp [BitstreamCursor.AtEndOfStream, hitems]
    rw [getInfos.loop, if_neg (by simp [hend1]), hbody]
    rfl
  · intro J rdE rest m hitems hscope
    have h4 : ¬ (END_BLOCK ≥ FIRST_APPLICATION_ABBREV) := by decide
    have h1 : ¬ (END_BLOCK = ENTER_SUBBLOCK) := by decide
    simp [readBlockLoop, skipUntilRecordOrBlock, BitstreamCursor.AtEndOfStream, hitems,
      BitstreamCursor.ReadCode, h4, h1, BitstreamCursor.ReadBlockEnd, hscope, Run.bind]

theorem readBlock_truncated_witness :
    getInfos .upstream
        (BitcodeReader.init (streamOf (signature .upstream)
          [.code ENTER_SUBBLOCK, .blockID (some .BI_FUNCTION_BLOCK_ID), .blockLen 3,
            .code 4, .record (some .FUNCTION_NAME) [] "f"]))
      = .trap "llvm_unreachable: Premature stream end." :=
  (readBlock_truncated .upstream 1 1
    (.functionInfo (FunctionInfo.empty .upstream))
    (.functionInfo { FunctionInfo.empty .upstream with Name := "f" })
    { BitcodeReader.init ⟨[], [], 0⟩ with
      Stream := ⟨[], [.blockLen 3, .code 4, .record (some .FUNCTION_NAME) [] "f"], 0⟩ }
    { BitcodeReader.init ⟨[], [], 0⟩ with Stream := ⟨[], [], 1⟩ }
    ⟨[], [.code 4, .record (some .FUNCTION_NAME) [] "f"], 1⟩
    rfl
    (by
      simp [readBlockLoop.reach, skipUntilRecordOrBlock, BitstreamCursor.AtEndOfStream,
        BitstreamCursor.ReadCode, FIRST_APPLICATION_ABBREV, readRecord,
        BitstreamCursor.readRecord, parsed, parseRecordFunctionInfo, withField,
        decodeRecordString, Run.bind, BitcodeReader.init])
    rfl).2.1
    (BitcodeReader.init (streamOf (signature .upstream)
      [.code ENTER_SUBBLOCK, .blockID (some .BI_FUNCTION_BLOCK_ID), .blockLen 3,
        .code 4, .record (some .FUNCTION_NAME) [] "f"]))
    { BitcodeReader.init ⟨[], [], 0⟩ with
      Stream := ⟨[], [.code ENTER_SUBBLOCK, .blockID (some .BI_FUNCTION_BLOCK_ID), .blockLen 3,
        .code 4, .record (some .FUNCTION_NAME) [] "f"], 0⟩ }
    [] 0 (some .BI_FUNCTION_BLOCK_ID)
    [.blockLen 3, .code 4, .record (some .FUNCTION_NAME) [] "f"]
    rfl (by rfl) (by rfl) (by rfl) (by rfl)

/-! ### Documentation blocks outside a documentation block -/

/-- C23, as the code has it: a list block or a node block read while no documentation
block is open (`javadoc_` is null), as directly inside a function or record block.  A list
block stops at `assert(javadoc_)`.  A node block that holds a Returns node is read, and the
node is then assigned through the null `javadoc_`; a node block without nodes is accepted
and `readSubBlock` returns success.  None of them is rejected with an error. -/
theorem readSubBlock_without_javadoc (K : BitCodeConstants) (n : Nat) (I : Object)
    (rd : BitcodeReader) (hdoc : rd.javadoc_ = none) :
    readSubBlock K (n + 1) (some .BI_JAVADOC_LIST_BLOCK_ID) I rd = .trap "assert(javadoc_)" ∧
    (∀ L c blob rest, c ≥ FIRST_APPLICATION_ABBREV → rd.nodes_ = [] →
      rd.Stream.Items = .blockLen L :: .code c ::
        .record (some .JAVADOC_NODE_KIND) [10] blob :: .code END_BLOCK :: rest →
      readSubBlock K (n + 5) (some .BI_JAVADOC_NODE_BLOCK_ID) I rd
        = .trap "javadoc_->returns_") ∧
    (∀ L rest, rd.nodes_ = [] →
      rd.Stream.Items = .blockLen L :: .code END_BLOCK :: rest →
      readSubBlock K (n + 4) (some .BI_JAVADOC_NODE_BLOCK_ID) I rd
        = .ret (none, I, { rd with Stream := { rd.Stream with Items := rest } })) := by
  have h4 : ¬ (END_BLOCK ≥ FIRST_APPLICATION_ABBREV) := by decide
  have h1 : ¬ (END_BLOCK = ENTER_SUBBLOCK) := by decide
  refine ⟨?_, ?_, ?_⟩
  · simp [readSubBlock, hdoc]
  · intro L c blob rest hc hn hitems
    simp [readSubBlock, hn, hdoc, readBlock, BitstreamCursor.EnterSubBlock, hitems,
      readBlockLoop, skipUntilRecordOrBlock, BitstreamCursor.AtEndOfStream,
      BitstreamCursor.ReadCode, hc, h4, h1, readRecord, BitstreamCursor.readRecord,
      parseRecordNodeList, decodeRecordEnum, decodeRecordInt, INT_MAX, toInt32,
      Javadoc.Kind.text, Javadoc.Kind.styled, Javadoc.Kind.paragraph, Javadoc.Kind.brief,
      Javadoc.Kind.admonition, Javadoc.Kind.code, Javadoc.Kind.returns, Run.bind,
      BitstreamCursor.ReadBlockEnd, Javadoc.Node.ofKind, Javadoc.Node.kind]
  · intro L rest hn hitems
    simp [readSubBlock, hn, hdoc, readBlock, BitstreamCursor.EnterSubBlock, hitems,
      readBlockLoop, skipUntilRecordOrBlock, BitstreamCursor.AtEndOfStream,
      BitstreamCursor.ReadCode, h4, h1, Run.bind, BitstreamCursor.ReadBlockEnd]

theorem readSubBlock_without_javadoc_witness :
    readSubBlock .upstream 5 (some .BI_JAVADOC_NODE_BLOCK_ID)
        (.functionInfo (FunctionInfo.empty .upstream))
        (BitcodeReader.init
          ⟨[], [.blockLen 3, .code 4, .record (some .JAVADOC_NODE_KIND) [10] "",
            .code END_BLOCK, .code END_BLOCK], 1⟩)
      = .trap "javadoc_->returns_" :=
  (readSubBlock_without_javadoc .upstream 0 (.functionInfo (FunctionInfo.empty .upstream))
    (BitcodeReader.init
      ⟨[], [.blockLen 3, .code 4, .record (some .JAVADOC_NODE_KIND) [10] "",
        .code END_BLOCK, .code END_BLOCK], 1⟩) rfl).2.1 3 4 "" [.code END_BLOCK]
    (by decide) rfl rfl

/-- A function block that holds a list block, with no documentation block around it:
`getInfos` stops at `assert(javadoc_)`. -/
theorem list_block_in_function_traps :
    getInfos .upstream
        (BitcodeReader.init (streamOf (signature .upstream)
          (block (some .BI_FUNCTION_BLOCK_ID)
            (block (some .BI_JAVADOC_LIST_BLOCK_ID) []))))
      = .trap "assert(javadoc_)" := by
  simp [getInfos, validateStream, validateStream.loop, BitstreamCursor.Read8, signature,
    getInfos.loop, getInfos.body, readBlockToInfo, createInfo, readBlockFuel, streamOf,
    BitcodeReader.init, readBlockLoop, skipUntilRecordOrBlock, BitstreamCursor.AtEndOfStream,
    BitstreamCursor.ReadCode, BitstreamCursor.ReadSubBlockID, block, readSubBlock, readBlock,
    BitstreamCursor.EnterSubBlock, Run.bind, END_BLOCK, ENTER_SUBBLOCK,
    FIRST_APPLICATION_ABBREV]

/-- A function block that holds a node block with a Returns node, with no documentation
block around it: `getInfos` assigns the node through the null `javadoc_`. -/
theorem returns_node_in_function_traps :
    getInfos .upstream
        (BitcodeReader.init (streamOf (signature .upstream)
          (block (some .BI_FUNCTION_BLOCK_ID)
            (block (some .BI_JAVADOC_NODE_BLOCK_ID) (record .JAVADOC_NODE_KIND [10] "")))))
      = .trap "javadoc_->returns_" := by
  simp [getInfos, validateStream, validateStream.loop, BitstreamCursor.Read8, signature,
    getInfos.loop, getInfos.body, readBlockToInfo, createInfo, readBlockFuel, streamOf,
    BitcodeReader.init, readBlockLoop, skipUntilRecordOrBlock, BitstreamCursor.AtEndOfStream,
    BitstreamCursor.ReadCode, BitstreamCursor.ReadSubBlockID, block, record, readSubBlock,
    readBlock, BitstreamCursor.EnterSubBlock, readRecord, BitstreamCursor.readRecord,
    parseRecordNodeList, decodeRecordEnum, decodeRecordInt, INT_MAX, toInt32,
    Javadoc.Kind.text, Javadoc.Kind.styled, Javadoc.Kind.paragraph, Javadoc.Kind.brief,
    Javadoc.Kind.admonition, Javadoc.Kind.code, Javadoc.Kind.returns, Run.bind,
    BitstreamCursor.ReadBlockEnd, Javadoc.Node.ofKind, Javadoc.Node.kind, END_BLOCK,
    ENTER_SUBBLOCK, FIRST_APPLICATION_ABBREV]

/-- C29: `addTypeInfo(I, T)` returns success exactly for the declared pairs of owner and
type object; for any other pair it returns the error `invalid type cannot contain TypeInfo`
and the owner is unchanged; on success the owner differs from the one given in the named
slot only: `T` is the new last element of `Members` or `Params`, or the new value of
`ReturnType`, `BaseType` or `Underlying`. -/
theorem addTypeInfo_slots :
    (∀ I TI, (addTypeInfo I TI).1 = none ↔ typeSlotDeclared I TI = true) ∧
    (∀ I TI, typeSlotDeclared I TI = false →
      addTypeInfo I TI = (some (makeError "invalid type cannot contain TypeInfo"), I)) ∧
    (∀ (I : RecordInfo) (T : MemberTypeInfo), addTypeInfo (.recordInfo I) (.memberTypeInfo T)
      = (none, .recordInfo { I with Members := I.Members ++ [T] })) ∧
    (∀ (I : BaseRecordInfo) (T : MemberTypeInfo),
      addTypeInfo (.baseRecordInfo I) (.memberTypeInfo T)
        = (none, .baseRecordInfo { I with Members := I.Members ++ [T] })) ∧
    (∀ (I : FunctionInfo) (T : TypeInfo), addTypeInfo (.functionInfo I) (.typeInfo T)
      = (none, .functionInfo { I with ReturnType := T })) ∧
    (∀ (I : FunctionInfo) (T : FieldTypeInfo), addTypeInfo (.functionInfo I) (.fieldTypeInfo T)
      = (none, .functionInfo { I with Params := I.Params ++ [T] })) ∧
    (∀ (I : EnumInfo) (T : TypeInfo), addTypeInfo (.enumInfo I) (.typeInfo T)
      = (none, .enumInfo { I with BaseType := some T })) ∧
    (∀ (I : TypedefInfo) (T : TypeInfo), addTypeInfo (.typedefInfo I) (.typeInfo T)
      = (none, .typedefInfo { I with Underlying := T })) := by
  refine ⟨?_, ?_, fun _ _ => rfl, fun _ _ => rfl, fun _ _ => rfl, fun _ _ => rfl,
    fun _ _ => rfl, fun _ _ => rfl⟩
  · intro I TI
    cases I <;> cases TI <;> simp [addTypeInfo, typeSlotDeclared]
  · intro I TI h
    cases I <;> cases TI <;> first | rfl | (simp [typeSlotDeclared] at h)

/-! ### The records of each owner -/

/-- C30: the record ids of each owner type.  For a namespace, record, base record, function,
enum, enumerator, typedef, parameter, member, reference, template specialization and
template parameter, `parseRecord` with an id outside the cases of its switch returns the
error `invalid field for ...` and the owner as it was, and with an id of a case it returns,
if it returns, an owner that differs from the one given in the member of that case at most
(the relation-kind record of a reference writes the reader's tag and leaves the reference
alone).  For a template and for a documentation block every id is an error; for a
`TypeInfo` every id is accepted and the object is unchanged. -/
theorem parseRecord_closed (K : BitCodeConstants) (R : Record) (Blob : Blob) :
    (∀ (I : NamespaceInfo) ID,
      ID ≠ some .NAMESPACE_USR → ID ≠ some .NAMESPACE_NAME → ID ≠ some .NAMESPACE_PATH →
      parseRecordNamespaceInfo K R ID Blob I
        = .ret (some (makeError "invalid field for NamespaceInfo"), I)) ∧
    (∀ (I I1 : NamespaceInfo) e,
      parseRecordNamespaceInfo K R (some .NAMESPACE_USR) Blob I = .ret (e, I1) →
      I1 = { I with USR := I1.USR }) ∧
    (∀ (I I1 : NamespaceInfo) e,
      parseRecordNamespaceInfo K R (some .NAMESPACE_NAME) Blob I = .ret (e, I1) →
      I1 = { I with Name := I1.Name }) ∧
    (∀ (I I1 : NamespaceInfo) e,
      parseRecordNamespaceInfo K R (some .NAMESPACE_PATH) Blob I = .ret (e, I1) →
      I1 = { I with Path := I1.Path }) ∧
    (∀ (I : RecordInfo) ID,
      ID ≠ some .RECORD_USR → ID ≠ some .RECORD_NAME → ID ≠ some .RECORD_PATH → ID ≠
      some .RECORD_DEFLOCATION → ID ≠ some .RECORD_LOCATION → ID ≠ some .RECORD_TAG_TYPE
      → ID ≠ some .RECORD_IS_TYPE_DEF →
      parseRecordRecordInfo K R ID Blob I
        = .ret (some (makeError "invalid field for RecordInfo"), I)) ∧
    (∀ (I I1 : RecordInfo) e,
      parseRecordRecordInfo K R (some .RECORD_USR) Blob I = .ret (e, I1) →
      I1 = { I with USR := I1.USR }) ∧
    (∀ (I I1 : RecordInfo) e,
      parseRecordRecordInfo K R (some .RECORD_NAME) Blob I = .ret (e, I1) →
      I1 = { I with Name := I1.Name }) ∧
    (∀ (I I1 : RecordInfo) e,
      parseRecordRecordInfo K R (some .RECORD_PATH) Blob I = .ret (e, I1) →
      I1 = { I with Path := I1.Path }) ∧
    (∀ (I I1 : RecordInfo) e,
      parseRecordRecordInfo K R (some .RECORD_DEFLOCATION) Blob I = .ret (e, I1) →
      I1 = { I with DefLoc := I1.DefLoc }) ∧
    (∀ (I I1 : RecordInfo) e,
      parseRecordRecordInfo K R (some .RECORD_LOCATION) Blob I = .ret (e, I1) →
      I1 = { I with Loc := I1.Loc }) ∧
    (∀ (I I1 : RecordInfo) e,
      parseRecordRecordInfo K R (some .RECORD_TAG_TYPE) Blob I = .ret (e, I1) →
      I1 = { I with TagType := I1.TagType }) ∧
    (∀ (I I1 : RecordInfo) e,
      parseRecordRecordInfo K R (some .RECORD_IS_TYPE_DEF) Blob I = .ret (e, I1) →
      I1 = { I with IsTypeDef := I1.IsTypeDef }) ∧
    (∀ (I : BaseRecordInfo) ID,
      ID ≠ some .BASE_RECORD_USR → ID ≠ some .BASE_RECORD_NAME → ID ≠ some
      .BASE_RECORD_PATH → ID ≠ some .BASE_RECORD_TAG_TYPE → ID ≠ some
      .BASE_RECORD_IS_VIRTUAL → ID ≠ some .BASE_RECORD_ACCESS → ID ≠ some
      .BASE_RECORD_IS_PARENT →
      parseRecordBaseRecordInfo K R ID Blob I
        = .ret (some (makeError "invalid field for BaseRecordInfo"), I)) ∧
    (∀ (I I1 : BaseRecordInfo) e,
      parseRecordBaseRecordInfo K R (some .BASE_RECORD_USR) Blob I = .ret (e, I1) →
      I1 = { I with USR := I1.USR }) ∧
    (∀ (I I1 : BaseRecordInfo) e,
      parseRecordBaseRecordInfo K R (some .BASE_RECORD_NAME) Blob I = .ret (e, I1) →
      I1 = { I with Name := I1.Name }) ∧
    (∀ (I I1 : BaseRecordInfo) e,
      parseRecordBaseRecordInfo K R (some .BASE_RECORD_PATH) Blob I = .ret (e, I1) →
      I1 = { I with Path := I1.Path }) ∧
    (∀ (I I1 : BaseRecordInfo) e,
      parseRecordBaseRecordInfo K R (some .BASE_RECORD_TAG_TYPE) Blob I = .ret (e, I1) →
      I1 = { I with TagType := I1.TagType }) ∧
    (∀ (I I1 : BaseRecordInfo) e,
      parseRecordBaseRecordInfo K R (some .BASE_RECORD_IS_VIRTUAL) Blob I = .ret (e, I1) →
      I1 = { I with IsVirtual := I1.IsVirtual }) ∧
    (∀ (I I1 : BaseRecordInfo) e,
      parseRecordBaseRecordInfo K R (some .BASE_RECORD_ACCESS) Blob I = .ret (e, I1) →
      I1 = { I with Access := I1.Access }) ∧
    (∀ (I I1 : BaseRecordInfo) e,
      parseRecordBaseRecordInfo K R (some .BASE_RECORD_IS_PARENT) Blob I = .ret (e, I1) →
      I1 = { I with IsParent := I1.IsParent }) ∧
    (∀ (I : FunctionInfo) ID,
      ID ≠ some .FUNCTION_USR → ID ≠ some .FUNCTION_NAME → ID ≠ some
      .FUNCTION_DEFLOCATION → ID ≠ some .FUNCTION_LOCATION → ID ≠ some .FUNCTION_ACCESS
      → ID ≠ some .FUNCTION_IS_METHOD →
      parseRecordFunctionInfo K R ID Blob I
        = .ret (some (makeError "invalid field for FunctionInfo"), I)) ∧
    (∀ (I I1 : FunctionInfo) e,
      parseRecordFunctionInfo K R (some .FUNCTION_USR) Blob I = .ret (e, I1) →
      I1 = { I with USR := I1.USR }) ∧
    (∀ (I I1 : FunctionInfo) e,
      parseRecordFunctionInfo K R (some .FUNCTION_NAME) Blob I = .ret (e, I1) →
      I1 = { I with Name := I1.Name }) ∧
    (∀ (I I1 : FunctionInfo) e,
      parseRecordFunctionInfo K R (some .FUNCTION_DEFLOCATION) Blob I = .ret (e, I1) →
      I1 = { I with DefLoc := I1.DefLoc }) ∧
    (∀ (I I1 : FunctionInfo) e,
      parseRecordFunctionInfo K R (some .FUNCTION_LOCATION) Blob I = .ret (e, I1) →
      I1 = { I with Loc := I1.Loc }) ∧
    (∀ (I I1 : FunctionInfo) e,
      parseRecordFunctionInfo K R (some .FUNCTION_ACCESS) Blob I = .ret (e, I1) →
      I1 = { I with Access := I1.Access }) ∧
    (∀ (I I1 : FunctionInfo) e,
      parseRecordFunctionInfo K R (some .FUNCTION_IS_METHOD) Blob I = .ret (e, I1) →
      I1 = { I with IsMethod := I1.IsMethod }) ∧
    (∀ (I : EnumInfo) ID,
      ID ≠ some .ENUM_USR → ID ≠ some .ENUM_NAME → ID ≠ some .ENUM_DEFLOCATION → ID ≠
      some .ENUM_LOCATION → ID ≠ some .ENUM_SCOPED →
      parseRecordEnumInfo K R ID Blob I
        = .ret (some (makeError "invalid field for EnumInfo"), I)) ∧
    (∀ (I I1 : EnumInfo) e,
      parseRecordEnumInfo K R (some .ENUM_USR) Blob I = .ret (e, I1) →
      I1 = { I with USR := I1.USR }) ∧
    (∀ (I I1 : EnumInfo) e,
      parseRecordEnumInfo K R (some .ENUM_NAME) Blob I = .ret (e, I1) →
      I1 = { I with Name := I1.Name }) ∧
    (∀ (I I1 : EnumInfo) e,
      parseRecordEnumInfo K R (some .ENUM_DEFLOCATION) Blob I = .ret (e, I1) →
      I1 = { I with DefLoc := I1.DefLoc }) ∧
    (∀ (I I1 : EnumInfo) e,
      parseRecordEnumInfo K R (some .ENUM_LOCATION) Blob I = .ret (e, I1) →
      I1 = { I with Loc := I1.Loc }) ∧
    (∀ (I I1 : EnumInfo) e,
      parseRecordEnumInfo K R (some .ENUM_SCOPED) Blob I = .ret (e, I1) →
      I1 = { I with Scoped := I1.Scoped }) ∧
    (∀ (I : EnumValueInfo) ID,
      ID ≠ some .ENUM_VALUE_NAME → ID ≠ some .ENUM_VALUE_VALUE → ID ≠ some
      .ENUM_VALUE_EXPR →
      parseRecordEnumValueInfo K R ID Blob I
        = .ret (some (makeError "invalid field for EnumValueInfo"), I)) ∧
    (∀ (I I1 : EnumValueInfo) e,
      parseRecordEnumValueInfo K R (some .ENUM_VALUE_NAME) Blob I = .ret (e, I1) →
      I1 = { I with Name := I1.Name }) ∧
    (∀ (I I1 : EnumValueInfo) e,
      parseRecordEnumValueInfo K R (some .ENUM_VALUE_VALUE) Blob I = .ret (e, I1) →
      I1 = { I with Value := I1.Value }) ∧
    (∀ (I I1 : EnumValueInfo) e,
      parseRecordEnumValueInfo K R (some .ENUM_VALUE_EXPR) Blob I = .ret (e, I1) →
      I1 = { I with ValueExpr := I1.ValueExpr }) ∧
    (∀ (I : TypedefInfo) ID,
      ID ≠ some .TYPEDEF_USR → ID ≠ some .TYPEDEF_NAME → ID ≠ some .TYPEDEF_DEFLOCATION
      → ID ≠ some .TYPEDEF_IS_USING →
      parseRecordTypedefInfo K R ID Blob I
        = .ret (some (makeError "invalid field for TypedefInfo"), I)) ∧
    (∀ (I I1 : TypedefInfo) e,
      parseRecordTypedefInfo K R (some .TYPEDEF_USR) Blob I = .ret (e, I1) →
      I1 = { I with USR := I1.USR }) ∧
    (∀ (I I1 : TypedefInfo) e,
      parseRecordTypedefInfo K R (some .TYPEDEF_NAME) Blob I = .ret (e, I1) →
      I1 = { I with Name := I1.Name }) ∧
    (∀ (I I1 : TypedefInfo) e,
      parseRecordTypedefInfo K R (some .TYPEDEF_DEFLOCATION) Blob I = .ret (e, I1) →
      I1 = { I with DefLoc := I1.DefLoc }) ∧
    (∀ (I I1 : TypedefInfo) e,
      parseRecordTypedefInfo K R (some .TYPEDEF_IS_USING) Blob I = .ret (e, I1) →
      I1 = { I with IsUsing := I1.IsUsing }) ∧
    (∀ (I : FieldTypeInfo) ID,
      ID ≠ some .FIELD_TYPE_NAME → ID ≠ some .FIELD_DEFAULT_VALUE →
      parseRecordFieldTypeInfo K R ID Blob I
        = .ret (some (makeError "invalid field for TypeInfo"), I)) ∧
    (∀ (I I1 : FieldTypeInfo) e,
      parseRecordFieldTypeInfo K R (some .FIELD_TYPE_NAME) Blob I = .ret (e, I1) →
      I1 = { I with Name := I1.Name }) ∧
    (∀ (I I1 : FieldTypeInfo) e,
      parseRecordFieldTypeInfo K R (some .FIELD_DEFAULT_VALUE) Blob I = .ret (e, I1) →
      I1 = { I with DefaultValue := I1.DefaultValue }) ∧
    (∀ (I : MemberTypeInfo) ID,
      ID ≠ some .MEMBER_TYPE_NAME → ID ≠ some .MEMBER_TYPE_ACCESS →
      parseRecordMemberTypeInfo K R ID Blob I
        = .ret (some (makeError "invalid field for MemberTypeInfo"), I)) ∧
    (∀ (I I1 : MemberTypeInfo) e,
      parseRecordMemberTypeInfo K R (some .MEMBER_TYPE_NAME) Blob I = .ret (e, I1) →
      I1 = { I with Name := I1.Name }) ∧
    (∀ (I I1 : MemberTypeInfo) e,
      parseRecordMemberTypeInfo K R (some .MEMBER_TYPE_ACCESS) Blob I = .ret (e, I1) →
      I1 = { I with Access := I1.Access }) ∧
    (∀ (I : TemplateSpecializationInfo) ID,
      ID ≠ some .TEMPLATE_SPECIALIZATION_OF →
      parseRecordTemplateSpecializationInfo K R ID Blob I
        = .ret (some (makeError "invalid field for TemplateParamInfo"), I)) ∧
    (∀ (I I1 : TemplateSpecializationInfo) e,
      parseRecordTemplateSpecializationInfo K R (some .TEMPLATE_SPECIALIZATION_OF) Blob I = .ret (e, I1) →
      I1 = { I with SpecializationOf := I1.SpecializationOf }) ∧
    (∀ (I : TemplateParamInfo) ID,
      ID ≠ some .TEMPLATE_PARAM_CONTENTS →
      parseRecordTemplateParamInfo K R ID Blob I
        = .ret (some (makeError "invalid field for TemplateParamInfo"), I)) ∧
    (∀ (I I1 : TemplateParamInfo) e,
      parseRecordTemplateParamInfo K R (some .TEMPLATE_PARAM_CONTENTS) Blob I = .ret (e, I1) →
      I1 = { I with Contents := I1.Contents }) ∧
    (∀ (I : Reference) F ID,
      ID ≠ some .REFERENCE_USR → ID ≠ some .REFERENCE_NAME → ID ≠ some .REFERENCE_TYPE →
      ID ≠ some .REFERENCE_PATH → ID ≠ some .REFERENCE_FIELD →
      parseRecordReference K R ID Blob I F
        = .ret (some (makeError "invalid field for Reference"), I, F)) ∧
    (∀ (I I1 : Reference) F F1 e,
      parseRecordReference K R (some .REFERENCE_USR) Blob I F = .ret (e, I1, F1) →
      I1 = { I with USR := I1.USR } ∧ F1 = F) ∧
    (∀ (I I1 : Reference) F F1 e,
      parseRecordReference K R (some .REFERENCE_NAME) Blob I F = .ret (e, I1, F1) →
      I1 = { I with Name := I1.Name } ∧ F1 = F) ∧
    (∀ (I I1 : Reference) F F1 e,
      parseRecordReference K R (some .REFERENCE_TYPE) Blob I F = .ret (e, I1, F1) →
      I1 = { I with RefType := I1.RefType } ∧ F1 = F) ∧
    (∀ (I I1 : Reference) F F1 e,
      parseRecordReference K R (some .REFERENCE_PATH) Blob I F = .ret (e, I1, F1) →
      I1 = { I with Path := I1.Path } ∧ F1 = F) ∧
    (∀ (I I1 : Reference) F F1 e,
      parseRecordReference K R (some .REFERENCE_FIELD) Blob I F = .ret (e, I1, F1) → I1 = I) ∧
    (∀ (I : TemplateInfo) ID, parseRecordTemplateInfo K R ID Blob I
      = .ret (some (makeError "invalid field for TemplateParamInfo"), I)) ∧
    (∀ ID ID1 (rd : BitcodeReader) S,
      rd.Stream.readRecord ID1 = .ok ((ID, R, Blob), S) →
      readRecord K ID1 .javadoc rd
        = .ret (some (makeError "invalid ID for Javadoc"), .javadoc, { rd with Stream := S })) ∧
    (∀ (I : TypeInfo) ID, parseRecordTypeInfo K R ID Blob I = .ret (none, I)) := by
  refine ⟨?_, ?_, ?_, ?_, ?_, ?_, ?_, ?_, ?_, ?_, ?_, ?_, ?_, ?_, ?_, ?_, ?_, ?_, ?_, ?_,
    ?_, ?_, ?_, ?_, ?_, ?_, ?_, ?_, ?_, ?_, ?_, ?_, ?_, ?_, ?_, ?_, ?_, ?_, ?_, ?_, ?_,
    ?_, ?_, ?_, ?_, ?_, ?_, ?_, ?_, ?_, ?_, ?_, ?_, ?_, ?_, ?_, ?_, ?_, ?_, ?_, ?_⟩
  all_goals intros
  all_goals
    first
      | rfl
      | (unfold parseRecordNamespaceInfo; split <;> first | rfl | contradiction)
      | (unfold parseRecordRecordInfo; split <;> first | rfl | contradiction)
      | (unfold parseRecordBaseRecordInfo; split <;> first | rfl | contradiction)
      | (unfold parseRecordFunctionInfo; split <;> first | rfl | contradiction)
      | (unfold parseRecordEnumInfo; split <;> first | rfl | contradiction)
      | (unfold parseRecordEnumValueInfo; split <;> first | rfl | contradiction)
      | (unfold parseRecordTypedefInfo; split <;> first | rfl | contradiction)
      | (unfold parseRecordFieldTypeInfo; split <;> first | rfl | contradiction)
      | (unfold parseRecordMemberTypeInfo; split <;> first | rfl | contradiction)
      | (unfold parseRecordTemplateSpecializationInfo; split <;> first | rfl | contradiction)
      | (unfold parseRecordTemplateParamInfo; split <;> first | rfl | contradiction)
      | (unfold parseRecordReference; split <;> first | rfl | contradiction)
      | (rename_i h
         simp only [parseRecordNamespaceInfo, parseRecordRecordInfo, parseRecordBaseRecordInfo,
           parseRecordFunctionInfo, parseRecordEnumInfo, parseRecordEnumValueInfo,
           parseRecordTypedefInfo, parseRecordFieldTypeInfo, parseRecordMemberTypeInfo,
           parseRecordTemplateSpecializationInfo, parseRecordTemplateParamInfo, if_true,
           withField] at h
         obtain ⟨p, _, hk⟩ := Run.bind_eq_ret h
         cases hk
         rfl)
      | (rename_i h
         simp only [parseRecordReference] at h
         obtain ⟨p, _, hk⟩ := Run.bind_eq_ret h
         cases hk
         exact ⟨rfl, rfl⟩)
      | (rename_i h
         simp only [parseRecordReference] at h
         obtain ⟨p, _, hk⟩ := Run.bind_eq_ret h
         split at hk <;> cases hk <;> rfl)
      | (rename_i h
         simp [readRecord, h, parseRecordJavadoc])

/-! ### The brief -/

/-- C24: `calculateBrief` sets the brief to the first top-level block of kind brief when
there is one, else to the first top-level block, else to null, and `getBrief` returns it:
the blocks `[Paragraph("x"), Brief("y")]` give the brief `y`, the blocks `[Paragraph("x")]`
give `x`, and no blocks give no brief. -/
theorem calculateBrief_spec :
    (∀ (D : Javadoc) pre b post, D.blocks_ = pre ++ b :: post →
      b.kind = Javadoc.Kind.brief → (∀ n ∈ pre, n.kind ≠ Javadoc.Kind.brief) →
      D.calculateBrief.getBrief = some b) ∧
    (∀ (D : Javadoc), (∀ n ∈ D.blocks_, n.kind ≠ Javadoc.Kind.brief) →
      D.calculateBrief.getBrief = D.blocks_.head?) ∧
    (∀ (D : Javadoc) x y,
      D.blocks_ =
        [.mk Javadoc.Kind.paragraph "" Javadoc.Style.none Javadoc.Admonish.none "" [x],
         .mk Javadoc.Kind.brief "" Javadoc.Style.none Javadoc.Admonish.none "" [y]] →
      D.calculateBrief.getBrief
        = some (.mk Javadoc.Kind.brief "" Javadoc.Style.none Javadoc.Admonish.none "" [y])) ∧
    (∀ (D : Javadoc) x,
      D.blocks_ =
        [.mk Javadoc.Kind.paragraph "" Javadoc.Style.none Javadoc.Admonish.none "" [x]] →
      D.calculateBrief.getBrief
        = some (.mk Javadoc.Kind.paragraph "" Javadoc.Style.none Javadoc.Admonish.none ""
            [x])) ∧
    (∀ (D : Javadoc), D.blocks_ = [] → D.calculateBrief.getBrief = none) := by
  have hfirst : ∀ (D : Javadoc) pre b post, D.blocks_ = pre ++ b :: post →
      b.kind = Javadoc.Kind.brief → (∀ n ∈ pre, n.kind ≠ Javadoc.Kind.brief) →
      D.calculateBrief.getBrief = some b := by
    intro D pre b post hD hb hpre
    have hfind : D.blocks_.find? (fun n => decide (n.kind = Javadoc.Kind.brief)) = some b := by
      rw [hD]
      clear hD
      induction pre with
      | nil => simp [hb]
      | cons a pre ih =>
        have ha : a.kind ≠ Javadoc.Kind.brief := hpre a (List.mem_cons_self _ _)
        simp only [List.cons_append, List.find?_cons, ha, decide_False]
        exact ih (fun n hn => hpre n (List.mem_cons_of_mem _ hn))
    simp [Javadoc.calculateBrief, Javadoc.getBrief, hfind]
  have hnone : ∀ (D : Javadoc), (∀ n ∈ D.blocks_, n.kind ≠ Javadoc.Kind.brief) →
      D.calculateBrief.getBrief = D.blocks_.head? := by
    intro D hD
    have hfind : D.blocks_.find? (fun n => decide (n.kind = Javadoc.Kind.brief)) = none := by
      rw [List.find?_eq_none]
      intro n hn
      simpa using hD n hn
    simp [Javadoc.calculateBrief, Javadoc.getBrief, hfind]
  refine ⟨hfirst, hnone, ?_, ?_, ?_⟩
  · intro D x y hD
    refine hfirst D [_] _ [] hD rfl ?_
    intro n hn
    simp only [List.mem_singleton] at hn
    subst hn
    simp [Javadoc.Node.kind, Javadoc.Kind.paragraph, Javadoc.Kind.brief]
  · intro D x hD
    rw [hnone D ?_, hD]
    · rfl
    · intro n hn
      rw [hD] at hn
      simp only [List.mem_singleton] at hn
      subst hn
      simp [Javadoc.Node.kind, Javadoc.Kind.paragraph, Javadoc.Kind.brief]
  · intro D hD
    rw [hnone D ?_, hD]
    · rfl
    · intro n hn
      rw [hD] at hn
      cases hn

/-! ### Merging -/

/-- A group with two members of different entity kinds is not merged. -/
theorem mergeInfos_conflict (merge : Object → Object → Object) (Values : List Object)
    (V W : Object) (hV : V ∈ Values) (hW : W ∈ Values)
    (hne : (V.info?.map fun I => I.IT) ≠ (W.info?.map fun I => I.IT)) :
    mergeInfos merge Values = .error ConflictingEntityKind := by
  cases Values with
  | nil => cases hV
  | cons H rest =>
    have hall : rest.all
        (fun X => decide ((X.info?.map fun I => I.IT) = (H.info?.map fun I => I.IT))) = false := by
      rw [Bool.eq_false_iff]
      intro hall
      rw [List.all_eq_true] at hall
      have key : ∀ X ∈ H :: rest,
          (X.info?.map fun I => I.IT) = (H.info?.map fun I => I.IT) := by
        intro X hX
        rcases List.mem_cons.mp hX with h | h
        · rw [h]
        · simpa using hall X h
      exact hne ((key V hV).trans (key W hW).symm)
    simp [mergeInfos, hall]

/-- A group with a member, all of whose members have the entity kind of the first, is
merged. -/
theorem mergeInfos_ok (merge : Object → Object → Object) (H : Object) (rest : List Object)
    (h : ∀ X ∈ rest, (X.info?.map fun I => I.IT) = (H.info?.map fun I => I.IT)) :
    mergeInfos merge (H :: rest) = .ok (rest.foldl merge H) := by
  have hall : rest.all
      (fun X => decide ((X.info?.map fun I => I.IT) = (H.info?.map fun I => I.IT))) = true := by
    rw [List.all_eq_true]
    intro X hX
    simpa using h X hX
  simp [mergeInfos, hall]

/-- C25: in a run of the merge over the partial entities `Values`, in which a record and a
function share the identifier `A` and the entities with another identifier `B` all have the
entity kind `IT`, the group of `A` fails with `ConflictingEntityKind` and the group of `B`
is merged all the same. -/
theorem mergeRun_conflict_is_local (merge : Object → Object → Object)
    (Values : List Object) (A B : SymbolID) (R : RecordInfo) (F : FunctionInfo) (V : Object)
    (IT : InfoType)
    (hR : .recordInfo R ∈ Values) (hF : .functionInfo F ∈ Values)
    (hRA : R.USR = A) (hFA : F.USR = A)
    (hRT : R.IT = .IT_record) (hFT : F.IT = .IT_function)
    (hAB : B ≠ A)
    (hV : V ∈ Values) (hVB : (V.info?.map fun I => I.USR) = some B)
    (hB : ∀ W ∈ Values, (W.info?.map fun I => I.USR) = some B →
      (W.info?.map fun I => I.IT) = some IT) :
    mergeInfos merge [.recordInfo R, .functionInfo F] = .error ConflictingEntityKind ∧
    (A, .error ConflictingEntityKind) ∈ mergeRun merge Values ∧
    ∃ M, (B, .ok M) ∈ mergeRun merge Values := by
  have hne : ((Object.recordInfo R).info?.map fun I => I.IT)
      ≠ ((Object.functionInfo F).info?.map fun I => I.IT) := by
    simp [Object.info?, hRT, hFT]
  refine ⟨mergeInfos_conflict merge _ _ _ (by simp) (by simp) hne, ?_, ?_⟩
  · unfold mergeRun
    rw [List.mem_map]
    refine ⟨A, ?_, ?_⟩
    · rw [List.mem_dedup, List.mem_filterMap]
      exact ⟨.recordInfo R, hR, by simp [Object.info?, hRA]⟩
    · congr 1
      refine mergeInfos_conflict merge _ (.recordInfo R) (.functionInfo F) ?_ ?_ hne
      · rw [List.mem_filter]; exact ⟨hR, by simp [Object.info?, hRA]⟩
      · rw [List.mem_filter]; exact ⟨hF, by simp [Object.info?, hFA]⟩
  · have hVm : V ∈ Values.filter
        (fun X => decide ((X.info?.map fun I => I.USR) = some B)) := by
      rw [List.mem_filter]; exact ⟨hV, by simp [hVB]⟩
    have hall : ∀ X ∈ Values.filter
        (fun X => decide ((X.info?.map fun I => I.USR) = some B)),
        (X.info?.map fun I => I.IT) = some IT := by
      intro X hX
      rw [List.mem_filter] at hX
      exact hB X hX.1 (by simpa using hX.2)
    rcases hg : Values.filter
        (fun X => decide ((X.info?.map fun I => I.USR) = some B)) with _ | ⟨H, rest⟩
    · rw [hg] at hVm; cases hVm
    · rw [hg] at hall
      refine ⟨rest.foldl merge H, ?_⟩
      unfold mergeRun
      rw [List.mem_map]
      refine ⟨B, ?_, ?_⟩
      · rw [List.mem_dedup, List.mem_filterMap]
        exact ⟨V, hV, hVB⟩
      · congr 1
        rw [hg]
        refine mergeInfos_ok merge H rest (fun X hX => ?_)
        rw [hall X (List.mem_cons_of_mem _ hX), hall H (List.mem_cons_self _ _)]

theorem mergeRun_conflict_is_local_witness :
    (EmptySID .upstream, .error ConflictingEntityKind)
        ∈ mergeRun (fun a _ => a)
          [.recordInfo (RecordInfo.empty .upstream),
           .enumInfo { EnumInfo.empty .upstream with USR := List.replicate 20 1 },
           .functionInfo (FunctionInfo.empty .upstream)] ∧
      ∃ M, (List.replicate 20 1, .ok M)
        ∈ mergeRun (fun a _ => a)
          [.recordInfo (RecordInfo.empty .upstream),
           .enumInfo { EnumInfo.empty .upstream with USR := List.replicate 20 1 },
           .functionInfo (FunctionInfo.empty .upstream)] :=
  (mergeRun_conflict_is_local (fun a _ => a)
    [.recordInfo (RecordInfo.empty .upstream),
     .enumInfo { EnumInfo.empty .upstream with USR := List.replicate 20 1 },
     .functionInfo (FunctionInfo.empty .upstream)]
    (EmptySID .upstream) (List.replicate 20 1)
    (RecordInfo.empty .upstream) (FunctionInfo.empty .upstream)
    (.enumInfo { EnumInfo.empty .upstream with USR := List.replicate 20 1 }) .IT_enum
    (by simp) (by simp) rfl rfl rfl rfl (by decide) (by simp) rfl
    (by
      intro W hW hWB
      simp only [List.mem_cons, List.mem_singleton, List.not_mem_nil, or_false] at hW
      rcases hW with h | h | h
      · subst h; exact absurd hWB (by decide)
      · subst h; rfl
      · subst h; exact absurd hWB (by decide))).2

/-! ### References to entities outside the corpus -/

/-- C26: `writeTypeName` writes the name alone for a type whose identifier is empty, the
path and name of the record found for an identifier that is in the corpus, and the path and
name the reference carries, joined by `::`, for an identifier that is not found; it has no
failing branch.  `writeBaseRecord` writes the same `base` tag whether or not the identifier
of the base is in the corpus. -/
theorem dangling_reference_written (K : BitCodeConstants) (t : TypeInfo) (os_ : String) :
    (∀ find, t.Type_.USR = EmptySID K →
      AsciidocGenerator.writeTypeName K find t os_ = os_ ++ t.Type_.Name) ∧
    (∀ find p, t.Type_.USR ≠ EmptySID K → find t.Type_.USR = some p →
      AsciidocGenerator.writeTypeName K find t os_ = os_ ++ p.Path ++ "::" ++ p.Name) ∧
    (∀ find, t.Type_.USR ≠ EmptySID K → find t.Type_.USR = none →
      AsciidocGenerator.writeTypeName K find t os_
        = os_ ++ t.Type_.Path ++ "::" ++ t.Type_.Name) ∧
    (∀ (env : XMLGenerator.Env) (I : BaseRecordInfo) (os : String),
      XMLGenerator.writeBaseRecord env I os
        = XMLGenerator.writeTag env "base"
            [⟨"name", I.Name, true⟩, env.accessAttr I.Access,
              ⟨"modifier", "virtual", I.IsVirtual⟩, env.idAttr I.USR] os) ∧
    (∀ (env : XMLGenerator.Env) (corpusExists : SymbolID → Bool) (I : BaseRecordInfo)
        (os : String),
      XMLGenerator.writeBaseRecord { env with corpusExists := corpusExists } I os
        = XMLGenerator.writeBaseRecord env I os) := by
  refine ⟨?_, ?_, ?_, ?_, ?_⟩
  · intro find h
    simp [AsciidocGenerator.writeTypeName, h]
  · intro find p h hp
    simp [AsciidocGenerator.writeTypeName, h, hp]
  · intro find h hp
    simp [AsciidocGenerator.writeTypeName, h, hp]
  · intro env I os
    simp [XMLGenerator.writeBaseRecord]
  · intro env corpusExists I os
    simp [XMLGenerator.writeBaseRecord, XMLGenerator.writeTag, XMLGenerator.writeAttrs]

/-! ### The order of the index -/

/-- The loop of `Index::operator<` on two names that agree, lower-cased, on prefixes of the
same length: it goes on behind the prefixes. -/
theorem Index_lt_loop_append (s : Bool) (tolower : Int → Int) :
    ∀ (p q xs ys : List Nat), p.length = q.length →
      p.map (fun c => tolower (charToInt s c)) = q.map (fun c => tolower (charToInt s c)) →
      Index.lt.loop s tolower (p ++ xs) (q ++ ys) = Index.lt.loop s tolower xs ys := by
  intro p
  induction p with
  | nil =>
    intro q xs ys hl hm
    cases q with
    | nil => rfl
    | cons b q => cases hl
  | cons a p ih =>
    intro q xs ys hl hm
    cases q with
    | nil => cases hl
    | cons b q =>
      simp only [List.map_cons, List.cons.injEq] at hm
      simp only [List.length_cons, Nat.add_right_cancel_iff] at hl
      simp only [List.cons_append, Index.lt.loop, hm.1, sub_self, if_true]
      exact ih q xs ys hl hm.2

/-- C27: `Index::operator<` on the names of `a` and `b`, a lower-cased character being what
`tolower` returns for the character, whatever function of the C library `tolower` is and
whether `char` is signed or not.  When the names first differ, lower-cased, at a position
both have, `a < b` holds exactly when the lower-cased character of `a` there is the smaller
one.  When the name of `a`, lower-cased, is a proper prefix of the lower-cased name of `b`,
then `a < b` and not `b < a`.  When the names are equal lower-cased, `a < b` holds exactly
when the name of `a` compares greater than the name of `b` byte by byte: with a `tolower`
that takes `R` and `r` to the same value, `string < stRing` holds and `stRing < string` does
not. -/
theorem Index_lt_spec (s : Bool) (tolower : Int → Int) (a b : Index) :
    (∀ p q x y xs ys, a.Name = p ++ x :: xs → b.Name = q ++ y :: ys → p.length = q.length →
      p.map (fun c => tolower (charToInt s c)) = q.map (fun c => tolower (charToInt s c)) →
      tolower (charToInt s x) ≠ tolower (charToInt s y) →
      (Index.lt s tolower a b = true ↔ tolower (charToInt s x) < tolower (charToInt s y))) ∧
    (∀ q y ys, b.Name = q ++ y :: ys → a.Name.length = q.length →
      a.Name.map (fun c => tolower (charToInt s c))
        = q.map (fun c => tolower (charToInt s c)) →
      Index.lt s tolower a b = true ∧ Index.lt s tolower b a = false) ∧
    (a.Name.length = b.Name.length →
      a.Name.map (fun c => tolower (charToInt s c))
        = b.Name.map (fun c => tolower (charToInt s c)) →
      (Index.lt s tolower a b = true ↔ StringRef.compare a.Name b.Name > 0)) ∧
    (tolower 82 = tolower 114 →
      a.Name = [115, 116, 114, 105, 110, 103] → b.Name = [115, 116, 82, 105, 110, 103] →
      Index.lt s tolower a b = true ∧ Index.lt s tolower b a = false) := by
  refine ⟨?_, ?_, ?_, ?_⟩
  · intro p q x y xs ys ha hb hl hm hne
    have h1 := Index_lt_loop_append s tolower p q (x :: xs) (y :: ys) hl hm
    have hD : tolower (charToInt s x) - tolower (charToInt s y) ≠ 0 := by omega
    unfold Index.lt
    rw [ha, hb, h1]
    simp only [Index.lt.loop, hD, if_false, decide_eq_true_eq]
    omega
  · intro q y ys hb hl hm
    have h1 := Index_lt_loop_append s tolower a.Name q [] (y :: ys) hl hm
    have h2 := Index_lt_loop_append s tolower q a.Name (y :: ys) [] hl.symm hm.symm
    simp only [List.append_nil] at h1 h2
    have hlen : b.Name.length = a.Name.length + (ys.length + 1) := by
      rw [hb, List.length_append, List.length_cons, hl]
    constructor
    · unfold Index.lt
      rw [hb, h1]
      simp only [Index.lt.loop]
      rw [if_neg (by rw [← hb]; omega)]
      simp only [decide_eq_true_eq]
      rw [← hb]; omega
    · unfold Index.lt
      rw [hb, h2]
      simp only [Index.lt.loop]
      rw [if_neg (by rw [← hb]; omega)]
      simp only [decide_eq_false_iff_not]
      rw [← hb]; omega
  · intro hl hm
    have h1 := Index_lt_loop_append s tolower a.Name b.Name [] [] hl hm
    simp only [List.append_nil] at h1
    unfold Index.lt
    rw [h1]
    simp [Index.lt.loop, hl]
  · intro hR ha hb
    cases s <;> simp [Index.lt, ha, hb, Index.lt.loop, hR, charToInt, StringRef.compare]

theorem Index_lt_spec_witness :
    Index.lt true gnuTolower (.mk [] [200] .IT_default "" none [])
      (.mk [] [97] .IT_default "" none []) = false ∧
    Index.lt true gnuTolower (.mk [] [115, 116, 114, 105, 110, 103] .IT_default "" none [])
      (.mk [] [115, 116, 82, 105, 110, 103] .IT_default "" none []) = true := by
  have h := Index_lt_spec true gnuTolower (.mk [] [200] .IT_default "" none [])
    (.mk [] [97] .IT_default "" none [])
  have h2 := Index_lt_spec true gnuTolower
    (.mk [] [115, 116, 114, 105, 110, 103] .IT_default "" none [])
    (.mk [] [115, 116, 82, 105, 110, 103] .IT_default "" none [])
  refine ⟨?_, (h2.2.2.2 (by decide) rfl rfl).1⟩
  have h1 := h.1 [] [] 200 97 [] [] rfl rfl rfl rfl (by decide)
  rcases hb : Index.lt true gnuTolower (.mk [] [200] .IT_default "" none [])
    (.mk [] [97] .IT_default "" none []) with _ | _
  · rfl
  · exact absurd (h1.mp hb) (by decide)

/-! ### The entities of a stream -/

theorem setJavadoc_tag (I : Object) (J : Javadoc) : (setJavadoc I J).tag = I.tag := by
  cases I <;> rfl

theorem addTypeInfo_tag {I TI I1 : Object} {e : Option Error}
    (h : addTypeInfo I TI = (e, I1)) : I1.tag = I.tag := by
  cases I <;> cases TI <;> cases h <;> rfl

theorem addReference_tag {I I1 : Object} {R : Reference} {F : FieldId} {e : Option Error}
    (h : addReference I R F = (e, I1)) : I1.tag = I.tag := by
  cases I <;> cases F <;> cases h <;> rfl

theorem addChild_tag {I R I1 : Object} (h : addChild I R = .ret I1) : I1.tag = I.tag := by
  cases I <;> cases R <;> cases h <;> rfl

theorem addTemplateParam_tag {I I1 : Object} {P : TemplateParamInfo}
    (h : addTemplateParam I P = .ret I1) : I1.tag = I.tag := by
  cases I <;> cases h <;> rfl

theorem addTemplate_tag {I I1 : Object} {P : TemplateInfo}
    (h : addTemplate I P = .ret I1) : I1.tag = I.tag := by
  cases I <;> cases h <;> rfl

theorem addTemplateSpecialization_tag {I I1 : Object} {P : TemplateSpecializationInfo}
    (h : addTemplateSpecialization I P = .ret I1) : I1.tag = I.tag := by
  cases I <;> cases h <;> rfl

/-- Reading a record leaves the object of the class it has. -/
theorem readRecord_tag (K : BitCodeConstants) (ID : Nat) (I I1 : Object)
    (rd rd1 : BitcodeReader) (e : Option Error)
    (h : readRecord K ID I rd = .ret (e, I1, rd1)) : I1.tag = I.tag := by
  unfold readRecord at h
  split at h
  · cases h; rfl
  · dsimp only at h
    cases I <;> dsimp only at h
    case javadoc => cases h; rfl
    case currentNodeList =>
      split at h
      · cases h
      · obtain ⟨p, _, hk⟩ := Run.bind_eq_ret h
        cases hk; rfl
    case nodeList =>
      split at h
      · cases h
      · obtain ⟨p, _, hk⟩ := Run.bind_eq_ret h
        cases hk; rfl
    all_goals
      first
        | (unfold parsed at h
           obtain ⟨p, _, hk⟩ := Run.bind_eq_ret h
           cases hk
           rfl)
        | (obtain ⟨p, _, hk⟩ := Run.bind_eq_ret h
           cases hk
           rfl)

/-- `readSubBlock` leaves the owner of the class it has. -/
theorem readSubBlock_tag (K : BitCodeConstants) (n : Nat) :
    ∀ ID I rd e I1 rd1, readSubBlock K n ID I rd = .ret (e, I1, rd1) → I1.tag = I.tag := by
  intro ID I rd e I1 rd1 h
  cases n with
  | zero => simp [readSubBlock] at h
  | succ n =>
    unfold readSubBlock at h
    split at h
    case h_15 => cases h; rfl
    all_goals
      repeat' (first
        | (cases h)
        | (dsimp only at h)
        | (split at h)
        | (replace h := Run.bind_eq_ret h; obtain ⟨_, _, h⟩ := h))
    all_goals
      first
        | rfl
        | exact setJavadoc_tag _ _
        | exact addTypeInfo_tag (by assumption)
        | exact addReference_tag (by assumption)
        | exact addChild_tag (by assumption)
        | exact addTemplateParam_tag (by assumption)
        | exact addTemplate_tag (by assumption)
        | exact addTemplateSpecialization_tag (by assumption)

/-- The loop of `readBlock` leaves the object of the class it has. -/
theorem readBlockLoop_tag (K : BitCodeConstants) (n : Nat) :
    ∀ I rd e I1 rd1, readBlockLoop K n I rd = .ret (e, I1, rd1) → I1.tag = I.tag := by
  induction n with
  | zero => intro I rd e I1 rd1 h; simp [readBlockLoop] at h
  | succ n ih =>
    intro I rd e I1 rd1 h
    unfold readBlockLoop at h
    obtain ⟨Res, hRes, hk⟩ := Run.bind_eq_ret h
    clear h
    obtain ⟨Res, S⟩ := Res
    cases Res with
    | BadBlock => cases hk; rfl
    | BlockEnd => cases hk; rfl
    | BlockBegin ID =>
      dsimp only at hk
      obtain ⟨r, hr, hk2⟩ := Run.bind_eq_ret hk
      obtain ⟨e0, I2, rd2⟩ := r
      have h2 := readSubBlock_tag K n _ _ _ _ _ _ hr
      cases e0 with
      | some Err =>
        dsimp only at hk2
        split at hk2 <;> cases hk2 <;> exact h2
      | none =>
        dsimp only at hk2
        exact (ih _ _ _ _ _ hk2).trans h2
    | Record Code =>
      dsimp only at hk
      obtain ⟨r, hr, hk2⟩ := Run.bind_eq_ret hk
      obtain ⟨e0, I2, rd2⟩ := r
      have h2 := readRecord_tag _ _ _ _ _ _ _ hr
      cases e0 with
      | some Err => cases hk2; exact h2
      | none =>
        dsimp only at hk2
        exact (ih _ _ _ _ _ hk2).trans h2

/-- `readBlock` leaves the object of the class it has. -/
theorem readBlock_tag (K : BitCodeConstants) (n : Nat) :
    ∀ ID I rd e I1 rd1, readBlock K n ID I rd = .ret (e, I1, rd1) → I1.tag = I.tag := by
  intro ID I rd e I1 rd1 h
  cases n with
  | zero => simp [readBlock] at h
  | succ n =>
    unfold readBlock at h
    split at h
    · cases h; rfl
    · exact readBlockLoop_tag K n _ _ _ _ _ h

/-- A turn of the loop of `getInfos` that ends with `continue` has read the id of a block;
for an id of an entity block the list has one more element, an entity of the class of the
id, and for any other id the list is the same. -/
theorem getInfos_body_next {K : BitCodeConstants} {rd rd1 : BitcodeReader}
    {Infos Infos1 : List Object} (h : getInfos.body K rd Infos = .ret (.next rd1 Infos1)) :
    ∃ c S1 ID S2, rd.Stream.ReadCode = .ok (c, S1) ∧ S1.ReadSubBlockID = .ok (ID, S2) ∧
      (entityBlock ID = true → ∃ I, Infos1 = Infos ++ [I] ∧ classOfBlock I ID) ∧
      (entityBlock ID = false → Infos1 = Infos) := by
  unfold getInfos.body at h
  split at h
  · cases h
  · rename_i c S1 hS1
    split at h
    · cases h
    · split at h
      · cases h
      · rename_i ID S2 hS2
        refine ⟨c, S1, ID, S2, hS1, hS2, ?_⟩
        dsimp only at h
        split at h
        all_goals first
          | (cases h; done)
          | (obtain ⟨a, ha, hk⟩ := Run.bind_eq_ret h
             obtain ⟨r, rd3⟩ := a
             cases r with
             | error err => cases hk
             | ok I =>
               cases hk
               refine ⟨fun _ => ⟨I, rfl, ?_⟩, fun hf => by simp [entityBlock] at hf⟩
               unfold readBlockToInfo createInfo at ha
               obtain ⟨b, hb, hk2⟩ := Run.bind_eq_ret ha
               obtain ⟨e0, I2, rd4⟩ := b
               have ht := readBlock_tag K _ _ _ _ _ _ _ hb
               cases e0 with
               | some Err => cases hk2
               | none =>
                 cases hk2
                 cases I <;> simp [Object.tag] at ht <;> simp [classOfBlock])
          | (obtain ⟨a, ha, hk⟩ := Run.bind_eq_ret h
             obtain ⟨e0, I2, rd3⟩ := a
             cases e0 <;> cases hk
             exact ⟨fun hf => by simp [entityBlock] at hf, fun _ => rfl⟩)
          | (split at h
             · cases h
             · cases h
               exact ⟨fun hf => by simp [entityBlock] at hf, fun _ => rfl⟩)
          | (have hf : entityBlock ID = false := by
               rcases ID with _ | ID
               · rfl
               · cases ID <;> first | rfl | (exfalso; simp_all)
             split at h <;> cases h <;>
               exact ⟨fun ht => absurd (hf.symm.trans ht) (by decide), fun _ => rfl⟩)

/-- A turn of the loop of `getInfos` that ends the function ends it with an error. -/
theorem getInfos_body_done {K : BitCodeConstants} {rd rd1 : BitcodeReader}
    {Infos : List Object} {r : Except Error (List Object)}
    (h : getInfos.body K rd Infos = .ret (.done r rd1)) : ∃ err, r = .error err := by
  unfold getInfos.body at h
  repeat' (first
    | (cases h; exact ⟨_, rfl⟩)
    | (cases h; done)
    | (dsimp only at h)
    | (split at h)
    | (replace h := Run.bind_eq_ret h; obtain ⟨_, _, h⟩ := h))

/-! ### The common fields of an entity -/

/-- No record of a function block writes the path of the function. -/
theorem parseRecordFunctionInfo_path {K : BitCodeConstants} {R : Record}
    {ID : Option RecordId} {Blob : Blob} {I : FunctionInfo} {r : Option Error × FunctionInfo}
    (h : parseRecordFunctionInfo K R ID Blob I = .ret r) : r.2.Path = I.Path := by
  unfold parseRecordFunctionInfo at h
  split at h
  all_goals first
    | (cases h; rfl)
    | (unfold withField at h
       obtain ⟨p, _, hk⟩ := Run.bind_eq_ret h
       cases hk
       rfl)

/-- No record of an enum block writes the path of the enum. -/
theorem parseRecordEnumInfo_path {K : BitCodeConstants} {R : Record}
    {ID : Option RecordId} {Blob : Blob} {I : EnumInfo} {r : Option Error × EnumInfo}
    (h : parseRecordEnumInfo K R ID Blob I = .ret r) : r.2.Path = I.Path := by
  unfold parseRecordEnumInfo at h
  split at h
  all_goals first
    | (cases h; rfl)
    | (unfold withField at h
       obtain ⟨p, _, hk⟩ := Run.bind_eq_ret h
       cases hk
       rfl)

/-- No record of a typedef block writes the path of the typedef. -/
theorem parseRecordTypedefInfo_path {K : BitCodeConstants} {R : Record}
    {ID : Option RecordId} {Blob : Blob} {I : TypedefInfo} {r : Option Error × TypedefInfo}
    (h : parseRecordTypedefInfo K R ID Blob I = .ret r) : r.2.Path = I.Path := by
  unfold parseRecordTypedefInfo at h
  split at h
  all_goals first
    | (cases h; rfl)
    | (unfold withField at h
       obtain ⟨p, _, hk⟩ := Run.bind_eq_ret h
       cases hk
       rfl)

theorem setJavadoc_fixedPath (I : Object) (J : Javadoc) :
    (setJavadoc I J).fixedPath = I.fixedPath := by
  cases I <;> rfl

theorem addTypeInfo_fixedPath {I TI I1 : Object} {e : Option Error}
    (h : addTypeInfo I TI = (e, I1)) : I1.fixedPath = I.fixedPath := by
  cases I <;> cases TI <;> cases h <;> rfl

theorem addReference_fixedPath {I I1 : Object} {R : Reference} {F : FieldId}
    {e : Option Error} (h : addReference I R F = (e, I1)) : I1.fixedPath = I.fixedPath := by
  cases I <;> cases F <;> cases h <;> rfl

theorem addChild_fixedPath {I R I1 : Object} (h : addChild I R = .ret I1) :
    I1.fixedPath = I.fixedPath := by
  cases I <;> cases R <;> cases h <;> rfl

theorem addTemplateParam_fixedPath {I I1 : Object} {P : TemplateParamInfo}
    (h : addTemplateParam I P = .ret I1) : I1.fixedPath = I.fixedPath := by
  cases I <;> cases h <;> rfl

theorem addTemplate_fixedPath {I I1 : Object} {P : TemplateInfo}
    (h : addTemplate I P = .ret I1) : I1.fixedPath = I.fixedPath := by
  cases I <;> cases h <;> rfl

theorem addTemplateSpecialization_fixedPath {I I1 : Object} {P : TemplateSpecializationInfo}
    (h : addTemplateSpecialization I P = .ret I1) : I1.fixedPath = I.fixedPath := by
  cases I <;> cases h <;> rfl

/-- Reading a record leaves the path of a function, enum or typedef as it was. -/
theorem readRecord_fixedPath (K : BitCodeConstants) (ID : Nat) (I I1 : Object)
    (rd rd1 : BitcodeReader) (e : Option Error)
    (h : readRecord K ID I rd = .ret (e, I1, rd1)) : I1.fixedPath = I.fixedPath := by
  unfold readRecord at h
  split at h
  · cases h; rfl
  · dsimp only at h
    cases I <;> dsimp only at h
    case javadoc => cases h; rfl
    case currentNodeList =>
      split at h
      · cases h
      · obtain ⟨p, _, hk⟩ := Run.bind_eq_ret h
        cases hk; rfl
    case nodeList =>
      split at h
      · cases h
      · obtain ⟨p, _, hk⟩ := Run.bind_eq_ret h
        cases hk; rfl
    case functionInfo =>
      unfold parsed at h
      obtain ⟨p, hp, hk⟩ := Run.bind_eq_ret h
      cases hk
      exact congrArg some (parseRecordFunctionInfo_path hp)
    case enumInfo =>
      unfold parsed at h
      obtain ⟨p, hp, hk⟩ := Run.bind_eq_ret h
      cases hk
      exact congrArg some (parseRecordEnumInfo_path hp)
    case typedefInfo =>
      unfold parsed at h
      obtain ⟨p, hp, hk⟩ := Run.bind_eq_ret h
      cases hk
      exact congrArg some (parseRecordTypedefInfo_path hp)
    all_goals
      first
        | (unfold parsed at h
           obtain ⟨p, _, hk⟩ := Run.bind_eq_ret h
           cases hk
           rfl)
        | (obtain ⟨p, _, hk⟩ := Run.bind_eq_ret h
           cases hk
           rfl)

/-- `readSubBlock` leaves the path of a function, enum or typedef as it was. -/
theorem readSubBlock_fixedPath (K : BitCodeConstants) (n : Nat) :
    ∀ ID I rd e I1 rd1, readSubBlock K n ID I rd = .ret (e, I1, rd1) →
      I1.fixedPath = I.fixedPath := by
  intro ID I rd e I1 rd1 h
  cases n with
  | zero => simp [readSubBlock] at h
  | succ n =>
    unfold readSubBlock at h
    split at h
    case h_15 => cases h; rfl
    all_goals
      repeat' (first
        | (cases h)
        | (dsimp only at h)
        | (split at h)
        | (replace h := Run.bind_eq_ret h; obtain ⟨_, _, h⟩ := h))
    all_goals
      first
        | rfl
        | exact setJavadoc_fixedPath _ _
        | exact addTypeInfo_fixedPath (by assumption)
        | exact addReference_fixedPath (by assumption)
        | exact addChild_fixedPath (by assumption)
        | exact addTemplateParam_fixedPath (by assumption)
        | exact addTemplate_fixedPath (by assumption)
        | exact addTemplateSpecialization_fixedPath (by assumption)

/-- The loop of `readBlock` leaves the path of a function, enum or typedef as it was. -/
theorem readBlockLoop_fixedPath (K : BitCodeConstants) (n : Nat) :
    ∀ I rd e I1 rd1, readBlockLoop K n I rd = .ret (e, I1, rd1) →
      I1.fixedPath = I.fixedPath := by
  induction n with
  | zero => intro I rd e I1 rd1 h; simp [readBlockLoop] at h
  | succ n ih =>
    intro I rd e I1 rd1 h
    unfold readBlockLoop at h
    obtain ⟨Res, hRes, hk⟩ := Run.bind_eq_ret h
    clear h
    obtain ⟨Res, S⟩ := Res
    cases Res with
    | BadBlock => cases hk; rfl
    | BlockEnd => cases hk; rfl
    | BlockBegin ID =>
      dsimp only at hk
      obtain ⟨r, hr, hk2⟩ := Run.bind_eq_ret hk
      obtain ⟨e0, I2, rd2⟩ := r
      have h2 := readSubBlock_fixedPath K n _ _ _ _ _ _ hr
      cases e0 with
      | some Err =>
        dsimp only at hk2
        split at hk2 <;> cases hk2 <;> exact h2
      | none =>
        dsimp only at hk2
        exact (ih _ _ _ _ _ hk2).trans h2
    | Record Code =>
      dsimp only at hk
      obtain ⟨r, hr, hk2⟩ := Run.bind_eq_ret hk
      obtain ⟨e0, I2, rd2⟩ := r
      have h2 := readRecord_fixedPath _ _ _ _ _ _ _ hr
      cases e0 with
      | some Err => cases hk2; exact h2
      | none =>
        dsimp only at hk2
        exact (ih _ _ _ _ _ hk2).trans h2

/-- `readBlock` leaves the path of a function, enum or typedef as it was. -/
theorem readBlock_fixedPath (K : BitCodeConstants) (n : Nat) :
    ∀ ID I rd e I1 rd1, readBlock K n ID I rd = .ret (e, I1, rd1) →
      I1.fixedPath = I.fixedPath := by
  intro ID I rd e I1 rd1 h
  cases n with
  | zero => simp [readBlock] at h
  | succ n =>
    unfold readBlock at h
    split at h
    · cases h; rfl
    · exact readBlockLoop_fixedPath K n _ _ _ _ _ h

/-- A turn of the loop of `getInfos` that ends with `continue` leaves the list as it was or
adds one entity to it; the path of an added function, enum or typedef is empty. -/
theorem getInfos_body_fixedPath {K : BitCodeConstants} {rd rd1 : BitcodeReader}
    {Infos Infos1 : List Object} (h : getInfos.body K rd Infos = .ret (.next rd1 Infos1)) :
    Infos1 = Infos ∨
      ∃ I, Infos1 = Infos ++ [I] ∧ (I.fixedPath = none ∨ I.fixedPath = some "") := by
  unfold getInfos.body at h
  split at h
  · cases h
  · split at h
    · cases h
    · split at h
      · cases h
      · rename_i ID S2 hS2
        dsimp only at h
        split at h
        all_goals first
          | (cases h; done)
          | (obtain ⟨a, ha, hk⟩ := Run.bind_eq_ret h
             obtain ⟨r, rd3⟩ := a
             cases r with
             | error err => cases hk
             | ok I =>
               cases hk
               refine Or.inr ⟨I, rfl, ?_⟩
               unfold readBlockToInfo createInfo at ha
               obtain ⟨b, hb, hk2⟩ := Run.bind_eq_ret ha
               obtain ⟨e0, I2, rd4⟩ := b
               have ht := readBlock_fixedPath K _ _ _ _ _ _ _ hb
               cases e0 with
               | some Err => cases hk2
               | none =>
                 cases hk2
                 rw [ht]
                 first | exact Or.inl rfl | exact Or.inr rfl)
          | (obtain ⟨a, ha, hk⟩ := Run.bind_eq_ret h
             obtain ⟨e0, I2, rd3⟩ := a
             cases e0 <;> cases hk
             exact Or.inl rfl)
          | (split at h
             · cases h
             · cases h
               exact Or.inl rfl)
          | (split at h <;> cases h <;> exact Or.inl rfl)

/-- The functions, enums and typedefs the loop of `getInfos` returns have an empty path, if
those it was given have. -/
theorem getInfos_loop_fixedPath (K : BitCodeConstants) :
    ∀ (n : Nat) (rd rd1 : BitcodeReader) (Infos L : List Object),
      getInfos.loop K n rd Infos = .ret (.ok L, rd1) →
      (∀ I ∈ Infos, I.fixedPath = none ∨ I.fixedPath = some "") →
        ∀ I ∈ L, I.fixedPath = none ∨ I.fixedPath = some "" := by
  intro n
  induction n with
  | zero => intro rd rd1 Infos L h; simp [getInfos.loop] at h
  | succ n ih =>
    intro rd rd1 Infos L h hInfos
    unfold getInfos.loop at h
    split at h
    · cases h
      exact hInfos
    · obtain ⟨t, ht, hk⟩ := Run.bind_eq_ret h
      cases t with
      | done r rd2 =>
        obtain ⟨err, he⟩ := getInfos_body_done ht
        subst he
        cases hk
      | next rd2 Infos2 =>
        dsimp only at hk
        refine ih _ _ _ _ hk ?_
        rcases getInfos_body_fixedPath ht with e | ⟨I, e, hI⟩
        · rw [e]; exact hInfos
        · rw [e]
          intro J hJ
          rcases List.mem_append.mp hJ with hJ | hJ
          · exact hInfos J hJ
          · rw [List.mem_singleton.mp hJ]; exact hI

/-- Every function, enum and typedef that `getInfos` returns has an empty path. -/
theorem getInfos_fixedPath (K : BitCodeConstants) (rd0 rd1 : BitcodeReader)
    (L : List Object) (h : getInfos K rd0 = .ret (.ok L, rd1)) :
    ∀ I ∈ L, I.fixedPath = none ∨ I.fixedPath = some "" := by
  unfold getInfos at h
  split at h
  · cases h
  · exact getInfos_loop_fixedPath K _ _ _ _ _ h (by intro I hI; cases hI)

/-- C31, refuted as stated: no stream is decoded to a function, an enum or a typedef with a
path that is not empty. -/
theorem decoded_function_has_no_path :
    ¬ ∃ (rd0 rd1 : BitcodeReader) (L : List Object) (I : Object) (p : String),
      getInfos .upstream rd0 = .ret (.ok L, rd1) ∧ I ∈ L ∧ I.fixedPath = some p ∧
        p ≠ "" := by
  rintro ⟨rd0, rd1, L, I, p, h, hI, hp, hne⟩
  rcases getInfos_fixedPath _ _ _ _ h I hI with e | e
  · rw [e] at hp
    cases hp
  · rw [e] at hp
    cases hp
    exact hne rfl

/-- C31, amended: each of the five entity blocks has a record that sets the identifier
(to what the identifier decoder returns for the record) and a record that sets the name (to
the blob); a record that sets the path (to the blob) exists for a namespace and for a
record only.  No record of a function, enum or typedef block changes the path, nothing
else in such a block does, and the path of every function, enum and typedef that `getInfos`
returns is empty. -/
theorem entity_common_records (K : BitCodeConstants) (R : Record) (Blob : Blob) :
    (∀ (I : NamespaceInfo) v, decodeRecordSymbolID K R I.USR Blob = .ret (none, v) →
      parseRecordNamespaceInfo K R (some .NAMESPACE_USR) Blob I
        = .ret (none, { I with USR := v })) ∧
    (∀ (I : RecordInfo) v, decodeRecordSymbolID K R I.USR Blob = .ret (none, v) →
      parseRecordRecordInfo K R (some .RECORD_USR) Blob I = .ret (none, { I with USR := v })) ∧
    (∀ (I : FunctionInfo) v, decodeRecordSymbolID K R I.USR Blob = .ret (none, v) →
      parseRecordFunctionInfo K R (some .FUNCTION_USR) Blob I
        = .ret (none, { I with USR := v })) ∧
    (∀ (I : EnumInfo) v, decodeRecordSymbolID K R I.USR Blob = .ret (none, v) →
      parseRecordEnumInfo K R (some .ENUM_USR) Blob I = .ret (none, { I with USR := v })) ∧
    (∀ (I : TypedefInfo) v, decodeRecordSymbolID K R I.USR Blob = .ret (none, v) →
      parseRecordTypedefInfo K R (some .TYPEDEF_USR) Blob I
        = .ret (none, { I with USR := v })) ∧
    (∀ I : NamespaceInfo, parseRecordNamespaceInfo K R (some .NAMESPACE_NAME) Blob I
      = .ret (none, { I with Name := Blob })) ∧
    (∀ I : RecordInfo, parseRecordRecordInfo K R (some .RECORD_NAME) Blob I
      = .ret (none, { I with Name := Blob })) ∧
    (∀ I : FunctionInfo, parseRecordFunctionInfo K R (some .FUNCTION_NAME) Blob I
      = .ret (none, { I with Name := Blob })) ∧
    (∀ I : EnumInfo, parseRecordEnumInfo K R (some .ENUM_NAME) Blob I
      = .ret (none, { I with Name := Blob })) ∧
    (∀ I : TypedefInfo, parseRecordTypedefInfo K R (some .TYPEDEF_NAME) Blob I
      = .ret (none, { I with Name := Blob })) ∧
    (∀ I : NamespaceInfo, parseRecordNamespaceInfo K R (some .NAMESPACE_PATH) Blob I
      = .ret (none, { I with Path := Blob })) ∧
    (∀ I : RecordInfo, parseRecordRecordInfo K R (some .RECORD_PATH) Blob I
      = .ret (none, { I with Path := Blob })) ∧
    (∀ (I : FunctionInfo) ID r, parseRecordFunctionInfo K R ID Blob I = .ret r →
      r.2.Path = I.Path) ∧
    (∀ (I : EnumInfo) ID r, parseRecordEnumInfo K R ID Blob I = .ret r → r.2.Path = I.Path) ∧
    (∀ (I : TypedefInfo) ID r, parseRecordTypedefInfo K R ID Blob I = .ret r →
      r.2.Path = I.Path) ∧
    (∀ n ID I rd e I1 rd1, readBlock K n ID I rd = .ret (e, I1, rd1) →
      I1.fixedPath = I.fixedPath) ∧
    (∀ rd0 rd1 L, getInfos K rd0 = .ret (.ok L, rd1) →
      ∀ I ∈ L, I.fixedPath = none ∨ I.fixedPath = some "") := by
  refine ⟨?_, ?_, ?_, ?_, ?_, ?_, ?_, ?_, ?_, ?_, ?_, ?_, ?_, ?_, ?_, ?_, ?_⟩
  · intro I v h; simp [parseRecordNamespaceInfo, withField, h, Run.bind]
  · intro I v h; simp [parseRecordRecordInfo, withField, h, Run.bind]
  · intro I v h; simp [parseRecordFunctionInfo, withField, h, Run.bind]
  · intro I v h; simp [parseRecordEnumInfo, withField, h, Run.bind]
  · intro I v h; simp [parseRecordTypedefInfo, withField, h, Run.bind]
  · intro I; rfl
  · intro I; rfl
  · intro I; rfl
  · intro I; rfl
  · intro I; rfl
  · intro I; rfl
  · intro I; rfl
  · intro I ID r h; exact parseRecordFunctionInfo_path h
  · intro I ID r h; exact parseRecordEnumInfo_path h
  · intro I ID r h; exact parseRecordTypedefInfo_path h
  · intro n; exact readBlock_fixedPath K n
  · exact getInfos_fixedPath K

/-! ### The documentation context of the reader -/

/-- Reading a record leaves the documentation tree alone. -/
theorem readRecord_javadoc (K : BitCodeConstants) (ID : Nat) (I I1 : Object)
    (rd rd1 : BitcodeReader) (e : Option Error)
    (h : readRecord K ID I rd = .ret (e, I1, rd1)) : rd1.javadoc_ = rd.javadoc_ := by
  unfold readRecord at h
  split at h
  · cases h; rfl
  · dsimp only at h
    cases I <;> dsimp only at h
    case javadoc => cases h; rfl
    case currentNodeList =>
      split at h
      · cases h
      · obtain ⟨p, _, hk⟩ := Run.bind_eq_ret h
        cases hk; rfl
    case nodeList =>
      split at h
      · cases h
      · obtain ⟨p, _, hk⟩ := Run.bind_eq_ret h
        cases hk; rfl
    all_goals
      first
        | (unfold parsed at h
           obtain ⟨p, _, hk⟩ := Run.bind_eq_ret h
           cases hk
           rfl)
        | (obtain ⟨p, _, hk⟩ := Run.bind_eq_ret h
           cases hk
           rfl)

/-- Two calls in a row that each keep the documentation pointer keep it together. -/
theorem SameDoc.trans {rd rd1 rd2 : BitcodeReader} (h1 : SameDoc rd rd1)
    (hs : SameStack rd rd1) (h2 : SameDoc rd1 rd2) : SameDoc rd rd2 := by
  refine ⟨h2.1.trans h1.1, fun hn => ?_⟩
  have hn1 : rd1.nodes_ ≠ [] := by
    intro e
    have hl := hs.1
    rw [e] at hl
    exact hn (List.length_eq_zero.mp hl.symm)
  exact (h2.2 hn1).trans (h1.2 hn)

/-- `readBlock` keeps the documentation pointer if its loop does. -/
theorem readBlock_doc_of (K : BitCodeConstants) (n : Nat)
    (ihL : ∀ I rd e I1 rd1, readBlockLoop K n I rd = .ret (e, I1, rd1) → SameDoc rd rd1) :
    ∀ ID I rd e I1 rd1, readBlock K (n + 1) ID I rd = .ret (e, I1, rd1) →
      SameDoc rd rd1 := by
  intro ID I rd e I1 rd1 h
  unfold readBlock at h
  split at h
  · cases h; exact ⟨rfl, fun _ => rfl⟩
  · have h1 := ihL _ _ _ _ _ h
    exact h1

/-- The loop of `readBlock` keeps the documentation pointer if it does so with one turn
less to go. -/
theorem readBlockLoop_doc_of (K : BitCodeConstants) (n : Nat)
    (ihL : ∀ I rd e I1 rd1, readBlockLoop K n I rd = .ret (e, I1, rd1) → SameDoc rd rd1)
    (ihS : ∀ ID I rd e I1 rd1, readSubBlock K n ID I rd = .ret (e, I1, rd1) →
      SameDoc rd rd1) :
    ∀ I rd e I1 rd1, readBlockLoop K (n + 1) I rd = .ret (e, I1, rd1) →
      SameDoc rd rd1 := by
  intro I rd e I1 rd1 h
  unfold readBlockLoop at h
  obtain ⟨Res, hRes, hk⟩ := Run.bind_eq_ret h
  clear h
  obtain ⟨Res, S⟩ := Res
  cases Res with
  | BadBlock => cases hk; exact ⟨rfl, fun _ => rfl⟩
  | BlockEnd => cases hk; exact ⟨rfl, fun _ => rfl⟩
  | BlockBegin ID =>
    dsimp only at hk
    obtain ⟨r, hr, hk2⟩ := Run.bind_eq_ret hk
    obtain ⟨e0, I2, rd2⟩ := r
    have h2' := ihS _ _ _ _ _ _ hr
    have h2 : SameDoc rd rd2 := h2'
    have s2' := (reader_stack K n).2.2 _ _ _ _ _ _ hr
    have s2 : SameStack rd rd2 := s2'
    cases e0 with
    | some Err =>
      dsimp only at hk2
      split at hk2 <;> cases hk2 <;> exact h2
    | none =>
      dsimp only at hk2
      exact SameDoc.trans h2 s2 (ihL _ _ _ _ _ hk2)
  | Record Code =>
    dsimp only at hk
    obtain ⟨r, hr, hk2⟩ := Run.bind_eq_ret hk
    obtain ⟨e0, I2, rd2⟩ := r
    have hj := readRecord_javadoc _ _ _ _ _ _ _ hr
    have h2 : SameDoc rd rd2 := ⟨by rw [hj], fun _ => hj⟩
    have s2' := readRecord_stack _ _ _ _ _ _ _ hr
    have s2 : SameStack rd rd2 := s2'
    cases e0 with
    | some Err => cases hk2; exact h2
    | none =>
      dsimp only at hk2
      exact SameDoc.trans h2 s2 (ihL _ _ _ _ _ hk2)

/-- `readSubBlock` keeps the documentation pointer if `readBlock` does, with one call less
to go: a documentation block sets the pointer and resets it, a list block and a node block
write to the tree only when no frame was open. -/
theorem readSubBlock_doc_of (K : BitCodeConstants) (n : Nat)
    (ihB : ∀ ID I rd e I1 rd1, readBlock K n ID I rd = .ret (e, I1, rd1) → SameDoc rd rd1) :
    ∀ ID I rd e I1 rd1, readSubBlock K (n + 1) ID I rd = .ret (e, I1, rd1) →
      SameDoc rd rd1 := by
  intro ID I rd e I1 rd1 h
  unfold readSubBlock at h
  split at h
  · -- JAVADOC
    split at h
    · cases h; exact ⟨rfl, fun _ => rfl⟩
    · split at h
      · cases h
      · rename_i hnone
        obtain ⟨r, hr, hk⟩ := Run.bind_eq_ret h
        obtain ⟨e0, c, rdm⟩ := r
        dsimp only at hk
        split at hk
        · cases hk
          dsimp only [SameDoc]
          rw [hnone]
          exact ⟨rfl, fun _ => rfl⟩
        · rename_i hm
          cases hk
          dsimp only [SameDoc]
          rw [hnone, hm]
          exact ⟨rfl, fun _ => rfl⟩
  · -- JAVADOC_LIST
    split at h
    · cases h
    · rename_i D0 hD0
      obtain ⟨r, hr, hk⟩ := Run.bind_eq_ret h
      obtain ⟨e0, c, rdm⟩ := r
      have ih := (ihB _ _ _ _ _ _ hr).2 (List.cons_ne_nil _ _)
      have hs := (reader_stack K n).1 _ _ _ _ _ _ hr
      dsimp only [SameStack] at hs
      dsimp only at ih hk
      split at hk
      · cases hk
      · rename_i J prev hJ
        rw [hJ] at hs
        simp only [List.length_cons, List.tail_cons, Nat.add_right_cancel_iff] at hs
        obtain ⟨hs1, hs2⟩ := hs
        subst hs2
        cases e0 <;>
          repeat' (first | (cases hk) | (dsimp only at hk) | (split at hk))
        all_goals (dsimp only [SameDoc]; simp_all)
  · -- JAVADOC_NODE
    split at h
    · obtain ⟨r, hr, hk⟩ := Run.bind_eq_ret h
      obtain ⟨e0, c, rdm⟩ := r
      cases hk
      exact ihB _ _ _ _ _ _ hr
    · rename_i hn
      obtain ⟨r, hr, hk⟩ := Run.bind_eq_ret h
      obtain ⟨e0, c, rdm⟩ := r
      have ih := (ihB _ _ _ _ _ _ hr).2 (List.cons_ne_nil _ _)
      dsimp only at ih hk
      split at hk
      · cases hk
      · rename_i J prev hJ
        clear ihB hr
        cases e0 <;>
          repeat' (first | (cases hk) | (dsimp only at hk) | (split at hk))
        all_goals
          refine ⟨?_, fun hne => absurd hn hne⟩
          dsimp only
          first
            | rw [ih]
            | (rename_i hD; rw [← ih, hD]; rfl)
  case h_15 => cases h; exact ⟨rfl, fun _ => rfl⟩
  all_goals
    obtain ⟨r, hr, hk⟩ := Run.bind_eq_ret h
    obtain ⟨e0, c, rdm⟩ := r
    have ih := ihB _ _ _ _ _ _ hr
    cases e0 <;>
      repeat' (first
        | (cases hk)
        | (dsimp only at hk)
        | (split at hk)
        | (replace hk := Run.bind_eq_ret hk; obtain ⟨_, _, hk⟩ := hk))
    all_goals exact ih

/-- The three reader functions return with the documentation pointer null or set as they
found it, and with the tree unchanged when a frame was open. -/
theorem reader_doc (K : BitCodeConstants) (n : Nat) :
    (∀ ID I rd e I1 rd1, readBlock K n ID I rd = .ret (e, I1, rd1) → SameDoc rd rd1) ∧
    (∀ I rd e I1 rd1, readBlockLoop K n I rd = .ret (e, I1, rd1) → SameDoc rd rd1) ∧
    (∀ ID I rd e I1 rd1, readSubBlock K n ID I rd = .ret (e, I1, rd1) → SameDoc rd rd1) := by
  induction n with
  | zero =>
    refine ⟨?_, ?_, ?_⟩
    · intro ID I rd e I1 rd1 h; simp [readBlock] at h
    · intro I rd e I1 rd1 h; simp [readBlockLoop] at h
    · intro ID I rd e I1 rd1 h; simp [readSubBlock] at h
  | succ n ih =>
    obtain ⟨ihB, ihL, ihS⟩ := ih
    exact ⟨readBlock_doc_of K n ihL, readBlockLoop_doc_of K n ihL ihS,
      readSubBlock_doc_of K n ihB⟩

/-- A call that keeps the documentation pointer and the depth of the stack, entered with
both pointers null, returns with both null. -/
theorem context_null {rd rd1 : BitcodeReader} (hd : SameDoc rd rd1) (hs : SameStack rd rd1)
    (h1 : rd.javadoc_ = none) (h2 : rd.nodes_ = []) :
    rd1.javadoc_ = none ∧ rd1.nodes_ = [] := by
  obtain ⟨hd1, _⟩ := hd
  obtain ⟨hs1, _⟩ := hs
  rw [h1] at hd1
  rw [h2] at hs1
  exact ⟨by simpa using hd1, List.length_eq_zero.mp hs1⟩

/-- `readBlock` entered with both pointers null returns with both null. -/
theorem readBlock_context_null {K : BitCodeConstants} {n : Nat} {ID : Option BlockId}
    {I I1 : Object} {rd rd1 : BitcodeReader} {e : Option Error}
    (h : readBlock K n ID I rd = .ret (e, I1, rd1))
    (h1 : rd.javadoc_ = none) (h2 : rd.nodes_ = []) :
    rd1.javadoc_ = none ∧ rd1.nodes_ = [] :=
  context_null ((reader_doc K n).1 _ _ _ _ _ _ h) ((reader_stack K n).1 _ _ _ _ _ _ h) h1 h2

/-- `validateStream` on a new reader leaves both pointers null. -/
theorem validateStream_context {K : BitCodeConstants} {S : BitstreamCursor}
    {rd1 : BitcodeReader} {e : Option Error}
    (h : validateStream K (BitcodeReader.init S) = (e, rd1)) :
    rd1.javadoc_ = none ∧ rd1.nodes_ = [] := by
  unfold validateStream at h
  split at h
  · cases h; exact ⟨rfl, rfl⟩
  · simp only [Prod.mk.injEq] at h
    obtain ⟨_, h⟩ := h
    subst h
    exact ⟨rfl, rfl⟩

/-- `readBlockInfoBlock` leaves both pointers alone. -/
theorem readBlockInfoBlock_context {rd rd1 : BitcodeReader} {e : Option Error}
    (h : readBlockInfoBlock rd = (e, rd1)) :
    rd1.javadoc_ = rd.javadoc_ ∧ rd1.nodes_ = rd.nodes_ := by
  unfold readBlockInfoBlock at h
  split at h
  · cases h; exact ⟨rfl, rfl⟩
  · split at h <;> cases h <;> exact ⟨rfl, rfl⟩

/-- A turn of the loop of `getInfos` entered with both pointers null leaves both null,
however it ends. -/
theorem getInfos_body_context {K : BitCodeConstants} {rd : BitcodeReader}
    {Infos : List Object} {t : Turn} (h : getInfos.body K rd Infos = .ret t)
    (h1 : rd.javadoc_ = none) (h2 : rd.nodes_ = []) :
    match t with
    | .done _ rd1 => rd1.javadoc_ = none ∧ rd1.nodes_ = []
    | .next rd1 _ => rd1.javadoc_ = none ∧ rd1.nodes_ = [] := by
  unfold getInfos.body at h
  split at h
  · cases h; exact ⟨h1, h2⟩
  · split at h
    · cases h; exact ⟨h1, h2⟩
    · split at h
      · cases h; exact ⟨h1, h2⟩
      · rename_i ID S2 hS2
        dsimp only at h
        split at h
        all_goals first
          | (cases h; exact ⟨h1, h2⟩)
          | (obtain ⟨a, ha, hk⟩ := Run.bind_eq_ret h
             obtain ⟨r, rd3⟩ := a
             unfold readBlockToInfo createInfo at ha
             obtain ⟨b, hb, hk2⟩ := Run.bind_eq_ret ha
             obtain ⟨e0, I2, rd4⟩ := b
             have hc := readBlock_context_null hb h1 h2
             cases e0 <;> cases hk2 <;> cases hk <;> exact hc)
          | (obtain ⟨a, ha, hk⟩ := Run.bind_eq_ret h
             obtain ⟨e0, I2, rd3⟩ := a
             have hc := readBlock_context_null ha h1 h2
             cases e0 <;> cases hk <;> exact hc)
          | (split at h <;> rename_i hbi <;> have hc := readBlockInfoBlock_context hbi <;>
               cases h <;> exact ⟨hc.1.trans h1, hc.2.trans h2⟩)
          | (split at h <;> cases h <;> exact ⟨h1, h2⟩)

/-- The loop of `getInfos` entered with both pointers null returns with both null. -/
theorem getInfos_loop_context (K : BitCodeConstants) :
    ∀ (n : Nat) (rd rd1 : BitcodeReader) (Infos : List Object)
      (r : Except Error (List Object)),
      getInfos.loop K n rd Infos = .ret (r, rd1) → rd.javadoc_ = none → rd.nodes_ = [] →
        rd1.javadoc_ = none ∧ rd1.nodes_ = [] := by
  intro n
  induction n with
  | zero => intro rd rd1 Infos r h; simp [getInfos.loop] at h
  | succ n ih =>
    intro rd rd1 Infos r h h1 h2
    unfold getInfos.loop at h
    split at h
    · cases h
      exact ⟨h1, h2⟩
    · obtain ⟨t, ht, hk⟩ := Run.bind_eq_ret h
      have hc := getInfos_body_context ht h1 h2
      cases t with
      | done r2 rd2 =>
        cases hk
        exact hc
      | next rd2 Infos2 =>
        dsimp only at hk hc
        exact ih _ _ _ _ hk hc.1 hc.2

/-- C36: every call of `readSubBlock` that returns, with or without an error, returns with
the documentation pointer null if it was null at the call and set if it was set, and with
the node-list stack as deep as at the call and the same below its innermost frame.  A turn
of the loop of `getInfos` entered with both pointers null leaves both null, and so they are
when `getInfos` returns. -/
theorem readSubBlock_restores_context (K : BitCodeConstants) (n : Nat) (ID : Option BlockId)
    (I I1 : Object) (rd rd1 : BitcodeReader) (e : Option Error)
    (h : readSubBlock K n ID I rd = .ret (e, I1, rd1)) :
    rd1.javadoc_.isSome = rd.javadoc_.isSome ∧
    rd1.nodes_.length = rd.nodes_.length ∧ rd1.nodes_.tail = rd.nodes_.tail ∧
    (rd.nodes_ ≠ [] → rd1.javadoc_ = rd.javadoc_) ∧
    (∀ (rdT rdN : BitcodeReader) (Infos Infos1 : List Object),
      rdT.javadoc_ = none → rdT.nodes_ = [] →
      getInfos.body K rdT Infos = .ret (.next rdN Infos1) →
      rdN.javadoc_ = none ∧ rdN.nodes_ = []) ∧
    (∀ (S : BitstreamCursor) (r : Except Error (List Object)) (rdE : BitcodeReader),
      getInfos K (BitcodeReader.init S) = .ret (r, rdE) →
      rdE.javadoc_ = none ∧ rdE.nodes_ = []) := by
  obtain ⟨hd1, hd2⟩ := (reader_doc K n).2.2 _ _ _ _ _ _ h
  obtain ⟨hs1, hs2⟩ := (reader_stack K n).2.2 _ _ _ _ _ _ h
  refine ⟨hd1, hs1, hs2, hd2, ?_, ?_⟩
  · intro rdT rdN Infos Infos1 h1 h2 hb
    exact getInfos_body_context hb h1 h2
  · intro S r rdE hg
    unfold getInfos at hg
    split at hg
    · rename_i Err rd2 hv
      cases hg
      exact validateStream_context hv
    · rename_i rd2 hv
      have hc := validateStream_context hv
      exact getInfos_loop_context K _ _ _ _ _ hg hc.1 hc.2

theorem readSubBlock_restores_context_witness :
    ({ BitcodeReader.init ⟨[], [.code END_BLOCK], 1⟩ with
        javadoc_ := some Javadoc.empty } : BitcodeReader).javadoc_.isSome
      = ({ BitcodeReader.init
            ⟨[], [.blockLen 3, .code 4, .record (some .JAVADOC_NODE_KIND) [10] "",
              .code END_BLOCK, .code END_BLOCK], 1⟩ with
          javadoc_ := some Javadoc.empty } : BitcodeReader).javadoc_.isSome ∧
    ({ BitcodeReader.init ⟨[], [.code END_BLOCK], 1⟩ with
        javadoc_ := some Javadoc.empty } : BitcodeReader).nodes_.length
      = ({ BitcodeReader.init
            ⟨[], [.blockLen 3, .code 4, .record (some .JAVADOC_NODE_KIND) [10] "",
              .code END_BLOCK, .code END_BLOCK], 1⟩ with
          javadoc_ := some Javadoc.empty } : BitcodeReader).nodes_.length :=
  have h : readSubBlock .upstream 6 (some .BI_JAVADOC_NODE_BLOCK_ID)
      (.functionInfo (FunctionInfo.empty .upstream))
      { BitcodeReader.init
          ⟨[], [.blockLen 3, .code 4, .record (some .JAVADOC_NODE_KIND) [10] "",
            .code END_BLOCK, .code END_BLOCK], 1⟩ with
        javadoc_ := some Javadoc.empty }
      = .ret (none, .functionInfo (FunctionInfo.empty .upstream),
          { BitcodeReader.init ⟨[], [.code END_BLOCK], 1⟩ with
            javadoc_ := some Javadoc.empty }) := by
    simp [readSubBlock, readBlock, BitstreamCursor.EnterSubBlock, readBlockLoop,
      skipUntilRecordOrBlock,
      BitstreamCursor.AtEndOfStream, BitstreamCursor.ReadCode, BitstreamCursor.ReadSubBlockID,
      BitstreamCursor.ReadBlockEnd, readRecord, BitstreamCursor.readRecord,
      parseRecordNodeList, decodeRecordEnum, decodeRecordInt,
      Run.bind, BitcodeReader.init, END_BLOCK, ENTER_SUBBLOCK,
      FIRST_APPLICATION_ABBREV, INT_MAX, toInt32, Javadoc.Kind.block, Javadoc.Kind.paragraph,
      Javadoc.Kind.text, Javadoc.Kind.styled, Javadoc.Kind.returns, Javadoc.Kind.brief,
      Javadoc.Kind.admonition, Javadoc.Kind.code, Javadoc.empty, Javadoc.Node.ofKind,
      Javadoc.Node.kind]
  have hc := readSubBlock_restores_context .upstream 6 _ _ _ _ _ _ h
  ⟨hc.1, hc.2.1⟩

/-! ### A node block outside a list, all cases -/

/-- C32: a node block read while a documentation block is open (the tree is `D`) and no
frame is, whose read succeeded.  The read leaves one frame, `J`, and the tree `D` as it was.
When `J` holds no node, `readSubBlock` returns success and the tree is unchanged; when it
holds one node of kind returns, that node becomes `returns_` of the tree and nothing else of
the tree changes; when it holds one node of another kind, the error `wrong kind in list` is
returned, and when it holds more than one node, the error `too many items in list`.  In
every case the stack is empty again in the reader returned. -/
theorem readSubBlock_node_outside_list (K : BitCodeConstants) (n : Nat) (I c : Object)
    (rd rd1 : BitcodeReader) (D : Javadoc)
    (hdoc : rd.javadoc_ = some D) (htop : rd.nodes_ = [])
    (hread : readBlock K n (some .BI_JAVADOC_NODE_BLOCK_ID) .nodeList
      { rd with nodes_ := [⟨none, []⟩] } = .ret (none, c, rd1)) :
    ∃ J, rd1.nodes_ = [J] ∧ rd1.javadoc_ = some D ∧
      (J.children = [] →
        readSubBlock K (n + 1) (some .BI_JAVADOC_NODE_BLOCK_ID) I rd
          = .ret (none, I, { rd1 with nodes_ := [] })) ∧
      (∀ back, J.children = [back] → back.kind = Javadoc.Kind.returns →
        readSubBlock K (n + 1) (some .BI_JAVADOC_NODE_BLOCK_ID) I rd
          = .ret (none, I,
              { rd1 with nodes_ := [], javadoc_ := some { D with returns_ := back } })) ∧
      (∀ back, J.children = [back] → back.kind ≠ Javadoc.Kind.returns →
        readSubBlock K (n + 1) (some .BI_JAVADOC_NODE_BLOCK_ID) I rd
          = .ret (some (makeError "wrong kind in list"), I, { rd1 with nodes_ := [] })) ∧
      (J.children.length > 1 →
        readSubBlock K (n + 1) (some .BI_JAVADOC_NODE_BLOCK_ID) I rd
          = .ret (some (makeError "too many items in list"), I, { rd1 with nodes_ := [] })) := by
  obtain ⟨hs1, hs2⟩ := (reader_stack K n).1 _ _ _ _ _ _ hread
  have hd := ((reader_doc K n).1 _ _ _ _ _ _ hread).2 (List.cons_ne_nil _ _)
  dsimp only at hs1 hs2 hd
  rw [hdoc] at hd
  rcases hrd : rd1.nodes_ with _ | ⟨J, t⟩
  · rw [hrd] at hs1
    cases hs1
  · rw [hrd] at hs2
    simp only [List.tail_cons] at hs2
    subst hs2
    refine ⟨J, rfl, hd, fun h0 => ?_, fun back hb hk => ?_, fun back hb hk => ?_,
      fun hlen => ?_⟩
    · unfold readSubBlock
      simp [htop, hread, Run.bind, hrd, hd, h0]
    · unfold readSubBlock
      simp [htop, hread, Run.bind, hrd, hd, hb, hk]
    · unfold readSubBlock
      simp [htop, hread, Run.bind, hrd, hd, hb, hk]
    · unfold readSubBlock
      simp [htop, hread, Run.bind, hrd, hd, hlen]

theorem readSubBlock_node_outside_list_witness :
    readSubBlock .upstream 6 (some .BI_JAVADOC_NODE_BLOCK_ID)
        (.functionInfo (FunctionInfo.empty .upstream))
        { BitcodeReader.init
            ⟨[], [.blockLen 3, .code 4, .record (some .JAVADOC_NODE_KIND) [4] "",
              .code END_BLOCK, .code END_BLOCK], 1⟩ with
          javadoc_ := some Javadoc.empty }
      = .ret (some (makeError "wrong kind in list"),
          .functionInfo (FunctionInfo.empty .upstream),
          { BitcodeReader.init ⟨[], [.code END_BLOCK], 1⟩ with
            javadoc_ := some Javadoc.empty }) := by
  obtain ⟨J, hJ, _, _, _, h2, _⟩ :=
    readSubBlock_node_outside_list .upstream 5 (.functionInfo (FunctionInfo.empty .upstream))
      .nodeList
      { BitcodeReader.init
          ⟨[], [.blockLen 3, .code 4, .record (some .JAVADOC_NODE_KIND) [4] "",
            .code END_BLOCK, .code END_BLOCK], 1⟩ with
        javadoc_ := some Javadoc.empty }
      { BitcodeReader.init ⟨[], [.code END_BLOCK], 1⟩ with
        javadoc_ := some Javadoc.empty
        nodes_ := [⟨none, [Javadoc.Node.ofKind Javadoc.Kind.paragraph]⟩] }
      Javadoc.empty rfl rfl
      (by
        simp [readBlock, BitstreamCursor.EnterSubBlock, readBlockLoop, skipUntilRecordOrBlock,
          BitstreamCursor.AtEndOfStream, BitstreamCursor.ReadCode,
          BitstreamCursor.ReadSubBlockID,
          BitstreamCursor.ReadBlockEnd, readRecord, BitstreamCursor.readRecord,
          parseRecordNodeList, decodeRecordEnum, decodeRecordInt,
          Run.bind, BitcodeReader.init, END_BLOCK, ENTER_SUBBLOCK,
          FIRST_APPLICATION_ABBREV, INT_MAX, toInt32, Javadoc.Kind.block,
          Javadoc.Kind.paragraph,
          Javadoc.Kind.text, Javadoc.Kind.styled, Javadoc.Kind.returns, Javadoc.Kind.brief,
          Javadoc.Kind.admonition, Javadoc.Kind.code])
  cases hJ
  exact h2 _ rfl (by decide)

/-! ### Streams without a version record -/

/-- A top-level block whose id `readBlockToInfo` has a case for, with a body that
`readBlock` reads without error: the turn of the loop of `getInfos` adds the entity to the
list and continues. -/
theorem getInfos_body_entity_ok (K : BitCodeConstants) (rdT rd3 : BitcodeReader)
    (Infos : List Object) (ID : Option BlockId) (I0 I1 : Object) (rest : List Item) (n : Nat)
    (hitems : rdT.Stream.Items = .code ENTER_SUBBLOCK :: .blockID ID :: rest)
    (hnew : newInfo K ID = some I0)
    (hread : readBlock K n ID I0 { rdT with Stream := { rdT.Stream with Items := rest } }
      = .ret (none, I1, rd3)) :
    getInfos.body K rdT Infos = .ret (.next rd3 (Infos ++ [I1])) := by
  have hread1 := readBlock_readBlockFuel hread (by simp)
  unfold getInfos.body
  simp only [BitstreamCursor.ReadCode, hitems, BitstreamCursor.ReadSubBlockID]
  rcases ID with _ | ID
  · simp [newInfo] at hnew
  · cases ID <;> simp [newInfo] at hnew <;> subst hnew <;>
      simp [readBlockToInfo, createInfo, hread1, Run.bind]

/-- C33: the version is compared only when a record of a version block is read.  A stream
that is the signature alone gives the empty list.  Whatever was read before, an entity
block that `readBlock` reads without error adds its entity to the list, and when every
top-level block has been read so and the stream is at its end, `getInfos` returns the list:
no version block is asked for.  A version block without a record is read without error and
the list is unchanged.  A record of a version block whose id is not `VERSION` gives the
error `mismatched bitcode version number`, whatever its fields are. -/
theorem getInfos_without_version_record (K : BitCodeConstants) :
    (∀ rd0 : BitcodeReader, rd0.Stream.Lead = signature K → rd0.Stream.Items = [] →
      getInfos K rd0
        = .ret (.ok [], { rd0 with Stream := { rd0.Stream with Lead := [] } })) ∧
    (∀ (rd rd3 : BitcodeReader) (Infos : List Object) (ID : Option BlockId) (I0 I1 : Object)
        (rest : List Item) (n : Nat),
      rd.Stream.Items = .code ENTER_SUBBLOCK :: .blockID ID :: rest →
      newInfo K ID = some I0 →
      readBlock K n ID I0 { rd with Stream := { rd.Stream with Items := rest } }
        = .ret (none, I1, rd3) →
      getInfos.body K rd Infos = .ret (.next rd3 (Infos ++ [I1]))) ∧
    (∀ (rd0 rdT : BitcodeReader) (Infos : List Object) (k : Nat),
      rd0.Stream.Lead = signature K →
      getInfos.reach K k { rd0 with Stream := { rd0.Stream with Lead := [] } } []
        = some (rdT, Infos) →
      rdT.Stream.AtEndOfStream = true →
      getInfos K rd0 = .ret (.ok Infos, rdT)) ∧
    (∀ (rd : BitcodeReader) (Infos : List Object) (L : Nat) (post : List Item),
      rd.Stream.Items = .code ENTER_SUBBLOCK :: .blockID (some .BI_VERSION_BLOCK_ID)
        :: .blockLen L :: .code END_BLOCK :: post →
      getInfos.body K rd Infos = .ret (.next (rd.seek post) Infos)) ∧
    (∀ (rd : BitcodeReader) (Infos : List Object) (L c : Nat) (ID : Option RecordId)
        (vals : List Nat) (Blob : Blob) (rest : List Item),
      c ≥ FIRST_APPLICATION_ABBREV → ID ≠ some .VERSION →
      rd.Stream.Items = .code ENTER_SUBBLOCK :: .blockID (some .BI_VERSION_BLOCK_ID)
        :: .blockLen L :: .code c :: .record ID vals Blob :: rest →
      getInfos.body K rd Infos
        = .ret (.done (.error (makeError "mismatched bitcode version number"))
            { rd with
              Stream :=
                { rd.Stream with Items := rest, BlockScope := rd.Stream.BlockScope + 1 } })) := by
  have h4 : ¬ (END_BLOCK ≥ FIRST_APPLICATION_ABBREV) := by decide
  refine ⟨?_, ?_, ?_, ?_, ?_⟩
  · intro rd0 hsig hitems
    rw [getInfos, validateStream_ok hsig]
    simp [getInfos.loop, BitstreamCursor.AtEndOfStream, hitems]
  · intro rd rd3 Infos ID I0 I1 rest n hitems hnew hread
    exact getInfos_body_entity_ok K rd rd3 Infos ID I0 I1 rest n hitems hnew hread
  · intro rd0 rdT Infos k hsig hreach hend
    rw [getInfos_of_reach (validateStream_ok hsig) hreach, getInfos.loop, if_pos hend]
  · intro rd Infos L post hitems
    simp [getInfos.body, BitstreamCursor.ReadCode, BitstreamCursor.ReadSubBlockID, hitems,
      readBlockFuel, readBlock, BitstreamCursor.EnterSubBlock, readBlockLoop,
      skipUntilRecordOrBlock, BitstreamCursor.AtEndOfStream, h4, Run.bind,
      BitstreamCursor.ReadBlockEnd, BitcodeReader.seek]
    simp [ENTER_SUBBLOCK, END_BLOCK]
  · intro rd Infos L c ID vals Blob rest hc hID hitems
    simp [getInfos.body, BitstreamCursor.ReadCode, BitstreamCursor.ReadSubBlockID, hitems,
      readBlockFuel, readBlock, BitstreamCursor.EnterSubBlock, readBlockLoop,
      skipUntilRecordOrBlock, BitstreamCursor.AtEndOfStream, hc, h4, readRecord,
      BitstreamCursor.readRecord, parseRecordVersionNo, hID, Run.bind]

/-- C33 at inputs: a stream with a function block and no version block is decoded to the
function; a stream whose version block has no record is decoded to the empty list; a
version block whose record has another id than `VERSION` and the expected number as its
field gives the error. -/
theorem getInfos_version_examples :
    getInfos .upstream
        (BitcodeReader.init (streamOf (signature .upstream)
          (block (some .BI_FUNCTION_BLOCK_ID) (record .FUNCTION_NAME [] "f"))))
      = .ret (.ok [.functionInfo { FunctionInfo.empty .upstream with Name := "f" }],
          BitcodeReader.init ⟨[], [], 0⟩) ∧
    getInfos .upstream
        (BitcodeReader.init (streamOf (signature .upstream)
          (block (some .BI_VERSION_BLOCK_ID) [])))
      = .ret (.ok [], BitcodeReader.init ⟨[], [], 0⟩) ∧
    getInfos .upstream
        (BitcodeReader.init (streamOf (signature .upstream)
          (block (some .BI_VERSION_BLOCK_ID) (record .NAMESPACE_NAME [3] ""))))
      = .ret (.error (makeError "mismatched bitcode version number"),
          BitcodeReader.init ⟨[], [.code END_BLOCK], 1⟩) := by
  refine ⟨?_, ?_, ?_⟩
  · simp [getInfos, validateStream, validateStream.loop, BitstreamCursor.Read8, signature,
      getInfos.loop, getInfos.body, readBlockToInfo, createInfo, readBlockFuel, streamOf,
      BitcodeReader.init, record,
      readBlockLoop, skipUntilRecordOrBlock, BitstreamCursor.AtEndOfStream,
      BitstreamCursor.ReadCode, BitstreamCursor.ReadSubBlockID, block,
      readBlock, BitstreamCursor.EnterSubBlock, readRecord,
      BitstreamCursor.readRecord, parseRecordFunctionInfo, parsed,
      decodeRecordString, withField,
      Run.bind,
      BitstreamCursor.ReadBlockEnd, END_BLOCK, ENTER_SUBBLOCK,
      FIRST_APPLICATION_ABBREV, FunctionInfo.empty, SymbolInfo.empty, Info.empty]
  · simp [getInfos, validateStream, validateStream.loop, BitstreamCursor.Read8, signature,
      getInfos.loop, getInfos.body, readBlockFuel, streamOf,
      BitcodeReader.init,
      readBlockLoop, skipUntilRecordOrBlock, BitstreamCursor.AtEndOfStream,
      BitstreamCursor.ReadCode, BitstreamCursor.ReadSubBlockID, block,
      readBlock, BitstreamCursor.EnterSubBlock,
      Run.bind,
      BitstreamCursor.ReadBlockEnd, END_BLOCK, ENTER_SUBBLOCK,
      FIRST_APPLICATION_ABBREV]
  · simp [getInfos, validateStream, validateStream.loop, BitstreamCursor.Read8, signature,
      getInfos.loop, getInfos.body, readBlockFuel, streamOf,
      BitcodeReader.init, record,
      readBlockLoop, skipUntilRecordOrBlock, BitstreamCursor.AtEndOfStream,
      BitstreamCursor.ReadCode, BitstreamCursor.ReadSubBlockID, block,
      readBlock, BitstreamCursor.EnterSubBlock, readRecord,
      BitstreamCursor.readRecord, parseRecordVersionNo,
      Run.bind,
      BitstreamCursor.ReadBlockEnd, END_BLOCK, ENTER_SUBBLOCK,
      FIRST_APPLICATION_ABBREV]

/-! ### The order of the index is a strict total order -/

/-- No sequence comes before itself. -/
theorem lexLt_irrefl : ∀ xs : List Int, lexLt xs xs = false := by
  intro xs
  induction xs with
  | nil => rfl
  | cons x xs ih => simp [lexLt, ih]

/-- The order of sequences is transitive. -/
theorem lexLt_trans : ∀ xs ys zs : List Int,
    lexLt xs ys = true → lexLt ys zs = true → lexLt xs zs = true := by
  intro xs
  induction xs with
  | nil =>
    intro ys zs h1 h2
    cases ys with
    | nil => simp [lexLt] at h1
    | cons y ys =>
      cases zs with
      | nil => simp [lexLt] at h2
      | cons z zs => rfl
  | cons x xs ih =>
    intro ys zs h1 h2
    cases ys with
    | nil => simp [lexLt] at h1
    | cons y ys =>
      cases zs with
      | nil => simp [lexLt] at h2
      | cons z zs =>
        simp only [lexLt, Bool.or_eq_true, Bool.and_eq_true, decide_eq_true_eq] at h1 h2 ⊢
        rcases h1 with h1 | ⟨h1, h1r⟩
        · rcases h2 with h2 | ⟨h2, _⟩
          · exact Or.inl (by omega)
          · exact Or.inl (by omega)
        · rcases h2 with h2 | ⟨h2, h2r⟩
          · exact Or.inl (by omega)
          · exact Or.inr ⟨by omega, ih ys zs h1r h2r⟩

/-- Of two sequences one comes before the other, or they are equal. -/
theorem lexLt_total : ∀ xs ys : List Int,
    lexLt xs ys = true ∨ lexLt ys xs = true ∨ xs = ys := by
  intro xs
  induction xs with
  | nil =>
    intro ys
    cases ys with
    | nil => exact Or.inr (Or.inr rfl)
    | cons y ys => exact Or.inl rfl
  | cons x xs ih =>
    intro ys
    cases ys with
    | nil => exact Or.inr (Or.inl rfl)
    | cons y ys =>
      simp only [lexLt, Bool.or_eq_true, Bool.and_eq_true, decide_eq_true_eq, List.cons.injEq]
      rcases Int.lt_trichotomy x y with h | h | h
      · exact Or.inl (Or.inl h)
      · rcases ih ys with h1 | h1 | h1
        · exact Or.inl (Or.inr ⟨h, h1⟩)
        · exact Or.inr (Or.inl (Or.inr ⟨h.symm, h1⟩))
        · exact Or.inr (Or.inr ⟨h, h1⟩)
      · exact Or.inr (Or.inl (Or.inl h))

/-- A sequence does not come before one that comes before it. -/
theorem lexLt_asymm (xs ys : List Int) (h : lexLt xs ys = true) : lexLt ys xs = false := by
  rcases hb : lexLt ys xs with _ | _
  · rfl
  · have h1 := lexLt_trans xs ys xs h hb
    rw [lexLt_irrefl] at h1
    cases h1

/-- `StringRef::compare` gives a positive value exactly when the second string comes before
the first in the order of their bytes. -/
theorem StringRef_compare_pos : ∀ xs ys : List Nat,
    (StringRef.compare xs ys > 0) ↔ lexLt (ys.map Int.ofNat) (xs.map Int.ofNat) = true := by
  intro xs
  induction xs with
  | nil =>
    intro ys
    cases ys <;> simp [StringRef.compare, lexLt]
  | cons x xs ih =>
    intro ys
    cases ys with
    | nil => simp [StringRef.compare, lexLt]
    | cons y ys =>
      simp only [StringRef.compare, List.map_cons, lexLt, Bool.or_eq_true, Bool.and_eq_true,
        decide_eq_true_eq]
      by_cases h1 : x < y
      · rw [if_pos h1]
        simp only [Int.ofNat_eq_coe]
        constructor
        · intro h; omega
        · intro h; omega
      · rw [if_neg h1]
        by_cases h2 : y < x
        · rw [if_pos h2]
          simp only [Int.ofNat_eq_coe]
          constructor
          · intro _; exact Or.inl (by omega)
          · intro _; decide
        · rw [if_neg h2, ih ys]
          simp only [Int.ofNat_eq_coe]
          constructor
          · intro h; exact Or.inr ⟨by omega, h⟩
          · intro h
            rcases h with h | h
            · omega
            · exact h.2

/-- `Index::operator<` as an order of pairs: by the lowered names first, and between names
that are equal when lowered, by the bytes of the names, the greater first. -/
theorem Index_lt_eq (s : Bool) (tolower : Int → Int) (a b : Index) :
    Index.lt s tolower a b = (lexLt (a.lowered s tolower) (b.lowered s tolower) ||
      (decide (a.lowered s tolower = b.lowered s tolower) &&
        lexLt (b.Name.map Int.ofNat) (a.Name.map Int.ofNat))) := by
  have key : ∀ (xs ys : List Nat) (T : Bool),
      (match Index.lt.loop s tolower xs ys with
        | some r => r
        | none => if xs.length = ys.length then T else decide (xs.length < ys.length))
      = (lexLt (xs.map fun c => tolower (charToInt s c))
            (ys.map fun c => tolower (charToInt s c)) ||
          (decide ((xs.map fun c => tolower (charToInt s c))
            = (ys.map fun c => tolower (charToInt s c))) && T)) := by
    intro xs
    induction xs with
    | nil =>
      intro ys T
      cases ys <;> simp [Index.lt.loop, lexLt]
    | cons x xs ih =>
      intro ys T
      cases ys with
      | nil => simp [Index.lt.loop, lexLt]
      | cons y ys =>
        simp only [Index.lt.loop, List.map_cons, lexLt, List.length_cons, List.cons.injEq]
        by_cases hD : tolower (charToInt s x) - tolower (charToInt s y) = 0
        · have hxy : tolower (charToInt s x) = tolower (charToInt s y) := by omega
          rw [if_pos hD]
          have h := ih ys T
          simp only [Nat.add_right_cancel_iff, Nat.add_lt_add_iff_right]
          rw [h]
          simp [hxy]
        · rw [if_neg hD]
          have hxy : tolower (charToInt s x) ≠ tolower (charToInt s y) := by omega
          simp only [hxy, false_and, decide_False, Bool.false_and, Bool.or_false]
          congr 1
          apply propext
          constructor <;> intro h <;> omega
  unfold Index.lt Index.lowered
  rw [← key]
  have hc : decide (StringRef.compare a.Name b.Name > 0)
      = lexLt (b.Name.map Int.ofNat) (a.Name.map Int.ofNat) := by
    rcases hb : lexLt (b.Name.map Int.ofNat) (a.Name.map Int.ofNat) with _ | _
    · rw [decide_eq_false_iff_not, StringRef_compare_pos, hb]
      simp
    · rw [decide_eq_true_eq, StringRef_compare_pos, hb]
  rw [hc]

/-- `Index::operator<` reads the names of the two entries and nothing else. -/
theorem Index.lt_of_name (s : Bool) (tolower : Int → Int) {a b a1 b1 : Index}
    (ha : a1.Name = a.Name) (hb : b1.Name = b.Name) : Index.lt s tolower a1 b1 = Index.lt s tolower a b := by
  unfold Index.lt
  rw [ha, hb]

/-- No entry is less than itself. -/
theorem Index.lt_irrefl (s : Bool) (tolower : Int → Int) (a : Index) :
    Index.lt s tolower a a = false := by
  rw [Index_lt_eq]
  simp [lexLt_irrefl]

/-- `Index::operator<` is transitive. -/
theorem Index.lt_trans (s : Bool) (tolower : Int → Int) (a b c : Index)
    (h1 : Index.lt s tolower a b = true)
    (h2 : Index.lt s tolower b c = true) : Index.lt s tolower a c = true := by
  rw [Index_lt_eq] at h1 h2 ⊢
  simp only [Bool.or_eq_true, Bool.and_eq_true, decide_eq_true_eq] at h1 h2 ⊢
  rcases h1 with h1 | ⟨e1, t1⟩
  · rcases h2 with h2 | ⟨e2, _⟩
    · exact Or.inl (lexLt_trans _ _ _ h1 h2)
    · rw [e2] at h1
      exact Or.inl h1
  · rcases h2 with h2 | ⟨e2, t2⟩
    · rw [← e1] at h2
      exact Or.inl h2
    · exact Or.inr ⟨e1.trans e2, lexLt_trans _ _ _ t2 t1⟩

/-- Of two entries, one is less than the other and not the other way round, or their names
are equal and neither is less. -/
theorem Index.lt_trichotomy (s : Bool) (tolower : Int → Int) (a b : Index) :
    (Index.lt s tolower a b = true ∧ Index.lt s tolower b a = false ∧ a.Name ≠ b.Name) ∨
    (Index.lt s tolower a b = false ∧ Index.lt s tolower b a = true ∧ a.Name ≠ b.Name) ∨
    (Index.lt s tolower a b = false ∧ Index.lt s tolower b a = false ∧ a.Name = b.Name) := by
  have hinj : ∀ xs ys : List Nat, xs.map Int.ofNat = ys.map Int.ofNat → xs = ys := by
    intro xs ys h
    exact List.map_injective_iff.mpr (fun _ _ h => Int.ofNat.inj h) h
  have hlow : ∀ a b : Index, a.Name = b.Name → a.lowered s tolower = b.lowered s tolower := by
    intro a b h
    unfold Index.lowered
    rw [h]
  rw [Index_lt_eq, Index_lt_eq s tolower b a]
  rcases lexLt_total (a.lowered s tolower) (b.lowered s tolower) with h | h | h
  · have hne : a.lowered s tolower ≠ b.lowered s tolower := by
      intro e
      rw [e, lexLt_irrefl] at h
      cases h
    refine Or.inl ⟨by simp [h], by simp [lexLt_asymm _ _ h, Ne.symm hne], ?_⟩
    exact fun e => hne (hlow a b e)
  · have hne : b.lowered s tolower ≠ a.lowered s tolower := by
      intro e
      rw [e, lexLt_irrefl] at h
      cases h
    refine Or.inr (Or.inl ⟨by simp [lexLt_asymm _ _ h, Ne.symm hne], by simp [h], ?_⟩)
    exact fun e => hne (hlow b a e.symm)
  · rw [h]
    simp only [lexLt_irrefl, Bool.false_or, decide_True, Bool.true_and]
    rcases lexLt_total (b.Name.map Int.ofNat) (a.Name.map Int.ofNat) with t | t | t
    · refine Or.inl ⟨t, lexLt_asymm _ _ t, ?_⟩
      intro e
      rw [e, lexLt_irrefl] at t
      cases t
    · refine Or.inr (Or.inl ⟨lexLt_asymm _ _ t, t, ?_⟩)
      intro e
      rw [e, lexLt_irrefl] at t
      cases t
    · refine Or.inr (Or.inr ⟨?_, ?_, (hinj _ _ t).symm⟩)
      · rw [t, lexLt_irrefl]
      · rw [t, lexLt_irrefl]

/-- C34: `Index::operator<` is a strict total order of the names: no entry is less than
itself, the relation is transitive, and of two entries exactly one of `a < b`, `b < a` and
`a.Name == b.Name` holds.  This is so whether `char` is signed or not, and whatever the
values of `tolower` are. -/
theorem Index_lt_strict_total_order (s : Bool) (tolower : Int → Int) :
    (∀ a, Index.lt s tolower a a = false) ∧
    (∀ a b c, Index.lt s tolower a b = true → Index.lt s tolower b c = true →
      Index.lt s tolower a c = true) ∧
    (∀ a b,
      (Index.lt s tolower a b = true ∧ Index.lt s tolower b a = false ∧ a.Name ≠ b.Name) ∨
      (Index.lt s tolower a b = false ∧ Index.lt s tolower b a = true ∧ a.Name ≠ b.Name) ∨
      (Index.lt s tolower a b = false ∧ Index.lt s tolower b a = false ∧ a.Name = b.Name)) :=
  ⟨Index.lt_irrefl s tolower, Index.lt_trans s tolower, Index.lt_trichotomy s tolower⟩

/-! ### Sorting the index -/

/-- Induction over an index tree: a property that an entry has as soon as all its children
have it holds for every entry. -/
theorem Index.induct {P : Index → Prop}
    (h : ∀ usr name refType path jump children, (∀ x ∈ children, P x) →
      P (.mk usr name refType path jump children)) : ∀ a, P a := by
  intro a
  refine @Index.rec P (fun l => ∀ x ∈ l, P x) ?_ ?_ ?_ a
  · intro usr name refType path jump children ih
    exact h usr name refType path jump children ih
  · intro x hx
    cases hx
  · intro head tail ih1 ih2 x hx
    rcases List.mem_cons.mp hx with e | e
    · rw [e]; exact ih1
    · exact ih2 x e

/-- `Index::sort` on an entry: its children, sorted by `llvm::sort`, each sorted in turn. -/
theorem Index.sort_mk (F : LlvmSort) (usr : SymbolID) (name : List Nat) (refType : InfoType)
    (path : String) (jump : Option String) (children : List Index) :
    Index.sort F (.mk usr name refType path jump children)
      = .mk usr name refType path jump ((F.run children).map (Index.sort F)) := by
  rw [Index.sort, List.attach_map_val]

/-- `Index::sort` leaves what the entry itself holds as it was. -/
theorem Index.sort_entry (F : LlvmSort) (a : Index) : (a.sort F).entry = a.entry := by
  cases a
  rw [Index.sort_mk]
  rfl

/-- Entries that hold the same have the same name. -/
theorem Index.name_of_entry {a a1 : Index} (ha : a1.entry = a.entry) : a1.Name = a.Name := by
  cases a; cases a1
  simp only [Index.entry, Prod.mk.injEq] at ha
  exact ha.2.1

/-- The entries of a list of trees are the entries of its trees. -/
theorem Index.nodesOf_eq (l : List Index) : Index.nodesOf l = l.flatMap Index.nodes := by
  induction l with
  | nil => rfl
  | cons a l ih => rw [Index.nodesOf, ih, List.flatMap_cons]

/-- An entry is among the entries of a list of trees when it is among those of one of the
trees. -/
theorem Index.mem_nodesOf {x : Index} {l : List Index} :
    x ∈ Index.nodesOf l ↔ ∃ y ∈ l, x ∈ y.nodes := by
  rw [Index.nodesOf_eq, List.mem_flatMap]

/-- A list in order stays in order when `Index::sort` is called on each of its elements. -/
theorem Index.sorted_map_sort (s : Bool) (tolower : Int → Int) (F : LlvmSort) {l : List Index}
    (h : Index.sorted s tolower l) : Index.sorted s tolower (l.map (Index.sort F)) := by
  unfold Index.sorted at h ⊢
  refine List.Pairwise.map _ ?_ h
  intro x y hxy
  rw [Index.lt_of_name s tolower (Index.name_of_entry (Index.sort_entry F y))
    (Index.name_of_entry (Index.sort_entry F x))]
  exact hxy

/-- C35: `Index::sort` returns for every tree (it is a total function: each call goes on
with children of the entry it was called on).  The entry keeps what it holds itself, its
children are the children it had, each sorted in turn, in another order, and so hold what
the children held before; at every entry of the tree the children are then in order for
`Index::operator<`, and the entries of the tree hold what the entries of the tree held
before. -/
theorem Index_sort_spec (s : Bool) (tolower : Int → Int) (F : LlvmSort)
    (hF : ∀ l, Index.sorted s tolower (F.run l)) (a : Index) :
    (a.sort F).entry = a.entry ∧
    (a.sort F).Children.Perm (a.Children.map (Index.sort F)) ∧
    ((a.sort F).Children.map Index.entry).Perm (a.Children.map Index.entry) ∧
    (∀ x ∈ (a.sort F).nodes, Index.sorted s tolower x.Children) ∧
    ((a.sort F).nodes.map Index.entry).Perm (a.nodes.map Index.entry) := by
  have hchildren : ∀ a : Index, (a.sort F).Children.Perm (a.Children.map (Index.sort F)) := by
    intro a
    cases a
    rw [Index.sort_mk]
    exact (F.perm _).map _
  have hmap : ∀ l : List Index, (l.map (Index.sort F)).map Index.entry = l.map Index.entry := by
    intro l
    rw [List.map_map]
    exact List.map_congr_left fun x _ => Index.sort_entry F x
  have hsorted : ∀ a : Index, ∀ x ∈ (a.sort F).nodes, Index.sorted s tolower x.Children := by
    intro a
    induction a using Index.induct with
    | h usr name refType path jump children ih =>
      intro x hx
      rw [Index.sort_mk, Index.nodes, List.mem_cons] at hx
      rcases hx with e | hx
      · rw [e]
        exact Index.sorted_map_sort s tolower F (hF children)
      · obtain ⟨y, hy, hxy⟩ := Index.mem_nodesOf.mp hx
        obtain ⟨z, hz, e⟩ := List.mem_map.mp hy
        rw [← e] at hxy
        exact ih z ((F.perm children).mem_iff.mp hz) x hxy
  have hnodes : ∀ a : Index,
      ((a.sort F).nodes.map Index.entry).Perm (a.nodes.map Index.entry) := by
    intro a
    induction a using Index.induct with
    | h usr name refType path jump children ih =>
      rw [Index.sort_mk, Index.nodes, Index.nodes, List.map_cons, List.map_cons]
      refine List.Perm.cons _ ?_
      rw [Index.nodesOf_eq, Index.nodesOf_eq, List.flatMap_map, List.map_flatMap,
        List.map_flatMap]
      refine ((F.perm children).flatMap_right _).trans ?_
      exact List.Perm.flatMap_left _ fun z hz => ih z hz
  refine ⟨Index.sort_entry F a, hchildren a, ?_, hsorted a, hnodes a⟩
  have h := (hchildren a).map Index.entry
  rw [hmap] at h
  exact h

/-- Sorting by insertion leaves the list in order for `Index::operator<`. -/
theorem Index.insertionSort_sorted (s : Bool) (tolower : Int → Int) (l : List Index) :
    Index.sorted s tolower ((Index.insertionSortFn s tolower).run l) := by
  haveI : IsTotal Index (fun x y => Index.lt s tolower y x = false) := by
    refine ⟨fun a b => ?_⟩
    rcases Index.lt_trichotomy s tolower a b with h | h | h
    · exact Or.inl h.2.1
    · exact Or.inr h.1
    · exact Or.inl h.2.1
  haveI : IsTrans Index (fun x y => Index.lt s tolower y x = false) := by
    refine ⟨fun a b c hab hbc => ?_⟩
    rcases hca : Index.lt s tolower c a with _ | _
    · rfl
    · rcases Index.lt_trichotomy s tolower a b with h | h | h
      · have h1 := Index.lt_trans s tolower c a b hca h.1
        rw [hbc] at h1
        cases h1
      · rw [hab] at h
        cases h.2.1
      · rw [Index.lt_of_name s tolower (rfl : c.Name = c.Name) h.2.2, hbc] at hca
        cases hca
  exact List.sorted_insertionSort _ l

theorem Index_sort_spec_witness :
    (Index.sample.sort (Index.insertionSortFn false gnuTolower)).entry = Index.sample.entry ∧
    (Index.sample.sort (Index.insertionSortFn false gnuTolower)).Children.Perm
      (Index.sample.Children.map (Index.sort (Index.insertionSortFn false gnuTolower))) ∧
    ((Index.sample.sort (Index.insertionSortFn false gnuTolower)).Children.map Index.entry).Perm
      (Index.sample.Children.map Index.entry) ∧
    (∀ x ∈ (Index.sample.sort (Index.insertionSortFn false gnuTolower)).nodes,
      Index.sorted false gnuTolower x.Children) ∧
    ((Index.sample.sort (Index.insertionSortFn false gnuTolower)).nodes.map Index.entry).Perm
      (Index.sample.nodes.map Index.entry) :=
  Index_sort_spec false gnuTolower (Index.insertionSortFn false gnuTolower)
    (Index.insertionSort_sorted false gnuTolower) Index.sample

/-- The example index sorted by insertion: the children `a`, `b` of the top entry and the
children `c`, `d` of `b` are in order. -/
theorem Index_sort_sample :
    Index.sample.sort (Index.insertionSortFn false gnuTolower)
      = .mk [] [] .IT_default "" none
          [.mk [] [97] .IT_default "" none [],
            .mk [] [98] .IT_default "" none
              [.mk [] [99] .IT_default "" none [], .mk [] [100] .IT_default "" none []]] := by
  simp [Index.sample, Index.sort_mk, Index.insertionSortFn, Index.insertionSort,
    List.insertionSort, List.orderedInsert, Index.lt, Index.lt.loop, Index.Name, gnuTolower,
    charToInt, StringRef.compare]

/-! ### Records with fewer fields than a decoder reads -/

/-- The copying loop of the identifier decoder on a record that is too short for the turns
it is to make: it reads a field that is not there. -/
theorem decodeRecordSymbolID_loop_short (R : Record) :
    ∀ (n I : Nat) (Field : SymbolID), 0 < n → R.length < I + 1 + n →
      decodeRecordSymbolID.loop R n I Field = .trap "R[I + 1]" := by
  intro n
  induction n with
  | zero => intro I Field h; omega
  | succ n ih =>
    intro I Field _ hlen
    unfold decodeRecordSymbolID.loop
    rcases hv : R[I + 1]? with _ | v
    · rfl
    · have hI : I + 1 < R.length := by
        rcases Nat.lt_or_ge (I + 1) R.length with h | h
        · exact h
        · rw [List.getElem?_eq_none h] at hv
          cases hv
      exact ih (I + 1) _ (by omega) (by omega)

/-- C37, as the code has it: the decoders index the record without looking at its size.
On a record with no field, the decoders of a boolean, an integer and each enumeration read
`R[0]`, which is not there; so do the location decoders, and on a record with one field
that fits an `int` they read `R[1]`; the identifier decoder, given a first field equal to
the hash width and fewer fields after it than the width, reads past the last one.  None of
them returns an error there. -/
theorem decodeRecord_short_record (K : BitCodeConstants) (Blob : Blob) :
    (∀ F, decodeRecordBool [] F Blob = .trap "R[0]") ∧
    (∀ F, decodeRecordInt [] F Blob = .trap "R[0]") ∧
    (∀ F, decodeRecordEnum [] F Blob = .trap "R[0]") ∧
    (∀ F, decodeRecordAccessSpecifier [] F Blob = .trap "R[0]") ∧
    (∀ F, decodeRecordTagTypeKind [] F Blob = .trap "R[0]") ∧
    (∀ F, decodeRecordInfoType K [] F Blob = .trap "R[0]") ∧
    (∀ F, decodeRecordFieldId K [] F Blob = .trap "R[0]") ∧
    (∀ F, decodeRecordSymbolID K [] F Blob = .trap "R[0]") ∧
    (∀ F, decodeRecordOptionalLocation [] F Blob = .trap "R[0]") ∧
    (∀ F, decodeRecordLocations [] F Blob = .trap "R[0]") ∧
    (∀ F r0, r0 ≤ INT_MAX → decodeRecordOptionalLocation [r0] F Blob = .trap "R[1]") ∧
    (∀ F r0, r0 ≤ INT_MAX → decodeRecordLocations [r0] F Blob = .trap "R[1]") ∧
    (∀ F rest, 0 < K.USRHashSize → K.USRHashSize ≤ INT_MAX →
      rest.length < K.USRHashSize →
      decodeRecordSymbolID K (K.USRHashSize :: rest) F Blob = .trap "R[I + 1]") := by
  refine ⟨?_, ?_, ?_, ?_, ?_, ?_, ?_, ?_, ?_, ?_, ?_, ?_, ?_⟩
  · intro F; rfl
  · intro F; rfl
  · intro F; rfl
  · intro F; rfl
  · intro F; rfl
  · intro F; rfl
  · intro F; rfl
  · intro F; rfl
  · intro F; rfl
  · intro F; rfl
  · intro F r0 h
    simp [decodeRecordOptionalLocation, Nat.not_lt.mpr h]
  · intro F r0 h
    simp [decodeRecordLocations, Nat.not_lt.mpr h]
  · intro F rest h0 hmax hlen
    have hW : (toInt32 K.USRHashSize).toNat = K.USRHashSize := by
      rw [toInt32_of_lt (by unfold INT_MAX at hmax; omega)]
      rfl
    unfold decodeRecordSymbolID
    simp only [List.getElem?_cons_zero, ne_eq, not_true_eq_false, if_false, hW]
    rw [decodeRecordSymbolID_loop_short _ _ _ _ h0 (by simp only [List.length_cons]; omega)]

/-- C37 at an input: a function block whose record `FUNCTION_IS_METHOD` has no field.
`getInfos` does not return an error: the boolean decoder reads `R[0]` of the empty
record. -/
theorem getInfos_record_without_fields :
    getInfos .upstream
        (BitcodeReader.init (streamOf (signature .upstream)
          (block (some .BI_FUNCTION_BLOCK_ID) (record .FUNCTION_IS_METHOD [] ""))))
      = .trap "R[0]" := by
  simp [getInfos, validateStream, validateStream.loop, BitstreamCursor.Read8, signature,
    getInfos.loop, getInfos.body, readBlockToInfo, createInfo, readBlockFuel, streamOf,
    BitcodeReader.init, record,
    readBlockLoop, skipUntilRecordOrBlock, BitstreamCursor.AtEndOfStream,
    BitstreamCursor.ReadCode, BitstreamCursor.ReadSubBlockID, block,
    readBlock, BitstreamCursor.EnterSubBlock, readRecord,
    BitstreamCursor.readRecord, parseRecordFunctionInfo, parsed,
    decodeRecordBool, withField,
    Run.bind,
    BitstreamCursor.ReadBlockEnd, END_BLOCK, ENTER_SUBBLOCK,
    FIRST_APPLICATION_ABBREV, FunctionInfo.empty, SymbolInfo.empty, Info.empty]

/-! ### The location of a symbol in the Asciidoc output -/

/-- C38, as the code has it: `writeLocation` writes the file name of the definition
location when there is one, else the file name of the first declaration location when there
is one; in both cases that is the file name of the location `getLocation` returns.  For a
symbol with neither, `getLocation` returns the object `missing`, and `writeLocation` reads
`loc->Filename` through the null pointer `loc`. -/
theorem writeLocation_without_location (missing : Location) (I : SymbolInfo) (os_ : String) :
    (∀ loc, I.DefLoc = some loc →
      AsciidocGenerator.writeLocation I os_
        = .ret (os_ ++ "\n#include <file:///" ++ loc.Filename ++ "[" ++ loc.Filename ++ "]"
            ++ ">\n")) ∧
    (∀ loc rest, I.DefLoc = none → I.Loc = loc :: rest →
      AsciidocGenerator.writeLocation I os_
        = .ret (os_ ++ "\n#include <file:///" ++ loc.Filename ++ "[" ++ loc.Filename ++ "]"
            ++ ">\n")) ∧
    (I.DefLoc ≠ none ∨ I.Loc ≠ [] →
      AsciidocGenerator.writeLocation I os_
        = .ret (os_ ++ "\n#include <file:///"
            ++ (AsciidocGenerator.getLocation missing I).Filename ++ "["
            ++ (AsciidocGenerator.getLocation missing I).Filename ++ "]" ++ ">\n")) ∧
    (I.DefLoc = none → I.Loc = [] →
      AsciidocGenerator.getLocation missing I = missing ∧
      AsciidocGenerator.writeLocation I os_ = .trap "loc->Filename") := by
  refine ⟨?_, ?_, ?_, ?_⟩
  · intro loc h
    simp [AsciidocGenerator.writeLocation, h]
  · intro loc rest h hl
    simp [AsciidocGenerator.writeLocation, h, hl]
  · intro h
    rcases hD : I.DefLoc with _ | loc
    · rcases hL : I.Loc with _ | ⟨loc, rest⟩
      · rw [hD, hL] at h
        simp at h
      · simp [AsciidocGenerator.writeLocation, AsciidocGenerator.getLocation, hD, hL]
    · simp [AsciidocGenerator.writeLocation, AsciidocGenerator.getLocation, hD]
  · intro h hl
    simp [AsciidocGenerator.writeLocation, AsciidocGenerator.getLocation, h, hl]

/-- C38 at an input: a function block that holds a name record and no location record is
decoded without error, and `writeLocation` on the function reads through the null
pointer. -/
theorem writeLocation_of_function_without_location :
    (match getInfos .upstream
        (BitcodeReader.init (streamOf (signature .upstream)
          (block (some .BI_FUNCTION_BLOCK_ID) (record .FUNCTION_NAME [] "f")))) with
      | .ret (.ok [.functionInfo I], _) =>
          some (AsciidocGenerator.writeLocation I.toSymbolInfo "")
      | _ => none)
      = some (.trap "loc->Filename") := by
  simp [getInfos, validateStream, validateStream.loop, BitstreamCursor.Read8, signature,
    getInfos.loop, getInfos.body, readBlockToInfo, createInfo, readBlockFuel, streamOf,
    BitcodeReader.init, record,
    readBlockLoop, skipUntilRecordOrBlock, BitstreamCursor.AtEndOfStream,
    BitstreamCursor.ReadCode, BitstreamCursor.ReadSubBlockID, block,
    readBlock, BitstreamCursor.EnterSubBlock, readRecord,
    BitstreamCursor.readRecord, parseRecordFunctionInfo, parsed,
    decodeRecordString, withField,
    Run.bind,
    BitstreamCursor.ReadBlockEnd, END_BLOCK, ENTER_SUBBLOCK,
    FIRST_APPLICATION_ABBREV, FunctionInfo.empty, SymbolInfo.empty, Info.empty,
    AsciidocGenerator.writeLocation]

/-! ### The section state of the Asciidoc writer -/

/-- C39: the length of the heading markup is `min(level, 6)`, and the markup is a run of
`=`: this holds in the initial state and is kept by `openTitle` (at level 0, where its
assertion holds), by `openSection` at every level, and by `closeSection` at every level
greater than 0, where it returns; `closeSection` after `openSection` gives back the level
and the markup there were, below and above the cap of six. -/
theorem section_markup_invariant :
    AsciidocGenerator.Section.initial.inv ∧
    (∀ (w : AsciidocGenerator.Writer) name, w.sect_.inv → w.sect_.level = 0 →
      ∃ w1, w.openTitle name = .ret w1 ∧ w1.sect_.inv ∧ w1.sect_ = ⟨1, "="⟩) ∧
    (∀ (w : AsciidocGenerator.Writer) name, w.sect_.inv →
      (w.openSection name).sect_.inv ∧ (w.openSection name).sect_.level = w.sect_.level + 1) ∧
    (∀ (w : AsciidocGenerator.Writer), w.sect_.inv → w.sect_.level > 0 →
      ∃ w1, w.closeSection = .ret w1 ∧ w1.sect_.inv ∧ w1.sect_.level = w.sect_.level - 1 ∧
        w1.os_ = w.os_) ∧
    (∀ (w : AsciidocGenerator.Writer) name, w.sect_.inv →
      (w.openSection name).closeSection
        = .ret { w.openSection name with sect_ := w.sect_ }) := by
  have hlen : ∀ (m : String) (c : Char), ((m.push c).length : Int) = (m.length : Int) + 1 := by
    intro m c
    simp [String.length_push]
  have hpop : ∀ (m : String) (c : Char), popBack (m.push c) = m := by
    intro m c
    simp [popBack, String.push]
  have hpoplen : ∀ (m : String), (popBack m).length = m.length - 1 := by
    intro m
    show m.data.dropLast.length = m.data.length - 1
    exact List.length_dropLast _
  have hdata : ∀ (m : String) (c : Char), (∀ x ∈ m.data, x = '=') →
      ∀ x ∈ (if c = '=' then m.push c else m).data, x = '=' := by
    intro m c hm x hx
    split at hx
    · rename_i hc
      simp only [String.push, List.mem_append, List.mem_singleton] at hx
      rcases hx with hx | hx
      · exact hm x hx
      · rw [hx, hc]
    · exact hm x hx
  refine ⟨?_, ?_, ?_, ?_, ?_⟩
  · exact ⟨by decide, by intro c hc; cases hc⟩
  · intro w name hinv h0
    obtain ⟨h1, h2⟩ := hinv
    have hm : w.sect_.markup = "" := by
      have : w.sect_.markup.length = 0 := by rw [h0] at h1; simpa using h1
      exact String.ext (List.length_eq_zero.mp this)
    refine ⟨⟨⟨1, "="⟩, w.os_ ++ "=" ++ " " ++ name ++ "\n"⟩, ?_, ?_, rfl⟩
    · simp only [AsciidocGenerator.Writer.openTitle, h0, hm]
      rfl
    · constructor
      · show (("=" : String).length : Int) = min 1 6
        decide
      · intro c hc
        simpa using hc
  · intro w name hinv
    obtain ⟨h1, h2⟩ := hinv
    refine ⟨?_, rfl⟩
    unfold AsciidocGenerator.Writer.openSection AsciidocGenerator.Section.inv
    dsimp only
    split
    · rename_i h6
      refine ⟨?_, ?_⟩
      · rw [hlen, h1]; omega
      · exact hdata _ '=' h2 |> fun h => by simpa using h
    · rename_i h6
      exact ⟨by rw [h1]; omega, h2⟩
  · intro w hinv hpos
    obtain ⟨h1, h2⟩ := hinv
    unfold AsciidocGenerator.Writer.closeSection
    rw [if_neg (by simpa using hpos)]
    split
    · rename_i h6
      have hl : w.sect_.markup.length ≠ 0 := by omega
      rw [if_neg hl]
      refine ⟨_, rfl, ⟨?_, ?_⟩, rfl, rfl⟩
      · show ((popBack w.sect_.markup).length : Int) = min (w.sect_.level - 1) 6
        rw [hpoplen]
        omega
      · intro c hc
        exact h2 c (List.dropLast_subset _ hc)
    · rename_i h6
      exact ⟨_, rfl, ⟨by dsimp only; omega, h2⟩, rfl, rfl⟩
  · intro w name hinv
    obtain ⟨h1, h2⟩ := hinv
    have h0 : 0 ≤ w.sect_.level := by omega
    unfold AsciidocGenerator.Writer.closeSection AsciidocGenerator.Writer.openSection
    dsimp only
    rw [if_neg (by simp; omega)]
    by_cases h6 : w.sect_.level + 1 ≤ 6
    · rw [if_pos h6, if_pos h6, if_neg (by simp [String.length_push]), hpop]
      simp
    · rw [if_neg h6, if_neg h6]
      simp

/-! ### The relation kind of a reference -/

/-- The relation kind left by two runs of items is the one the second leaves, given what
the first left. -/
theorem lastReferenceField_append (K : BitCodeConstants) :
    ∀ (a b : List Item) (F : Option FieldId),
      lastReferenceField K (a ++ b) F = lastReferenceField K b (lastReferenceField K a F) := by
  intro a
  induction a with
  | nil => intro b F; rfl
  | cons it a ih =>
    intro b F
    cases it with
    | record Code R Blob =>
      cases Code with
      | none => exact ih b F
      | some Code =>
        cases Code <;> first
          | exact ih b F
          | (show (match decodeRecordFieldId K R (F.getD .F_default) Blob with
                | .ret (none, v) => lastReferenceField K (a ++ b) (some v)
                | _ => lastReferenceField K (a ++ b) F)
              = lastReferenceField K b
                  (match decodeRecordFieldId K R (F.getD .F_default) Blob with
                    | .ret (none, v) => lastReferenceField K a (some v)
                    | _ => lastReferenceField K a F)
             split <;> exact ih b _)
    | _ => exact ih b F

/-- Items without a relation-kind record leave the relation kind as it is. -/
theorem lastReferenceField_of_none (K : BitCodeConstants) :
    ∀ (a : List Item) (F : Option FieldId),
      (∀ R Blob, Item.record (some .REFERENCE_FIELD) R Blob ∉ a) →
      lastReferenceField K a F = F := by
  intro a
  induction a with
  | nil => intro F _; rfl
  | cons it a ih =>
    intro F h
    have h1 : ∀ R Blob, Item.record (some .REFERENCE_FIELD) R Blob ∉ a :=
      fun R Blob hm => h R Blob (List.mem_cons_of_mem _ hm)
    cases it with
    | record Code R Blob =>
      cases Code with
      | none => exact ih F h1
      | some Code =>
        cases Code <;> first
          | exact ih F h1
          | exact absurd (List.mem_cons_self _ _) (h R Blob)
    | _ => exact ih F h1
/-- A record that a reference accepts leaves the relation kind that the record, as an item
of the stream, is said to leave. -/
theorem parseRecordReference_field (K : BitCodeConstants) (R : Record) (ID : Option RecordId)
    (Blob : Blob) (I I1 : Reference) (F F1 : Option FieldId)
    (h : parseRecordReference K R ID Blob I F = .ret (none, I1, F1)) :
    F1 = lastReferenceField K [Item.record ID R Blob] F := by
  unfold parseRecordReference at h
  split at h
  case h_5 =>
    obtain ⟨p, hp, hk⟩ := Run.bind_eq_ret h
    obtain ⟨e, v⟩ := p
    cases e with
    | some err => simp at hk
    | none =>
      simp only [Run.ret.injEq, Prod.mk.injEq, true_and] at hk
      simp only [lastReferenceField, hp]
      exact hk.2.symm
  case h_6 =>
    rename_i hne1 hne2 hne3 hne4 hne5
    simp at h
  all_goals
    obtain ⟨p, hp, hk⟩ := Run.bind_eq_ret h
    simp only [Run.ret.injEq, Prod.mk.injEq] at hk
    rw [← hk.2.2]
    rfl

/-! ### The blocks of a stream -/

/-- An item that is no code is stepped over. -/
theorem afterBlockEnd_skip (it : Item) (l : List Item) (d : Nat)
    (h : ∀ c, it ≠ Item.code c) : afterBlockEnd (it :: l) (d + 1) = afterBlockEnd l (d + 1) := by
  cases it with
  | code c => exact absurd rfl (h c)
  | _ => rfl

/-- `readRecord` reads one record item when it succeeds. -/
theorem readRecord_items (K : BitCodeConstants) (ID : Nat) (I I1 : Object)
    (rd rd1 : BitcodeReader) (e : Option Error)
    (h : readRecord K ID I rd = .ret (e, I1, rd1)) (he : e = none) :
    ∃ Code R Blob, rd.Stream.Items = Item.record Code R Blob :: rd1.Stream.Items := by
  unfold readRecord at h
  split at h
  · subst he; simp at h
  · rename_i Code R Blob S heq
    have hS : rd.Stream.Items = Item.record Code R Blob :: S.Items := by
      unfold BitstreamCursor.readRecord at heq
      split at heq
      · rename_i h1
        cases heq
        exact h1
      · cases heq
    have key : rd1.Stream = S := by
      cases I <;> simp only at h
      case versionNo v =>
        obtain ⟨a, _, h2⟩ := Run.bind_eq_ret h
        cases h2; rfl
      case reference I =>
        obtain ⟨a, _, h2⟩ := Run.bind_eq_ret h
        cases h2; rfl
      case javadoc => cases h; rfl
      case currentNodeList =>
        split at h
        · cases h
        · obtain ⟨a, _, h2⟩ := Run.bind_eq_ret h
          cases h2; rfl
      case nodeList =>
        split at h
        · cases h
        · obtain ⟨a, _, h2⟩ := Run.bind_eq_ret h
          cases h2; rfl
      all_goals
        have hp := parsed_eq_ret h
        simp at hp
        rw [hp]
    rw [key]
    exact ⟨Code, R, Blob, hS⟩

/-- `skipUntilRecordOrBlock` and the blocks of the stream: behind the code of a record the
same blocks are open, behind the id of a block one more, behind an `END_BLOCK` one less. -/
theorem skipUntilRecordOrBlock_afterBlockEnd (m : Nat) :
    ∀ (S S1 : BitstreamCursor) (c : Cursor), skipUntilRecordOrBlock m S = .ret (c, S1) →
      ∀ d, match c with
        | .BadBlock => True
        | .Record _ => afterBlockEnd S.Items (d + 1) = afterBlockEnd S1.Items (d + 1)
        | .BlockBegin _ => afterBlockEnd S.Items (d + 1) = afterBlockEnd S1.Items (d + 2)
        | .BlockEnd => afterBlockEnd S.Items (d + 1) = afterBlockEnd S1.Items d := by
  induction m with
  | zero => intro S S1 c h; simp [skipUntilRecordOrBlock] at h
  | succ m ih =>
    intro S S1 c h d
    rw [skipUntilRecordOrBlock] at h
    split at h
    · cases h
    · rcases S with ⟨Lead, Items, Scope⟩
      cases Items with
      | nil => simp [BitstreamCursor.ReadCode] at h; obtain ⟨h1, h2⟩ := h; subst h1; trivial
      | cons it rest =>
        cases it with
        | code code =>
          simp only [BitstreamCursor.ReadCode] at h
          split at h
          · rename_i h4
            simp only [Run.ret.injEq, Prod.mk.injEq] at h
            obtain ⟨h1, h2⟩ := h
            subst h1 h2
            have e0 : code ≠ END_BLOCK := by
              intro e; rw [e] at h4; exact absurd h4 (by decide)
            have e1 : code ≠ ENTER_SUBBLOCK := by
              intro e; rw [e] at h4; exact absurd h4 (by decide)
            simp only [afterBlockEnd, if_neg e0, if_neg e1]
          · split at h
            · rename_i h1
              subst h1
              cases rest with
              | nil =>
                simp only [BitstreamCursor.ReadSubBlockID, Run.ret.injEq, Prod.mk.injEq] at h
                obtain ⟨h1, h2⟩ := h
                subst h1 h2
                simp only [afterBlockEnd, if_neg (show ENTER_SUBBLOCK ≠ END_BLOCK by decide),
                  if_true]
              | cons it2 rest2 =>
                cases it2 <;>
                  simp only [BitstreamCursor.ReadSubBlockID, Run.ret.injEq, Prod.mk.injEq] at h <;>
                  obtain ⟨h1, h2⟩ := h <;> subst h1 h2 <;>
                  simp only [afterBlockEnd, if_neg (show ENTER_SUBBLOCK ≠ END_BLOCK by decide),
                    if_true]
            · split at h
              · rename_i h0
                subst h0
                simp only [BitstreamCursor.ReadBlockEnd] at h
                split at h
                · simp only [if_true, Run.ret.injEq, Prod.mk.injEq] at h
                  obtain ⟨h1, h2⟩ := h
                  subst h1
                  trivial
                · simp only [if_false, Bool.false_eq_true, Run.ret.injEq, Prod.mk.injEq] at h
                  obtain ⟨h1, h2⟩ := h
                  subst h1 h2
                  simp only [afterBlockEnd, if_true]
              · rename_i h1 h0
                have hstep : afterBlockEnd (Item.code code :: rest) (d + 1)
                    = afterBlockEnd rest (d + 1) := by
                  simp only [afterBlockEnd, if_neg h0, if_neg h1]
                split at h
                · cases rest with
                  | nil =>
                    simp only [BitstreamCursor.ReadAbbrevRecord] at h
                    have := ih _ _ _ h d
                    cases c <;> first | trivial | (simp only at this ⊢; rw [hstep]; exact this)
                  | cons it2 rest2 =>
                    cases it2 <;> simp only [BitstreamCursor.ReadAbbrevRecord] at h <;>
                      have := ih _ _ _ h d <;>
                      cases c <;> first
                        | trivial
                        | (simp only at this ⊢; rw [hstep]; exact this)
                · simp only [Run.ret.injEq, Prod.mk.injEq] at h
                  obtain ⟨h1, h2⟩ := h
                  subst h1
                  trivial
        | _ =>
          simp only [BitstreamCursor.ReadCode, Run.ret.injEq, Prod.mk.injEq] at h
          obtain ⟨h1, h2⟩ := h
          subst h1
          trivial
/-- A `readSubBlock` that succeeds has called `readBlock` on the stream it was given, with
success, and returns the stream as that call left it. -/
theorem readSubBlock_inner (K : BitCodeConstants) (n : Nat) :
    ∀ ID I rd I1 rd1, readSubBlock K (n + 1) ID I rd = .ret (none, I1, rd1) →
      ∃ c rdin c1 rdm, rdin.Stream = rd.Stream ∧
        readBlock K n ID c rdin = .ret (none, c1, rdm) ∧ rdm.Stream = rd1.Stream := by
  intro ID I rd I1 rd1 h
  unfold readSubBlock at h
  split at h
  · -- JAVADOC
    split at h
    · cases h
    · split at h
      · cases h
      · obtain ⟨r, hr, hk⟩ := Run.bind_eq_ret h
        obtain ⟨e0, c, rdm⟩ := r
        split at hk <;> cases hk <;> (refine ⟨_, _, _, _, ?_, hr, ?_⟩ <;> rfl)
  · -- JAVADOC_LIST
    split at h
    · cases h
    · obtain ⟨r, hr, hk⟩ := Run.bind_eq_ret h
      obtain ⟨e0, c, rdm⟩ := r
      cases e0 <;>
        repeat' (first | (cases hk) | (dsimp only at hk) | (split at hk) | (replace hk := Run.bind_eq_ret hk; obtain ⟨_, _, hk⟩ := hk))
      all_goals (refine ⟨_, _, _, _, ?_, hr, ?_⟩ <;> rfl)
  · -- JAVADOC_NODE
    split at h <;>
    · obtain ⟨r, hr, hk⟩ := Run.bind_eq_ret h
      obtain ⟨e0, c, rdm⟩ := r
      cases e0 <;>
        repeat' (first | (cases hk) | (dsimp only at hk) | (split at hk) | (replace hk := Run.bind_eq_ret hk; obtain ⟨_, _, hk⟩ := hk))
      all_goals (refine ⟨_, _, _, _, ?_, hr, ?_⟩ <;> rfl)
  case h_15 => cases h
  all_goals
    obtain ⟨r, hr, hk⟩ := Run.bind_eq_ret h
    obtain ⟨e0, c, rdm⟩ := r
    cases e0 <;>
      repeat' (first | (cases hk) | (dsimp only at hk) | (split at hk) | (replace hk := Run.bind_eq_ret hk; obtain ⟨_, _, hk⟩ := hk))
    all_goals (refine ⟨_, _, _, _, ?_, hr, ?_⟩ <;> rfl)

/-- The codes of what a reader function reads with success are balanced: `readBlock` and
`readSubBlock` start at the header of a block, the loop of `readBlock` inside a block, and
all three stop behind the `END_BLOCK` that closes that block. -/
theorem reader_afterBlockEnd (K : BitCodeConstants) (n : Nat) :
    (∀ ID I rd I1 rd1, readBlock K n ID I rd = .ret (none, I1, rd1) →
      ∃ L r, rd.Stream.Items = Item.blockLen L :: r ∧
        ∀ d, afterBlockEnd r (d + 1) = afterBlockEnd rd1.Stream.Items d) ∧
    (∀ I rd I1 rd1, readBlockLoop K n I rd = .ret (none, I1, rd1) →
      ∀ d, afterBlockEnd rd.Stream.Items (d + 1) = afterBlockEnd rd1.Stream.Items d) ∧
    (∀ ID I rd I1 rd1, readSubBlock K n ID I rd = .ret (none, I1, rd1) →
      ∃ L r, rd.Stream.Items = Item.blockLen L :: r ∧
        ∀ d, afterBlockEnd r (d + 1) = afterBlockEnd rd1.Stream.Items d) := by
  induction n with
  | zero =>
    refine ⟨?_, ?_, ?_⟩
    · intro ID I rd I1 rd1 h; simp [readBlock] at h
    · intro I rd I1 rd1 h; simp [readBlockLoop] at h
    · intro ID I rd I1 rd1 h; simp [readSubBlock] at h
  | succ n ih =>
    obtain ⟨ihB, ihL, ihS⟩ := ih
    refine ⟨?_, ?_, ?_⟩
    · intro ID I rd I1 rd1 h
      unfold readBlock at h
      split at h
      · cases h
      · rename_i S hS
        have h2 := ihL _ _ _ _ h
        unfold BitstreamCursor.EnterSubBlock at hS
        split at hS
        · rename_i L r hI
          split at hS
          · cases hS
          · cases hS
            exact ⟨L, r, hI, h2⟩
        · cases hS
    · intro I rd I1 rd1 h
      unfold readBlockLoop at h
      obtain ⟨Res, hRes, hk⟩ := Run.bind_eq_ret h
      clear h
      obtain ⟨c, S⟩ := Res
      have hs := skipUntilRecordOrBlock_afterBlockEnd _ _ _ _ hRes
      intro d
      cases c with
      | BadBlock => cases hk
      | BlockEnd =>
        cases hk
        exact hs d
      | BlockBegin ID =>
        dsimp only at hk
        obtain ⟨r, hr, hk2⟩ := Run.bind_eq_ret hk
        obtain ⟨e0, I2, rd2⟩ := r
        cases e0 with
        | some Err =>
          dsimp only at hk2
          split at hk2 <;> cases hk2
        | none =>
          dsimp only at hk2
          obtain ⟨L, r, hI, h2⟩ := ihS _ _ _ _ _ hr
          have h3 := ihL _ _ _ _ hk2 d
          have h4 := hs d
          dsimp only at h4 hI
          rw [h4, hI, afterBlockEnd_skip _ _ _ (by intro c hc; cases hc), h2 (d + 1), h3]
      | Record Code =>
        dsimp only at hk
        obtain ⟨r, hr, hk2⟩ := Run.bind_eq_ret hk
        obtain ⟨e0, I2, rd2⟩ := r
        cases e0 with
        | some Err => cases hk2
        | none =>
          dsimp only at hk2
          obtain ⟨Code, R, Blob, hI⟩ := readRecord_items _ _ _ _ _ _ _ hr rfl
          have h3 := ihL _ _ _ _ hk2 d
          have h4 := hs d
          dsimp only at h4 hI
          rw [h4, hI, afterBlockEnd_skip _ _ _ (by intro c hc; cases hc), h3]
    · intro ID I rd I1 rd1 h
      obtain ⟨c, rdin, c1, rdm, e1, hr, e2⟩ := readSubBlock_inner K n _ _ _ _ _ h
      obtain ⟨L, r, hI, h2⟩ := ihB _ _ _ _ _ hr
      rw [e1] at hI
      rw [e2] at h2
      exact ⟨L, r, hI, h2⟩
/-- With no block open the items are behind the end. -/
theorem afterBlockEnd_zero (l : List Item) : afterBlockEnd l 0 = some l := by
  cases l with
  | nil => rfl
  | cons it l => cases it <;> rfl

/-- `SkipBlock` leaves the cursor, whether it fails or not, where a block that is skipped is
said to end. -/
theorem SkipBlock_behind (S : BitstreamCursor) :
    (match S.SkipBlock with
      | .error (_, S3) => S3.Items
      | .ok S3 => S3.Items)
      = (match S.Items with
          | .blockLen NumWords :: r => if NumWords ≤ r.length then r.drop NumWords else r
          | _ => S.Items) := by
  rcases S with ⟨Lead, Items, Scope⟩
  cases Items with
  | nil => rfl
  | cons it r =>
    cases it with
    | blockLen NumWords =>
      simp only [BitstreamCursor.SkipBlock]
      by_cases h1 : (Lead.isEmpty && r.isEmpty) = true
      · rw [if_pos h1]
        have hr : r = [] := by
          simp only [Bool.and_eq_true, List.isEmpty_iff] at h1
          exact h1.2
        subst hr
        by_cases h2 : NumWords ≤ ([] : List Item).length
        · simp [h2]
        · simp [h2]
      · rw [if_neg h1]
        by_cases h2 : NumWords > r.length
        · rw [if_pos h2, if_neg (by omega)]
        · rw [if_neg h2, if_pos (by omega)]
    | _ => rfl

/-- A turn of the loop of `getInfos` that ends with `continue` has read the header of a
top-level block and stands behind that block; for an id of an entity block the list has one
more element, an entity of the class of the id, and for any other id the list is the same. -/
theorem getInfos_body_block {K : BitCodeConstants} {rd rd1 : BitcodeReader}
    {Infos Infos1 : List Object} (h : getInfos.body K rd Infos = .ret (.next rd1 Infos1)) :
    ∃ ID rest, rd.Stream.Items = Item.code ENTER_SUBBLOCK :: Item.blockID ID :: rest ∧
      rd1.Stream.Items = behindBlock ID rest ∧
      (entityBlock ID = true → ∃ I, Infos1 = Infos ++ [I] ∧ classOfBlock I ID) ∧
      (entityBlock ID = false → Infos1 = Infos) := by
  obtain ⟨c0, S10, ID0, S20, e1, e2, h3, h4⟩ := getInfos_body_next h
  unfold getInfos.body at h
  split at h
  · cases h
  · rename_i c S1 hS1
    split at h
    · cases h
    · rename_i hc
      split at h
      · cases h
      · rename_i ID S2 hS2
        have hI : rd.Stream.Items = Item.code ENTER_SUBBLOCK :: Item.blockID ID :: S2.Items := by
          unfold BitstreamCursor.ReadCode at hS1
          split at hS1
          · rename_i c1 r1 hr1
            cases hS1
            unfold BitstreamCursor.ReadSubBlockID at hS2
            split at hS2
            · rename_i ID1 r2 hr2
              cases hS2
              dsimp only at hr2
              rw [hr1, hr2]
              simp only [ne_eq, Decidable.not_not] at hc
              rw [hc]
            · cases hS2
          · cases hS1
        have hID : ID0 = ID := by
          rw [hS1] at e1
          cases e1
          rw [hS2] at e2
          cases e2
          rfl
        rw [hID] at h3 h4
        clear e1 e2 hID
        refine ⟨ID, S2.Items, hI, ?_, h3, h4⟩
        clear h3 h4 hI
        dsimp only at h
        split at h
        all_goals first
          | (cases h; done)
          | (obtain ⟨a, ha, hk⟩ := Run.bind_eq_ret h
             obtain ⟨r, rd3⟩ := a
             cases r with
             | error err => cases hk
             | ok I =>
               cases hk
               unfold readBlockToInfo createInfo at ha
               obtain ⟨b, hb, hk2⟩ := Run.bind_eq_ret ha
               obtain ⟨e0, I2, rd4⟩ := b
               cases e0 with
               | some Err => cases hk2
               | none =>
                 cases hk2
                 obtain ⟨L, r, hI2, h2⟩ := (reader_afterBlockEnd K _).1 _ _ _ _ _ hb
                 dsimp only at hI2
                 simp only [behindBlock, hI2, h2 0, afterBlockEnd_zero, Option.getD_some])
          | (obtain ⟨a, ha, hk⟩ := Run.bind_eq_ret h
             obtain ⟨e0, I2, rd3⟩ := a
             cases e0 <;> cases hk
             obtain ⟨L, r, hI2, h2⟩ := (reader_afterBlockEnd K _).1 _ _ _ _ _ ha
             dsimp only at hI2
             simp only [behindBlock, hI2, h2 0, afterBlockEnd_zero, Option.getD_some])
          | (split at h
             · cases h
             · rename_i rd3 hb
               cases h
               unfold readBlockInfoBlock at hb
               split at hb
               · cases hb
               · rename_i valid S hS
                 unfold BitstreamCursor.ReadBlockInfoBlock at hS
                 split at hS
                 · rename_i v r hr
                   cases hS
                   dsimp only at hr
                   split at hb <;> cases hb
                   simp only [behindBlock, hr]
                 · cases hS)
          | (have hs := SkipBlock_behind S2
             have hb : behindBlock ID S2.Items
                 = (match S2.Items with
                     | .blockLen NumWords :: r =>
                       if NumWords ≤ r.length then r.drop NumWords else r
                     | _ => S2.Items) := by
               rcases ID with _ | ID
               · rfl
               · cases ID <;> first | rfl | (exfalso; simp_all)
             rw [hb, ← hs]
             split at h <;> cases h <;> simp_all)
/-- The loop of `validateStream` reads bytes of the head of the stream only. -/
theorem validateStream_loop_items (K : BitCodeConstants) :
    ∀ (l : List (Fin 4)) (S : BitstreamCursor),
      (validateStream.loop K l S).2.Items = S.Items := by
  intro l
  induction l with
  | nil => intro S; rfl
  | cons i l ih =>
    intro S
    unfold validateStream.loop
    rcases S with ⟨Lead, Items, Scope⟩
    cases Lead with
    | nil => rfl
    | cons b Lead =>
      simp only [BitstreamCursor.Read8]
      split
      · rfl
      · exact ih _

/-- `validateStream` leaves the items of the stream as they are. -/
theorem validateStream_items (K : BitCodeConstants) (rd : BitcodeReader) :
    (validateStream K rd).2.Stream.Items = rd.Stream.Items := by
  unfold validateStream
  split
  · rfl
  · exact validateStream_loop_items K _ _

/-- The entities the loop of `getInfos` returns: those it was given, and after them one
for each entity block among the top-level blocks of the items it starts with, in their order
and of their class. -/
theorem getInfos_loop_blocks (K : BitCodeConstants) :
    ∀ (n m : Nat) (rd rd1 : BitcodeReader) (Infos L : List Object),
      rd.Stream.Items.length ≤ m →
      getInfos.loop K n rd Infos = .ret (.ok L, rd1) →
        ∃ L1, L = Infos ++ L1 ∧
          List.Forall₂ classOfBlock L1
            ((topLevelBlocks.go m rd.Stream.Items).filter entityBlock) := by
  intro n
  induction n with
  | zero => intro m rd rd1 Infos L _ h; simp [getInfos.loop] at h
  | succ n ih =>
    intro m rd rd1 Infos L hm h
    unfold getInfos.loop at h
    split at h
    · rename_i hend
      cases h
      have hI : rd.Stream.Items = [] := by
        simp only [BitstreamCursor.AtEndOfStream, Bool.and_eq_true, List.isEmpty_iff] at hend
        exact hend.2
      refine ⟨[], by simp, ?_⟩
      rw [hI]
      cases m <;> simp [topLevelBlocks.go]
    · obtain ⟨t, ht, hk⟩ := Run.bind_eq_ret h
      cases t with
      | done r rd2 =>
        obtain ⟨err, he⟩ := getInfos_body_done ht
        subst he
        cases hk
      | next rd2 Infos2 =>
        dsimp only at hk
        obtain ⟨ID, rest, hI, hb, h3, h4⟩ := getInfos_body_block ht
        have hlen := getInfos_body_advanced ht
        rw [hI] at hm
        simp only [List.length_cons] at hm
        obtain ⟨m1, rfl⟩ : ∃ m1, m = m1 + 1 := ⟨m - 1, by omega⟩
        have hm2 : rd2.Stream.Items.length ≤ m1 := by
          rw [hI] at hlen
          simp only [List.length_cons] at hlen
          omega
        obtain ⟨L2, hL2, hF⟩ := ih m1 _ _ _ _ hm2 hk
        rw [hb] at hF
        rw [hI]
        simp only [topLevelBlocks.go, if_true]
        cases hID : entityBlock ID with
        | true =>
          obtain ⟨I, hI1, hc⟩ := h3 hID
          refine ⟨I :: L2, by rw [hL2, hI1]; simp, ?_⟩
          rw [List.filter_cons_of_pos hID]
          exact List.Forall₂.cons hc hF
        | false =>
          have hI1 := h4 hID
          refine ⟨L2, by rw [hL2, hI1], ?_⟩
          rw [List.filter_cons_of_neg (by simp [hID])]
          exact hF

/-- C28: when `getInfos` succeeds, the list it returns has one entity for each entity block
among the top-level blocks of the stream, in the order of the blocks, and the entity is of
the class of the block's id; the other top-level blocks add nothing to the list.  The
top-level blocks are those of the items of the stream as `topLevelBlocks` lists them, and
the streams include those with a block that `SkipBlock` fails on. -/
theorem getInfos_entities (K : BitCodeConstants) (rd0 rd1 : BitcodeReader) (L : List Object)
    (h : getInfos K rd0 = .ret (.ok L, rd1)) :
    List.Forall₂ classOfBlock L ((topLevelBlocks rd0.Stream.Items).filter entityBlock) := by
  unfold getInfos at h
  split at h
  · cases h
  · rename_i rd2 hv
    have hI := validateStream_items K rd0
    rw [hv] at hI
    dsimp only at hI
    obtain ⟨L1, hL1, hF⟩ := getInfos_loop_blocks K _ rd2.Stream.Items.length _ _ _ _
      (Nat.le_refl _) h
    simp only [List.nil_append] at hL1
    subst hL1
    rw [hI] at hF
    exact hF
theorem getInfos_entities_witness :
    topLevelBlocks
        ([.code ENTER_SUBBLOCK, .blockID none, .blockLen 100] ++
          block (some .BI_FUNCTION_BLOCK_ID) [])
      = [none, some .BI_FUNCTION_BLOCK_ID] ∧
    List.Forall₂ classOfBlock
      [.functionInfo (FunctionInfo.empty .upstream)]
      ((topLevelBlocks
        (BitcodeReader.init (streamOf (signature .upstream)
          ([.code ENTER_SUBBLOCK, .blockID none, .blockLen 100] ++
            block (some .BI_FUNCTION_BLOCK_ID) []))).Stream.Items).filter entityBlock) :=
  have h : getInfos .upstream
        (BitcodeReader.init (streamOf (signature .upstream)
          ([.code ENTER_SUBBLOCK, .blockID none, .blockLen 100] ++
            block (some .BI_FUNCTION_BLOCK_ID) []))) =
        .ret (.ok [.functionInfo (FunctionInfo.empty .upstream)],
          BitcodeReader.init ⟨[], [], 0⟩) := by
    simp [getInfos, validateStream, validateStream.loop, BitstreamCursor.Read8, signature,
      getInfos.loop, getInfos.body, readBlockToInfo, createInfo, readBlockFuel, streamOf,
      BitcodeReader.init, record, readBlockLoop, skipUntilRecordOrBlock,
      BitstreamCursor.AtEndOfStream, BitstreamCursor.ReadCode,
      BitstreamCursor.ReadSubBlockID, block, readBlock, BitstreamCursor.EnterSubBlock,
      BitstreamCursor.SkipBlock, Run.bind,
      BitstreamCursor.ReadBlockEnd, END_BLOCK, ENTER_SUBBLOCK, FIRST_APPLICATION_ABBREV]
  ⟨by simp [topLevelBlocks, topLevelBlocks.go, behindBlock, block, afterBlockEnd,
      ENTER_SUBBLOCK, END_BLOCK],
    getInfos_entities _ _ _ _ h⟩

/-! ### What a reader function reads decides what it returns -/

/-- `skipUntilRecordOrBlock` that stops at a record, at a block whose id it has read, or at
the end of a block: it has read at least one item, and it returns the same from every
stream that starts with the items it has read. -/
theorem skipUntilRecordOrBlock_frame (m : Nat) :
    ∀ (S S1 : BitstreamCursor) (c : Cursor), skipUntilRecordOrBlock m S = .ret (c, S1) →
      c ≠ .BadBlock → c ≠ .BlockBegin (some .BLOCKINFO_BLOCK_ID) →
      ∃ used, used ≠ [] ∧ S.Items = used ++ S1.Items ∧
        ∀ z, skipUntilRecordOrBlock m { S with Items := used ++ z }
          = .ret (c, { S1 with Items := z }) := by
  induction m with
  | zero => intro S S1 c h; simp [skipUntilRecordOrBlock] at h
  | succ m ih =>
    intro S S1 c h hc hb
    rw [skipUntilRecordOrBlock] at h
    split at h
    · cases h
    · rcases S with ⟨Lead, Items, Scope⟩
      cases Items with
      | nil =>
        simp only [BitstreamCursor.ReadCode, Run.ret.injEq, Prod.mk.injEq] at h
        exact absurd h.1.symm hc
      | cons it rest =>
        cases it with
        | code code =>
          simp only [BitstreamCursor.ReadCode] at h
          split at h
          · rename_i h4
            simp only [Run.ret.injEq, Prod.mk.injEq] at h
            obtain ⟨h1, h2⟩ := h
            subst h1 h2
            refine ⟨[Item.code code], by simp, rfl, fun z => ?_⟩
            rw [skipUntilRecordOrBlock]
            simp [BitstreamCursor.AtEndOfStream, BitstreamCursor.ReadCode, h4]
          · rename_i h4
            split at h
            · rename_i h1
              subst h1
              cases rest with
              | nil =>
                simp only [BitstreamCursor.ReadSubBlockID, Run.ret.injEq, Prod.mk.injEq] at h
                exact absurd h.1.symm hb
              | cons it2 rest2 =>
                cases it2 with
                | blockID ID =>
                  simp only [BitstreamCursor.ReadSubBlockID, Run.ret.injEq, Prod.mk.injEq] at h
                  obtain ⟨h1, h2⟩ := h
                  subst h1 h2
                  refine ⟨[Item.code ENTER_SUBBLOCK, Item.blockID ID], by simp, rfl,
                    fun z => ?_⟩
                  rw [skipUntilRecordOrBlock]
                  simp [BitstreamCursor.AtEndOfStream, BitstreamCursor.ReadCode, h4,
                    BitstreamCursor.ReadSubBlockID]
                | _ =>
                  simp only [BitstreamCursor.ReadSubBlockID, Run.ret.injEq, Prod.mk.injEq] at h
                  exact absurd h.1.symm hb
            · rename_i h1
              split at h
              · rename_i h0
                subst h0
                simp only [BitstreamCursor.ReadBlockEnd] at h
                split at h
                · simp only [if_true, Run.ret.injEq, Prod.mk.injEq] at h
                  exact absurd h.1.symm hc
                · rename_i hs
                  simp only [if_false, Bool.false_eq_true, Run.ret.injEq, Prod.mk.injEq] at h
                  obtain ⟨h2, h3⟩ := h
                  subst h2 h3
                  refine ⟨[Item.code END_BLOCK], by simp, rfl, fun z => ?_⟩
                  rw [skipUntilRecordOrBlock]
                  simp [BitstreamCursor.AtEndOfStream, BitstreamCursor.ReadCode, h4, h1,
                    BitstreamCursor.ReadBlockEnd, hs]
              · rename_i h0
                split at h
                · rename_i h2
                  cases rest with
                  | nil =>
                    simp only [BitstreamCursor.ReadAbbrevRecord] at h
                    obtain ⟨used, hne, hI, hf⟩ := ih _ _ _ h hc hb
                    dsimp only at hI
                    exact absurd hI.symm (by simp [hne])
                  | cons it2 rest2 =>
                    cases it2 with
                    | abbrevDef =>
                      simp only [BitstreamCursor.ReadAbbrevRecord] at h
                      obtain ⟨used, hne, hI, hf⟩ := ih _ _ _ h hc hb
                      dsimp only at hI
                      refine ⟨Item.code code :: Item.abbrevDef :: used, by simp, ?_, fun z => ?_⟩
                      · simp [hI]
                      · rw [skipUntilRecordOrBlock]
                        simp only [BitstreamCursor.AtEndOfStream, BitstreamCursor.ReadCode,
                          List.cons_append, List.isEmpty_cons, Bool.and_false,
                          Bool.false_eq_true, if_false, if_neg h4, if_neg h1, if_neg h0,
                          if_pos h2, BitstreamCursor.ReadAbbrevRecord]
                        exact hf z
                    | _ =>
                      simp only [BitstreamCursor.ReadAbbrevRecord] at h
                      obtain ⟨used, hne, hI, hf⟩ := ih _ _ _ h hc hb
                      dsimp only at hI
                      refine ⟨Item.code code :: used, by simp, by simp [hI], fun z => ?_⟩
                      cases used with
                      | nil => exact absurd rfl hne
                      | cons u0 used1 =>
                        simp only [List.cons_append, List.cons.injEq] at hI
                        obtain ⟨hu0, hI1⟩ := hI
                        subst hu0
                        rw [skipUntilRecordOrBlock]
                        simp only [BitstreamCursor.AtEndOfStream, BitstreamCursor.ReadCode,
                          List.cons_append, List.isEmpty_cons, Bool.and_false,
                          Bool.false_eq_true, if_false, if_neg h4, if_neg h1, if_neg h0,
                          if_pos h2, BitstreamCursor.ReadAbbrevRecord]
                        exact hf z
                · simp only [Run.ret.injEq, Prod.mk.injEq] at h
                  exact absurd h.1.symm hc
        | _ =>
          simp only [BitstreamCursor.ReadCode, Run.ret.injEq, Prod.mk.injEq] at h
          exact absurd h.1.symm hc
/-- `readRecord` that succeeds has read one item, and returns the same from every stream
that starts with that item. -/
theorem readRecord_frame (K : BitCodeConstants) (ID : Nat) (I I1 : Object)
    (rd rd1 : BitcodeReader) (h : readRecord K ID I rd = .ret (none, I1, rd1)) :
    ∃ it, rd.Stream.Items = it :: rd1.Stream.Items ∧
      ∀ z, readRecord K ID I (rd.seek (it :: z)) = .ret (none, I1, rd1.seek z) := by
  obtain ⟨Code, R, Blob, hI⟩ := readRecord_items K ID I I1 rd rd1 none h rfl
  refine ⟨_, hI, fun z => ?_⟩
  generalize rd1.Stream.Items = rest at hI
  have hc : rd.Stream.readRecord ID
      = .ok ((Code, R, Blob), { rd.Stream with Items := rest }) := by
    simp [BitstreamCursor.readRecord, hI]
  have hz : (rd.seek (Item.record Code R Blob :: z)).Stream.readRecord ID
      = .ok ((Code, R, Blob), { rd.Stream with Items := z }) := by
    simp [BitstreamCursor.readRecord, BitcodeReader.seek]
  unfold readRecord at h ⊢
  rw [hc] at h
  rw [hz]
  cases I <;> simp only [parsed, BitcodeReader.seek] at h ⊢
  case javadoc =>
    simp only [Run.ret.injEq, Prod.mk.injEq] at h ⊢
    obtain ⟨h1, h2, h3⟩ := h
    subst h3
    exact ⟨h1, h2, rfl⟩
  case currentNodeList =>
    split at h
    · cases h
    · rename_i J prev hn
      obtain ⟨a, ha, hk⟩ := Run.bind_eq_ret h
      obtain ⟨e, v⟩ := a
      simp only [Run.ret.injEq, Prod.mk.injEq] at hk
      obtain ⟨h1, h2, h3⟩ := hk
      subst h1 h2 h3
      simp only [hn, ha, Run.bind]
  case nodeList =>
    split at h
    · cases h
    · rename_i J prev hn
      obtain ⟨a, ha, hk⟩ := Run.bind_eq_ret h
      obtain ⟨e, v⟩ := a
      simp only [Run.ret.injEq, Prod.mk.injEq] at hk
      obtain ⟨h1, h2, h3⟩ := hk
      subst h1 h2 h3
      simp only [hn, ha, Run.bind]
  all_goals
    obtain ⟨a, ha, hk⟩ := Run.bind_eq_ret h
    simp only [Run.ret.injEq, Prod.mk.injEq] at hk
    obtain ⟨h1, h2, h3⟩ := hk
    subst h2 h3
    simp only [ha, Run.bind, ← h1]
/-- `readBlock` is decided by what it reads if its loop is. -/
theorem readBlock_frame_of (K : BitCodeConstants) (n : Nat)
    (ihL : ∀ I rd I1 rd1, readBlockLoop K n I rd = .ret (none, I1, rd1) →
      Framed (readBlockLoop K n I) rd I1 rd1) :
    ∀ ID I rd I1 rd1, readBlock K (n + 1) ID I rd = .ret (none, I1, rd1) →
      Framed (readBlock K (n + 1) ID I) rd I1 rd1 := by
  intro ID I rd I1 rd1 h
  unfold readBlock at h
  split at h
  · cases h
  · rename_i S hS
    obtain ⟨used, hne, hI, hf⟩ := ihL _ _ _ _ h
    unfold BitstreamCursor.EnterSubBlock at hS
    split at hS
    · rename_i L r hr
      split at hS
      · cases hS
      · cases hS
        dsimp only at hI
        refine ⟨Item.blockLen L :: used, by simp, by rw [hr, hI]; rfl, fun z => ?_⟩
        have hE : (rd.seek (Item.blockLen L :: used ++ z)).Stream.EnterSubBlock
            = .ok { rd.Stream with Items := used ++ z,
                                   BlockScope := rd.Stream.BlockScope + 1 } := by
          cases used with
          | nil => exact absurd rfl hne
          | cons u0 used1 =>
            simp [BitstreamCursor.EnterSubBlock, BitcodeReader.seek]
        unfold readBlock
        rw [hE]
        exact hf z
    · cases hS

/-- The loop of `readBlock` is decided by what it reads if it is so with one turn less to
go, and `readSubBlock` too. -/
theorem readBlockLoop_frame_of (K : BitCodeConstants) (n : Nat)
    (ihL : ∀ I rd I1 rd1, readBlockLoop K n I rd = .ret (none, I1, rd1) →
      Framed (readBlockLoop K n I) rd I1 rd1)
    (ihS : ∀ ID I rd I1 rd1, readSubBlock K n ID I rd = .ret (none, I1, rd1) →
      Framed (readSubBlock K n ID I) rd I1 rd1) :
    ∀ I rd I1 rd1, readBlockLoop K (n + 1) I rd = .ret (none, I1, rd1) →
      Framed (readBlockLoop K (n + 1) I) rd I1 rd1 := by
  intro I rd I1 rd1 h
  unfold readBlockLoop at h
  obtain ⟨Res, hRes, hk⟩ := Run.bind_eq_ret h
  clear h
  obtain ⟨c, S⟩ := Res
  cases c with
  | BadBlock => cases hk
  | BlockEnd =>
    cases hk
    obtain ⟨u1, hne1, hI1, hf1⟩ := skipUntilRecordOrBlock_frame _ _ _ _ hRes
      (by intro e; cases e) (by intro e; cases e)
    refine ⟨u1, hne1, hI1, fun z => ?_⟩
    unfold readBlockLoop
    dsimp only [BitcodeReader.seek] at hf1 ⊢
    rw [hf1 z]
    rfl
  | BlockBegin ID =>
    dsimp only at hk
    obtain ⟨r, hr, hk2⟩ := Run.bind_eq_ret hk
    obtain ⟨e0, I2, rd2⟩ := r
    cases e0 with
    | some Err =>
      dsimp only at hk2
      split at hk2 <;> cases hk2
    | none =>
      dsimp only at hk2
      have hID : ID ≠ some .BLOCKINFO_BLOCK_ID := by
        intro e
        subst e
        cases n with
        | zero => simp [readSubBlock] at hr
        | succ n => simp [readSubBlock] at hr
      obtain ⟨u1, hne1, hI1, hf1⟩ := skipUntilRecordOrBlock_frame _ _ _ _ hRes
        (by intro e; cases e) (by intro e; cases e; exact hID rfl)
      obtain ⟨u2, hne2, hI2, hf2⟩ := ihS _ _ _ _ _ hr
      obtain ⟨u3, hne3, hI3, hf3⟩ := ihL _ _ _ _ hk2
      dsimp only at hI2
      refine ⟨u1 ++ (u2 ++ u3), by simp [hne1], by rw [hI1, hI2, hI3]; simp, fun z => ?_⟩
      unfold readBlockLoop
      dsimp only [BitcodeReader.seek] at hf1 hf2 hf3 ⊢
      simp only [List.append_assoc]
      rw [hf1 (u2 ++ (u3 ++ z))]
      simp only [Run.bind]
      rw [hf2 (u3 ++ z)]
      exact hf3 z
  | Record Code =>
    dsimp only at hk
    obtain ⟨r, hr, hk2⟩ := Run.bind_eq_ret hk
    obtain ⟨e0, I2, rd2⟩ := r
    cases e0 with
    | some Err => cases hk2
    | none =>
      dsimp only at hk2
      obtain ⟨u1, hne1, hI1, hf1⟩ := skipUntilRecordOrBlock_frame _ _ _ _ hRes
        (by intro e; cases e) (by intro e; cases e)
      obtain ⟨it, hI2, hf2⟩ := readRecord_frame _ _ _ _ _ _ hr
      obtain ⟨u3, hne3, hI3, hf3⟩ := ihL _ _ _ _ hk2
      dsimp only at hI2
      refine ⟨u1 ++ (it :: u3), by simp [hne1], by rw [hI1, hI2, hI3]; simp, fun z => ?_⟩
      unfold readBlockLoop
      dsimp only [BitcodeReader.seek] at hf1 hf2 hf3 ⊢
      simp only [List.append_assoc, List.cons_append]
      rw [hf1 (it :: (u3 ++ z))]
      simp only [Run.bind]
      rw [hf2 (u3 ++ z)]
      exact hf3 z
/-- `readSubBlock` is decided by what it reads if `readBlock` is, with one call less to go. -/
theorem readSubBlock_frame_of (K : BitCodeConstants) (n : Nat)
    (ihB : ∀ ID I rd I1 rd1, readBlock K n ID I rd = .ret (none, I1, rd1) →
      Framed (readBlock K n ID I) rd I1 rd1) :
    ∀ ID I rd I1 rd1, readSubBlock K (n + 1) ID I rd = .ret (none, I1, rd1) →
      Framed (readSubBlock K (n + 1) ID I) rd I1 rd1 := by
  intro ID I rd I1 rd1 h
  unfold readSubBlock at h
  split at h
  case h_15 => cases h
  case h_1 =>
    split at h
    · cases h
    · split at h
      · cases h
      · rename_i hJ _ hjd
        obtain ⟨r, hr, hk⟩ := Run.bind_eq_ret h
        obtain ⟨e0, c, rdm⟩ := r
        have he : e0 = none := by split at hk <;> cases hk <;> rfl
        subst he
        obtain ⟨used, hne, hI, hf⟩ := ihB _ _ _ _ _ hr
        have hS : rd1.Stream = rdm.Stream := by split at hk <;> cases hk <;> rfl
        refine ⟨used, hne, by rw [hS]; exact hI, fun z => ?_⟩
        simp only [readSubBlock]
        dsimp only [BitcodeReader.seek] at hf ⊢
        simp only [hJ, hjd]
        rw [hf z]
        dsimp only [Run.bind] at hk ⊢
        clear hr hf ihB h
        split at hk <;> cases hk <;> simp_all [BitcodeReader.seek]
  case h_2 =>
    split at h
    · cases h
    · rename_i hjd
      obtain ⟨r, hr, hk⟩ := Run.bind_eq_ret h
      obtain ⟨e0, c, rdm⟩ := r
      cases e0 with
      | some Err =>
        exfalso
        dsimp only at hk
        repeat' (first | (cases hk; done) | (split at hk))
      | none =>
        obtain ⟨used, hne, hI, hf⟩ := ihB _ _ _ _ _ hr
        have hS : rd1.Stream = rdm.Stream := by
          dsimp only at hk
          repeat' (first | (cases hk; rfl) | (cases hk; done) | (split at hk))
        refine ⟨used, hne, by rw [hS]; exact hI, fun z => ?_⟩
        simp only [readSubBlock]
        dsimp only [BitcodeReader.seek] at hf ⊢
        rw [hf z]
        simp only [hjd]
        dsimp only [Run.bind] at hk ⊢
        clear hr hf ihB h
        repeat' (first | (cases hk; done) | (split at hk))
        all_goals first
          | (cases hk; simp_all [BitcodeReader.seek]; done)
          | (simp_all [BitcodeReader.seek]; done)
  case h_3 =>
    split at h
    · rename_i hn
      obtain ⟨r, hr, hk⟩ := Run.bind_eq_ret h
      obtain ⟨e0, c, rdm⟩ := r
      simp only [Run.ret.injEq, Prod.mk.injEq] at hk
      obtain ⟨h1, h2, h3⟩ := hk
      subst h1 h2 h3
      obtain ⟨used, hne, hI, hf⟩ := ihB _ _ _ _ _ hr
      refine ⟨used, hne, hI, fun z => ?_⟩
      simp only [readSubBlock]
      dsimp only [BitcodeReader.seek] at hf ⊢
      rw [hf z]
      simp only [hn]
      rfl
    · rename_i hn
      obtain ⟨r, hr, hk⟩ := Run.bind_eq_ret h
      obtain ⟨e0, c, rdm⟩ := r
      cases e0 with
      | some Err =>
        exfalso
        dsimp only at hk
        repeat' (first | (cases hk; done) | (split at hk))
      | none =>
        obtain ⟨used, hne, hI, hf⟩ := ihB _ _ _ _ _ hr
        have hS : rd1.Stream = rdm.Stream := by
          dsimp only at hk
          repeat' (first | (cases hk; rfl) | (cases hk; done) | (split at hk))
        refine ⟨used, hne, by rw [hS]; exact hI, fun z => ?_⟩
        simp only [readSubBlock]
        dsimp only [BitcodeReader.seek] at hf ⊢
        rw [hf z]
        simp only [hn]
        dsimp only [Run.bind] at hk ⊢
        clear hr hf ihB h
        repeat' (first | (cases hk; done) | (split at hk))
        all_goals first
          | (cases hk; simp_all [BitcodeReader.seek]; done)
          | (simp_all [BitcodeReader.seek]; done)
  all_goals
    obtain ⟨r, hr, hk⟩ := Run.bind_eq_ret h
    obtain ⟨e0, c, rdm⟩ := r
    cases e0 with
    | some Err => simp at hk
    | none =>
      obtain ⟨used, hne, hI, hf⟩ := ihB _ _ _ _ _ hr
      have hrd : rd1 = rdm := by
        dsimp only at hk
        repeat' (first | (cases hk) | (dsimp only at hk) | (split at hk) | (replace hk := Run.bind_eq_ret hk; obtain ⟨_, _, hk⟩ := hk))
        all_goals rfl
      subst hrd
      refine ⟨used, hne, hI, fun z => ?_⟩
      simp only [readSubBlock]
      rw [hf z]
      dsimp only [Run.bind] at hk ⊢
      clear hr hf ihB h
      repeat' (first | (cases hk; done) | (split at hk))
      all_goals simp_all [BitcodeReader.seek]
/-- What the three reader functions read with success decides what they return. -/
theorem reader_frame (K : BitCodeConstants) (n : Nat) :
    (∀ ID I rd I1 rd1, readBlock K n ID I rd = .ret (none, I1, rd1) →
      Framed (readBlock K n ID I) rd I1 rd1) ∧
    (∀ I rd I1 rd1, readBlockLoop K n I rd = .ret (none, I1, rd1) →
      Framed (readBlockLoop K n I) rd I1 rd1) ∧
    (∀ ID I rd I1 rd1, readSubBlock K n ID I rd = .ret (none, I1, rd1) →
      Framed (readSubBlock K n ID I) rd I1 rd1) := by
  induction n with
  | zero =>
    refine ⟨?_, ?_, ?_⟩
    · intro ID I rd I1 rd1 h; simp [readBlock] at h
    · intro I rd I1 rd1 h; simp [readBlockLoop] at h
    · intro ID I rd I1 rd1 h; simp [readSubBlock] at h
  | succ n ih =>
    obtain ⟨ihB, ihL, ihS⟩ := ih
    exact ⟨readBlock_frame_of K n ihL, readBlockLoop_frame_of K n ihL ihS,
      readSubBlock_frame_of K n ihB⟩
/-- `readBlock` with the bound the top-level functions give it is decided by what it reads. -/
theorem readBlock_frame_fuel {K : BitCodeConstants} {ID : Option BlockId} {I I1 : Object}
    {rd rd1 : BitcodeReader}
    (h : readBlock K (readBlockFuel rd) ID I rd = .ret (none, I1, rd1)) :
    ∃ used, used ≠ [] ∧ rd.Stream.Items = used ++ rd1.Stream.Items ∧
      ∀ z, readBlock K (readBlockFuel (rd.seek (used ++ z))) ID I (rd.seek (used ++ z))
        = .ret (none, I1, rd1.seek z) := by
  obtain ⟨used, hne, hI, hf⟩ := (reader_frame K _).1 _ _ _ _ _ h
  exact ⟨used, hne, hI, fun z => readBlock_readBlockFuel (hf z) (by simp)⟩

/-- `createInfo` that succeeds is decided by what it reads. -/
theorem createInfo_frame {K : BitCodeConstants} {ID : Option BlockId} {I I1 : Object}
    {rd rd1 : BitcodeReader} (h : createInfo K ID I rd = .ret (.ok I1, rd1)) :
    ∃ used, used ≠ [] ∧ rd.Stream.Items = used ++ rd1.Stream.Items ∧
      ∀ z, createInfo K ID I (rd.seek (used ++ z)) = .ret (.ok I1, rd1.seek z) := by
  unfold createInfo at h
  obtain ⟨b, hb, hk⟩ := Run.bind_eq_ret h
  obtain ⟨e0, I2, rd2⟩ := b
  cases e0 with
  | some Err => cases hk
  | none =>
    cases hk
    obtain ⟨used, hne, hI, hf⟩ := readBlock_frame_fuel hb
    refine ⟨used, hne, hI, fun z => ?_⟩
    unfold createInfo
    rw [hf z]
    rfl

/-- `readBlockToInfo` that succeeds is decided by what it reads. -/
theorem readBlockToInfo_frame {K : BitCodeConstants} {ID : Option BlockId} {I1 : Object}
    {rd rd1 : BitcodeReader} (h : readBlockToInfo K ID rd = .ret (.ok I1, rd1)) :
    ∃ used, used ≠ [] ∧ rd.Stream.Items = used ++ rd1.Stream.Items ∧
      ∀ z, readBlockToInfo K ID (rd.seek (used ++ z)) = .ret (.ok I1, rd1.seek z) := by
  unfold readBlockToInfo at h
  split at h
  case h_6 => cases h
  all_goals
    obtain ⟨used, hne, hI, hf⟩ := createInfo_frame h
    exact ⟨used, hne, hI, fun z => by simp only [readBlockToInfo]; exact hf z⟩
/-- `SkipBlock` has read the items in front of where it leaves the cursor, and it leaves the
cursor behind them on every stream that starts with them and goes on with items `z` that
are no more than the items that were left and that start with the rest of a block header
only if those did. -/
theorem afterSkipBlock_frame (S : BitstreamCursor) :
    ∃ used, S.Items = used ++ S.afterSkipBlock.Items ∧
      S.afterSkipBlock = { S with Items := S.afterSkipBlock.Items } ∧
      ∀ z, z.length ≤ S.afterSkipBlock.Items.length →
        ((∃ n r, z = Item.blockLen n :: r) →
          ∃ n r, S.afterSkipBlock.Items = Item.blockLen n :: r) →
        ({ S with Items := used ++ z } : BitstreamCursor).afterSkipBlock
          = { S with Items := z } := by
  rcases S with ⟨Lead, Items, Scope⟩
  have hother : ∀ Items : List Item, (∀ n r, Items ≠ Item.blockLen n :: r) →
      (⟨Lead, Items, Scope⟩ : BitstreamCursor).afterSkipBlock = ⟨Lead, Items, Scope⟩ := by
    intro Items hno
    cases Items with
    | nil => rfl
    | cons it r =>
      cases it with
      | blockLen n => exact absurd rfl (hno n r)
      | _ => rfl
  cases Items with
  | nil =>
    refine ⟨[], rfl, rfl, fun z hz _ => ?_⟩
    have hz0 : z = [] := by
      cases z with
      | nil => rfl
      | cons a b => simp [BitstreamCursor.afterSkipBlock, BitstreamCursor.SkipBlock] at hz
    subst hz0
    rfl
  | cons it r =>
    cases it with
    | blockLen n =>
      by_cases h1 : (Lead.isEmpty && r.isEmpty) = true
      · have hr : r = [] := by
          simp only [Bool.and_eq_true, List.isEmpty_iff] at h1
          exact h1.2
        subst hr
        have ha : (⟨Lead, [Item.blockLen n], Scope⟩ : BitstreamCursor).afterSkipBlock
            = ⟨Lead, [], Scope⟩ := by
          simp only [BitstreamCursor.afterSkipBlock, BitstreamCursor.SkipBlock]
          rw [if_pos h1]
        rw [ha]
        refine ⟨[Item.blockLen n], rfl, rfl, fun z hz _ => ?_⟩
        have hz0 : z = [] := by
          cases z with
          | nil => rfl
          | cons a b => simp at hz
        subst hz0
        exact ha
      · by_cases h2 : n > r.length
        · have ha : (⟨Lead, Item.blockLen n :: r, Scope⟩ : BitstreamCursor).afterSkipBlock
              = ⟨Lead, r, Scope⟩ := by
            simp only [BitstreamCursor.afterSkipBlock, BitstreamCursor.SkipBlock]
            rw [if_neg h1, if_pos h2]
          rw [ha]
          refine ⟨[Item.blockLen n], rfl, rfl, fun z hz _ => ?_⟩
          dsimp only at hz
          simp only [BitstreamCursor.afterSkipBlock, BitstreamCursor.SkipBlock,
            List.singleton_append]
          by_cases h3 : (Lead.isEmpty && z.isEmpty) = true
          · rw [if_pos h3]
          · rw [if_neg h3, if_pos (by omega)]
        · have ha : (⟨Lead, Item.blockLen n :: r, Scope⟩ : BitstreamCursor).afterSkipBlock
              = ⟨Lead, r.drop n, Scope⟩ := by
            simp only [BitstreamCursor.afterSkipBlock, BitstreamCursor.SkipBlock]
            rw [if_neg h1, if_neg h2]
          rw [ha]
          have hlen : (r.take n).length = n := by
            rw [List.length_take]
            omega
          refine ⟨Item.blockLen n :: r.take n, by simp, rfl, fun z hz _ => ?_⟩
          simp only [BitstreamCursor.afterSkipBlock, BitstreamCursor.SkipBlock,
            List.cons_append]
          by_cases h3 : (Lead.isEmpty && (r.take n ++ z).isEmpty) = true
          · rw [if_pos h3]
            simp only [Bool.and_eq_true, List.isEmpty_iff, List.append_eq_nil] at h3
            simp [h3.2.1, h3.2.2]
          · rw [if_neg h3, if_neg (by rw [List.length_append, hlen]; omega)]
            have hd : List.drop n (r.take n ++ z) = z := by
              rw [List.drop_append_of_le_length (by omega)]
              rw [List.drop_of_length_le (by omega)]
              rfl
            rw [hd]
    | code c =>
      rw [hother _ (by intro n r h; cases h)]
      refine ⟨[], rfl, rfl, fun z _ hz => ?_⟩
      exact hother z (fun n r e => by obtain ⟨n1, r1, h1⟩ := hz ⟨n, r, e⟩; cases h1)
    | blockID ID =>
      rw [hother _ (by intro n r h; cases h)]
      refine ⟨[], rfl, rfl, fun z _ hz => ?_⟩
      exact hother z (fun n r e => by obtain ⟨n1, r1, h1⟩ := hz ⟨n, r, e⟩; cases h1)
    | abbrevDef =>
      rw [hother _ (by intro n r h; cases h)]
      refine ⟨[], rfl, rfl, fun z _ hz => ?_⟩
      exact hother z (fun n r e => by obtain ⟨n1, r1, h1⟩ := hz ⟨n, r, e⟩; cases h1)
    | record Code R Blob =>
      rw [hother _ (by intro n r h; cases h)]
      refine ⟨[], rfl, rfl, fun z _ hz => ?_⟩
      exact hother z (fun n r e => by obtain ⟨n1, r1, h1⟩ := hz ⟨n, r, e⟩; cases h1)
    | blockInfo valid =>
      rw [hother _ (by intro n r h; cases h)]
      refine ⟨[], rfl, rfl, fun z _ hz => ?_⟩
      exact hother z (fun n r e => by obtain ⟨n1, r1, h1⟩ := hz ⟨n, r, e⟩; cases h1)

/-- A turn of the loop of `getInfos` at a block whose id the switch has no case for:
`SkipBlock` is called, and the loop goes on where that leaves the cursor, with the list
unchanged. -/
theorem getInfos_body_unhandled (K : BitCodeConstants) (rd : BitcodeReader)
    (Infos : List Object) (ID : Option BlockId) (rest : List Item)
    (hID : unhandledAtTopLevel ID)
    (hitems : rd.Stream.Items = Item.code ENTER_SUBBLOCK :: Item.blockID ID :: rest) :
    getInfos.body K rd Infos
      = .ret (.next
          { rd with Stream := ({ rd.Stream with Items := rest } : BitstreamCursor).afterSkipBlock }
          Infos) := by
  rcases hID with h | h | h | h | h | h <;> subst h <;>
    simp only [getInfos.body, BitstreamCursor.ReadCode, BitstreamCursor.ReadSubBlockID, hitems,
      ne_eq, not_true, if_false, BitstreamCursor.afterSkipBlock] <;>
    split <;> rfl
/-- A turn of the loop of `getInfos` that ends with `continue` has read at least one item,
and it ends in the same way, with the cursor behind what it has read, on every stream that
starts with the items it has read and goes on with items `z` that are no more than the
items that were left and that start with the rest of a block header only if those did. -/
theorem getInfos_body_frame {K : BitCodeConstants} {rd rd1 : BitcodeReader}
    {Infos Infos1 : List Object} (h : getInfos.body K rd Infos = .ret (.next rd1 Infos1)) :
    ∃ used, used ≠ [] ∧ rd.Stream.Items = used ++ rd1.Stream.Items ∧
      ∀ z, z.length ≤ rd1.Stream.Items.length →
        ((∃ n r, z = Item.blockLen n :: r) → ∃ n r, rd1.Stream.Items = Item.blockLen n :: r) →
        getInfos.body K (rd.seek (used ++ z)) Infos = .ret (.next (rd1.seek z) Infos1) := by
  rcases rd with ⟨⟨Lead, Items, Scope⟩, bi, crf, jd, nodes⟩
  have h0 := h
  unfold getInfos.body at h
  cases Items with
  | nil => simp [BitstreamCursor.ReadCode] at h
  | cons it r =>
    cases it with
    | code c =>
      simp only [BitstreamCursor.ReadCode] at h
      split at h
      · cases h
      · rename_i hc
        simp only [ne_eq, Decidable.not_not] at hc
        subst hc
        cases r with
        | nil => simp [BitstreamCursor.ReadSubBlockID] at h
        | cons it2 rest =>
          cases it2 with
          | blockID ID =>
            simp only [BitstreamCursor.ReadSubBlockID] at h
            split at h
            all_goals first
              | (cases h; done)
              | (obtain ⟨a, ha, hk⟩ := Run.bind_eq_ret h
                 obtain ⟨x, rd3⟩ := a
                 cases x with
                 | error err => cases hk
                 | ok I =>
                   cases hk
                   obtain ⟨used, hne, hI, hf⟩ := readBlockToInfo_frame ha
                   dsimp only at hI
                   subst hI
                   refine ⟨Item.code ENTER_SUBBLOCK :: Item.blockID _ :: used, by simp,
                     rfl, fun z _ _ => ?_⟩
                   dsimp only [BitcodeReader.seek] at hf
                   simp only [getInfos.body, BitcodeReader.seek, BitstreamCursor.ReadCode,
                     BitstreamCursor.ReadSubBlockID, List.cons_append, ne_eq, not_true,
                     if_false, hf z, Run.bind])
              | (obtain ⟨a, ha, hk⟩ := Run.bind_eq_ret h
                 obtain ⟨e0, I2, rd3⟩ := a
                 cases e0 <;> cases hk
                 obtain ⟨used, hne, hI, hf⟩ := readBlock_frame_fuel ha
                 dsimp only at hI
                 subst hI
                 refine ⟨Item.code ENTER_SUBBLOCK :: Item.blockID _ :: used, by simp,
                   rfl, fun z _ _ => ?_⟩
                 dsimp only [BitcodeReader.seek] at hf
                 simp only [getInfos.body, BitcodeReader.seek, BitstreamCursor.ReadCode,
                   BitstreamCursor.ReadSubBlockID, List.cons_append, ne_eq, not_true,
                   if_false, hf z, Run.bind])
              | (clear h0
                 cases rest with
                 | nil =>
                   simp [readBlockInfoBlock, BitstreamCursor.ReadBlockInfoBlock] at h
                 | cons it3 r3 =>
                   cases it3 with
                   | blockInfo valid =>
                     cases valid with
                     | false =>
                       simp [readBlockInfoBlock, BitstreamCursor.ReadBlockInfoBlock] at h
                     | true =>
                       simp only [readBlockInfoBlock, BitstreamCursor.ReadBlockInfoBlock,
                         if_true, Run.ret.injEq, Turn.next.injEq] at h
                       obtain ⟨h1, h2⟩ := h
                       subst h1 h2
                       refine ⟨[Item.code ENTER_SUBBLOCK, Item.blockID _, Item.blockInfo true],
                         by simp, rfl, fun z _ _ => ?_⟩
                       simp only [getInfos.body, BitcodeReader.seek, BitstreamCursor.ReadCode,
                         BitstreamCursor.ReadSubBlockID, List.cons_append, ne_eq, not_true,
                         if_false, readBlockInfoBlock, BitstreamCursor.ReadBlockInfoBlock,
                         if_true, List.nil_append]
                   | _ => simp [readBlockInfoBlock, BitstreamCursor.ReadBlockInfoBlock] at h)
              | (have hu : unhandledAtTopLevel ID := by
                   rcases ID with _ | ID
                   · simp [unhandledAtTopLevel]
                   · cases ID <;> first
                       | (simp [unhandledAtTopLevel]; done)
                       | (exfalso; simp_all; done)
                 clear h
                 rw [getInfos_body_unhandled K _ Infos ID rest hu rfl] at h0
                 simp only [Run.ret.injEq, Turn.next.injEq] at h0
                 obtain ⟨h1, h2⟩ := h0
                 subst h1 h2
                 obtain ⟨u, hI, hS, hf⟩ := afterSkipBlock_frame ⟨Lead, rest, Scope⟩
                 dsimp only at hI hf
                 refine ⟨Item.code ENTER_SUBBLOCK :: Item.blockID ID :: u, by simp,
                   by simp [← hI], fun z hz1 hz2 => ?_⟩
                 rw [getInfos_body_unhandled K _ Infos ID (u ++ z) hu rfl]
                 dsimp only [BitcodeReader.seek]
                 rw [hf z hz1 hz2, hS])
          | _ => simp [BitstreamCursor.ReadSubBlockID] at h
    | _ => simp [BitstreamCursor.ReadCode] at h
/-- Turns of the loop of `getInfos` that all end with `continue` have read the items in
front of the state they reach, and they reach the same state, with the cursor behind what
they have read, on every stream that starts with those items and goes on with items `z` that
are no more than the items that were left and that start with the rest of a block header
only if those did. -/
theorem getInfos_reach_frame (K : BitCodeConstants) :
    ∀ (k : Nat) (rd rdB : BitcodeReader) (Infos InfosB : List Object),
      getInfos.reach K k rd Infos = some (rdB, InfosB) →
      ∃ pre, rd.Stream.Items = pre ++ rdB.Stream.Items ∧
        ∀ z, z.length ≤ rdB.Stream.Items.length →
          ((∃ n r, z = Item.blockLen n :: r) →
            ∃ n r, rdB.Stream.Items = Item.blockLen n :: r) →
          getInfos.reach K k (rd.seek (pre ++ z)) Infos = some (rdB.seek z, InfosB) := by
  intro k
  induction k with
  | zero =>
    intro rd rdB Infos InfosB h
    simp only [getInfos.reach, Option.some.injEq, Prod.mk.injEq] at h
    obtain ⟨h1, h2⟩ := h
    subst h1 h2
    exact ⟨[], rfl, fun z _ _ => rfl⟩
  | succ k ih =>
    intro rd rdB Infos InfosB h
    unfold getInfos.reach at h
    split at h
    · cases h
    · split at h
      · rename_i rd1 Infos1 hb
        obtain ⟨pre1, hI1, hf1⟩ := ih _ _ _ _ h
        obtain ⟨used, hne, hI, hfb⟩ := getInfos_body_frame hb
        refine ⟨used ++ pre1, by rw [hI, hI1, List.append_assoc], fun z hz1 hz2 => ?_⟩
        have hend : (rd.seek (used ++ (pre1 ++ z))).Stream.AtEndOfStream = false := by
          cases used with
          | nil => exact absurd rfl hne
          | cons u0 used1 => simp [BitstreamCursor.AtEndOfStream, BitcodeReader.seek]
        have hb2 := hfb (pre1 ++ z) (by rw [hI1]; simp only [List.length_append]; omega)
          (by
            intro hz
            cases pre1 with
            | nil =>
              obtain ⟨n, r, e⟩ := hz
              obtain ⟨n1, r1, e1⟩ := hz2 ⟨n, r, e⟩
              exact ⟨n1, r1, by rw [hI1, e1]; rfl⟩
            | cons p0 pre2 =>
              obtain ⟨n, r, e⟩ := hz
              simp only [List.cons_append, List.cons.injEq] at e
              exact ⟨n, pre2 ++ rdB.Stream.Items, by rw [hI1, e.1]; rfl⟩)
        unfold getInfos.reach
        rw [List.append_assoc, if_neg (by simp [hend]), hb2]
        exact hf1 z hz1 hz2
      · cases h

/-- C5: a well-formed top-level block whose id is none of the ids the reader names, met by
the loop of `getInfos` after a valid signature and any number `k` of top-level blocks (the
items `pre`) that it went on from.  The turn of the loop that meets the block returns no
error and continues behind the block with the entity list unchanged, and `getInfos` returns
what its loop returns from there.  When `getInfos` succeeds on the stream, it returns the
same list for the stream without the block.  More: unless the items behind the block start
with the rest of a block header, which no stream of blocks does, `getInfos` returns for the
stream without the block what it returns for the stream, error or not. -/
theorem getInfos_skips_unknown_block (K : BitCodeConstants) (rd0 rd : BitcodeReader)
    (Infos : List Object) (k : Nat) (pre body post : List Item)
    (hsig : rd0.Stream.Lead = signature K)
    (hpre : rd0.Stream.Items = pre ++ (block none body ++ post))
    (hreach : getInfos.reach K k { rd0 with Stream := { rd0.Stream with Lead := [] } } []
      = some (rd, Infos))
    (hitems : rd.Stream.Items = block none body ++ post) :
    getInfos.body K rd Infos = .ret (.next (rd.seek post) Infos) ∧
    getInfos K rd0 = getInfos.loop K (post.length + 1) (rd.seek post) Infos ∧
    (∀ L rdE, getInfos K rd0 = .ret (.ok L, rdE) →
      getInfos K (rd0.seek (pre ++ post)) = .ret (.ok L, rdE)) ∧
    ((∀ n r, post ≠ Item.blockLen n :: r) →
      getInfos K rd0 = getInfos K (rd0.seek (pre ++ post))) := by
  have h : unhandledAtTopLevel none := by simp [unhandledAtTopLevel]
  have h2 := getInfos_skip K rd0 rd Infos k _ body post hsig hreach h hitems
  have h3 : (∀ n r, post ≠ Item.blockLen n :: r) →
      getInfos K rd0 = getInfos K (rd0.seek (pre ++ post)) := by
    intro hpost
    obtain ⟨pre1, hI1, hfr⟩ := getInfos_reach_frame K k _ _ _ _ hreach
    dsimp only at hI1
    have hp : pre1 = pre := by
      rw [hpre, hitems] at hI1
      exact (List.append_cancel_right hI1).symm
    subst hp
    have hr := hfr post (by rw [hitems]; simp)
      (fun ⟨n, r, e⟩ => absurd e (hpost n r))
    have hsig1 : (rd0.seek (pre1 ++ post)).Stream.Lead = signature K := hsig
    rw [h2, getInfos_of_reach (validateStream_ok hsig1) hr]
    rfl
  refine ⟨getInfos_body_skip K rd Infos _ body post h hitems, h2, ?_, h3⟩
  intro L rdE hL
  have hpost : ∀ n r, post ≠ Item.blockLen n :: r := by
    intro n r e
    rw [h2, e] at hL
    simp [getInfos.loop, BitstreamCursor.AtEndOfStream, BitcodeReader.seek, getInfos.body,
      BitstreamCursor.ReadCode, Run.bind] at hL
  rw [← h3 hpost]
  exact hL
theorem getInfos_skips_unknown_block_witness :
    getInfos .upstream
        (BitcodeReader.init (streamOf (signature .upstream)
          ([Item.code ENTER_SUBBLOCK, Item.blockID (some .BI_TEMPLATE_BLOCK_ID),
              Item.blockLen 100] ++
            (block none [Item.code 7, Item.abbrevDef] ++ block (some .BI_ENUM_BLOCK_ID) []))))
      = getInfos .upstream
          (BitcodeReader.init (streamOf (signature .upstream)
            ([Item.code ENTER_SUBBLOCK, Item.blockID (some .BI_TEMPLATE_BLOCK_ID),
                Item.blockLen 100] ++
              block (some .BI_ENUM_BLOCK_ID) []))) :=
  have hreach : getInfos.reach .upstream 1
      { BitcodeReader.init (streamOf (signature .upstream)
          ([Item.code ENTER_SUBBLOCK, Item.blockID (some .BI_TEMPLATE_BLOCK_ID),
              Item.blockLen 100] ++
            (block none [Item.code 7, Item.abbrevDef] ++ block (some .BI_ENUM_BLOCK_ID) []))) with
        Stream :=
          { (BitcodeReader.init (streamOf (signature .upstream)
              ([Item.code ENTER_SUBBLOCK, Item.blockID (some .BI_TEMPLATE_BLOCK_ID),
                  Item.blockLen 100] ++
                (block none [Item.code 7, Item.abbrevDef] ++
                  block (some .BI_ENUM_BLOCK_ID) [])))).Stream with Lead := [] } } []
      = some (BitcodeReader.init (streamOf []
          (block none [Item.code 7, Item.abbrevDef] ++ block (some .BI_ENUM_BLOCK_ID) [])),
          []) := by
    simp [getInfos.reach, getInfos.body, BitstreamCursor.AtEndOfStream,
      BitstreamCursor.ReadCode, BitstreamCursor.ReadSubBlockID, BitstreamCursor.SkipBlock,
      BitcodeReader.init, streamOf, block, ENTER_SUBBLOCK]
  (getInfos_skips_unknown_block .upstream _ _ [] 1
    [Item.code ENTER_SUBBLOCK, Item.blockID (some .BI_TEMPLATE_BLOCK_ID), Item.blockLen 100]
    [Item.code 7, Item.abbrevDef] (block (some .BI_ENUM_BLOCK_ID) []) rfl rfl hreach rfl).2.2.2
    (by intro n r h; cases h)

/-! ### The relation kind across the blocks of a reference -/

/-- The items `skipUntilRecordOrBlock` steps over hold no record. -/
theorem skipUntilRecordOrBlock_field(K : BitCodeConstants) (m : Nat) :
    ∀ (S S1 : BitstreamCursor) (c : Cursor), skipUntilRecordOrBlock m S = .ret (c, S1) →
      ∃ used, S.Items = used ++ S1.Items ∧ ∀ F, lastReferenceField K used F = F := by
  induction m with
  | zero => intro S S1 c h; simp [skipUntilRecordOrBlock] at h
  | succ m ih =>
    intro S S1 c h
    rw [skipUntilRecordOrBlock] at h
    split at h
    · cases h
    · rcases S with ⟨Lead, Items, Scope⟩
      cases Items with
      | nil =>
        simp only [BitstreamCursor.ReadCode, Run.ret.injEq, Prod.mk.injEq] at h
        obtain ⟨_, h2⟩ := h
        subst h2
        exact ⟨[], rfl, fun F => rfl⟩
      | cons it rest =>
        cases it with
        | code code =>
          simp only [BitstreamCursor.ReadCode] at h
          split at h
          · simp only [Run.ret.injEq, Prod.mk.injEq] at h
            obtain ⟨_, h2⟩ := h
            subst h2
            exact ⟨[Item.code code], rfl, fun F => rfl⟩
          · split at h
            · cases rest with
              | nil =>
                simp only [BitstreamCursor.ReadSubBlockID, Run.ret.injEq, Prod.mk.injEq] at h
                obtain ⟨_, h2⟩ := h
                subst h2
                exact ⟨[Item.code code], rfl, fun F => rfl⟩
              | cons it2 rest2 =>
                cases it2 with
                | blockID ID =>
                  simp only [BitstreamCursor.ReadSubBlockID, Run.ret.injEq, Prod.mk.injEq] at h
                  obtain ⟨_, h2⟩ := h
                  subst h2
                  exact ⟨[Item.code code, Item.blockID ID], rfl, fun F => rfl⟩
                | _ =>
                  simp only [BitstreamCursor.ReadSubBlockID, Run.ret.injEq, Prod.mk.injEq] at h
                  obtain ⟨_, h2⟩ := h
                  subst h2
                  exact ⟨[Item.code code], rfl, fun F => rfl⟩
            · split at h
              · simp only [BitstreamCursor.ReadBlockEnd] at h
                split at h
                · simp only [if_true, Run.ret.injEq, Prod.mk.injEq] at h
                  obtain ⟨_, h2⟩ := h
                  subst h2
                  exact ⟨[Item.code code], rfl, fun F => rfl⟩
                · simp only [if_false, Bool.false_eq_true, Run.ret.injEq, Prod.mk.injEq] at h
                  obtain ⟨_, h2⟩ := h
                  subst h2
                  exact ⟨[Item.code code], rfl, fun F => rfl⟩
              · split at h
                · cases rest with
                  | nil =>
                    simp only [BitstreamCursor.ReadAbbrevRecord] at h
                    obtain ⟨used, hI, hu⟩ := ih _ _ _ h
                    dsimp only at hI
                    exact ⟨Item.code code :: used, by simp [hI], fun F => hu F⟩
                  | cons it2 rest2 =>
                    cases it2 with
                    | abbrevDef =>
                      simp only [BitstreamCursor.ReadAbbrevRecord] at h
                      obtain ⟨used, hI, hu⟩ := ih _ _ _ h
                      dsimp only at hI
                      exact ⟨Item.code code :: Item.abbrevDef :: used, by simp [hI],
                        fun F => hu F⟩
                    | _ =>
                      simp only [BitstreamCursor.ReadAbbrevRecord] at h
                      obtain ⟨used, hI, hu⟩ := ih _ _ _ h
                      dsimp only at hI
                      exact ⟨Item.code code :: used, by simp [hI], fun F => hu F⟩
                · simp only [Run.ret.injEq, Prod.mk.injEq] at h
                  obtain ⟨_, h2⟩ := h
                  subst h2
                  exact ⟨[Item.code code], rfl, fun F => rfl⟩
        | _ =>
          simp only [BitstreamCursor.ReadCode, Run.ret.injEq, Prod.mk.injEq] at h
          obtain ⟨_, h2⟩ := h
          subst h2
          exact ⟨[], rfl, fun F => rfl⟩

/-- A record read with success into a reference or a list of nodes: the relation kind is
then the one the record, as an item of the stream, is said to leave. -/
theorem readRecord_field (K : BitCodeConstants) (ID : Nat) (I I1 : Object)
    (rd rd1 : BitcodeReader) (h : readRecord K ID I rd = .ret (none, I1, rd1))
    (hI : I.inReference = true) :
    I1.inReference = true ∧ ∃ it, rd.Stream.Items = it :: rd1.Stream.Items ∧
      rd1.CurrentReferenceField = lastReferenceField K [it] rd.CurrentReferenceField := by
  obtain ⟨Code, R, Blob, hit⟩ := readRecord_items K ID I I1 rd rd1 none h rfl
  have hc : rd.Stream.readRecord ID
      = .ok ((Code, R, Blob), { rd.Stream with Items := rd1.Stream.Items }) := by
    simp [BitstreamCursor.readRecord, hit]
  unfold readRecord at h
  rw [hc] at h
  cases I <;> simp only [Object.inReference, Bool.false_eq_true] at hI
  case reference I =>
    simp only at h
    obtain ⟨p, hp, hk⟩ := Run.bind_eq_ret h
    obtain ⟨e, R1, F1⟩ := p
    simp only [Run.ret.injEq, Prod.mk.injEq] at hk
    obtain ⟨h1, h2, h3⟩ := hk
    subst h1 h2
    refine ⟨rfl, _, hit, ?_⟩
    rw [← h3]
    exact parseRecordReference_field K _ _ _ _ _ _ _ hp
  case currentNodeList =>
    simp only at h
    split at h
    · cases h
    · obtain ⟨p, hp, hk⟩ := Run.bind_eq_ret h
      obtain ⟨e, J1⟩ := p
      simp only [Run.ret.injEq, Prod.mk.injEq] at hk
      obtain ⟨h1, h2, h3⟩ := hk
      subst h1 h2
      refine ⟨rfl, _, hit, ?_⟩
      rw [← h3]
      rcases Code with _ | Code
      · rfl
      · cases Code <;> first
          | rfl
          | (simp [parseRecordCurrentNodeList] at hp)
  case nodeList =>
    simp only at h
    split at h
    · cases h
    · obtain ⟨p, hp, hk⟩ := Run.bind_eq_ret h
      obtain ⟨e, J1⟩ := p
      simp only [Run.ret.injEq, Prod.mk.injEq] at hk
      obtain ⟨h1, h2, h3⟩ := hk
      subst h1 h2
      refine ⟨rfl, _, hit, ?_⟩
      rw [← h3]
      rcases Code with _ | Code
      · rfl
      · cases Code <;> first
          | rfl
          | (simp [parseRecordNodeList] at hp)
/-- `readSubBlock` into a reference or a list of nodes that succeeds: the sub-block is a list
block or a node block, read by `readBlock` into a list of nodes, and the object, the stream
and the relation kind that `readSubBlock` returns are those of that call. -/
theorem readSubBlock_inReference (K : BitCodeConstants) (n : Nat) :
    ∀ ID I rd I1 rd1, readSubBlock K (n + 1) ID I rd = .ret (none, I1, rd1) →
      I.inReference = true →
      I1.inReference = true ∧ ∃ c rdin c1 rdm, c.inReference = true ∧
        rdin.Stream = rd.Stream ∧ rdin.CurrentReferenceField = rd.CurrentReferenceField ∧
        readBlock K n ID c rdin = .ret (none, c1, rdm) ∧ rdm.Stream = rd1.Stream ∧
        rdm.CurrentReferenceField = rd1.CurrentReferenceField := by
  intro ID I rd I1 rd1 h hI
  unfold readSubBlock at h
  split at h
  case h_15 => cases h
  case h_1 =>
    exfalso
    cases I <;> simp only [Object.inReference, Bool.false_eq_true] at hI <;>
      simp [getJavadoc] at h
  case h_2 =>
    split at h
    · cases h
    · obtain ⟨r, hr, hk⟩ := Run.bind_eq_ret h
      obtain ⟨e0, c, rdm⟩ := r
      cases e0 <;>
        repeat' (first | (cases hk) | (dsimp only at hk) | (split at hk) | (replace hk := Run.bind_eq_ret hk; obtain ⟨_, _, hk⟩ := hk))
      all_goals (refine ⟨hI, _, _, _, _, ?_, ?_, ?_, hr, ?_, ?_⟩ <;> rfl)
  case h_3 =>
    split at h <;>
    · obtain ⟨r, hr, hk⟩ := Run.bind_eq_ret h
      obtain ⟨e0, c, rdm⟩ := r
      cases e0 <;>
        repeat' (first | (cases hk) | (dsimp only at hk) | (split at hk) | (replace hk := Run.bind_eq_ret hk; obtain ⟨_, _, hk⟩ := hk))
      all_goals (refine ⟨hI, _, _, _, _, ?_, ?_, ?_, hr, ?_, ?_⟩ <;> rfl)
  all_goals
    exfalso
    obtain ⟨r, hr, hk⟩ := Run.bind_eq_ret h
    obtain ⟨e0, c, rdm⟩ := r
    cases e0 with
    | some Err => simp at hk
    | none =>
      clear h hr
      cases I <;> simp only [Object.inReference, Bool.false_eq_true] at hI <;>
        first
          | (simp [addTypeInfo, addReference, addChild, addTemplate, addTemplateParam,
              addTemplateSpecialization, Run.bind] at hk; done)
          | (cases c <;>
              simp [addTypeInfo, addReference, addChild, addTemplate, addTemplateParam,
                addTemplateSpecialization, Run.bind] at hk <;> done)
          | (dsimp only at hk
             repeat' (first | (cases hk; done) | (split at hk))
             all_goals simp_all [addTypeInfo, addReference, addChild, addTemplate,
               addTemplateParam, addTemplateSpecialization, Run.bind])
/-- What a reader function reads with success into a reference or a list of nodes, and the
relation kind it leaves: the one that the relation-kind records among the items it has read
leave. -/
theorem reader_field (K : BitCodeConstants) (n : Nat) :
    (∀ ID I rd I1 rd1, readBlock K n ID I rd = .ret (none, I1, rd1) →
      I.inReference = true →
      I1.inReference = true ∧ ∃ used, rd.Stream.Items = used ++ rd1.Stream.Items ∧
        rd1.CurrentReferenceField = lastReferenceField K used rd.CurrentReferenceField) ∧
    (∀ I rd I1 rd1, readBlockLoop K n I rd = .ret (none, I1, rd1) →
      I.inReference = true →
      I1.inReference = true ∧ ∃ used, rd.Stream.Items = used ++ rd1.Stream.Items ∧
        rd1.CurrentReferenceField = lastReferenceField K used rd.CurrentReferenceField) ∧
    (∀ ID I rd I1 rd1, readSubBlock K n ID I rd = .ret (none, I1, rd1) →
      I.inReference = true →
      I1.inReference = true ∧ ∃ used, rd.Stream.Items = used ++ rd1.Stream.Items ∧
        rd1.CurrentReferenceField = lastReferenceField K used rd.CurrentReferenceField) := by
  induction n with
  | zero =>
    refine ⟨?_, ?_, ?_⟩
    · intro ID I rd I1 rd1 h; simp [readBlock] at h
    · intro I rd I1 rd1 h; simp [readBlockLoop] at h
    · intro ID I rd I1 rd1 h; simp [readSubBlock] at h
  | succ n ih =>
    obtain ⟨ihB, ihL, ihS⟩ := ih
    refine ⟨?_, ?_, ?_⟩
    · intro ID I rd I1 rd1 h hI
      unfold readBlock at h
      split at h
      · cases h
      · rename_i S hS
        obtain ⟨h1, used, hu, hF⟩ := ihL _ _ _ _ h hI
        unfold BitstreamCursor.EnterSubBlock at hS
        split at hS
        · rename_i L r hr
          split at hS
          · cases hS
          · cases hS
            dsimp only at hu hF
            exact ⟨h1, Item.blockLen L :: used, by rw [hr, hu]; rfl, hF⟩
        · cases hS
    · intro I rd I1 rd1 h hI
      unfold readBlockLoop at h
      obtain ⟨Res, hRes, hk⟩ := Run.bind_eq_ret h
      clear h
      obtain ⟨c, S⟩ := Res
      obtain ⟨u1, hu1, hF1⟩ := skipUntilRecordOrBlock_field K _ _ _ _ hRes
      cases c with
      | BadBlock => cases hk
      | BlockEnd =>
        cases hk
        exact ⟨hI, u1, hu1, (hF1 _).symm⟩
      | BlockBegin ID =>
        dsimp only at hk
        obtain ⟨r, hr, hk2⟩ := Run.bind_eq_ret hk
        obtain ⟨e0, I2, rd2⟩ := r
        cases e0 with
        | some Err =>
          dsimp only at hk2
          split at hk2 <;> cases hk2
        | none =>
          dsimp only at hk2
          obtain ⟨h2, u2, hu2, hF2⟩ := ihS _ _ _ _ _ hr hI
          obtain ⟨h3, u3, hu3, hF3⟩ := ihL _ _ _ _ hk2 h2
          dsimp only at hu2 hF2
          refine ⟨h3, u1 ++ (u2 ++ u3), by rw [hu1, hu2, hu3]; simp, ?_⟩
          rw [hF3, hF2, lastReferenceField_append, lastReferenceField_append, hF1]
      | Record Code =>
        dsimp only at hk
        obtain ⟨r, hr, hk2⟩ := Run.bind_eq_ret hk
        obtain ⟨e0, I2, rd2⟩ := r
        cases e0 with
        | some Err => cases hk2
        | none =>
          dsimp only at hk2
          obtain ⟨h2, it, hu2, hF2⟩ := readRecord_field _ _ _ _ _ _ hr hI
          obtain ⟨h3, u3, hu3, hF3⟩ := ihL _ _ _ _ hk2 h2
          dsimp only at hu2 hF2
          refine ⟨h3, u1 ++ ([it] ++ u3), by rw [hu1, hu2, hu3]; simp, ?_⟩
          rw [hF3, hF2, lastReferenceField_append, lastReferenceField_append, hF1]
    · intro ID I rd I1 rd1 h hI
      obtain ⟨h1, c, rdin, c1, rdm, hc, e1, e2, hr, e3, e4⟩ :=
        readSubBlock_inReference K n _ _ _ _ _ h hI
      obtain ⟨_, used, hu, hF⟩ := ihB _ _ _ _ _ hr hc
      rw [e1, e3] at hu
      rw [e2, e4] at hF
      exact ⟨h1, used, hu, hF⟩

/-- C8, amended: the relation tag is not consumed by the reference it was set for.  In the
loop of an owner block that stands in front of two consecutive reference blocks, of which
the first, with the items `used1` behind its id, is read and attached, and the second, with
the items `used2` behind its id, is read: when the relation-kind records of the first leave
the relation kind `F` (the last of them has the value `F`) and the second carries no
relation-kind record, the first reference was attached under `F`, the tag is `F` after the
first block and still `F` after the second, and the second reference is attached under `F`
as well; the loop goes on with the owner that results, or ends with the error of that
attachment.  The two blocks may hold whatever a reference block is read from without
error. -/
theorem reference_tag_persists (K : BitCodeConstants) (n : Nat) (I I1 : Object)
    (rd rd1 rd2 : BitcodeReader) (used1 used2 : List Item) (R2 : Reference) (F : FieldId)
    (hitems : rd.Stream.Items = Item.code ENTER_SUBBLOCK ::
      Item.blockID (some .BI_REFERENCE_BLOCK_ID) :: (used1 ++ rd1.Stream.Items))
    (h1 : readSubBlock K (n + 2) (some .BI_REFERENCE_BLOCK_ID) I
      (rd.seek (rd.Stream.Items.drop 2)) = .ret (none, I1, rd1))
    (hF : lastReferenceField K used1 rd.CurrentReferenceField = some F)
    (hitems2 : rd1.Stream.Items = Item.code ENTER_SUBBLOCK ::
      Item.blockID (some .BI_REFERENCE_BLOCK_ID) :: (used2 ++ rd2.Stream.Items))
    (h2 : readBlock K n (some .BI_REFERENCE_BLOCK_ID) (.reference (Reference.empty K))
      (rd1.seek (rd1.Stream.Items.drop 2)) = .ret (none, .reference R2, rd2))
    (hnone : ∀ R Blob, Item.record (some .REFERENCE_FIELD) R Blob ∉ used2) :
    (∃ R1, addReference I R1 F = (none, I1)) ∧
    rd1.CurrentReferenceField = some F ∧ rd2.CurrentReferenceField = some F ∧
    readSubBlock K (n + 1) (some .BI_REFERENCE_BLOCK_ID) I1
        (rd1.seek (rd1.Stream.Items.drop 2))
      = (match addReference I1 R2 F with
          | (some Err, I2) => .ret (some Err, I2, rd2)
          | (none, I2) => .ret (none, I2, rd2)) ∧
    readBlockLoop K (n + 3) I rd
      = (match addReference I1 R2 F with
          | (some Err, I2) => .ret (afterFailedSubBlock Err I2 rd2)
          | (none, I2) => readBlockLoop K (n + 1) I2 rd2) := by
  -- the first block
  have h1a := h1
  simp only [readSubBlock] at h1a
  obtain ⟨r, hr, hk⟩ := Run.bind_eq_ret h1a
  obtain ⟨e0, child, rdm⟩ := r
  cases e0 with
  | some Err => simp at hk
  | none =>
    obtain ⟨_, u1, hu1, hm2⟩ := (reader_field K (n + 1)).1 _ _ _ _ _ hr rfl
    have hrd : rdm = rd1 := by
      dsimp only at hk
      repeat' (first | (cases hk; rfl) | (cases hk; done) | (split at hk))
    subst hrd
    have hu : u1 = used1 := by
      have e : (rd.seek (rd.Stream.Items.drop 2)).Stream.Items
          = used1 ++ rdm.Stream.Items := by
        simp [BitcodeReader.seek, hitems]
      rw [e] at hu1
      exact (List.append_cancel_right hu1).symm
    subst hu
    have hm2F : rdm.CurrentReferenceField = some F := by
      rw [hm2]
      exact hF
    have hatt : ∃ R1, addReference I R1 F = (none, I1) := by
      dsimp only at hk
      simp only [hm2F] at hk
      split at hk
      · rename_i R1 F1 hc _
        cases hc
        refine ⟨R1, ?_⟩
        rcases hadd : addReference I R1 F with ⟨_ | Err, Ix⟩
        · rw [hadd] at hk
          simp only [Run.ret.injEq, Prod.mk.injEq, true_and] at hk
          rw [hk.1]
        · rw [hadd] at hk
          simp at hk
      · cases hk
      · cases hk
    -- the second block
    obtain ⟨_, u2, hu2, hs2⟩ := (reader_field K n).1 _ _ _ _ _ h2 rfl
    have hu : u2 = used2 := by
      have e : (rdm.seek (rdm.Stream.Items.drop 2)).Stream.Items
          = used2 ++ rd2.Stream.Items := by
        simp [BitcodeReader.seek, hitems2]
      rw [e] at hu2
      exact (List.append_cancel_right hu2).symm
    subst hu
    have hs2F : rd2.CurrentReferenceField = some F := by
      rw [hs2]
      show lastReferenceField K u2 rdm.CurrentReferenceField = some F
      rw [lastReferenceField_of_none K u2 _ hnone, hm2F]
    have hsub : readSubBlock K (n + 1) (some .BI_REFERENCE_BLOCK_ID) I1
        (rdm.seek (rdm.Stream.Items.drop 2))
        = (match addReference I1 R2 F with
            | (some Err, I2) => .ret (some Err, I2, rd2)
            | (none, I2) => .ret (none, I2, rd2)) := by
      simp only [readSubBlock, h2, Run.bind, hs2F]
    refine ⟨hatt, hm2F, hs2F, hsub, ?_⟩
    -- the loop of the owner
    have hskip1 : skipUntilRecordOrBlock (n + 2) rd.Stream
        = .ret (.BlockBegin (some .BI_REFERENCE_BLOCK_ID),
            (rd.seek (rd.Stream.Items.drop 2)).Stream) := by
      rw [skipUntilRecordOrBlock]
      simp [BitstreamCursor.AtEndOfStream, BitstreamCursor.ReadCode, hitems,
        BitstreamCursor.ReadSubBlockID, BitcodeReader.seek, ENTER_SUBBLOCK,
        FIRST_APPLICATION_ABBREV]
    have hskip2 : skipUntilRecordOrBlock (n + 1) rdm.Stream
        = .ret (.BlockBegin (some .BI_REFERENCE_BLOCK_ID),
            (rdm.seek (rdm.Stream.Items.drop 2)).Stream) := by
      rw [skipUntilRecordOrBlock]
      simp [BitstreamCursor.AtEndOfStream, BitstreamCursor.ReadCode, hitems2,
        BitstreamCursor.ReadSubBlockID, BitcodeReader.seek, ENTER_SUBBLOCK,
        FIRST_APPLICATION_ABBREV]
    have e1 : ({ rd with Stream := (rd.seek (rd.Stream.Items.drop 2)).Stream } : BitcodeReader)
        = rd.seek (rd.Stream.Items.drop 2) := rfl
    have e2 : ({ rdm with Stream := (rdm.seek (rdm.Stream.Items.drop 2)).Stream }
        : BitcodeReader) = rdm.seek (rdm.Stream.Items.drop 2) := rfl
    rw [readBlockLoop, hskip1]
    simp only [Run.bind, e1, h1]
    rw [readBlockLoop, hskip2]
    simp only [Run.bind, e2, hsub]
    rcases addReference I1 R2 F with ⟨_ | Err, Ix⟩
    · rfl
    · simp only [afterFailedSubBlock]
      split <;> rfl
theorem reference_tag_persists_witness :
    readSubBlock .upstream 5 (some .BI_REFERENCE_BLOCK_ID)
        (.recordInfo
          { RecordInfo.empty .upstream with
            Parents := [{ Reference.empty .upstream with Name := "A" }] })
        { BitcodeReader.init
            ⟨[], [.blockLen 3, .code 4, .record (some .REFERENCE_NAME) [] "B",
              .code END_BLOCK, .code END_BLOCK], 1⟩ with
          CurrentReferenceField := some .F_parent }
      = .ret (none,
          .recordInfo
            { RecordInfo.empty .upstream with
              Parents := [{ Reference.empty .upstream with Name := "A" },
                { Reference.empty .upstream with Name := "B" }] },
          { BitcodeReader.init ⟨[], [.code END_BLOCK], 1⟩ with
            CurrentReferenceField := some .F_parent }) := by
  have hdec : ∀ Field Blob,
      decodeRecordFieldId .upstream [2] Field Blob = .ret (none, .F_parent) :=
    fun Field Blob => (decodeRecordFieldId_spec .upstream 2 [] Field Blob).1 .F_parent (by decide)
  have h4 : ¬ (END_BLOCK ≥ FIRST_APPLICATION_ABBREV) := by decide
  have h5 : ¬ (ENTER_SUBBLOCK ≥ FIRST_APPLICATION_ABBREV) := by decide
  have h6 : ¬ (END_BLOCK = ENTER_SUBBLOCK) := by decide
  have h1 : readSubBlock .upstream 6 (some .BI_REFERENCE_BLOCK_ID)
      (.recordInfo (RecordInfo.empty .upstream))
      ((BitcodeReader.init
        ⟨[], block (some .BI_REFERENCE_BLOCK_ID)
              [.code 4, .record (some .REFERENCE_FIELD) [2] "",
               .code 4, .record (some .REFERENCE_NAME) [] "A"] ++
            block (some .BI_REFERENCE_BLOCK_ID)
              [.code 4, .record (some .REFERENCE_NAME) [] "B"] ++
            [.code END_BLOCK], 1⟩).seek
        ((BitcodeReader.init
          ⟨[], block (some .BI_REFERENCE_BLOCK_ID)
                [.code 4, .record (some .REFERENCE_FIELD) [2] "",
                 .code 4, .record (some .REFERENCE_NAME) [] "A"] ++
              block (some .BI_REFERENCE_BLOCK_ID)
                [.code 4, .record (some .REFERENCE_NAME) [] "B"] ++
              [.code END_BLOCK], 1⟩).Stream.Items.drop 2))
      = .ret (none,
          .recordInfo
            { RecordInfo.empty .upstream with
              Parents := [{ Reference.empty .upstream with Name := "A" }] },
          { BitcodeReader.init
              ⟨[], block (some .BI_REFERENCE_BLOCK_ID)
                  [.code 4, .record (some .REFERENCE_NAME) [] "B"] ++ [.code END_BLOCK], 1⟩ with
            CurrentReferenceField := some .F_parent }) := by
    simp [readBlockLoop, skipUntilRecordOrBlock, BitstreamCursor.AtEndOfStream,
      BitstreamCursor.ReadCode, BitstreamCursor.ReadSubBlockID, block, h4, h5, h6,
      readSubBlock, readBlock, BitstreamCursor.EnterSubBlock, readRecord,
      BitstreamCursor.readRecord, parseRecordReference, hdec, decodeRecordString, Run.bind,
      BitstreamCursor.ReadBlockEnd, BitcodeReader.init, BitcodeReader.seek,
      END_BLOCK, ENTER_SUBBLOCK, FIRST_APPLICATION_ABBREV, addReference, RecordInfo.empty]
  have h2 : readBlock .upstream 4 (some .BI_REFERENCE_BLOCK_ID)
      (.reference (Reference.empty .upstream))
      (({ BitcodeReader.init
              ⟨[], block (some .BI_REFERENCE_BLOCK_ID)
                  [.code 4, .record (some .REFERENCE_NAME) [] "B"] ++ [.code END_BLOCK], 1⟩ with
            CurrentReferenceField := some .F_parent } : BitcodeReader).seek
        (({ BitcodeReader.init
              ⟨[], block (some .BI_REFERENCE_BLOCK_ID)
                  [.code 4, .record (some .REFERENCE_NAME) [] "B"] ++ [.code END_BLOCK], 1⟩ with
            CurrentReferenceField := some .F_parent } : BitcodeReader).Stream.Items.drop 2))
      = .ret (none, .reference { Reference.empty .upstream with Name := "B" },
          { BitcodeReader.init ⟨[], [.code END_BLOCK], 1⟩ with
            CurrentReferenceField := some .F_parent }) := by
    simp [readBlockLoop, skipUntilRecordOrBlock, BitstreamCursor.AtEndOfStream,
      BitstreamCursor.ReadCode, block, h4, h5, h6,
      readBlock, BitstreamCursor.EnterSubBlock, readRecord,
      BitstreamCursor.readRecord, parseRecordReference, decodeRecordString, Run.bind,
      BitstreamCursor.ReadBlockEnd, BitcodeReader.init, BitcodeReader.seek,
      END_BLOCK, ENTER_SUBBLOCK, FIRST_APPLICATION_ABBREV]
  exact (reference_tag_persists .upstream 4 _ _ _ _ _
    [Item.blockLen 5, Item.code 4, Item.record (some .REFERENCE_FIELD) [2] "",
      Item.code 4, Item.record (some .REFERENCE_NAME) [] "A", Item.code END_BLOCK]
    [Item.blockLen 3, Item.code 4, Item.record (some .REFERENCE_NAME) [] "B",
      Item.code END_BLOCK] _ .F_parent (by rfl) h1
    (by simp [lastReferenceField, hdec, BitcodeReader.init])
    (by rfl) h2 (by simp)).2.2.2.1

end mrdox
